import Mathlib

/-!
# Central Controller code generator: bundle lowering and timing alignment

A shallow embedding of `src/ql/arch/cc/pass/gen/vq1asm/detail/codegen.cc`.

Conventions of the embedding

* A `UInt` (cycle counts, durations, indices, bit positions) is a natural number below
  `2^64`. Arithmetic on cycle counts is that of the type: a sum is taken modulo `2^64`
  (`uintAdd`), and so is the difference `startCycle - lastEndCycle[instrIdx]` (`uintSub`),
  which the source then stores in a signed `Int` of 64 bits (`intOfUInt`): a difference of
  `2^63` or more reads as a negative number.
* `1ul << b` is a 64 bit unsigned value (`shl1ul`); a `tDigital` word keeps the low
  `DIGITAL_BITS` bits of what is or-ed into it (`orDigital`).
* A `tCodeword` is a signed integer (`-1` means "no static override"); in
  `codeword & (1ul << k)` it is converted to `unsigned long`, i.e. taken modulo `2^64`.
* Exceptions (`QL_JSON_ERROR`, `QL_INPUT_ERROR`, `QL_USER_ERROR`, `QL_ICE`, range checks of
  `utils::Vec`) are values of `Err`. A member function of `Codegen` returns a `Res`, which
  carries the state of the object at the point of return or throw.
* The text written to `codeSection` is kept as a list of `CodeLine`s, one per call of
  `emit`; every string built with `QL_SS2S(a << b << ...)` is kept as the list of the
  streamed pieces and rendered by `Piece.render`.
* The VCD tracer (`vcd.*`) only writes a trace file and is left out; logging macros
  (`QL_DOUT`, `QL_IOUT`, `QL_WOUT`, `QL_EOUT`, `showCodeSoFar`) have no effect on the state.
* The Settings provider, the operand context and the Datapath are collaborators whose code
  is not part of the sources: they are fields of `Env`.
-/

namespace CC

/-! ## Errors -/

/-- Kind of exception, after the macro that raises it. -/
inductive ErrKind
  | json | input | user | ice | container
  /-- The macro `CHECK_COMPAT`, defined outside the sources. -/
  | compat
deriving DecidableEq, Repr

/-- An exception raised inside a collaborator (Settings, operand context, Datapath). -/
structure ExtErr where
  kind : ErrKind
  what : String
deriving DecidableEq, Repr

/-- The exceptions raised by the embedded code, one constructor per `throw` site. -/
inductive Err
  /-- In the source: `'control_bits' not defined or empty in 'control_modes/...'` -/
  | controlBitsUndefined
  /-- In the source: `instrument uses N groups, but control mode only defines M groups in 'control_bits'` -/
  | groupNotInControlMode
  /-- In the source: `key 'control_bits' empty for group` -/
  | controlBitsEmpty
  /-- In the source: `control mode defines N trigger bits in 'trigger_bits' (must be 1 or #groups)` -/
  | triggerBits
  /-- In the source: `illegal slot` -/
  | illegalSlot
  /-- In the source: `Inconsistency detected in bundle contents: time travel not yet possible` -/
  | timeTravel
  /-- In the source: `Signal conflict on instrument=..., group=..., between ... and ...` -/
  | signalConflict
  /-- In the source: `CC backend cannot yet handle specialized instructions` -/
  | specializedInstruction
  /-- In the source: `JSON file defines operand_idx N, but only M operands were provided` -/
  | operandIdx
  /-- In the source: `Readout instruction requires exactly 1 quantum operand` -/
  | readoutOperands
  /-- In the source: `CHECK_COMPAT(..., "unsupported condition function")` -/
  | conditionFunctionCompat
  /-- In the source: `QL_ICE("unsupported gate condition")` -/
  | unsupportedGateCondition
  /-- In the source: `QL_ICE("unsupported condition function")` -/
  | unsupportedConditionFunction
  /-- In the source: `QL_ICE("unsupported condition expression")` -/
  | unsupportedConditionExpression
  /-- Range check of a `utils::Vec` or of a JSON array. -/
  | outOfRange
  /-- Key not found by `json_get`. -/
  | jsonKey
  /-- In the source: `CC backend cannot handle negative integer literals` -/
  | negativeLiteral
  /-- In the source: `CC backend requires integer literals limited to 32 bits` -/
  | literalTooLarge
  /-- In the source: `register index N exceeds maximum` -/
  | cregIndex
  /-- In the source: `bit register index N exceeds maximum` -/
  | bregIndex
  /-- In the source: `QL_ICE("Expected integer operand")` -/
  | expectedIntegerOperand
  /-- In the source: `QL_ICE("Expected bit operand, got '...'")` -/
  | expectedBitOperand
  /-- In the source: `QL_ICE("Expected N bit operands, got M")` -/
  | bitOperandCount
  /-- In the source: `Cannot access DSM address A and B in single transfer` -/
  | dsmAddress
  /-- In the source: `CHECK_COMPAT(operands.size() == 2, "expected 2 operands")` -/
  | expected2Operands
  /-- In the source: `cannot currently handle functions on two literal paremeters` -/
  | twoLiterals
  /-- In the source: `cannot handle function call within function call '...'` -/
  | nestedFunctionCall
  /-- In the source: `cannot handle parameter combination '...' , '...'` -/
  | parameterCombination
  /-- In the source: `CHECK_COMPAT(..., "'int()' cast target must be a function")` -/
  | castTarget
  /-- In the source: `QL_ICE("FIXME: '<=' not yet implemented")` -/
  | notImplemented
  /-- In the source: `function '...' not supported by CC backend, but it should be` -/
  | functionNotSupported
  /-- Dereference of an empty `lhs`, or of the null pointer that `as_reference()` returns
  for an `lhs` that is no reference. -/
  | noReference
  /-- An exception that passes through from a collaborator. -/
  | external (e : ExtErr)
deriving DecidableEq, Repr

deriving instance DecidableEq for Except

/-- The macro behind each exception. -/
def Err.kind : Err → ErrKind
  | .controlBitsUndefined => .json
  | .groupNotInControlMode => .json
  | .controlBitsEmpty => .json
  | .triggerBits => .json
  | .illegalSlot => .json
  | .timeTravel => .input
  | .signalConflict => .user
  | .specializedInstruction => .input
  | .operandIdx => .json
  | .readoutOperands => .input
  | .conditionFunctionCompat => .compat
  | .unsupportedGateCondition => .ice
  | .unsupportedConditionFunction => .ice
  | .unsupportedConditionExpression => .ice
  | .outOfRange => .container
  | .jsonKey => .json
  | .negativeLiteral => .input
  | .literalTooLarge => .input
  | .cregIndex => .input
  | .bregIndex => .input
  | .expectedIntegerOperand => .ice
  | .expectedBitOperand => .ice
  | .bitOperandCount => .ice
  | .dsmAddress => .user
  | .expected2Operands => .compat
  | .twoLiterals => .input
  | .nestedFunctionCall => .input
  | .parameterCombination => .input
  | .castTarget => .compat
  | .notImplemented => .ice
  | .functionNotSupported => .ice
  | .noReference => .container
  | .external e => e.kind

/-! ## Settings data -/

/-- The part of `Settings::InstrumentInfo` that the code generator reads. -/
structure InstrumentInfo where
  instrumentName : String
  slot : Int
  forceCondGatesOn : Bool
deriving DecidableEq, Repr

/-- JSON view of a control mode: `control_bits` is a list of groups, each a list of bit
positions MSB..LSB; `trigger_bits` is a list of bit positions. -/
structure ControlMode where
  control_bits : List (List Nat)
  trigger_bits : List Nat
deriving DecidableEq, Repr

/-- The part of `Settings::InstrumentControl` that the code generator reads. -/
structure InstrumentControl where
  ii : InstrumentInfo
  refControlMode : String
  controlMode : ControlMode
  controlModeGroupSize : Nat
deriving DecidableEq, Repr

/-- Modelled from the spec: the declaration of `Settings::InstrumentControl` is not in the
sources. `controlModeGroupCnt` is the number of groups of `control_bits` of the selected
control mode (`calcGroupDigOut` reports `controlModeGroupCnt == 0` as "'control_bits' not
defined or empty" and relies on `control_bits[controlModeGroup]` existing below it). -/
def InstrumentControl.controlModeGroupCnt (ic : InstrumentControl) : Nat :=
  ic.controlMode.control_bits.length

/-! ## Digital words -/

/-- Modelled from the spec: the declaration of `tDigital` is not in the sources; the
digital word of an emission is "32-bit data", printed as 8 hexadecimal digits. -/
def DIGITAL_BITS : Nat := 32

/-- In the source: `1ul << b`, an `unsigned long` of 64 bits (a shift by 64 or more, which
C++ leaves undefined, loses the bit). -/
def shl1ul (b : Nat) : Nat := (1 <<< b) % 2 ^ 64

/-- In the source: `word |= v` for a `tDigital word` and an `unsigned long v`. -/
def orDigital (word v : Nat) : Nat := (word ||| v) % 2 ^ DIGITAL_BITS

/-- In the source: `codeword & (1ul << codeWordBit)` read as a condition; the signed
codeword is converted to `unsigned long`. -/
def codewordBitSet (codeword : Int) (codeWordBit : Nat) : Bool :=
  ((codeword % 2 ^ 64).toNat &&& shl1ul codeWordBit) != 0

/-! ## Streamed text -/

/-- One item streamed into a string with `<<`. -/
inductive Piece
  /-- A string. -/
  | str (s : String)
  /-- An unsigned number printed in decimal. -/
  | nat (n : Nat)
  /-- A signed number printed in decimal. -/
  | int (i : Int)
  /-- In the source: `std::hex << std::setfill('0') << std::setw(8) << n`. -/
  | hex8 (n : Nat)
deriving DecidableEq, Repr

/-- A string under construction: the pieces streamed so far. -/
abbrev Text := List Piece

/-- Hexadecimal digit. -/
def hexDigit (d : Nat) : Char :=
  if d < 10 then Char.ofNat (48 + d) else Char.ofNat (87 + d)

/-- Hexadecimal digits of `n`, most significant first, at least `width` of them
(`fuel` bounds the number of digits). -/
def hexDigits : Nat → Nat → Nat → List Char
  | 0, _, _ => []
  | fuel + 1, width, n =>
    if n < 16 ∧ width ≤ 1 then [hexDigit n]
    else hexDigits fuel (width - 1) (n / 16) ++ [hexDigit (n % 16)]

/-- Rendering of one streamed piece. -/
def Piece.render : Piece → String
  | .str s => s
  | .nat n => toString n
  | .int i => toString i
  | .hex8 n => String.mk (hexDigits 64 8 n)

/-- Rendering of a streamed string. -/
def Text.render (t : Text) : String :=
  String.join (t.map Piece.render)

/-! ## calcGroupDigOut -/

/-- Result of `calcGroupDigOut`. -/
structure CalcGroupDigOut where
  groupDigOut : Nat
  comment : Text
deriving DecidableEq, Repr

/-- The loop "convert codeword to digOut" of `calcGroupDigOut`. -/
def codewordToDigOut (codeword : Int) (groupControlBits : List Nat) (digOut : Nat) : Nat :=
  (List.range groupControlBits.length).foldl
    (fun acc idx =>
      let codeWordBit := groupControlBits.length - 1 - idx
      if codewordBitSet codeword codeWordBit then
        orDigital acc (shl1ul (groupControlBits.getD idx 0))
      else acc)
    digOut

/-- First half of `calcGroupDigOut`: the control mode group selected for `group`. -/
def selectControlModeGroup (optVectorMode : Bool) (group : Nat) (ic : InstrumentControl) :
    Except Err Nat :=
  if ic.controlModeGroupCnt = 0 then .error .controlBitsUndefined
  else if optVectorMode ∧ ic.controlModeGroupCnt = 1 then .ok 0
  else if group < ic.controlModeGroupCnt then .ok group
  else .error .groupNotInControlMode

/-- Second part of `calcGroupDigOut`: "calculate digital output for group", the codeword
or mask fragment and its comment. -/
def controlFragment (group : Nat) (ic : InstrumentControl) (staticCodewordOverride : Int)
    (groupControlBits : List Nat) : Except Err CalcGroupDigOut :=
  let nrGroupControlBits := groupControlBits.length
  if nrGroupControlBits = 1 then
    .ok { groupDigOut := orDigital 0 (shl1ul (groupControlBits.getD 0 0)), comment := [] }
  else if nrGroupControlBits > 1 then
    let codeword := staticCodewordOverride
    let digOut := codewordToDigOut codeword groupControlBits 0
    .ok { groupDigOut := digOut
          comment := [.str "  # slot=", .int ic.ii.slot,
                      .str ", instrument='", .str ic.ii.instrumentName, .str "'",
                      .str ", group=", .nat group,
                      .str ": codeword=", .int codeword,
                      .str " (static override)",
                      .str ": groupDigOut=0x", .hex8 digOut] }
  else .error .controlBitsEmpty

/-- Last part of `calcGroupDigOut`: "add trigger to digOut". -/
def addTrigger (group nrGroups : Nat) (trigger_bits : List Nat) (digOut : Nat) :
    Except Err Nat :=
  let nrTriggerBits := trigger_bits.length
  if nrTriggerBits = 0 then .ok digOut
  else if nrTriggerBits = 1 then .ok (orDigital digOut (shl1ul (trigger_bits.getD 0 0)))
  else if nrTriggerBits = 2 then
    .ok (orDigital (orDigital digOut (shl1ul (trigger_bits.getD 0 0)))
          (shl1ul (trigger_bits.getD 1 0)))
  else if nrTriggerBits = nrGroups then
    match trigger_bits.get? group with
    | some b => .ok (orDigital digOut (shl1ul b))
    | none => .error .outOfRange
  else .error .triggerBits

/-- The static helper `calcGroupDigOut`, built with `OPT_SUPPORT_STATIC_CODEWORDS` (the
alternative branch calls `assignCodeword`, a member function of another class, and cannot
be built); `optVectorMode` is the build option `OPT_VECTOR_MODE`. `instrIdx` is unused. -/
def calcGroupDigOut (optVectorMode : Bool) (_instrIdx group nrGroups : Nat)
    (ic : InstrumentControl) (staticCodewordOverride : Int) : Except Err CalcGroupDigOut :=
  match selectControlModeGroup optVectorMode group ic with
  | .error e => .error e
  | .ok controlModeGroup =>
    let groupControlBits := ic.controlMode.control_bits.getD controlModeGroup []
    match controlFragment group ic staticCodewordOverride groupControlBits with
    | .error e => .error e
    | .ok ret =>
      match addTrigger group nrGroups ic.controlMode.trigger_bits ret.groupDigOut with
      | .error e => .error e
      | .ok digOut => .ok { ret with groupDigOut := digOut }

/-- The digital word of a result of `calcGroupDigOut`, 0 if it threw. -/
def groupDigOutOf (r : Except Err CalcGroupDigOut) : Nat :=
  match r with
  | .ok gdo => gdo.groupDigOut
  | .error _ => 0

/-! ## Bundle data -/

/-- Condition of a conditional gate. -/
inductive ConditionType
  | ALWAYS | NEVER | UNARY | NOT | AND | NAND | OR | NOR | XOR | NXOR
deriving DecidableEq, Repr

/-- Modelled from the spec: the declaration of `BundleInfo` is in `codegen.h`, which is not
in the sources; fields and initial values are those of the table of section 3. -/
structure BundleInfo where
  signalValue : String := ""
  durationInCycles : Nat := 0
  staticCodewordOverride : Int := -1
  condition : ConditionType := .ALWAYS
  cond_operands : List Nat := []
  isMeasFeedback : Bool := false
  operands : List Nat := []
  breg_operands : List Nat := []
deriving DecidableEq, Repr

/-- Entry of `condGateMap`. -/
structure CondGateInfo where
  condition : ConditionType
  cond_operands : List Nat
  groupDigOut : Nat
deriving DecidableEq, Repr

/-- Entry of `feedbackMap`. -/
structure FeedbackInfo where
  smBit : Nat
  resultBit : Nat
  bi : BundleInfo
deriving DecidableEq, Repr

/-- A `std::map` from group to `CondGateInfo`, as the list of its entries. -/
abbrev CondGateMap := List (Nat × CondGateInfo)

/-- A `std::map` from group to `FeedbackInfo`, as the list of its entries. -/
abbrev FeedbackMap := List (Nat × FeedbackInfo)

/-- Map `emplace`: no effect when the key is present. The callers insert groups in
ascending order, so appending keeps the entries in key order. -/
def emplace {β : Type} (m : List (Nat × β)) (key : Nat) (val : β) : List (Nat × β) :=
  if m.any (fun kv => kv.1 == key) then m else m ++ [(key, val)]

/-- Code generation info of one instrument; `CodeGenInfo codeGenInfo = {false}` is the
default value. -/
structure CodeGenInfo where
  instrHasOutput : Bool := false
  digOut : Nat := 0
  instrMaxDurationInCycles : Nat := 0
  condGateMap : CondGateMap := []
  feedbackMap : FeedbackMap := []
  instrumentName : String := ""
  slot : Int := 0
deriving DecidableEq, Repr

/-- The map from instrument index to `CodeGenInfo`; `collectCodeGenInfo` fills it for the
indices `0, 1, ...` in order. -/
abbrev CodeGenMap := List CodeGenInfo

/-! ## The code section -/

/-- First column of an emitted line: a label (or nothing), or a slot selector `[slot]`. -/
inductive Sel
  | text (s : Text)
  | slot (n : Int)
deriving DecidableEq, Repr

/-- One call of `emit`. -/
inductive CodeLine
  /-- In the source: `emit(labelOrSel, instr, ops, comment)` and `emit(slot, instr, ops, comment)`. -/
  | line (labelOrSel : Sel) (instr : String) (ops : Text) (comment : Text)
  /-- In the source: `emit(labelOrComment, instr)`. -/
  | short (labelOrComment : Text) (instr : String)
  /-- In the source: `codeSection << text << std::endl`, a line written without `emit`. -/
  | raw (text : Text)
deriving DecidableEq, Repr

/-- In the source: `std::setw(w)` on a left adjusting stream. -/
def setw (w : Nat) (s : String) : String :=
  s ++ String.mk (List.replicate (w - s.length) ' ')

/-- Rendering of the first column. -/
def Sel.render : Sel → String
  | .text s => Text.render s
  | .slot n => "[" ++ toString n ++ "]"

/-- The text that a call of `emit` appends to `codeSection`. -/
def CodeLine.render : CodeLine → String
  | .line labelOrSel instr ops comment =>
    setw 16 labelOrSel.render ++ setw 16 instr ++ setw 36 (Text.render ops)
      ++ Text.render comment ++ "\n"
  | .short labelOrComment instr =>
    let l := Text.render labelOrComment
    if l.isEmpty then "                " ++ instr ++ "\n"
    else if l.length < 16 then setw 16 l ++ setw 16 instr ++ "\n"
    else if instr.isEmpty then l ++ "\n"
    else l ++ "\n" ++ "                " ++ instr ++ "\n"
  | .raw text => Text.render text ++ "\n"

/-- Mnemonic of an emitted line on a slot. -/
def CodeLine.mnemonic : CodeLine → String
  | .line _ instr _ _ => instr
  | .short _ instr => instr
  | .raw _ => ""

/-- Slot of an emitted line, if it has a slot selector. -/
def CodeLine.slot? : CodeLine → Option Int
  | .line (.slot n) _ _ _ => some n
  | _ => none

/-- Operands of an emitted line. -/
def CodeLine.ops : CodeLine → Text
  | .line _ _ ops _ => ops
  | .short _ _ => []
  | .raw _ => []

/-- Duration in cycles of a timed instruction: `seq_wait n` takes `n`, `seq_out` and
`seq_out_sm` take their last operand, `seq_in_sm` and `seq_inv_sm` take 1; anything else
takes no sequencer time. -/
def CodeLine.duration : CodeLine → Nat
  | .line _ instr ops _ =>
    if instr = "seq_wait" then
      match ops with
      | [.int n] => n.toNat
      | [.nat n] => n
      | _ => 0
    else if instr = "seq_out" ∨ instr = "seq_out_sm" then
      match ops.getLast? with
      | some (.nat d) => d
      | _ => 0
    else if instr = "seq_in_sm" ∨ instr = "seq_inv_sm" then 1
    else 0
  | .short _ _ => 0
  | .raw _ => 0

/-- Total duration of a list of emitted lines. -/
def totalDuration (ls : List CodeLine) : Nat :=
  (ls.map CodeLine.duration).sum

/-- An output instruction: `seq_out` or `seq_out_sm`. -/
def CodeLine.isOutput (l : CodeLine) : Bool :=
  l.mnemonic == "seq_out" || l.mnemonic == "seq_out_sm"

/-! ## State and environment -/

/-- Result of a member function: a value and the state, or an exception and the state at
the point where it was thrown. -/
inductive Res (σ α : Type)
  | ok (val : α) (st : σ)
  | fail (err : Err) (st : σ)

/-- Sequencing: an exception ends the computation. -/
def Res.andThen {σ α β : Type} (r : Res σ α) (f : α → σ → Res σ β) : Res σ β :=
  match r with
  | .ok a s => f a s
  | .fail e s => .fail e s

/-- State after return or throw. -/
def Res.st {σ α : Type} : Res σ α → σ
  | .ok _ s => s
  | .fail _ s => s

/-- The exception, if one was thrown. -/
def Res.err? {σ α : Type} : Res σ α → Option Err
  | .ok _ _ => none
  | .fail e _ => some e

/-- The returned value, if the call returned. -/
def Res.val? {σ α : Type} : Res σ α → Option α
  | .ok a _ => some a
  | .fail _ _ => none

/-- JSON view of `codewordTable`: an object that maps an instrument name to an array
indexed by group; the entry of a group is `null` (`none`) or an array of signal values. -/
abbrev CodewordTable := List (String × List (Option (List String)))

/-- The mutable members of `Codegen` that the embedded functions use; `D` is the state of
the Datapath. The members `codewordTable` and `mapPreloaded` are set by the constructor
and read by `getMap`. -/
structure Codegen (D : Type) where
  codeSection : List CodeLine
  lastEndCycle : Nat → Nat
  bundleInfo : List (List BundleInfo)
  depth : Nat
  dp : D
  codewordTable : CodewordTable := []
  mapPreloaded : Bool := false

/-! ## IR and Settings views -/

/-- Kind of object a reference points to. -/
inductive RefKind
  | qubit | creg | breg
deriving DecidableEq, Repr

/-- The expression node kinds that the code generator distinguishes. -/
inductive Expression
  | bit_literal (value : Bool)
  | int_literal (value : Int)
  | reference (kind : RefKind) (index : Nat)
  | function_call (name : String) (operands : List Expression)

/-- The part of `ir::InstructionType` that the code generator reads; its JSON `data` is
only passed on to the Settings provider, which here receives the instruction type. -/
structure InstructionType where
  name : String
  duration : Nat
  template_operands : List Expression

/-- The part of `ir::CustomInstruction` that the code generator reads. -/
structure CustomInstruction where
  instruction_type : InstructionType
  operands : List Expression
  condition : Expression
  cycle : Nat

/-- The part of `ir::SetInstruction` that the code generator reads. -/
structure SetInstruction where
  lhs : Expression
  rhs : Expression

/-- The part of `Operands` that `custom_instruction` reads. -/
structure Operands where
  qubits : List Nat := []
  bregs : List Nat := []
deriving DecidableEq, Repr

/-- What `calcSignalValue` asks of the JSON value of a signal. -/
structure JsonValue where
  /-- In the source: `QL_SS2S(value)`: the serialized value. -/
  dump : String
  /-- In the source: `value.empty()` -/
  empty : Bool
  /-- In the source: `value.is_array()` -/
  is_array : Bool
  /-- In the source: `value.size()` -/
  size : Nat
deriving DecidableEq, Repr

/-- One element of the JSON array `sd.signal`; a key that is absent makes `json_get`
throw. -/
structure SignalEntry where
  operand_idx : Option Nat
  value : Option JsonValue
  type : Option String
deriving DecidableEq, Repr

/-- In the source: `Settings::SignalDef` -/
structure SignalDef where
  signal : List SignalEntry
  path : String
deriving DecidableEq, Repr

/-- In the source: `Settings::SignalInfo` -/
structure SignalInfo where
  ic : InstrumentControl
  instrIdx : Nat
  group : Nat
deriving DecidableEq, Repr

/-- Decoded condition of an instruction. -/
structure tInstructionCondition where
  cond_type : ConditionType
  cond_operands : List Nat
deriving DecidableEq, Repr

/-- Result of `calcSignalValue`. -/
structure CalcSignalValue where
  signalValueString : String
  operandIdx : Nat
  si : SignalInfo
deriving DecidableEq, Repr

/-- Build options, compile options and the collaborators of the code generator, none of
which is defined in the sources. `D` is the state of the Datapath. -/
structure Env (D : Type) where
  /-- In the source: `MAX_SLOTS` -/
  MAX_SLOTS : Nat
  /-- In the source: `NUM_CREGS` -/
  NUM_CREGS : Nat
  /-- In the source: `NUM_BREGS` -/
  NUM_BREGS : Nat
  /-- In the source: `REG_TMP0` -/
  REG_TMP0 : String
  /-- In the source: `REG_TMP1` -/
  REG_TMP1 : String
  /-- In the source: `OPT_VECTOR_MODE` -/
  OPT_VECTOR_MODE : Bool
  /-- In the source: `options->verbose` -/
  verbose : Bool
  /-- In the source: `settings.getInstrumentsSize()` and `settings.getInstrumentControl(instrIdx)` -/
  instruments : List InstrumentControl
  /-- In the source: `Settings::getResultBit(ic, group)` -/
  getResultBit : InstrumentControl → Nat → Except ExtErr Nat
  /-- In the source: `settings.isReadout(instruction_type)` -/
  isReadout : InstructionType → Bool
  /-- In the source: `settings.getReadoutMode(instruction_type)` -/
  getReadoutMode : InstructionType → String
  /-- In the source: `settings.findSignalDefinition(instruction, iname)` -/
  findSignalDefinition : InstructionType → Except ExtErr SignalDef
  /-- In the source: `settings.findSignalInfoForQubit(instructionSignalType, qubit)` -/
  findSignalInfoForQubit : String → Nat → Except ExtErr SignalInfo
  /-- In the source: `Settings::findStaticCodewordOverride(instruction, operandIdx, iname)` -/
  findStaticCodewordOverride : InstructionType → Nat → Except ExtErr Int
  /-- In the source: `operandContext.convert_breg_reference(expression)` -/
  convert_breg_reference : Expression → Except ExtErr Nat
  /-- In the source: `operandContext.convert_creg_reference(ref)` -/
  convert_creg_reference : Expression → Except ExtErr Nat
  /-- In the source: `operandContext.is_creg_reference(expression)` -/
  is_creg_reference : Expression → Bool
  /-- In the source: `ir::describe(expression)` -/
  describe_expression : Expression → String
  /-- In the source: `ir::describe(set_instruction)` -/
  describe_set_instruction : SetInstruction → String
  /-- In the source: `ops.append(operandContext, operand)` -/
  append : Operands → Expression → Except ExtErr Operands
  /-- In the source: `ir::describe(custom)` -/
  describe : CustomInstruction → String
  /-- In the source: `dp.comment(cmnt, verbose)` -/
  dp_comment : D → Text → Bool → D
  /-- In the source: `dp.getSmBit(breg)` -/
  dp_getSmBit : Nat → D → Except ExtErr Nat
  /-- In the source: `dp.allocateSmBit(breg_operand, instrIdx)` -/
  dp_allocateSmBit : Nat → Nat → D → Except ExtErr (Nat × D)
  /-- In the source: `dp.getOrAssignMux(instrIdx, feedbackMap)` -/
  dp_getOrAssignMux : Nat → FeedbackMap → D → Except ExtErr (Nat × D)
  /-- In the source: `dp.emitMux(mux, feedbackMap, instrIdx, slot)` -/
  dp_emitMux : Nat → FeedbackMap → Nat → Int → D → Except ExtErr (Unit × D)
  /-- In the source: `Datapath::getSizeTag(size)` -/
  dp_getSizeTag : Nat → Except ExtErr Nat
  /-- In the source: `Datapath::getMuxSmAddr(feedbackMap)` -/
  dp_getMuxSmAddr : FeedbackMap → Except ExtErr Nat
  /-- In the source: `dp.getOrAssignPl(instrIdx, condGateMap)` -/
  dp_getOrAssignPl : Nat → CondGateMap → D → Except ExtErr (Nat × D)
  /-- In the source: `dp.emitPl(pl, condGateMap, instrIdx, slot)` -/
  dp_emitPl : Nat → CondGateMap → Nat → Int → D → Except ExtErr (Nat × D)
  /-- In the source: `options->run_once` -/
  run_once : Bool := false
  /-- In the source: `CC_BACKEND_VERSION_STRING` -/
  CC_BACKEND_VERSION_STRING : String := ""
  /-- In the source: `OPENQL_VERSION_STRING` -/
  OPENQL_VERSION_STRING : String := ""
  /-- In the source: `options->map_input_file` -/
  map_input_file : String := ""
  /-- In the source: `load_json(map_input_file)["codeword_table"]`; `load_json` is outside the
  sources. -/
  load_codeword_table : String → Except ExtErr CodewordTable := fun _ => .ok []

variable {D : Type}

/-- A call of a member function of the Datapath. -/
def dpCall {α : Type} (f : D → Except ExtErr (α × D)) (cg : Codegen D) : Res (Codegen D) α :=
  match f cg.dp with
  | .ok (a, dp) => .ok a { cg with dp := dp }
  | .error e => .fail (.external e) cg

/-- A call of a function without side effect that may throw. -/
def pureCall {α : Type} (r : Except ExtErr α) (cg : Codegen D) : Res (Codegen D) α :=
  match r with
  | .ok a => .ok a cg
  | .error e => .fail (.external e) cg

/-! ## Emission helpers -/

/-- In the source: `emit(labelOrComment, instr)` -/
def emit2 (cg : Codegen D) (labelOrComment : Text) (instr : String) : Codegen D :=
  { cg with codeSection := cg.codeSection ++ [.short labelOrComment instr] }

/-- In the source: `emit(labelOrSel, instr, ops, comment)` -/
def emit4 (cg : Codegen D) (labelOrSel : Text) (instr : String) (ops comment : Text) :
    Codegen D :=
  { cg with codeSection := cg.codeSection ++ [.line (.text labelOrSel) instr ops comment] }

/-- In the source: `emit(slot, instr, ops, comment)` -/
def emitSlot (cg : Codegen D) (slot : Int) (instr : String) (ops comment : Text) : Codegen D :=
  { cg with codeSection := cg.codeSection ++ [.line (.slot slot) instr ops comment] }

/-- In the source: `Codegen::comment` -/
def comment (env : Env D) (cg : Codegen D) (c : Text) : Codegen D :=
  if env.verbose then
    emit2 cg (.str (String.mk (List.replicate (2 * cg.depth) ' ')) :: c) ""
  else cg

/-! ## Timing alignment -/

/-- In the source: `a + b` on two `UInt`; the sum is taken modulo `2^64`. -/
def uintAdd (a b : Nat) : Nat := (a + b) % 2 ^ 64

/-- In the source: `a - b` on two `UInt`; the difference is taken modulo `2^64`. -/
def uintSub (a b : Nat) : Nat := (a % 2 ^ 64 + (2 ^ 64 - b % 2 ^ 64)) % 2 ^ 64

/-- In the source: the conversion of a `UInt` to the signed `Int` of 64 bits, as in
`Int prePadding = startCycle - lastEndCycle[instrIdx]`: values from `2^63` on read as
negative numbers (two's complement). -/
def intOfUInt (u : Nat) : Int :=
  if u % 2 ^ 64 < 2 ^ 63 then ((u % 2 ^ 64 : Nat) : Int)
  else ((u % 2 ^ 64 : Nat) : Int) - 2 ^ 64

/-- In the source: `Codegen::emitPadToCycle` -/
def emitPadToCycle (cg : Codegen D) (instrIdx startCycle : Nat) (slot : Int)
    (instrumentName : String) : Res (Codegen D) Unit :=
  let prePadding : Int := intOfUInt (uintSub startCycle (cg.lastEndCycle instrIdx))
  if prePadding < 0 then
    .fail .timeTravel cg
  else
    let cg1 :=
      if prePadding > 0 then
        emitSlot cg slot "seq_wait" [.int prePadding]
          [.str "# cycle ", .nat (cg.lastEndCycle instrIdx), .str "-", .nat startCycle,
           .str ": padding on '", .str instrumentName, .str "'"]
      else cg
    .ok () { cg1 with lastEndCycle := Function.update cg1.lastEndCycle instrIdx startCycle }

/-- In the source: `Codegen::emitFeedback` -/
def emitFeedback (env : Env D) (cg : Codegen D) (feedbackMap : FeedbackMap)
    (instrIdx startCycle : Nat) (slot : Int) (instrumentName : String) :
    Res (Codegen D) Unit :=
  (if startCycle > cg.lastEndCycle instrIdx then
      emitPadToCycle cg instrIdx startCycle slot instrumentName
    else .ok () cg).andThen fun _ cg1 =>
  if !feedbackMap.isEmpty then
    (dpCall (env.dp_getOrAssignMux instrIdx feedbackMap) cg1).andThen fun mux cg2 =>
    (dpCall (env.dp_emitMux mux feedbackMap instrIdx slot) cg2).andThen fun _ cg3 =>
    (pureCall (env.dp_getSizeTag feedbackMap.length) cg3).andThen fun sizeTag cg4 =>
    (pureCall (env.dp_getMuxSmAddr feedbackMap) cg4).andThen fun smAddr cg5 =>
    let cg6 := emitSlot cg5 slot "seq_in_sm"
      [.str "S", .nat smAddr, .str ",", .nat mux, .str ",", .nat sizeTag]
      [.str "# cycle ", .nat (cg5.lastEndCycle instrIdx), .str "-",
       .nat (uintAdd (cg5.lastEndCycle instrIdx) 1), .str ": feedback on '",
       .str instrumentName,
       .str "'"]
    .ok () { cg6 with
      lastEndCycle :=
        Function.update cg6.lastEndCycle instrIdx (uintAdd (cg6.lastEndCycle instrIdx) 1) }
  else
    let smAddr := 0
    let smTotalSize := 1
    let cg2 := emitSlot cg1 slot "seq_inv_sm"
      [.str "S", .nat smAddr, .str ",", .nat smTotalSize]
      [.str "# cycle ", .nat (cg1.lastEndCycle instrIdx), .str "-",
       .nat (uintAdd (cg1.lastEndCycle instrIdx) 1), .str ": invalidate SM on '",
       .str instrumentName, .str "'"]
    .ok () { cg2 with
      lastEndCycle :=
        Function.update cg2.lastEndCycle instrIdx (uintAdd (cg2.lastEndCycle instrIdx) 1) }

/-- In the source: `Codegen::emitOutput` -/
def emitOutput (env : Env D) (cg : Codegen D) (condGateMap : CondGateMap) (digOut : Nat)
    (instrMaxDurationInCycles instrIdx startCycle : Nat) (slot : Int)
    (instrumentName : String) : Res (Codegen D) Unit :=
  let cg0 := comment env cg
    [.str "  # slot=", .int slot, .str ", instrument='", .str instrumentName, .str "'",
     .str ": lastEndCycle=", .nat (cg.lastEndCycle instrIdx),
     .str ", startCycle=", .nat startCycle,
     .str ", instrMaxDurationInCycles=", .nat instrMaxDurationInCycles]
  (emitPadToCycle cg0 instrIdx startCycle slot instrumentName).andThen fun _ cg1 =>
  (if condGateMap.isEmpty then
      .ok () (emitSlot cg1 slot "seq_out"
        [.str "0x", .hex8 digOut, .str ",", .nat instrMaxDurationInCycles]
        [.str "# cycle ", .nat startCycle, .str "-",
         .nat (uintAdd startCycle instrMaxDurationInCycles),
         .str ": code word/mask on '", .str instrumentName, .str "'"])
    else
      (dpCall (env.dp_getOrAssignPl instrIdx condGateMap) cg1).andThen fun pl cg2 =>
      (dpCall (env.dp_emitPl pl condGateMap instrIdx slot) cg2).andThen fun smAddr cg3 =>
      .ok () (emitSlot cg3 slot "seq_out_sm"
        [.str "S", .nat smAddr, .str ",", .nat pl, .str ",", .nat instrMaxDurationInCycles]
        [.str "# cycle ", .nat startCycle, .str "-",
         .nat (uintAdd startCycle instrMaxDurationInCycles),
         .str ": conditional code word/mask on '", .str instrumentName, .str "'"])
   ).andThen fun _ cg4 =>
  .ok () { cg4 with
    lastEndCycle :=
      Function.update cg4.lastEndCycle instrIdx (uintAdd startCycle instrMaxDurationInCycles) }

/-! ## Bundles -/

/-- Loop over indices, in order; an exception ends it. -/
def forEach {σ : Type} (body : σ → Nat → Res σ Unit) : List Nat → σ → Res σ Unit
  | [], st => .ok () st
  | i :: is, st => (body st i).andThen fun _ st1 => forEach body is st1

/-- Loop over indices that threads an accumulator next to the state. -/
def forEachAcc {σ α : Type} (body : α → σ → Nat → Res σ α) : List Nat → α → σ → Res σ α
  | [], acc, st => .ok acc st
  | i :: is, acc, st => (body acc st i).andThen fun acc1 st1 => forEachAcc body is acc1 st1

/-- Member `Codegen::bundleStart`. -/
def bundleStart (env : Env D) (cg : Codegen D) (cmnt : Text) : Codegen D :=
  let empty : BundleInfo := {}
  let cg1 := { cg with
    bundleInfo := env.instruments.map fun ic => List.replicate ic.controlModeGroupCnt empty }
  let cg2 := comment env cg1 cmnt
  { cg2 with dp := env.dp_comment cg2.dp cmnt env.verbose }

/-- Range checked `bundleInfo[instrIdx][group]`. -/
def cellAt (bundleInfo : List (List BundleInfo)) (instrIdx group : Nat) : Option BundleInfo :=
  match bundleInfo.get? instrIdx with
  | none => none
  | some row => row.get? group

/-- The body of the loop over the groups of one instrument in `collectCodeGenInfo`. -/
def collectGroup (env : Env D) (instrIdx nrGroups : Nat) (ic : InstrumentControl)
    (codeGenInfo : CodeGenInfo) (cg : Codegen D) (group : Nat) :
    Res (Codegen D) CodeGenInfo :=
  match cellAt cg.bundleInfo instrIdx group with
  | none => .fail .outOfRange cg
  | some bi =>
    -- handle output
    (if bi.signalValue ≠ "" then
        let info1 :=
          if bi.durationInCycles > codeGenInfo.instrMaxDurationInCycles then
            { codeGenInfo with instrMaxDurationInCycles := bi.durationInCycles }
          else codeGenInfo
        match calcGroupDigOut env.OPT_VECTOR_MODE instrIdx group nrGroups ic
            bi.staticCodewordOverride with
        | .error e => .fail e cg
        | .ok gdo =>
          let info2 := { info1 with digOut := info1.digOut ||| gdo.groupDigOut }
          let cg1 := comment env cg gdo.comment
          let info3 :=
            if bi.condition = .ALWAYS ∨ ic.ii.forceCondGatesOn then info2
            else
              { info2 with
                condGateMap := emplace info2.condGateMap group
                  { condition := bi.condition, cond_operands := bi.cond_operands,
                    groupDigOut := gdo.groupDigOut } }
          .ok { info3 with instrHasOutput := true } cg1
      else .ok codeGenInfo cg : Res (Codegen D) CodeGenInfo).andThen fun info4 cg2 =>
    -- handle readout
    if bi.isMeasFeedback then
      (pureCall (env.getResultBit ic group) cg2).andThen fun resultBit cg3 =>
      match (if bi.breg_operands.isEmpty then bi.operands.get? 0
             else bi.breg_operands.get? 0) with
      | none => .fail .outOfRange cg3
      | some breg_operand =>
        (dpCall (env.dp_allocateSmBit breg_operand instrIdx) cg3).andThen fun smBit cg4 =>
        .ok { info4 with
              feedbackMap := emplace info4.feedbackMap group
                { smBit := smBit, resultBit := resultBit, bi := bi } } cg4
    else .ok info4 cg2

/-- The body of the loop over the instruments in `collectCodeGenInfo`. -/
def collectInstr (env : Env D) (codeGenMap : CodeGenMap) (cg : Codegen D) (instrIdx : Nat) :
    Res (Codegen D) CodeGenMap :=
  match env.instruments.get? instrIdx with
  | none => .fail .outOfRange cg
  | some ic =>
    if ic.ii.slot ≥ (env.MAX_SLOTS : Int) then .fail .illegalSlot cg
    else
      let codeGenInfo : CodeGenInfo :=
        { instrumentName := ic.ii.instrumentName, slot := ic.ii.slot }
      match cg.bundleInfo.get? instrIdx with
      | none => .fail .outOfRange cg
      | some row =>
        let nrGroups := row.length
        (forEachAcc (collectGroup env instrIdx nrGroups ic) (List.range nrGroups)
          codeGenInfo cg).andThen fun info cg1 =>
        .ok (codeGenMap ++ [info]) cg1

/-- Member `Codegen::collectCodeGenInfo`; its parameters `startCycle` and
`durationInCycles` only reach the VCD tracer. -/
def collectCodeGenInfo (env : Env D) (cg : Codegen D) (_startCycle _durationInCycles : Nat) :
    Res (Codegen D) CodeGenMap :=
  forEachAcc (collectInstr env) (List.range env.instruments.length) [] cg

/-- Whether some instrument of the bundle has feedback. -/
def bundleHasFeedback (codeGenMap : CodeGenMap) : Bool :=
  codeGenMap.any fun codeGenInfo => !codeGenInfo.feedbackMap.isEmpty

/-- The body of the loop of `bundleFinish` that turns the collected info into code. -/
def bundleFinishInstr (env : Env D) (codeGenMap : CodeGenMap)
    (startCycle durationInCycles : Nat) (isLastBundle : Bool) (cg : Codegen D)
    (instrIdx : Nat) : Res (Codegen D) Unit :=
  match codeGenMap.get? instrIdx with
  | none => .fail .outOfRange cg
  | some codeGenInfo =>
    let cg1 :=
      if isLastBundle ∧ instrIdx = 0 then
        comment env cg [.str " # last bundle of kernel, will pad outputs to match durations"]
      else cg
    (if codeGenInfo.instrHasOutput then
        emitOutput env cg1 codeGenInfo.condGateMap codeGenInfo.digOut
          codeGenInfo.instrMaxDurationInCycles instrIdx startCycle codeGenInfo.slot
          codeGenInfo.instrumentName
      else .ok () cg1).andThen fun _ cg2 =>
    (if bundleHasFeedback codeGenMap then
        emitFeedback env cg2 codeGenInfo.feedbackMap instrIdx startCycle codeGenInfo.slot
          codeGenInfo.instrumentName
      else .ok () cg2).andThen fun _ cg3 =>
    if isLastBundle then
      emitPadToCycle cg3 instrIdx (uintAdd startCycle durationInCycles) codeGenInfo.slot
        codeGenInfo.instrumentName
    else .ok () cg3

/-- Member `Codegen::bundleFinish`. -/
def bundleFinish (env : Env D) (cg : Codegen D) (startCycle durationInCycles : Nat)
    (isLastBundle : Bool) : Res (Codegen D) Unit :=
  (collectCodeGenInfo env cg startCycle durationInCycles).andThen fun codeGenMap cg1 =>
  (forEach (bundleFinishInstr env codeGenMap startCycle durationInCycles isLastBundle)
    (List.range env.instruments.length) cg1).andThen fun _ cg2 =>
  .ok () (comment env cg2 [])

/-! ## Conditions -/

/-- Call of `operandContext.convert_breg_reference`. -/
def convertBreg (env : Env D) (e : Expression) : Except Err Nat :=
  match env.convert_breg_reference e with
  | .ok b => .ok b
  | .error x => .error (.external x)

/-- The static helper `decode_condition`. -/
def decode_condition (env : Env D) (condition : Expression) :
    Except Err tInstructionCondition :=
  match condition with
  | .bit_literal value =>
    if value then .ok { cond_type := .ALWAYS, cond_operands := [] }
    else .ok { cond_type := .NEVER, cond_operands := [] }
  | .reference _ _ =>
    match convertBreg env condition with
    | .error e => .error e
    | .ok b => .ok { cond_type := .UNARY, cond_operands := [b] }
  | .function_call name operands =>
    if name = "operator!" ∨ name = "operator~" then
      match operands with
      | [.reference k i] =>
        match convertBreg env (.reference k i) with
        | .error e => .error e
        | .ok b => .ok { cond_type := .NOT, cond_operands := [b] }
      | [.function_call name2 operands2] =>
        match operands2 with
        | [a, b] =>
          match convertBreg env a with
          | .error e => .error e
          | .ok ba =>
            match convertBreg env b with
            | .error e => .error e
            | .ok bb =>
              if name2 = "operator&" ∨ name2 = "operator&&" then
                .ok { cond_type := .NAND, cond_operands := [ba, bb] }
              else if name2 = "operator|" ∨ name2 = "operator||" then
                .ok { cond_type := .NOR, cond_operands := [ba, bb] }
              else if name2 = "operator^" ∨ name2 = "operator^^" ∨ name2 = "operator!=" then
                .ok { cond_type := .NXOR, cond_operands := [ba, bb] }
              else if name2 = "operator==" then
                .ok { cond_type := .XOR, cond_operands := [ba, bb] }
              else .error .unsupportedGateCondition
        | _ => .error .conditionFunctionCompat
      | [_] => .error .unsupportedGateCondition
      | _ => .error .conditionFunctionCompat
    else
      match operands with
      | [a, b] =>
        match convertBreg env a with
        | .error e => .error e
        | .ok ba =>
          match convertBreg env b with
          | .error e => .error e
          | .ok bb =>
            if name = "operator&" ∨ name = "operator&&" then
              .ok { cond_type := .AND, cond_operands := [ba, bb] }
            else if name = "operator|" ∨ name = "operator||" then
              .ok { cond_type := .OR, cond_operands := [ba, bb] }
            else if name = "operator^" ∨ name = "operator^^" ∨ name = "operator!=" then
              .ok { cond_type := .XOR, cond_operands := [ba, bb] }
            else if name = "operator==" then
              .ok { cond_type := .NXOR, cond_operands := [ba, bb] }
            else .error .unsupportedConditionFunction
      | _ => .error .conditionFunctionCompat
  | _ => .error .unsupportedConditionExpression

/-! ## Custom instructions -/

/-- The loop of `utils::replace_all` on the characters of the string: every occurrence of
`pattern`, found from left to right, is replaced, and the search goes on after the
replacement. `fuel` bounds the number of steps. -/
def replaceAllAux (pattern replacement : List Char) : Nat → List Char → List Char
  | 0, str => str
  | _ + 1, [] => []
  | fuel + 1, c :: cs =>
    if pattern.isPrefixOf (c :: cs) then
      replacement ++ replaceAllAux pattern replacement fuel ((c :: cs).drop pattern.length)
    else c :: replaceAllAux pattern replacement fuel cs

/-- Modelled from the spec: `utils::replace_all` is not in the sources; it expands a macro,
replacing every occurrence of `pattern` (never empty here) in `str`. -/
def replace_all (str pattern replacement : String) : String :=
  String.mk (replaceAllAux pattern.data replacement.data (str.length + 1) str.data)

/-- Member `Codegen::calcSignalValue`. -/
def calcSignalValue (env : Env D) (cg : Codegen D) (sd : SignalDef) (s : Nat)
    (operands : List Nat) (iname : String) : Res (Codegen D) CalcSignalValue :=
  match sd.signal.get? s with
  | none => .fail .outOfRange cg
  | some sig =>
    match sig.operand_idx with
    | none => .fail .jsonKey cg
    | some operandIdx =>
      match operands.get? operandIdx with
      | none => .fail .operandIdx cg
      | some qubit =>
        match sig.value with
        | none => .fail .jsonKey cg
        | some instructionSignalValue =>
          match sig.type with
          | none => .fail .jsonKey cg
          | some instructionSignalType =>
            (pureCall (env.findSignalInfoForQubit instructionSignalType qubit) cg).andThen
              fun si cg1 =>
            let signalValueString :=
              if instructionSignalValue.empty then ""
              else
                let sv := replace_all instructionSignalValue.dump "\"" ""
                let sv := replace_all sv "\x7bgateName\x7d" iname
                let sv := replace_all sv "\x7binstrumentName\x7d" si.ic.ii.instrumentName
                let sv := replace_all sv "\x7binstrumentGroup\x7d" (toString si.group)
                replace_all sv "\x7bqubit\x7d" (toString qubit)
            .ok { signalValueString := signalValueString, operandIdx := operandIdx, si := si }
              (comment env cg1
                [.str "  # slot=", .int si.ic.ii.slot,
                 .str ", instrument='", .str si.ic.ii.instrumentName, .str "'",
                 .str ", group=", .nat si.group,
                 .str "': signalValue='", .str signalValueString, .str "'"])

/-- The loops of `custom_instruction` that collect the operands. -/
def appendAll (env : Env D) : Operands → List Expression → Except Err Operands
  | ops, [] => .ok ops
  | ops, ob :: rest =>
    match env.append ops ob with
    | .error x => .error (.external x)
    | .ok ops1 => appendAll env ops1 rest

/-- In `custom_instruction`: "store signal value, checking for conflicts", on the cell
`bi = bundleInfo[csv.si.instrIdx][csv.si.group]`. -/
def storeSignalValue (env : Env D) (custom : CustomInstruction) (csv : CalcSignalValue)
    (bi : BundleInfo) : Res BundleInfo Unit :=
  if csv.signalValueString ≠ "" then
    if bi.signalValue = "" then
      let bi1 := { bi with signalValue := csv.signalValueString }
      match env.findStaticCodewordOverride custom.instruction_type csv.operandIdx with
      | .error x => .fail (.external x) bi1
      | .ok staticCodewordOverride =>
        .ok () { bi1 with staticCodewordOverride := staticCodewordOverride }
    else if bi.signalValue = csv.signalValueString then .ok () bi
    else .fail .signalConflict bi
  else .ok () bi

/-- In `custom_instruction`: what the body of the loop over the signals does to the cell
`bi = bundleInfo[csv.si.instrIdx][csv.si.group]`. -/
def storeSignal (env : Env D) (custom : CustomInstruction)
    (instrCond : tInstructionCondition) (ops : Operands) (isReadout : Bool)
    (csv : CalcSignalValue) (bi : BundleInfo) : Res BundleInfo Unit :=
  (storeSignalValue env custom csv bi).andThen fun _ bi1 =>
  let bi2 := { bi1 with durationInCycles := custom.instruction_type.duration }
  (if isReadout then
      if ops.qubits.length ≠ 1 then .fail .readoutOperands bi2
      else if env.getReadoutMode custom.instruction_type = "feedback" then
        .ok () { bi2 with
                 isMeasFeedback := true, operands := ops.qubits, breg_operands := ops.bregs }
      else .ok () bi2
    else .ok () bi2 : Res BundleInfo Unit).andThen fun _ bi3 =>
  .ok () { bi3 with condition := instrCond.cond_type, cond_operands := instrCond.cond_operands }

/-- Assignment to `bundleInfo[instrIdx][group]`. -/
def setCell (bundleInfo : List (List BundleInfo)) (instrIdx group : Nat) (bi : BundleInfo) :
    List (List BundleInfo) :=
  bundleInfo.modify (fun row => row.set group bi) instrIdx

/-- Work through the reference `BundleInfo &bi = bundleInfo[instrIdx][group]`. -/
def onCell {α : Type} (cg : Codegen D) (instrIdx group : Nat)
    (f : BundleInfo → Res BundleInfo α) : Res (Codegen D) α :=
  match cellAt cg.bundleInfo instrIdx group with
  | none => .fail .outOfRange cg
  | some bi =>
    match f bi with
    | .ok a bi1 => .ok a { cg with bundleInfo := setCell cg.bundleInfo instrIdx group bi1 }
    | .fail e bi1 => .fail e { cg with bundleInfo := setCell cg.bundleInfo instrIdx group bi1 }

/-- The body of the loop over the signals in `custom_instruction`. -/
def signalStep (env : Env D) (custom : CustomInstruction)
    (instrCond : tInstructionCondition) (ops : Operands) (isReadout : Bool)
    (sd : SignalDef) (cg : Codegen D) (s : Nat) : Res (Codegen D) Unit :=
  (calcSignalValue env cg sd s ops.qubits custom.instruction_type.name).andThen fun csv cg1 =>
  onCell cg1 csv.si.instrIdx csv.si.group (storeSignal env custom instrCond ops isReadout csv)

/-- In `custom_instruction`: "generate comment". -/
def instructionComment (env : Env D) (cg : Codegen D) (custom : CustomInstruction) :
    Codegen D :=
  if env.isReadout custom.instruction_type then
    comment env cg [.str " # READOUT: '", .str (env.describe custom), .str "'"]
  else comment env cg [.str " # gate '", .str (env.describe custom), .str "'"]

/-- Member `Codegen::custom_instruction`. -/
def custom_instruction (env : Env D) (cg : Codegen D) (custom : CustomInstruction) :
    Res (Codegen D) Unit :=
  match decode_condition env custom.condition with
  | .error e => .fail e cg
  | .ok instrCond =>
    if !custom.instruction_type.template_operands.isEmpty then
      .fail .specializedInstruction cg
    else
      match appendAll env {} custom.instruction_type.template_operands with
      | .error e => .fail e cg
      | .ok ops0 =>
        match appendAll env ops0 custom.operands with
        | .error e => .fail e cg
        | .ok ops =>
          let isReadout := env.isReadout custom.instruction_type
          let cg1 := instructionComment env cg custom
          (pureCall (env.findSignalDefinition custom.instruction_type) cg1).andThen
            fun sd cg2 =>
          forEach (signalStep env custom instrCond ops isReadout sd)
            (List.range sd.signal.length) cg2

/-! ## Specification vocabulary -/

/-- Cursor conservation between the state `cg` before and the state `cg1` after a call
made for the instrument `instrIdx` on `slot`: the call has appended lines to the code
section, each of them either untimed or on the slot of the instrument; the cursor of the
instrument has advanced by the total duration of these lines, in the arithmetic of `UInt`
(modulo `2^64`), so exactly by that duration when the sum does not reach `2^64`; and no
other cursor has moved. -/
def CursorConserved (cg cg1 : Codegen D) (instrIdx : Nat) (slot : Int) : Prop :=
  ∃ added, cg1.codeSection = cg.codeSection ++ added
    ∧ cg1.lastEndCycle instrIdx % 2 ^ 64
        = (cg.lastEndCycle instrIdx + totalDuration added) % 2 ^ 64
    ∧ (cg.lastEndCycle instrIdx + totalDuration added < 2 ^ 64 →
        cg1.lastEndCycle instrIdx = cg.lastEndCycle instrIdx + totalDuration added)
    ∧ (∀ j, j ≠ instrIdx → cg1.lastEndCycle j = cg.lastEndCycle j)
    ∧ (∀ l ∈ added, l.duration = 0 ∨ l.slot? = some slot)

/-- The mnemonics of the output instructions among some emitted lines, in order. -/
def outputMnemonics (ls : List CodeLine) : List String :=
  (ls.filter CodeLine.isOutput).map CodeLine.mnemonic

/-- The lines `seg` are what a call made for the instrument `instrIdx` on `slot` has
appended to the code section between the states `cg` and `cg1`: every line is on the slot
or is a comment, the cursor of the instrument has advanced by the total duration of the
lines modulo `2^64`, and no other cursor has moved. -/
def EmittedFor (cg cg1 : Codegen D) (instrIdx : Nat) (slot : Int) (seg : List CodeLine) :
    Prop :=
  cg1.codeSection = cg.codeSection ++ seg
    ∧ cg1.lastEndCycle instrIdx % 2 ^ 64
        = (cg.lastEndCycle instrIdx + totalDuration seg) % 2 ^ 64
    ∧ (∀ j, j ≠ instrIdx → cg1.lastEndCycle j = cg.lastEndCycle j)
    ∧ (∀ l ∈ seg, l.slot? = some slot ∨ ∃ t, l = CodeLine.short t "")

/-- The cell of group `g` in a row of `bundleInfo` (the default cell outside the row). -/
def cellOf (row : List BundleInfo) (g : Nat) : BundleInfo := row.getD g {}

/-- Whether group `g` of a row is populated: its signalValue is not empty. -/
def isPopulated (row : List BundleInfo) (g : Nat) : Bool :=
  decide ((cellOf row g).signalValue ≠ "")

/-- The populated groups of a row of `bundleInfo`, in ascending order. -/
def populatedGroups (row : List BundleInfo) : List Nat :=
  (List.range row.length).filter (isPopulated row)

/-- Bitwise OR of a list of words. -/
def orAll (ws : List Nat) : Nat := ws.foldl (· ||| ·) 0

/-- Maximum of a list of durations, 0 for the empty list. -/
def maxAll (ds : List Nat) : Nat := ds.foldl max 0

/-- Between the states `cg` and `cg1` only comments were appended to the code section, and
none unless `verbose` is set. -/
def CommentsAppended (env : Env D) (cg cg1 : Codegen D) : Prop :=
  ∃ cmts, cg1.codeSection = cg.codeSection ++ cmts
    ∧ (∀ l ∈ cmts, ∃ t, l = CodeLine.short t "")
    ∧ (env.verbose = false → cmts = [])

/-- A call that only appends comments to the code section (none unless `verbose` is set)
and touches neither the cursors nor `bundleInfo`. -/
def CommentsOnly (env : Env D) (cg cg1 : Codegen D) : Prop :=
  CommentsAppended env cg cg1
    ∧ cg1.lastEndCycle = cg.lastEndCycle
    ∧ cg1.bundleInfo = cg.bundleInfo

/-- What `collectCodeGenInfo` records for the instrument `instrIdx` with control info `ic`
from its row of `bundleInfo`. -/
def CollectedInfo (env : Env D) (instrIdx : Nat) (ic : InstrumentControl)
    (row : List BundleInfo) (info : CodeGenInfo) : Prop :=
  info.slot = ic.ii.slot ∧ info.instrumentName = ic.ii.instrumentName
    ∧ (∀ g ∈ populatedGroups row,
        ∃ gdo, calcGroupDigOut env.OPT_VECTOR_MODE instrIdx g row.length ic
          (cellOf row g).staticCodewordOverride = .ok gdo)
    ∧ info.digOut =
        orAll ((populatedGroups row).map fun g =>
          groupDigOutOf (calcGroupDigOut env.OPT_VECTOR_MODE instrIdx g row.length ic
            (cellOf row g).staticCodewordOverride))
    ∧ info.instrMaxDurationInCycles =
        maxAll ((populatedGroups row).map fun g => (cellOf row g).durationInCycles)
    ∧ info.instrHasOutput = !(populatedGroups row).isEmpty
    ∧ info.condGateMap.isEmpty =
        ((populatedGroups row).all fun g =>
          decide ((cellOf row g).condition = .ALWAYS ∨ ic.ii.forceCondGatesOn = true))
    ∧ info.feedbackMap.isEmpty =
        ((List.range row.length).all fun g => !(cellOf row g).isMeasFeedback)

/-! ## Concrete inputs -/

/-- An instrument "X" on slot 0 with the given control mode. -/
def demoInstrument (control_bits : List (List Nat)) (trigger_bits : List Nat) :
    InstrumentControl :=
  { ii := { instrumentName := "X", slot := 0, forceCondGatesOn := false }
    refControlMode := "mode"
    controlMode := { control_bits := control_bits, trigger_bits := trigger_bits }
    controlModeGroupSize := 1 }

/-- An instrument `name` on `slot` with the given control mode. -/
def demoInstrumentOn (name : String) (slot : Int) (control_bits : List (List Nat))
    (trigger_bits : List Nat) : InstrumentControl :=
  { ii := { instrumentName := name, slot := slot, forceCondGatesOn := false }
    refControlMode := "mode"
    controlMode := { control_bits := control_bits, trigger_bits := trigger_bits }
    controlModeGroupSize := 1 }

/-- Two instruments: "X" on slot 0 with one group and "Y" on slot 3 with two groups. -/
def demoInstruments : List InstrumentControl :=
  [demoInstrumentOn "X" 0 [[5]] [6], demoInstrumentOn "Y" 3 [[1], [2]] []]

/-- A bundle for `demoInstruments`: "X" measures qubit 7 with feedback for 4 cycles, group 1
of "Y" plays "w" for 2 cycles under the condition that bit 7 is set. -/
def demoFeedbackBundle : List (List BundleInfo) :=
  [[{ signalValue := "m", durationInCycles := 4, isMeasFeedback := true, operands := [7] }],
   [{}, { signalValue := "w", durationInCycles := 2, condition := .UNARY,
          cond_operands := [7] }]]

/-- The signal definition of an instruction `name`: one signal of type "mw" with the
value `"name"` on operand 0. -/
def demoSignalDef (name : String) : SignalDef :=
  { signal := [{ operand_idx := some 0
                 value := some { dump := "\"" ++ name ++ "\""
                                 empty := false, is_array := false, size := 1 }
                 type := some "mw" }]
    path := "instructions/" ++ name }

/-- An environment with the given instruments: every signal of an instruction named `n`
has the value `"n"`, type "mw" and operand 0, qubit `q` maps to group `q` of instrument 0,
the static codeword override is `codeword`, register references convert to their index,
bit `b` lives in DSM bit `b`, and the Datapath has no state. -/
def demoEnv (verbose : Bool) (instruments : List InstrumentControl) (codeword : Int) :
    Env Unit where
  MAX_SLOTS := 12
  NUM_CREGS := 62
  NUM_BREGS := 1024
  REG_TMP0 := "R63"
  REG_TMP1 := "R62"
  OPT_VECTOR_MODE := false
  verbose := verbose
  instruments := instruments
  getResultBit := fun _ _ => .ok 0
  isReadout := fun _ => false
  getReadoutMode := fun _ => ""
  findSignalDefinition := fun it => .ok (demoSignalDef it.name)
  findSignalInfoForQubit := fun _ qubit =>
    match instruments.get? 0 with
    | some ic => .ok { ic := ic, instrIdx := 0, group := qubit }
    | none => .error { kind := .json, what := "no instrument" }
  findStaticCodewordOverride := fun _ _ => .ok codeword
  convert_breg_reference := fun e =>
    match e with
    | .reference .breg i => .ok i
    | _ => .error { kind := .ice, what := "not a bit reference" }
  convert_creg_reference := fun e =>
    match e with
    | .reference .creg i => .ok i
    | _ => .error { kind := .ice, what := "not an integer register reference" }
  is_creg_reference := fun e =>
    match e with
    | .reference .creg _ => true
    | _ => false
  describe_expression := fun _ => ""
  describe_set_instruction := fun _ => ""
  append := fun ops e =>
    match e with
    | .reference .qubit i => .ok { ops with qubits := ops.qubits ++ [i] }
    | .reference .breg i => .ok { ops with bregs := ops.bregs ++ [i] }
    | _ => .error { kind := .ice, what := "unsupported operand" }
  describe := fun custom => custom.instruction_type.name
  dp_comment := fun d _ _ => d
  dp_getSmBit := fun breg _ => .ok breg
  dp_allocateSmBit := fun breg _ d => .ok (breg, d)
  dp_getOrAssignMux := fun _ _ d => .ok (0, d)
  dp_emitMux := fun _ _ _ _ d => .ok ((), d)
  dp_getSizeTag := fun size => .ok size
  dp_getMuxSmAddr := fun _ => .ok 0
  dp_getOrAssignPl := fun _ _ d => .ok (0, d)
  dp_emitPl := fun _ _ _ _ d => .ok (0, d)

/-- A code generator state with an empty code section and all cursors at `lastEndCycle`. -/
def demoCodegen (lastEndCycle : Nat) (bundleInfo : List (List BundleInfo)) : Codegen Unit :=
  { codeSection := [], lastEndCycle := fun _ => lastEndCycle, bundleInfo := bundleInfo
    depth := 0, dp := () }

/-- An unconditional gate `name` on qubit `qubit`. -/
def demoGate (name : String) (qubit duration : Nat) : CustomInstruction :=
  { instruction_type := { name := name, duration := duration, template_operands := [] }
    operands := [.reference .qubit qubit]
    condition := .bit_literal true
    cycle := 0 }

/-- Mnemonic and rendered operands of the instructions (not the comments) of a code
section. -/
def instructionsOf (code : List CodeLine) : List (String × String) :=
  (code.filter fun l => l.mnemonic != "").map fun l => (l.mnemonic, Text.render l.ops)

/-! ## Expression lowering -/

/-- The static helper `check_int_literal`. Values are mathematical integers: the
subtraction `value - bottomRoom`, on 64 bit signed integers in the source, is exact unless
`value` is the least 64 bit integer and `bottomRoom` is positive. `1L << 32` is `2 ^ 32`. -/
def check_int_literal (value bottomRoom headRoom : Int) : Except Err Unit :=
  if value - bottomRoom < 0 then .error .negativeLiteral
  else if value ≥ 2 ^ 32 - 1 - headRoom then .error .literalTooLarge
  else .ok ()

/-- Member `Codegen::creg2reg`. -/
def creg2reg (env : Env D) (ref : Expression) : Except Err Nat :=
  match env.convert_creg_reference ref with
  | .error x => .error (.external x)
  | .ok reg => if reg ≥ env.NUM_CREGS then .error .cregIndex else .ok reg

/-- The helper `breg2reg` of `do_handle_expression`. -/
def breg2reg (env : Env D) (ref : Expression) : Except Err Nat :=
  match env.convert_breg_reference ref with
  | .error x => .error (.external x)
  | .ok reg => if reg ≥ env.NUM_BREGS then .error .bregIndex else .ok reg

/-- The helper `dest_reg` of `do_handle_expression`: the register of `lhs`. -/
def dest_reg (env : Env D) (lhs : Option Expression) : Except Err Nat :=
  match lhs with
  | some (.reference kind index) => creg2reg env (.reference kind index)
  | _ => .error .noReference

/-- The helper `op_str_int` of `do_handle_expression`: "convert integer/creg
function_call.operands expression to Q1 instruction argument". -/
def op_str_int (env : Env D) (op : Expression) : Except Err Text :=
  match op with
  | .reference _ _ =>
    match creg2reg env op with
    | .error e => .error e
    | .ok reg => .ok [.str "R", .int reg]
  | .int_literal value =>
    match check_int_literal value 0 0 with
    | .error e => .error e
    | .ok _ => .ok [.int value]
  | _ => .error .expectedIntegerOperand

/-- The loop of `emit_bin_cast`: "compute DSM address and mask for operands"; `i` is the
index of the first operand of the list. -/
def binCastLoop (env : Env D) (dp : D) :
    List Expression → Nat → Nat → Nat → Except Err (Nat × Nat)
  | [], _, smAddr, mask => .ok (smAddr, mask)
  | op :: rest, i, smAddr, mask =>
    match op with
    | .reference _ _ =>
      match breg2reg env op with
      | .error e => .error e
      | .ok breg =>
        match env.dp_getSmBit breg dp with
        | .error x => .error (.external x)
        | .ok smBit =>
          let mySmAddr := smBit / 32
          if i ≠ 0 ∧ smAddr ≠ mySmAddr then .error .dsmAddress
          else
            binCastLoop env dp rest (i + 1) (if i = 0 then mySmAddr else smAddr)
              (mask ||| shl1ul (smBit % 32))
    | _ => .error .expectedBitOperand

/-- The helper `emit_bin_cast` of `do_handle_expression`: "emit code for casting a bit
value (i.e. DSM bit) to an integer (i.e. Q1 register)"; it returns the mask. -/
def emit_bin_cast (env : Env D) (cg : Codegen D) (operands : List Expression)
    (expOpCnt : Nat) : Res (Codegen D) Nat :=
  if operands.length ≠ expOpCnt then .fail .bitOperandCount cg
  else
    match binCastLoop env cg.dp operands 0 0 0 with
    | .error e => .fail e cg
    | .ok (smAddr, mask) =>
      let cg1 := emit4 cg [] "seq_cl_sm" [.str "S", .nat smAddr] []
      let cg2 := emit4 cg1 [] "seq_wait" [.str "3"] []
      let cg3 := emit4 cg2 [] "move_sm" [.str env.REG_TMP0] []
      .ok mask (emit2 cg3 [] "nop")

/-- Operand profile of a function of two operands. -/
inductive Profile
  /-- Integer literal, reference. -/
  | LR
  /-- Reference, integer literal. -/
  | RL
  /-- Reference, reference. -/
  | RR
deriving DecidableEq, Repr

/-- The helper `get_profile` of `do_handle_expression`. -/
def get_profile (operands : List Expression) : Except Err Profile :=
  match operands with
  | [.int_literal _, .reference _ _] => .ok .LR
  | [.reference _ _, .int_literal _] => .ok .RL
  | [.reference _ _, .reference _ _] => .ok .RR
  | [.int_literal _, .int_literal _] => .error .twoLiterals
  | [.function_call _ _, _] => .error .nestedFunctionCall
  | [_, .function_call _ _] => .error .nestedFunctionCall
  | [_, _] => .error .parameterCombination
  | _ => .error .expected2Operands

/-- The helper `emit_mnem2args` of `do_handle_expression`. The lambda captures `fn` when it
is created, before a cast steps into its operand: `capturedOperands` are the operands of
the function call that is the expression itself. -/
def emit_mnem2args (env : Env D) (cg : Codegen D) (capturedOperands : List Expression)
    (expression : Expression) (mnem : String) (arg0 arg1 : Nat) (target : Text) :
    Res (Codegen D) Unit :=
  match capturedOperands.get? arg0 with
  | none => .fail .outOfRange cg
  | some op0 =>
    match op_str_int env op0 with
    | .error e => .fail e cg
    | .ok s0 =>
      match capturedOperands.get? arg1 with
      | none => .fail .outOfRange cg
      | some op1 =>
        match op_str_int env op1 with
        | .error e => .fail e cg
        | .ok s1 =>
          .ok () (emit4 cg [] mnem (s0 ++ [.str ","] ++ s1 ++ [.str ","] ++ target)
            [.str "# ", .str (env.describe_expression expression)])

/-- In `do_handle_expression`, "int arithmetic, 2 operands": the value of `operation`
after the chain of comparisons, empty when the name is none of the five. -/
def intOperation (name : String) : String :=
  if name = "operator+" then "add"
  else if name = "operator-" then "sub"
  else if name = "operator&" then "and"
  else if name = "operator|" then "or"
  else if name = "operator^" then "xor"
  else ""

/-- In `do_handle_expression`, "bit arithmetic, 2 operands": the value of `operation`. -/
def bitOperation (name : String) : String :=
  if name = "operator&&" then "FIXME"
  else if name = "operator||" then "FIXME"
  else if name = "operator^^" then "FIXME"
  else ""

/-- In `do_handle_expression`, "relop, group 1": the value of `operation`, the jump that
is emitted after the `xor`. -/
def relOperation (name : String) : String :=
  if name = "operator==" then "jge"
  else if name = "operator!=" then "jlt"
  else ""

/-- In `do_handle_expression`: the lowering of `operator>`. -/
def lowerGreater (env : Env D) (cg : Codegen D) (label_if_false : String)
    (operands : List Expression) : Res (Codegen D) Unit :=
  match get_profile operands with
  | .error e => .fail e cg
  | .ok .RL =>
    match operands with
    | [op0, .int_literal value] =>
      match check_int_literal value 0 1 with
      | .error e => .fail e cg
      | .ok _ =>
        match op_str_int env op0 with
        | .error e => .fail e cg
        | .ok s0 =>
          .ok () (emit4 cg [] "jge"
            (s0 ++ [.str ",", .int (value + 1), .str (",@" ++ label_if_false)])
            [.str "# skip next part if condition is false"])
    | _ => .fail .outOfRange cg
  | .ok .RR =>
    match operands with
    | [op0, op1] =>
      match op_str_int env op1 with
      | .error e => .fail e cg
      | .ok s1 =>
        let cg1 := emit4 cg [] "add" ([.str "1,"] ++ s1 ++ [.str ",", .str env.REG_TMP0]) []
        let cg2 := emit2 cg1 [] "nop"
        match op_str_int env op0 with
        | .error e => .fail e cg2
        | .ok s0 =>
          .ok () (emit4 cg2 [] "jge"
            (s0 ++ [.str ",", .str env.REG_TMP0, .str (",@" ++ label_if_false)])
            [.str "# skip next part if condition is false"])
    | _ => .fail .outOfRange cg
  | .ok .LR =>
    match operands with
    | [.int_literal value, op1] =>
      match check_int_literal value 1 0 with
      | .error e => .fail e cg
      | .ok _ =>
        match op_str_int env op1 with
        | .error e => .fail e cg
        | .ok s1 =>
          .ok () (emit4 cg [] "jlt"
            (s1 ++ [.int (value - 1), .str (",@" ++ label_if_false)])
            [.str "# skip next part if condition is false"])
    | _ => .fail .outOfRange cg

/-- In `do_handle_expression`: the groups that are tried while `operation` is empty, for
the function `name` with `operands`: the function call that is the expression, or the
operand of a cast. `capturedOperands` are the operands that `emit_mnem2args` reads. -/
def lowerFunction (env : Env D) (cg : Codegen D) (expression : Expression)
    (lhs : Option Expression) (label_if_false : String) (capturedOperands : List Expression)
    (name : String) (operands : List Expression) : Res (Codegen D) Unit :=
  -- int arithmetic, 2 operands
  if intOperation name ≠ "" then
    match get_profile operands with
    | .error e => .fail e cg
    | .ok profile =>
      match dest_reg env lhs with
      | .error e => .fail e cg
      | .ok dest =>
        match profile with
        | .LR =>
          emit_mnem2args env cg capturedOperands expression (intOperation name) 1 0
            [.str "R", .int dest]
        | _ =>
          emit_mnem2args env cg capturedOperands expression (intOperation name) 0 1
            [.str "R", .int dest]
  -- bit arithmetic, 2 operands
  else if bitOperation name ≠ "" then
    (emit_bin_cast env cg operands 2).andThen fun mask cg1 =>
    let cg2 := emit4 cg1 [] "and"
      [.str env.REG_TMP0, .str ",", .nat mask, .str ",", .str env.REG_TMP1] []
    let cg3 := emit2 cg2 [] "nop"
    .ok () (emit4 cg3 [] "jlt" [.str env.REG_TMP1, .str ",1,@", .str label_if_false]
      [.str "# ", .str (env.describe_expression expression)])
  -- relop, group 1
  else if relOperation name ≠ "" then
    match get_profile operands with
    | .error e => .fail e cg
    | .ok profile =>
      (match profile with
        | .LR =>
          emit_mnem2args env cg capturedOperands expression "xor" 1 0 [.str env.REG_TMP0]
        | _ =>
          emit_mnem2args env cg capturedOperands expression "xor" 0 1 [.str env.REG_TMP0]
      ).andThen fun _ cg1 =>
      let cg2 := emit2 cg1 [] "nop"
      .ok () (emit4 cg2 [] (relOperation name)
        [.str (env.REG_TMP0 ++ ",1,@" ++ label_if_false)]
        [.str "# skip next part if condition is false"])
  -- relop, group 2
  else if name = "operator>=" then
    match get_profile operands with
    | .error e => .fail e cg
    | .ok .LR =>
      emit_mnem2args env cg capturedOperands expression "jlt" 1 0
        [.str ("@" ++ label_if_false)]
    | .ok _ =>
      emit_mnem2args env cg capturedOperands expression "jge" 0 1
        [.str ("@" ++ label_if_false)]
  else if name = "operator<" then
    match get_profile operands with
    | .error e => .fail e cg
    | .ok .LR =>
      emit_mnem2args env cg capturedOperands expression "jge" 1 0
        [.str ("@" ++ label_if_false)]
    | .ok _ =>
      emit_mnem2args env cg capturedOperands expression "jlt" 0 1
        [.str ("@" ++ label_if_false)]
  else if name = "operator>" then lowerGreater env cg label_if_false operands
  else if name = "operator<=" then .fail .notImplemented cg
  else .fail .functionNotSupported cg

/-- In `do_handle_expression`: the branch of a function call `name(operands)`. -/
def lowerFunctionCall (env : Env D) (cg : Codegen D) (expression : Expression)
    (lhs : Option Expression) (label_if_false : String) (name : String)
    (operands : List Expression) : Res (Codegen D) Unit :=
  -- handle cast
  if name = "int" then
    match operands with
    | [.function_call name1 operands1] =>
      lowerFunction env cg expression lhs label_if_false operands name1 operands1
    | _ => .fail .castTarget cg
  -- int arithmetic, 1 operand
  else if name = "operator~" then
    match operands.get? 0 with
    | none => .fail .outOfRange cg
    | some op0 =>
      match op_str_int env op0 with
      | .error e => .fail e cg
      | .ok s0 =>
        match dest_reg env lhs with
        | .error e => .fail e cg
        | .ok dest =>
          .ok () (emit4 cg [] "not" (s0 ++ [.str ",R", .int dest])
            [.str "# ", .str (env.describe_expression expression)])
  -- bit arithmetic, 1 operand
  else if name = "operator!" then
    (emit_bin_cast env cg operands 1).andThen fun mask cg1 =>
    let cg2 := emit4 cg1 [] "and"
      [.str env.REG_TMP0, .str ",", .nat mask, .str ",", .str env.REG_TMP1] []
    let cg3 := emit2 cg2 [] "nop"
    .ok () (emit4 cg3 [] "jlt" [.str env.REG_TMP1, .str ",1,@", .str label_if_false]
      [.str "# ", .str (env.describe_expression expression)])
  else lowerFunction env cg expression lhs label_if_false operands name operands

/-- Member `Codegen::do_handle_expression`; `lhs` is `none` for an empty `lhs`. The
operands of `<<` are evaluated from left to right. -/
def do_handle_expression (env : Env D) (cg : Codegen D) (expression : Expression)
    (lhs : Option Expression) (label_if_false descr : String) : Res (Codegen D) Unit :=
  let cg0 :=
    match lhs with
    | some l =>
      comment env cg
        [.str "# Expression '", .str descr, .str "': ", .str (env.describe_expression l),
         .str " = ", .str (env.describe_expression expression)]
    | none => cg
  match expression with
  | .int_literal value =>
    match check_int_literal value 0 0 with
    | .error e => .fail e cg0
    | .ok _ =>
      match dest_reg env lhs with
      | .error e => .fail e cg0
      | .ok dest =>
        .ok () (emit4 cg0 [] "move" [.int value, .str ",R", .int dest]
          [.str "# ", .str (env.describe_expression expression)])
  | .reference _ _ =>
    if env.is_creg_reference expression then
      match creg2reg env expression with
      | .error e => .fail e cg0
      | .ok reg =>
        match dest_reg env lhs with
        | .error e => .fail e cg0
        | .ok dest =>
          .ok () (emit4 cg0 [] "move" [.str "R", .int reg, .str ",R", .int dest]
            [.str "# ", .str (env.describe_expression expression)])
    else
      (emit_bin_cast env cg0 [expression] 1).andThen fun mask cg1 =>
      let cg2 := emit4 cg1 [] "and"
        [.str env.REG_TMP0, .str ",", .nat mask, .str ",", .str env.REG_TMP1] []
      .ok () (emit2 cg2 [] "nop")
  | .function_call name operands =>
    lowerFunctionCall env cg0 expression lhs label_if_false name operands
  | _ => .ok () cg0

/-- Member `Codegen::handle_expression`. -/
def handle_expression (env : Env D) (cg : Codegen D) (expression : Expression)
    (label_if_false descr : String) : Res (Codegen D) Unit :=
  do_handle_expression env cg expression none label_if_false descr

/-! ## Specification vocabulary: bundles -/

/-- A sequence of calls of `custom_instruction`, in order; an exception ends it. -/
def customInstructions (env : Env D) :
    List CustomInstruction → Codegen D → Res (Codegen D) Unit
  | [], cg => .ok () cg
  | custom :: rest, cg =>
    (custom_instruction env cg custom).andThen fun _ cg1 => customInstructions env rest cg1

/-- The invariant of `BundleInfo`: a cell with a signal value has a duration. -/
def SignalHasDuration (bundleInfo : List (List BundleInfo)) : Prop :=
  ∀ instrIdx group bi, cellAt bundleInfo instrIdx group = some bi →
    bi.signalValue ≠ "" → 0 < bi.durationInCycles

/-- Between the states `cg` and `cg1` lines were appended to the code section, each of
which satisfies `P`. -/
def AppendedLines (P : CodeLine → Prop) (cg cg1 : Codegen D) : Prop :=
  ∃ added, cg1.codeSection = cg.codeSection ++ added ∧ ∀ l ∈ added, P l

/-- The mnemonics of the instructions among some emitted lines, in order, comments and
paddings (`seq_wait`) aside. -/
def instructionMnemonics (ls : List CodeLine) : List String :=
  (ls.map CodeLine.mnemonic).filter fun m => m != "" && m != "seq_wait"

/-- A feedback-cycle instruction: `seq_in_sm` or `seq_inv_sm`. -/
def CodeLine.isFeedback (l : CodeLine) : Bool :=
  l.mnemonic == "seq_in_sm" || l.mnemonic == "seq_inv_sm"

/-- The mnemonics of the feedback-cycle instructions among some emitted lines, in order. -/
def feedbackMnemonics (ls : List CodeLine) : List String :=
  (ls.filter CodeLine.isFeedback).map CodeLine.mnemonic

/-- Whether a row of `bundleInfo` has a feedback-active group. -/
def rowHasFeedback (row : List BundleInfo) : Bool :=
  (List.range row.length).any fun g => (cellOf row g).isMeasFeedback

/-- The cursor of an instrument after its iteration of the emit loop of `bundleFinish`, as
a function of the cursor `before` it: the output ends at
`startCycle + instrMaxDurationInCycles`, the feedback-cycle instruction takes one cycle
from `startCycle` or from the cursor, whichever is later, and the last bundle is padded to
`startCycle + durationInCycles`; the sums are those of `UInt`. -/
def cursorAfter (startCycle durationInCycles : Nat) (isLastBundle hasFeedback : Bool)
    (info : CodeGenInfo) (before : Nat) : Nat :=
  if isLastBundle then uintAdd startCycle durationInCycles
  else if hasFeedback then
    uintAdd
      (max (if info.instrHasOutput then uintAdd startCycle info.instrMaxDurationInCycles
            else before)
        startCycle) 1
  else if info.instrHasOutput then uintAdd startCycle info.instrMaxDurationInCycles
  else before

/-- Whether the bundle collected in `bundleInfo` has feedback: some instrument has a
feedback-active group. -/
def bundleFeedback (env : Env D) (cg : Codegen D) : Bool :=
  (List.range env.instruments.length).any fun instrIdx =>
    rowHasFeedback (cg.bundleInfo.getD instrIdx [])

/-! ## Specification vocabulary: conditions -/

/-- Logical negation of a condition type. -/
def ConditionType.negated : ConditionType → ConditionType
  | .ALWAYS => .NEVER
  | .NEVER => .ALWAYS
  | .UNARY => .NOT
  | .NOT => .UNARY
  | .AND => .NAND
  | .NAND => .AND
  | .OR => .NOR
  | .NOR => .OR
  | .XOR => .NXOR
  | .NXOR => .XOR

/-- Number of bit operands that a condition type takes. -/
def ConditionType.operandCount : ConditionType → Nat
  | .ALWAYS => 0
  | .NEVER => 0
  | .UNARY => 1
  | .NOT => 1
  | _ => 2

/-- The names of the two-operand functions that a condition may use. -/
def binaryConditionNames : List String :=
  ["operator&", "operator&&", "operator|", "operator||", "operator^", "operator^^",
   "operator!=", "operator=="]

/-- The names of the negation functions. -/
def negationNames : List String := ["operator!", "operator~"]

/-! ## Specification vocabulary: expressions -/

/-- Whether a streamed string ends in `R`: a number streamed right after it is the number
of a register. -/
def endsWithR (s : String) : Bool := s.data.getLast? == some 'R'

/-- The numbers streamed into a text, other than those that directly follow a string
ending in `R`; `afterR` tells whether the previous piece was such a string. -/
def literalsAux : Bool → Text → List Int
  | _, [] => []
  | afterR, .int v :: rest => (if afterR then [] else [v]) ++ literalsAux false rest
  | afterR, .nat n :: rest => (if afterR then [] else [(n : Int)]) ++ literalsAux false rest
  | _, .str s :: rest => literalsAux (endsWithR s) rest
  | _, .hex8 _ :: rest => literalsAux false rest

/-- The integer literals streamed into an operand string: every streamed number that is
not the number of a register. -/
def Text.literals (t : Text) : List Int := literalsAux false t

/-- The mnemonics of the `move`, arithmetic and jump instructions. -/
def takesLiteral (mnemonic : String) : Bool :=
  mnemonic ∈ ["move", "add", "sub", "and", "or", "xor", "not", "jlt", "jge"]

/-- Every integer literal in the operands of a `move`, arithmetic or jump instruction
passes `check_int_literal` with the default rooms. -/
def LiteralsChecked (l : CodeLine) : Prop :=
  takesLiteral l.mnemonic = true → ∀ v ∈ Text.literals l.ops, check_int_literal v 0 0 = .ok ()

/-! ## Structured control flow -/

/-- The helper `to_start`. -/
def to_start (base : String) : String := base ++ "_start"

/-- The helper `to_end`. -/
def to_end (base : String) : String := base ++ "_end"

/-- The helper `to_ifbranch`. -/
def to_ifbranch (base : String) (branch : Int) : String := base ++ "_" ++ toString branch

/-- The helper `as_label`. -/
def as_label (label : String) : String := label ++ ":"

/-- The helper `as_target`. -/
def as_target (label : String) : String := "@" ++ label

/-- Member `Codegen::handle_set_instruction`. -/
def handle_set_instruction (env : Env D) (cg : Codegen D) (set : SetInstruction)
    (descr : String) : Res (Codegen D) Unit :=
  do_handle_expression env cg set.rhs (some set.lhs) "" descr

/-- Member `Codegen::if_elif`. -/
def if_elif (env : Env D) (cg : Codegen D) (condition : Expression) (label : String)
    (branch : Int) : Res (Codegen D) Unit :=
  -- finish previous branch
  let cg1 := if branch > 0 then emit4 cg [] "jmp" [.str (as_target (to_end label))] [] else cg
  let cg2 := comment env cg1
    [.str "# IF_ELIF: ", .str "condition = '", .str (env.describe_expression condition),
     .str "'", .str ", label = '", .str label, .str "'"]
  let cg3 := if branch > 0 then emit2 cg2 [.str (as_label (to_ifbranch label branch))] "" else cg2
  handle_expression env cg3 condition (to_ifbranch label (branch + 1)) "if.condition"

/-- Member `Codegen::if_otherwise`. -/
def if_otherwise (env : Env D) (cg : Codegen D) (label : String) (branch : Int) : Codegen D :=
  let cg1 := comment env cg [.str "# IF_OTHERWISE: ", .str ", label = '", .str label, .str "'"]
  emit2 cg1 [.str (as_label (to_ifbranch label branch))] ""

/-- Member `Codegen::if_end`. -/
def if_end (env : Env D) (cg : Codegen D) (label : String) : Codegen D :=
  let cg1 := comment env cg [.str "# IF_END: ", .str ", label = '", .str label, .str "'"]
  emit2 cg1 [.str (as_label (to_end label))] ""

/-- Member `Codegen::foreach_start`; `frm` is the value of the literal. -/
def foreach_start (env : Env D) (cg : Codegen D) (lhs : Expression) (frm : Int)
    (label : String) : Res (Codegen D) Unit :=
  match check_int_literal frm 0 0 with
  | .error e => .fail e cg
  | .ok _ =>
    let cg1 := comment env cg
      [.str "# FOREACH_START: ", .str "from = ",
       .str (env.describe_expression (.int_literal frm)), .str ", label = '", .str label,
       .str "'"]
    match creg2reg env lhs with
    | .error e => .fail e cg1
    | .ok reg =>
      let cg2 := emit4 cg1 [] "move" [.int frm, .str ",", .str "R", .int reg] []
      .ok () (emit2 cg2 [.str (as_label (to_start label))] "")

/-- Member `Codegen::foreach_end`; `frm` and `toValue` are the values of the literals
`frm` and `to`. -/
def foreach_end (env : Env D) (cg : Codegen D) (lhs : Expression) (frm toValue : Int)
    (label : String) : Res (Codegen D) Unit :=
  match check_int_literal toValue 0 0 with
  | .error e => .fail e cg
  | .ok _ =>
    let cg1 := comment env cg
      [.str "# FOREACH_END: ", .str "from = ",
       .str (env.describe_expression (.int_literal frm)), .str ", to = ",
       .str (env.describe_expression (.int_literal toValue)), .str ", label = '", .str label,
       .str "'"]
    match creg2reg env lhs with
    | .error e => .fail e cg1
    | .ok reg =>
      let cg2 :=
        if toValue ≥ frm then
          let c1 := emit4 cg1 [] "add" [.str "R", .int reg, .str ",1,", .str "R", .int reg] []
          let c2 := emit2 c1 [] "nop"
          emit4 c2 [] "jlt"
            [.str "R", .int reg, .str ",", .int (toValue + 1), .str ",",
             .str (as_target (to_start label))]
            [.str "# loop"]
        else if toValue = 0 then
          emit4 cg1 [] "loop" [.str "R", .int reg, .str ",", .str (as_target (to_start label))]
            [.str "# loop"]
        else
          let c1 := emit4 cg1 [] "sub" [.str "R", .int reg, .str ",1,", .str "R", .int reg] []
          let c2 := emit2 c1 [] "nop"
          emit4 c2 [] "jge"
            [.str "R", .int reg, .str ",", .int toValue, .str ",",
             .str (as_target (to_start label))]
            [.str "# loop"]
      .ok () (emit2 cg2 [.str (as_label (to_end label))] "")

/-- Member `Codegen::repeat` (`repeat` is a keyword). -/
def repeat_ (env : Env D) (cg : Codegen D) (label : String) : Codegen D :=
  let cg1 := comment env cg [.str "# REPEAT: ", .str ", label = '", .str label, .str "'"]
  emit2 cg1 [.str (as_label (to_start label))] ""

/-- Member `Codegen::until` (`until` is a keyword). -/
def until_ (env : Env D) (cg : Codegen D) (condition : Expression) (label : String) :
    Res (Codegen D) Unit :=
  let cg1 := comment env cg
    [.str "# UNTIL: ", .str "condition = '", .str (env.describe_expression condition),
     .str "'", .str ", label = '", .str label, .str "'"]
  (handle_expression env cg1 condition (to_end label) "until.condition").andThen fun _ cg2 =>
  let cg3 := emit4 cg2 [] "jmp" [.str (as_target (to_start label))] [.str "# loop"]
  .ok () (emit2 cg3 [.str (as_label (to_end label))] "")

/-- Member `Codegen::for_start`, also used for `while` loops; `initSet` is `none` for
an empty `initialize`. -/
def for_start (env : Env D) (cg : Codegen D) (initSet : Option SetInstruction)
    (condition : Expression) (label : String) : Res (Codegen D) Unit :=
  let cg1 := comment env cg
    ([.str "# LOOP_START: "]
      ++ (match initSet with
          | some set =>
            [.str "initialize = '", .str (env.describe_set_instruction set), .str "', "]
          | none => [.str ""])
      ++ [.str "condition = '", .str (env.describe_expression condition), .str "'"])
  -- for loop: initialize
  (match initSet with
    | some set =>
      (handle_set_instruction env cg1 set "for.initialize").andThen fun _ cg2 =>
      .ok () (emit2 cg2 [] "nop")
    | none => .ok () cg1).andThen fun _ cg3 =>
  let cg4 := emit2 cg3 [.str (as_label (to_start label))] ""
  handle_expression env cg4 condition (to_end label) "for/while.condition"

/-- Member `Codegen::for_end`; `update` is `none` for an empty `Maybe`. -/
def for_end (env : Env D) (cg : Codegen D) (update : Option SetInstruction) (label : String) :
    Res (Codegen D) Unit :=
  let cg1 := comment env cg
    ([.str "# LOOP_END: "]
      ++ (match update with
          | some set => [.str " update = '", .str (env.describe_set_instruction set), .str "'"]
          | none => [.str ""]))
  (match update with
    | some set => handle_set_instruction env cg1 set "for.update"
    | none => .ok () cg1).andThen fun _ cg2 =>
  let cg3 := emit4 cg2 [] "jmp" [.str (as_target (to_start label))] [.str "# loop"]
  .ok () (emit2 cg3 [.str (as_label (to_end label))] "")

/-- Member `Codegen::do_break`. -/
def do_break (cg : Codegen D) (label : String) : Codegen D :=
  emit4 cg [] "jmp" [.str (as_target (to_end label))] [.str "# break"]

/-- Member `Codegen::do_continue`. -/
def do_continue (cg : Codegen D) (label : String) : Codegen D :=
  emit4 cg [] "jmp" [.str (as_target (to_start label))] [.str "# continue"]

/-! ## Specification vocabulary: structured control flow -/

/-- The state `cg` after the lines `added` were emitted. -/
def withCode (cg : Codegen D) (added : List CodeLine) : Codegen D :=
  { cg with codeSection := cg.codeSection ++ added }

/-- A comment of the structured control flow or of an expression: a line without
instruction whose text, after the indentation, starts with `#`. -/
def CodeLine.isComment : CodeLine → Bool
  | .short (.str _ :: .str s :: _) "" => s.data.head? == some '#'
  | .raw (.str s :: _) => s.data.head? == some '#'
  | _ => false

/-- The lines `cmts` are comments, and there are none unless `verbose` is set. -/
def Comments (env : Env D) (cmts : List CodeLine) : Prop :=
  (∀ l ∈ cmts, l.isComment = true) ∧ (env.verbose = false → cmts = [])

/-- First column of an emitted line, rendered: empty, a label or a slot selector. -/
def CodeLine.label : CodeLine → String
  | .line labelOrSel _ _ _ => labelOrSel.render
  | .short labelOrComment _ => Text.render labelOrComment
  | .raw _ => ""

/-- First column, mnemonic and rendered operands of the lines of a code section, comments
aside. -/
def listingOf (code : List CodeLine) : List (String × String × String) :=
  (code.filter fun l => !l.isComment).map fun l => (l.label, l.mnemonic, Text.render l.ops)

/-- The text after the first `@` of an operand string, if there is one. -/
def afterAt : List Char → Option (List Char)
  | [] => none
  | c :: rest => if c = '@' then some rest else afterAt rest

/-- The mnemonics of the instructions that take a label as their target. -/
def jumpMnemonics : List String := ["jmp", "jlt", "jge", "loop"]

/-- The labels referenced by the `jmp`, `jlt`, `jge` and `loop` instructions of a code
section, in order. -/
def jumpTargets (code : List CodeLine) : List String :=
  (code.filter fun l => decide (l.mnemonic ∈ jumpMnemonics)).filterMap fun l =>
    (afterAt (Text.render l.ops).data).map String.mk

/-- The labels defined in a code section, in order: the first columns ending in `:` of
the lines that are not comments, without the colon. -/
def definedLabels (code : List CodeLine) : List String :=
  (code.filter fun l => !l.isComment).filterMap fun l =>
    if l.label.data.getLast? = some ':' then some (String.mk l.label.data.dropLast) else none

/-! ## Specification vocabulary: functions -/

/-- The names of the binary integer functions. -/
def arithmeticNames : List String :=
  ["operator+", "operator-", "operator&", "operator|", "operator^"]

/-- The names of the relational functions that are lowered. -/
def relationalNames : List String :=
  ["operator==", "operator!=", "operator>=", "operator<", "operator>"]

/-- The names of the functions that `do_handle_expression` decodes. -/
def supportedNames : List String :=
  ["int", "operator~", "operator!", "operator+", "operator-", "operator&", "operator|",
   "operator^", "operator&&", "operator||", "operator^^", "operator==", "operator!=",
   "operator>=", "operator<", "operator>", "operator<="]

/-- Whether an expression is a function call. -/
def Expression.isFunctionCall : Expression → Bool
  | .function_call _ _ => true
  | _ => false

/-- The operands are references to bit registers whose DSM bits are `smBits`, in order. -/
def BitOperands (env : Env D) (dp : D) (operands : List Expression) (smBits : List Nat) :
    Prop :=
  List.Forall₂
    (fun op smBit => (∃ kind index, op = Expression.reference kind index)
      ∧ ∃ breg, breg2reg env op = .ok breg ∧ env.dp_getSmBit breg dp = .ok smBit)
    operands smBits

/-! ## Concrete inputs: structured control flow -/

/-- The calls that lower `if (R0 < 5) A(); elif (R0 == 7) B(); else C();` with label base
`L`, in order: `if_elif` for branch 0, `if_elif` for branch 1, `if_otherwise` for 2
branches, `if_end`; each body stands for one line `A`, `B` or `C`. -/
def demoIfElifElse (env : Env Unit) : Res (Codegen Unit) Unit :=
  (if_elif env (demoCodegen 0 [])
    (.function_call "operator<" [.reference .creg 0, .int_literal 5]) "L" 0).andThen
  fun _ cg1 =>
  (if_elif env (emit2 cg1 [] "A")
    (.function_call "operator==" [.reference .creg 0, .int_literal 7]) "L" 1).andThen
  fun _ cg2 =>
  .ok () (if_end env (emit2 (if_otherwise env (emit2 cg2 [] "B") "L" 2) [] "C") "L")

/-- The calls that lower `if (R0 == 7) A();`, an `if` without otherwise part, with label
base `L`, in order: `if_elif` for branch 0, `if_end`; the body stands for one line `A`. -/
def demoIf (env : Env Unit) : Res (Codegen Unit) Unit :=
  (if_elif env (demoCodegen 0 [])
    (.function_call "operator==" [.reference .creg 0, .int_literal 7]) "L" 0).andThen
  fun _ cg1 => .ok () (if_end env (emit2 cg1 [] "A") "L")

/-! ## Specification vocabulary: operands and registers -/

/-- The fields of a list of characters, separated by commas. -/
def splitComma : List Char → List (List Char)
  | [] => [[]]
  | c :: rest =>
    match splitComma rest with
    | [] => [[]]
    | f :: fs => if c = ',' then [] :: f :: fs else (c :: f) :: fs

/-- The comma-separated fields of an operand string. -/
def fieldsOf (s : String) : List String := (splitComma s.data).map String.mk

/-- The fields of the operand strings of the conditional jumps (`jlt`, `jge`) of a code
section, in order. -/
def jumpFields (code : List CodeLine) : List (List String) :=
  (code.filter fun l => decide (l.mnemonic ∈ ["jlt", "jge"])).map fun l =>
    fieldsOf (Text.render l.ops)

/-- The mnemonics of the instructions that write their last operand, a register. -/
def writingMnemonics : List String :=
  ["move", "add", "sub", "and", "or", "xor", "not", "move_sm"]

/-- The register that an instruction writes, reading `m a,b,Rd` as `Rd := a m b`: the
last operand of a `move`, `move_sm`, `not` or arithmetic instruction. -/
def registerWritten (instr : String × String) : Option String :=
  if instr.1 ∈ writingMnemonics then (fieldsOf instr.2).getLast? else none

/-- The registers that an instruction reads: the operands before the last one (the
destination or the jump target) that name a register. -/
def registersRead (instr : String × String) : List String :=
  (fieldsOf instr.2).dropLast.filter fun f => f.data.head? == some 'R'

/-- The pairs of consecutive instructions of which the second reads the register that the
first writes. -/
def hazardPairs : List (String × String) → List ((String × String) × (String × String))
  | [] => []
  | [_] => []
  | a :: b :: rest =>
    (match registerWritten a with
      | some r => if r ∈ registersRead b then [(a, b)] else []
      | none => []) ++ hazardPairs (b :: rest)

/-- The write hazards of a code section: labels and comments are no instructions. -/
def hazards (code : List CodeLine) : List ((String × String) × (String × String)) :=
  hazardPairs (instructionsOf code)

/-! ## Specification vocabulary: exceptions -/

/-- Every exception that the call `r` may end in satisfies `P`. -/
def FailsOnlyWith {σ α : Type} (P : Err → Prop) (r : Res σ α) : Prop :=
  ∀ e s, r = .fail e s → P e

/-- The bundle matrix has, for every instrument, as many groups as its control mode has
groups of control bits: the shape that `bundleStart` creates. -/
def BundleShape (env : Env D) (bundleInfo : List (List BundleInfo)) : Prop :=
  ∀ instrIdx ic row, env.instruments.get? instrIdx = some ic →
    bundleInfo.get? instrIdx = some row → row.length = ic.controlModeGroupCnt

/-- An exception other than the two that `calcGroupDigOut` raises on its control mode
group: "'control_bits' not defined or empty" and "uses N groups, but control mode only
defines M groups". -/
def NoGroupError (e : Err) : Prop :=
  e ≠ .controlBitsUndefined ∧ e ≠ .groupNotInControlMode

/-! ## Program framing -/

/-- Member `Codegen::emitProgramStart`. The header is streamed into `codeSection` without
`emit`; `codeSection << std::left` sets a flag and writes nothing. -/
def emitProgramStart (env : Env D) (cg : Codegen D) (progName : String) : Codegen D :=
  -- emit program header
  let cg1 := { cg with
    codeSection := cg.codeSection ++
      [.raw [.str "# Program: '", .str progName, .str "'"],
       .raw [.str "# CC_BACKEND_VERSION ", .str env.CC_BACKEND_VERSION_STRING],
       .raw [.str "# OPENQL_VERSION ", .str env.OPENQL_VERSION_STRING],
       .raw [.str "# Note:    generated by OpenQL Central Controller backend"],
       .raw [.str "#"]] }
  let cg2 := emit2 cg1 [.str ".CODE"] ""
  let cg3 := comment env cg2 [.str "# synchronous start and latency compensation"]
  let cg4 := emit4 cg3 [] "seq_bar" []
    [.str "# synchronization, delay set externally through SET_SEQ_BAR_CNT"]
  let cg5 := emit4 cg4 [] "seq_out" [.str "0x00000000,1"]
    [.str "# allows monitoring actual start time using trace unit"]
  let cg6 :=
    if !env.run_once then
      let c := comment env cg5 [.str "# start of main loop that runs indefinitely"]
      emit4 c [.str "__mainLoop:"] "" [] [.str "# "]
    else cg5
  -- initialize state
  emit4 cg6 [] "seq_state" [.str "0"] [.str "# clear Programmable Logic state"]

/-- Member `Codegen::emitProgramFinish`. -/
def emitProgramFinish (env : Env D) (cg : Codegen D) : Codegen D :=
  let cg1 := comment env cg [.str "# finish program"]
  let cg2 :=
    if env.run_once then emit2 cg1 [] "stop"
    else
      let c := emit4 cg1 [] "seq_wait" [.str "1"] []
      emit4 c [] "jmp" [.str "@__mainLoop"] [.str "# loop indefinitely"]
  emit2 cg2 [.str ".END"] ""

/-- The five lines of the program header. -/
def programHeader (env : Env D) (progName : String) : List CodeLine :=
  [.raw [.str "# Program: '", .str progName, .str "'"],
   .raw [.str "# CC_BACKEND_VERSION ", .str env.CC_BACKEND_VERSION_STRING],
   .raw [.str "# OPENQL_VERSION ", .str env.OPENQL_VERSION_STRING],
   .raw [.str "# Note:    generated by OpenQL Central Controller backend"],
   .raw [.str "#"]]

/-! ## The codeword map -/

/-- The statements that `DeadCodeEliminationPass::run_on_block` distinguishes: an
`if_else` with its branches (condition and body) and its optional otherwise block, a
loop with its body, and any other statement. -/
inductive Statement
  | other (name : String)
  | if_else (branches : List (Expression × List Statement))
      (otherwise : Option (List Statement))
  | loop (body : List Statement)

/-- In `run_on_block`: the loop `for (i = branch_idx + 1; i < branches.size(); i++)
branches.remove(i)` on the branches from index `i` on. `remove(i)` takes out the element
at index `i`, the next one moves to index `i`, and `i++` steps over it. -/
def removeSubsequent {α : Type} : List α → List α
  | [] => []
  | [_] => []
  | _ :: b :: rest => b :: removeSubsequent rest

/-- State after the loop over the branches of an `if_else`. -/
structure BranchLoop where
  /-- In the source: `if_else->branches` -/
  branches : List (Expression × List Statement)
  /-- Whether a branch with the condition `true` was found: `otherwise` was reset. -/
  foundTrue : Bool
  /-- The statements that were added to the block: the body of the branch with the
  condition `true`, if `branch_idx == 0`. -/
  added : Option (List Statement)

/-- What the body of the statement loop of `run_on_block` does with one statement: it
keeps the statement, possibly changed, or it takes it out of the block after having
added `stmts` behind it. -/
inductive Handled
  | keep (statement : Statement)
  | replace (stmts : List Statement)

mutual
/-- In `run_on_block`: the body of the loop over the statements, for one statement. An
`if_else` that is left without branches is replaced by the statements of its otherwise
block, if it has one; an `if_else` whose branch of index 0 has the condition `true` is
replaced by the statements of the body of that branch. -/
def run_on_statement (statement : Statement) : Handled :=
  match statement with
  | .if_else branches otherwise =>
    -- remove unreachable branches, and maybe the complete if_else statement
    let r := run_on_branches [] branches
    -- descend otherwise, if it was not reset
    let otherwise1 : Option (List Statement) :=
      if r.foundTrue then none
      else
        match otherwise with
        | none => none
        | some block => some (run_on_block block)
    if r.branches.isEmpty then .replace (otherwise1.getD [])
    else
      match r.added with
      | some body => .replace body
      | none => .keep (.if_else r.branches otherwise1)
  | .loop body => .keep (.loop (run_on_block body))
  | .other name => .keep (.other name)
termination_by structural statement

/-- Member `DeadCodeEliminationPass::run_on_block`, as a function on
`block->statements`: the loop over the statements from index `stmt_idx` on, given the
statements from that index on; it returns what stands from that index on after the loop.
`statements.add(st, ++stmt_idx)` inserts `st` at the incremented index and
`statements.remove(if_else_idx)` takes out the `if_else`: after an `if_else` at index `k`
was replaced by `n` statements the index stands at `k + n`, where the statement that
followed the `if_else` now is, and the `stmt_idx++` of the loop steps over it. -/
def run_on_block (stmts : List Statement) : List Statement :=
  match stmts with
  | [] => []
  | statement :: rest =>
    match run_on_statement statement with
    | .keep statement1 => statement1 :: run_on_block rest
    | .replace added =>
      added ++
        (match rest with
          | [] => []
          | next :: rest1 => next :: run_on_block rest1)
termination_by structural stmts

/-- In `run_on_block`: the loop over the branches of an `if_else`, given the branches
before `branch_idx` (`kept`) and those from `branch_idx` on (`todo`). -/
def run_on_branches (kept : List (Expression × List Statement))
    (todo : List (Expression × List Statement)) : BranchLoop :=
  match todo with
  | [] => { branches := kept, foundTrue := false, added := none }
  | (.bit_literal true, body) :: rest =>
    -- condition 'true': descend body, delete subsequent branches and otherwise
    let body1 := run_on_block body
    { branches := kept ++ [(.bit_literal true, body1)] ++ removeSubsequent rest
      foundTrue := true
      added := if kept.isEmpty then some body1 else none }
  | (.bit_literal false, _) :: rest =>
    -- condition 'false': remove the branch, same value for branch_idx
    run_on_branches kept rest
  | (condition, body) :: rest =>
    -- condition is not a bit literal: descend body
    run_on_branches (kept ++ [(condition, run_on_block body)]) rest
termination_by structural todo
end

/-- Text of a condition: a bit literal, a bit register, or anything else. -/
def describeCondition : Expression → String
  | .bit_literal true => "true"
  | .bit_literal false => "false"
  | .reference .breg index => "b" ++ toString index
  | _ => "?"

mutual
/-- Text of a statement. -/
def describeStatement : Statement → String
  | .other name => name ++ ";"
  | .if_else branches otherwise =>
    "if" ++ describeBranches branches
      ++ (match otherwise with
          | none => ""
          | some block => " else \x7b" ++ describeBlock block ++ " \x7d")
  | .loop body => "loop \x7b" ++ describeBlock body ++ " \x7d"

/-- Text of the statements of a block. -/
def describeBlock : List Statement → String
  | [] => ""
  | s :: rest => " " ++ describeStatement s ++ describeBlock rest

/-- Text of the branches of an `if_else`. -/
def describeBranches : List (Expression × List Statement) → String
  | [] => ""
  | (condition, body) :: rest =>
    " (" ++ describeCondition condition ++ ") \x7b" ++ describeBlock body ++ " \x7d"
      ++ (if rest.isEmpty then "" else " elif") ++ describeBranches rest
end

/-! ## Lemmas: digital words -/

theorem testBit_shl1ul (b k : Nat) : (shl1ul b).testBit k = decide (b = k ∧ k < 64) := by
  unfold shl1ul
  rw [Nat.one_shiftLeft, Nat.testBit_mod_two_pow, Nat.testBit_two_pow]
  by_cases h1 : k < 64 <;> by_cases h2 : b = k <;> simp [h1, h2]

theorem testBit_orDigital (w v k : Nat) :
    (orDigital w v).testBit k = (decide (k < DIGITAL_BITS) && (w.testBit k || v.testBit k)) := by
  unfold orDigital
  rw [Nat.testBit_mod_two_pow, Nat.testBit_or]

theorem orDigital_lt (w v : Nat) : orDigital w v < 2 ^ DIGITAL_BITS := by
  unfold orDigital
  exact Nat.mod_lt _ (by decide)

theorem and_two_pow_ne_zero (x k : Nat) : ((x &&& 2 ^ k) != 0) = x.testBit k := by
  by_cases h : x.testBit k = true
  · rw [h]
    have : (x &&& 2 ^ k).testBit k = true := by
      rw [Nat.testBit_and, h, Nat.testBit_two_pow_self]; rfl
    have hne : x &&& 2 ^ k ≠ 0 := by
      intro h0
      rw [h0] at this
      simp at this
    simpa using hne
  · have hf : x.testBit k = false := by simpa using h
    rw [hf]
    have : x &&& 2 ^ k = 0 := by
      apply Nat.eq_of_testBit_eq
      intro i
      rw [Nat.testBit_and, Nat.testBit_two_pow, Nat.zero_testBit]
      by_cases hik : k = i
      · subst hik; simp [hf]
      · simp [hik]
    simp [this]

theorem toNat_emod_testBit (c : Int) (k : Nat) (hk : k < 64) :
    ((c % 2 ^ 64).toNat).testBit k = c.testBit k := by
  cases c with
  | ofNat n =>
    have : ((Int.ofNat n) % 2 ^ 64).toNat = n % 2 ^ 64 := by
      have : (Int.ofNat n) % 2 ^ 64 = ((n % 2 ^ 64 : Nat) : Int) := by
        simp [Int.ofNat_eq_coe]
      rw [this]; rfl
    rw [this, Nat.testBit_mod_two_pow]
    simp [hk, Int.testBit]
  | negSucc n =>
    have h1 : (Int.negSucc n) % 2 ^ 64 = ((2 ^ 64 - (n % 2 ^ 64 + 1) : Nat) : Int) := by
      rw [Int.negSucc_emod _ (by norm_num)]
      have : n % 2 ^ 64 < 2 ^ 64 := Nat.mod_lt _ (by norm_num)
      omega
    rw [h1, Int.toNat_ofNat, Nat.testBit_two_pow_sub_succ (Nat.mod_lt _ (by norm_num))]
    have h2 : (n % 2 ^ 64).testBit k = n.testBit k := by
      rw [Nat.testBit_mod_two_pow]; simp [hk]
    rw [h2]
    simp [hk, Int.testBit]

theorem codewordBitSet_eq (c : Int) (k : Nat) (hk : k < 64) :
    codewordBitSet c k = c.testBit k := by
  unfold codewordBitSet shl1ul
  rw [Nat.one_shiftLeft, Nat.mod_eq_of_lt (Nat.pow_lt_pow_right (by norm_num) hk),
    and_two_pow_ne_zero, toNat_emod_testBit c k hk]

theorem testBit_lt_of_lt {w k : Nat} (hw : w < 2 ^ DIGITAL_BITS) (h : w.testBit k = true) :
    k < DIGITAL_BITS := by
  by_contra hk
  have hle : DIGITAL_BITS ≤ k := Nat.le_of_not_lt hk
  have : w < 2 ^ k := Nat.lt_of_lt_of_le hw (Nat.pow_le_pow_right (by norm_num) hle)
  rw [Nat.testBit_lt_two_pow this] at h
  exact Bool.noConfusion h

/-- Bits of the word built by the loop "convert codeword to digOut", run over the indices
`l`. -/
theorem testBit_packLoop (c : Int) (bits : List Nat) (l : List Nat) (acc k : Nat)
    (hacc : acc < 2 ^ DIGITAL_BITS) :
    (l.foldl
      (fun acc idx =>
        let codeWordBit := bits.length - 1 - idx
        if codewordBitSet c codeWordBit then orDigital acc (shl1ul (bits.getD idx 0))
        else acc) acc).testBit k
      = (acc.testBit k ||
          (decide (k < DIGITAL_BITS) &&
            l.any fun idx =>
              codewordBitSet c (bits.length - 1 - idx) && decide (bits.getD idx 0 = k))) := by
  induction l generalizing acc with
  | nil => simp
  | cons idx l ih =>
    rw [List.foldl_cons, List.any_cons]
    by_cases hp : codewordBitSet c (bits.length - 1 - idx) = true
    · simp only [hp, if_true]
      rw [ih _ (orDigital_lt _ _), testBit_orDigital, testBit_shl1ul]
      by_cases hk : k < DIGITAL_BITS
      · have hk64 : k < 64 := Nat.lt_of_lt_of_le hk (by decide)
        by_cases hb : bits.getD idx 0 = k <;> simp [hk, hk64, hb, Bool.or_assoc]
      · have : acc.testBit k = false := by
          cases h : acc.testBit k
          · rfl
          · exact absurd (testBit_lt_of_lt hacc h) hk
        simp [hk, this]
    · have hp2 : codewordBitSet c (bits.length - 1 - idx) = false := by simpa using hp
      simp only [hp2, Bool.false_and, Bool.false_or]
      exact ih _ hacc

theorem codewordToDigOut_lt (c : Int) (bits : List Nat) :
    codewordToDigOut c bits 0 < 2 ^ DIGITAL_BITS := by
  unfold codewordToDigOut
  generalize List.range bits.length = l
  have : ∀ acc, acc < 2 ^ DIGITAL_BITS →
      (l.foldl
        (fun acc idx =>
          let codeWordBit := bits.length - 1 - idx
          if codewordBitSet c codeWordBit then orDigital acc (shl1ul (bits.getD idx 0))
          else acc) acc) < 2 ^ DIGITAL_BITS := by
    induction l with
    | nil => intro acc h; simpa using h
    | cons idx l ih =>
      intro acc h
      rw [List.foldl_cons]
      apply ih
      dsimp only
      split
      · exact orDigital_lt _ _
      · exact h
  exact this 0 (by decide)

theorem testBit_codewordToDigOut (c : Int) (bits : List Nat) (k : Nat) :
    (codewordToDigOut c bits 0).testBit k
      = (decide (k < DIGITAL_BITS) &&
          (List.range bits.length).any fun idx =>
            codewordBitSet c (bits.length - 1 - idx) && decide (bits.getD idx 0 = k)) := by
  unfold codewordToDigOut
  rw [testBit_packLoop c bits _ 0 k (by decide)]
  simp

theorem nodup_length_le (bits : List Nat) (hnd : bits.Nodup)
    (hlt : ∀ b ∈ bits, b < DIGITAL_BITS) : bits.length ≤ DIGITAL_BITS := by
  have hsub : bits.toFinset ⊆ Finset.range DIGITAL_BITS := by
    intro b hb
    rw [List.mem_toFinset] at hb
    exact Finset.mem_range.mpr (hlt b hb)
  have := Finset.card_le_card hsub
  rwa [List.toFinset_card_of_nodup hnd, Finset.card_range] at this

theorem packing_of_nodup (c : Int) (bits : List Nat) (hnd : bits.Nodup)
    (hlt : ∀ b ∈ bits, b < DIGITAL_BITS) (idx b : Nat) (hb : bits.get? idx = some b) :
    (codewordToDigOut c bits 0).testBit b = c.testBit (bits.length - 1 - idx) := by
  have hidx : idx < bits.length := by
    rcases List.get?_eq_some.mp hb with ⟨h, _⟩
    exact h
  have hget : bits.getD idx 0 = b := by
    rw [List.getD_eq_getElem (d := 0) bits hidx]
    rcases List.get?_eq_some.mp hb with ⟨_, e⟩
    exact e
  have hb32 : b < DIGITAL_BITS := by
    apply hlt
    rcases List.get?_eq_some.mp hb with ⟨h, e⟩
    rw [← e]; exact List.get_mem _ _ _
  have hn : bits.length ≤ DIGITAL_BITS := nodup_length_le bits hnd hlt
  have h64 : bits.length - 1 - idx < 64 := by
    have : DIGITAL_BITS = 32 := rfl
    omega
  rw [testBit_codewordToDigOut, ← codewordBitSet_eq c _ h64]
  simp only [hb32, decide_True, Bool.true_and]
  cases hc : codewordBitSet c (bits.length - 1 - idx)
  · rw [List.any_eq_false]
    intro j hj
    have hjlt : j < bits.length := List.mem_range.mp hj
    by_cases hjb : bits.getD j 0 = b
    · have hji : j = idx := by
        have e1 : bits[j] = b := by rw [← List.getD_eq_getElem (d := 0) bits hjlt]; exact hjb
        have e2 : bits[idx] = b := by rw [← List.getD_eq_getElem (d := 0) bits hidx]; exact hget
        exact (hnd.getElem_inj_iff).mp (e1.trans e2.symm)
      subst hji
      simp [hc]
    · rw [decide_eq_false hjb, Bool.and_false]
      exact Bool.false_ne_true
  · rw [List.any_eq_true]
    exact ⟨idx, List.mem_range.mpr hidx, by rw [hc, hget]; simp⟩

theorem controlFragment_nil (group : Nat) (ic : InstrumentControl) (c : Int) :
    controlFragment group ic c [] = .error .controlBitsEmpty := rfl

theorem controlFragment_single (group : Nat) (ic : InstrumentControl) (c : Int) (b : Nat) :
    controlFragment group ic c [b]
      = .ok { groupDigOut := orDigital 0 (shl1ul b), comment := [] } := rfl

theorem controlFragment_multi (group : Nat) (ic : InstrumentControl) (c : Int)
    (bits : List Nat) (h : 1 < bits.length) :
    ∃ cmt, controlFragment group ic c bits
      = .ok { groupDigOut := codewordToDigOut c bits 0, comment := cmt } := by
  unfold controlFragment
  have h1 : ¬ bits.length = 1 := by omega
  simp only [h1, if_false, gt_iff_lt, h, if_true]
  exact ⟨_, rfl⟩

theorem controlFragment_lt {group : Nat} {ic : InstrumentControl} {c : Int} {bits : List Nat}
    {frag : CalcGroupDigOut} (h : controlFragment group ic c bits = .ok frag) :
    frag.groupDigOut < 2 ^ DIGITAL_BITS := by
  match bits with
  | [] => rw [controlFragment_nil] at h; exact Except.noConfusion h
  | [b] =>
    rw [controlFragment_single] at h
    injection h with h; subst h; exact orDigital_lt _ _
  | b0 :: b1 :: rest =>
    obtain ⟨cmt, e⟩ := controlFragment_multi group ic c (b0 :: b1 :: rest) (by simp)
    rw [e] at h
    injection h with h; subst h; exact codewordToDigOut_lt _ _

theorem controlFragment_testBit_mem {group : Nat} {ic : InstrumentControl} {c : Int}
    {bits : List Nat} {frag : CalcGroupDigOut} (h : controlFragment group ic c bits = .ok frag)
    {k : Nat} (hk : frag.groupDigOut.testBit k = true) : k ∈ bits := by
  match bits with
  | [] => rw [controlFragment_nil] at h; exact Except.noConfusion h
  | [b] =>
    rw [controlFragment_single] at h
    injection h with h; subst h
    simp only at hk
    rw [testBit_orDigital, testBit_shl1ul] at hk
    simp at hk
    simp [hk.2.1]
  | b0 :: b1 :: rest =>
    obtain ⟨cmt, e⟩ := controlFragment_multi group ic c (b0 :: b1 :: rest) (by simp)
    rw [e] at h
    injection h with h; subst h
    simp only at hk
    rw [testBit_codewordToDigOut] at hk
    simp only [Bool.and_eq_true, List.any_eq_true, decide_eq_true_eq] at hk
    obtain ⟨_, j, hj, _, hjk⟩ := hk
    rw [← hjk, List.getD_eq_getElem (d := 0) _ (List.mem_range.mp hj)]
    exact List.getElem_mem _

theorem addTrigger_nil (group nrGroups w : Nat) : addTrigger group nrGroups [] w = .ok w := rfl

theorem addTrigger_one (group nrGroups w b0 : Nat) :
    addTrigger group nrGroups [b0] w = .ok (orDigital w (shl1ul b0)) := rfl

theorem addTrigger_two (group nrGroups w b0 b1 : Nat) :
    addTrigger group nrGroups [b0, b1] w
      = .ok (orDigital (orDigital w (shl1ul b0)) (shl1ul b1)) := rfl

theorem addTrigger_many (group nrGroups w : Nat) (trig : List Nat) (h : 2 < trig.length) :
    addTrigger group nrGroups trig w =
      if trig.length = nrGroups then
        match trig.get? group with
        | some b => .ok (orDigital w (shl1ul b))
        | none => .error .outOfRange
      else .error .triggerBits := by
  unfold addTrigger
  have h0 : ¬ trig.length = 0 := by omega
  have h1 : ¬ trig.length = 1 := by omega
  have h2 : ¬ trig.length = 2 := by omega
  simp only [h0, h1, h2, if_false]

theorem addTrigger_testBit {group nrGroups : Nat} {trig : List Nat} {w r : Nat}
    (h : addTrigger group nrGroups trig w = .ok r) {k : Nat}
    (hk : r.testBit k = true) : w.testBit k = true ∨ k ∈ trig := by
  match trig with
  | [] => rw [addTrigger_nil] at h; injection h with h; subst h; exact Or.inl hk
  | [b0] =>
    rw [addTrigger_one] at h; injection h with h; subst h
    rw [testBit_orDigital, testBit_shl1ul] at hk
    simp at hk
    rcases hk.2 with h | h
    · exact Or.inl h
    · exact Or.inr (by simp [h.1])
  | [b0, b1] =>
    rw [addTrigger_two] at h; injection h with h; subst h
    rw [testBit_orDigital, testBit_orDigital, testBit_shl1ul, testBit_shl1ul] at hk
    simp at hk
    rcases hk.2 with ⟨_, h | h⟩ | h
    · exact Or.inl h
    · exact Or.inr (by simp [h.1])
    · exact Or.inr (by simp [h.1])
  | b0 :: b1 :: b2 :: rest =>
    rw [addTrigger_many _ _ _ _ (by simp)] at h
    split at h
    · split at h
      · rename_i b hb
        injection h with h; subst h
        rw [testBit_orDigital, testBit_shl1ul] at hk
        simp at hk
        rcases hk.2 with h | h
        · exact Or.inl h
        · right
          rw [← h.1]
          exact List.get?_mem hb
      · exact Except.noConfusion h
    · exact Except.noConfusion h

theorem calcGroupDigOut_ok {ov : Bool} {i group nrGroups : Nat} {ic : InstrumentControl}
    {c : Int} {r : CalcGroupDigOut} (h : calcGroupDigOut ov i group nrGroups ic c = .ok r) :
    ∃ cmg frag, selectControlModeGroup ov group ic = .ok cmg
      ∧ controlFragment group ic c (ic.controlMode.control_bits.getD cmg []) = .ok frag
      ∧ addTrigger group nrGroups ic.controlMode.trigger_bits frag.groupDigOut
          = .ok r.groupDigOut
      ∧ r.comment = frag.comment := by
  unfold calcGroupDigOut at h
  split at h
  · exact Except.noConfusion h
  · rename_i cmg hsel
    simp only at h
    split at h
    · exact Except.noConfusion h
    · rename_i frag hfrag
      split at h
      · exact Except.noConfusion h
      · rename_i digOut htrig
        injection h with h
        subst h
        exact ⟨cmg, frag, hsel, hfrag, htrig, rfl⟩

theorem calcGroupDigOut_lt {ov : Bool} {i group nrGroups : Nat} {ic : InstrumentControl}
    {c : Int} {r : CalcGroupDigOut} (h : calcGroupDigOut ov i group nrGroups ic c = .ok r) :
    r.groupDigOut < 2 ^ DIGITAL_BITS := by
  obtain ⟨cmg, frag, _, hfrag, htrig, _⟩ := calcGroupDigOut_ok h
  have hf := controlFragment_lt hfrag
  generalize ic.controlMode.trigger_bits = trig at htrig
  match trig with
  | [] => rw [addTrigger_nil] at htrig; injection htrig with e; rw [← e]; exact hf
  | [b0] => rw [addTrigger_one] at htrig; injection htrig with e; rw [← e]; exact orDigital_lt _ _
  | [b0, b1] =>
    rw [addTrigger_two] at htrig; injection htrig with e; rw [← e]; exact orDigital_lt _ _
  | b0 :: b1 :: b2 :: rest =>
    rw [addTrigger_many _ _ _ _ (by simp)] at htrig
    split at htrig
    · split at htrig
      · injection htrig with e; rw [← e]; exact orDigital_lt _ _
      · exact Except.noConfusion htrig
    · exact Except.noConfusion htrig

/-- No stray bits in `calcGroupDigOut`. -/
theorem calcGroupDigOut_testBit_mem {ov : Bool} {i group nrGroups : Nat}
    {ic : InstrumentControl} {c : Int} {r : CalcGroupDigOut}
    (h : calcGroupDigOut ov i group nrGroups ic c = .ok r) :
    ∃ cmg, selectControlModeGroup ov group ic = .ok cmg ∧
      ∀ k, r.groupDigOut.testBit k = true →
        k ∈ ic.controlMode.control_bits.getD cmg [] ∨ k ∈ ic.controlMode.trigger_bits := by
  obtain ⟨cmg, frag, hsel, hfrag, htrig, _⟩ := calcGroupDigOut_ok h
  refine ⟨cmg, hsel, fun k hk => ?_⟩
  rcases addTrigger_testBit htrig hk with h1 | h1
  · exact Or.inl (controlFragment_testBit_mem hfrag h1)
  · exact Or.inr h1

/-! ## Lemmas: emission and cursors -/

theorem Res.andThen_eq_ok {σ α β : Type} {r : Res σ α} {f : α → σ → Res σ β} {b : β} {s : σ}
    (h : r.andThen f = .ok b s) : ∃ a s1, r = .ok a s1 ∧ f a s1 = .ok b s := by
  cases r with
  | ok a s1 => exact ⟨a, s1, rfl, h⟩
  | fail e s1 => exact Res.noConfusion h

theorem dpCall_eq_ok {α : Type} {f : D → Except ExtErr (α × D)} {cg cg1 : Codegen D} {a : α}
    (h : dpCall f cg = .ok a cg1) : ∃ dp, cg1 = { cg with dp := dp } := by
  unfold dpCall at h
  split at h
  · injection h with _ h2
    exact ⟨_, h2.symm⟩
  · exact Res.noConfusion h

theorem pureCall_eq_ok {α : Type} {r : Except ExtErr α} {cg cg1 : Codegen D} {a : α}
    (h : pureCall r cg = .ok a cg1) : cg1 = cg := by
  unfold pureCall at h
  split at h
  · injection h with _ h2
    exact h2.symm
  · exact Res.noConfusion h

theorem comment_codeSection (env : Env D) (cg : Codegen D) (c : Text) :
    ∃ cmts, (comment env cg c).codeSection = cg.codeSection ++ cmts
      ∧ (∀ l ∈ cmts, ∃ t, l = CodeLine.short t "")
      ∧ (env.verbose = false → cmts = []) := by
  unfold comment
  by_cases hv : env.verbose = true
  · rw [if_pos hv]
    refine ⟨[.short _ ""], rfl, ?_, ?_⟩
    · intro l hl
      rw [List.mem_singleton] at hl
      exact ⟨_, hl⟩
    · intro hf
      rw [hf] at hv
      exact Bool.noConfusion hv
  · rw [if_neg hv]
    exact ⟨[], (List.append_nil _).symm, fun l hl => absurd hl (List.not_mem_nil l), fun _ => rfl⟩

theorem comment_lastEndCycle (env : Env D) (cg : Codegen D) (c : Text) :
    (comment env cg c).lastEndCycle = cg.lastEndCycle := by
  unfold comment emit2
  split <;> rfl

theorem comment_bundleInfo (env : Env D) (cg : Codegen D) (c : Text) :
    (comment env cg c).bundleInfo = cg.bundleInfo := by
  unfold comment emit2
  split <;> rfl

theorem comment_dp (env : Env D) (cg : Codegen D) (c : Text) :
    (comment env cg c).dp = cg.dp := by
  unfold comment emit2
  split <;> rfl

theorem totalDuration_append (a b : List CodeLine) :
    totalDuration (a ++ b) = totalDuration a + totalDuration b := by
  unfold totalDuration
  rw [List.map_append, List.sum_append]

theorem totalDuration_comments {cmts : List CodeLine}
    (h : ∀ l ∈ cmts, ∃ t, l = CodeLine.short t "") : totalDuration cmts = 0 := by
  induction cmts with
  | nil => rfl
  | cons l ls ih =>
    obtain ⟨t, e⟩ := h l (List.mem_cons_self _ _)
    have hls := ih fun l1 hl1 => h l1 (List.mem_cons_of_mem _ hl1)
    unfold totalDuration at hls ⊢
    rw [List.map_cons, List.sum_cons, hls, e]
    rfl

/-! ## Lemmas: the arithmetic of cycle counts -/

theorem uintAdd_lt (a b : Nat) : uintAdd a b < 2 ^ 64 := by
  unfold uintAdd
  omega

theorem uintSub_lt (a b : Nat) : uintSub a b < 2 ^ 64 := by
  unfold uintSub
  omega

theorem uintAdd_of_lt {a b : Nat} (h : a + b < 2 ^ 64) : uintAdd a b = a + b := by
  unfold uintAdd
  omega

theorem uintSub_of_le {a b : Nat} (hb : b ≤ a) (ha : a < 2 ^ 64) : uintSub a b = a - b := by
  unfold uintSub
  omega

theorem uintSub_of_lt {a b : Nat} (hab : a < b) (hb : b < 2 ^ 64) :
    uintSub a b = 2 ^ 64 - (b - a) := by
  unfold uintSub
  omega

theorem uintSub_add_mod (a b : Nat) : (b + uintSub a b) % 2 ^ 64 = a % 2 ^ 64 := by
  unfold uintSub
  omega

theorem uintSub_eq_zero {a b : Nat} (h : uintSub a b = 0) : a % 2 ^ 64 = b % 2 ^ 64 := by
  unfold uintSub at h
  omega

theorem intOfUInt_of_lt {u : Nat} (h : u < 2 ^ 63) : intOfUInt u = (u : Int) := by
  unfold intOfUInt
  have : u % 2 ^ 64 = u := by omega
  rw [this, if_pos h]

theorem intOfUInt_neg {u : Nat} (h1 : 2 ^ 63 ≤ u) (h2 : u < 2 ^ 64) : intOfUInt u < 0 := by
  unfold intOfUInt
  have : u % 2 ^ 64 = u := by omega
  rw [this, if_neg (by omega)]
  omega

/-- The pad instruction of `emitPadToCycle`, by the difference of the two cycle counts
modulo `2^64`. -/
theorem emitPadToCycle_eq (cg : Codegen D) (instrIdx startCycle : Nat) (slot : Int)
    (instrumentName : String) :
    emitPadToCycle cg instrIdx startCycle slot instrumentName =
      if 2 ^ 63 ≤ uintSub startCycle (cg.lastEndCycle instrIdx) then .fail .timeTravel cg
      else if 0 < uintSub startCycle (cg.lastEndCycle instrIdx) then
        .ok ()
          { cg with
            codeSection := cg.codeSection ++
              [.line (.slot slot) "seq_wait"
                [.int ((uintSub startCycle (cg.lastEndCycle instrIdx) : Nat) : Int)]
                [.str "# cycle ", .nat (cg.lastEndCycle instrIdx), .str "-", .nat startCycle,
                 .str ": padding on '", .str instrumentName, .str "'"]]
            lastEndCycle := Function.update cg.lastEndCycle instrIdx startCycle }
      else .ok () { cg with lastEndCycle := Function.update cg.lastEndCycle instrIdx startCycle } := by
  unfold emitPadToCycle
  have hlt := uintSub_lt startCycle (cg.lastEndCycle instrIdx)
  by_cases h1 : 2 ^ 63 ≤ uintSub startCycle (cg.lastEndCycle instrIdx)
  · have := intOfUInt_neg h1 hlt
    simp only [this, h1, if_true]
  · have e := intOfUInt_of_lt (Nat.lt_of_not_le h1)
    by_cases h2 : 0 < uintSub startCycle (cg.lastEndCycle instrIdx)
    · have n1 : ¬ intOfUInt (uintSub startCycle (cg.lastEndCycle instrIdx)) < 0 := by omega
      have n2 : intOfUInt (uintSub startCycle (cg.lastEndCycle instrIdx)) > 0 := by omega
      simp only [n1, n2, h1, h2, if_true, if_false]
      rw [e]
      rfl
    · have n1 : ¬ intOfUInt (uintSub startCycle (cg.lastEndCycle instrIdx)) < 0 := by omega
      have n2 : ¬ intOfUInt (uintSub startCycle (cg.lastEndCycle instrIdx)) > 0 := by omega
      simp only [n1, n2, h1, h2, if_false]

theorem Res.eq_ok_of_err?_none {σ : Type} {r : Res σ Unit} (h : r.err? = none) :
    r = .ok () r.st := by
  cases r with
  | ok a s => rfl
  | fail e s => exact Option.noConfusion h

theorem outputMnemonics_append (a b : List CodeLine) :
    outputMnemonics (a ++ b) = outputMnemonics a ++ outputMnemonics b := by
  unfold outputMnemonics
  rw [List.filter_append, List.map_append]

theorem EmittedFor.emitted_refl (cg : Codegen D) (instrIdx : Nat) (slot : Int) :
    EmittedFor cg cg instrIdx slot [] :=
  ⟨(List.append_nil _).symm, rfl, fun _ _ => rfl, fun l hl => absurd hl (List.not_mem_nil l)⟩

theorem EmittedFor.emitted_trans {cg cg1 cg2 : Codegen D} {instrIdx : Nat} {slot : Int}
    {s1 s2 : List CodeLine}
    (h1 : EmittedFor cg cg1 instrIdx slot s1) (h2 : EmittedFor cg1 cg2 instrIdx slot s2) :
    EmittedFor cg cg2 instrIdx slot (s1 ++ s2) := by
  obtain ⟨hc1, hl1, ho1, hs1⟩ := h1
  obtain ⟨hc2, hl2, ho2, hs2⟩ := h2
  refine ⟨?_, ?_, ?_, ?_⟩
  · rw [hc2, hc1, List.append_assoc]
  · rw [totalDuration_append]
    omega
  · intro j hj
    rw [ho2 j hj, ho1 j hj]
  · intro l hl
    rcases List.mem_append.mp hl with h | h
    · exact hs1 l h
    · exact hs2 l h

theorem EmittedFor.conserved {cg cg1 : Codegen D} {instrIdx : Nat} {slot : Int}
    {seg : List CodeLine} (h : EmittedFor cg cg1 instrIdx slot seg)
    (hlt : cg1.lastEndCycle instrIdx < 2 ^ 64) :
    CursorConserved cg cg1 instrIdx slot := by
  obtain ⟨hc, hl, ho, hs⟩ := h
  refine ⟨seg, hc, hl, fun hsum => by omega, ho, fun l hl => ?_⟩
  rcases hs l hl with h | ⟨t, e⟩
  · exact Or.inr h
  · left; rw [e]; rfl

theorem comment_emitted (env : Env D) (cg : Codegen D) (c : Text) (instrIdx : Nat)
    (slot : Int) :
    ∃ seg, EmittedFor cg (comment env cg c) instrIdx slot seg ∧ outputMnemonics seg = []
      ∧ (∀ l ∈ seg, ∃ t, l = CodeLine.short t "") := by
  obtain ⟨cmts, hc, hshort, _⟩ := comment_codeSection env cg c
  refine ⟨cmts, ⟨hc, ?_, ?_, ?_⟩, ?_, hshort⟩
  · rw [comment_lastEndCycle, totalDuration_comments hshort, Nat.add_zero]
  · intro j _
    rw [comment_lastEndCycle]
  · intro l hl
    exact Or.inr (hshort l hl)
  · unfold outputMnemonics
    rw [List.map_eq_nil_iff, List.filter_eq_nil_iff]
    intro l hl
    obtain ⟨t, e⟩ := hshort l hl
    rw [e]
    simp [CodeLine.isOutput, CodeLine.mnemonic]

theorem EmittedFor.emitted_of_dp (cg : Codegen D) (dp : D) (instrIdx : Nat) (slot : Int) :
    EmittedFor cg { cg with dp := dp } instrIdx slot [] :=
  ⟨(List.append_nil _).symm, rfl, fun _ _ => rfl, fun l hl => absurd hl (List.not_mem_nil l)⟩

theorem emitPadToCycle_emitted {cg cg1 : Codegen D} {instrIdx startCycle : Nat} {slot : Int}
    {instrumentName : String}
    (h : emitPadToCycle cg instrIdx startCycle slot instrumentName = .ok () cg1) :
    ∃ seg, EmittedFor cg cg1 instrIdx slot seg ∧ outputMnemonics seg = []
      ∧ cg1.lastEndCycle instrIdx = startCycle ∧ cg1.dp = cg.dp
      ∧ cg1.bundleInfo = cg.bundleInfo := by
  rw [emitPadToCycle_eq] at h
  split at h
  · exact Res.noConfusion h
  · rename_i h1
    split at h
    · rename_i h2
      injection h with _ h
      subst h
      refine ⟨_, ⟨rfl, ?_, ?_, ?_⟩, rfl, ?_, rfl, rfl⟩
      · show Function.update cg.lastEndCycle instrIdx startCycle instrIdx % 2 ^ 64 = _
        rw [Function.update_same]
        have := uintSub_add_mod startCycle (cg.lastEndCycle instrIdx)
        unfold totalDuration
        simp [CodeLine.duration]
        omega
      · intro j hj
        show Function.update cg.lastEndCycle instrIdx startCycle j = _
        rw [Function.update_noteq hj]
      · intro l hl
        rw [List.mem_singleton] at hl
        left; rw [hl]; rfl
      · show Function.update cg.lastEndCycle instrIdx startCycle instrIdx = _
        rw [Function.update_same]
    · rename_i h2
      injection h with _ h
      subst h
      have heq := uintSub_eq_zero (Nat.eq_zero_of_not_pos h2)
      refine ⟨[], ⟨(List.append_nil _).symm, ?_, ?_, ?_⟩, rfl, ?_, rfl, rfl⟩
      · show Function.update cg.lastEndCycle instrIdx startCycle instrIdx % 2 ^ 64 = _
        rw [Function.update_same, heq]
        rfl
      · intro j hj
        show Function.update cg.lastEndCycle instrIdx startCycle j = _
        rw [Function.update_noteq hj]
      · intro l hl
        exact absurd hl (List.not_mem_nil l)
      · show Function.update cg.lastEndCycle instrIdx startCycle instrIdx = _
        rw [Function.update_same]

/-- One timed instruction on the slot, followed by the matching update of the cursor. -/
theorem EmittedFor.of_emitSlot (cg : Codegen D) (instrIdx : Nat) (slot : Int)
    (instr : String) (ops cmt : Text) (d : Nat)
    (hd : (CodeLine.line (.slot slot) instr ops cmt).duration = d) :
    EmittedFor cg
      { emitSlot cg slot instr ops cmt with
        lastEndCycle := Function.update (emitSlot cg slot instr ops cmt).lastEndCycle instrIdx
          (uintAdd (cg.lastEndCycle instrIdx) d) } instrIdx slot
      [.line (.slot slot) instr ops cmt] := by
  refine ⟨rfl, ?_, ?_, ?_⟩
  · show Function.update (emitSlot cg slot instr ops cmt).lastEndCycle instrIdx
        (uintAdd (cg.lastEndCycle instrIdx) d) instrIdx % 2 ^ 64 = _
    rw [Function.update_same]
    unfold totalDuration uintAdd
    rw [List.map_singleton, List.sum_singleton, hd, Nat.mod_mod]
  · intro j hj
    show Function.update _ instrIdx _ j = _
    rw [Function.update_noteq hj]
    rfl
  · intro l hl
    rw [List.mem_singleton] at hl
    left; rw [hl]; rfl

theorem emitFeedback_emitted {env : Env D} {cg cg1 : Codegen D} {feedbackMap : FeedbackMap}
    {instrIdx startCycle : Nat} {slot : Int} {instrumentName : String}
    (h : emitFeedback env cg feedbackMap instrIdx startCycle slot instrumentName = .ok () cg1) :
    ∃ seg, EmittedFor cg cg1 instrIdx slot seg ∧ outputMnemonics seg = [] := by
  unfold emitFeedback at h
  obtain ⟨_, cga, hpad, hrest⟩ := Res.andThen_eq_ok h
  clear h
  have hca : ∃ seg, EmittedFor cg cga instrIdx slot seg ∧ outputMnemonics seg = [] := by
    split at hpad
    · obtain ⟨seg, h1, h2, _⟩ := emitPadToCycle_emitted hpad
      exact ⟨seg, h1, h2⟩
    · injection hpad with _ e
      subst e
      exact ⟨[], EmittedFor.emitted_refl _ _ _, rfl⟩
  obtain ⟨s1, hs1, ho1⟩ := hca
  split at hrest
  · obtain ⟨mux, cgb, h1, hr1⟩ := Res.andThen_eq_ok hrest
    obtain ⟨_, cgc, h2, hr2⟩ := Res.andThen_eq_ok hr1
    obtain ⟨sizeTag, cgd, h3, hr3⟩ := Res.andThen_eq_ok hr2
    obtain ⟨smAddr, cge, h4, hr4⟩ := Res.andThen_eq_ok hr3
    clear hrest hr1 hr2 hr3
    obtain ⟨dp1, e1⟩ := dpCall_eq_ok h1
    obtain ⟨dp2, e2⟩ := dpCall_eq_ok h2
    have e3 := pureCall_eq_ok h3
    have e4 := pureCall_eq_ok h4
    subst e1 e2 e3 e4
    injection hr4 with _ e
    subst e
    refine ⟨_, hs1.emitted_trans ((EmittedFor.emitted_of_dp _ dp2 _ _).emitted_trans
      (EmittedFor.of_emitSlot _ instrIdx slot _ _ _ 1 rfl)), ?_⟩
    rw [outputMnemonics_append, ho1]
    rfl
  · injection hrest with _ e
    subst e
    refine ⟨_, hs1.emitted_trans (EmittedFor.of_emitSlot _ instrIdx slot _ _ _ 1 rfl), ?_⟩
    rw [outputMnemonics_append, ho1]
    rfl

theorem emitOutput_emitted {env : Env D} {cg cg1 : Codegen D} {condGateMap : CondGateMap}
    {digOut instrMaxDurationInCycles instrIdx startCycle : Nat} {slot : Int}
    {instrumentName : String}
    (h : emitOutput env cg condGateMap digOut instrMaxDurationInCycles instrIdx startCycle slot
      instrumentName = .ok () cg1) :
    ∃ seg, EmittedFor cg cg1 instrIdx slot seg
      ∧ outputMnemonics seg = [if condGateMap.isEmpty then "seq_out" else "seq_out_sm"] := by
  unfold emitOutput at h
  obtain ⟨_, cga, hpad, hr1⟩ := Res.andThen_eq_ok h
  obtain ⟨_, cgb, hout, hr2⟩ := Res.andThen_eq_ok hr1
  clear h hr1
  injection hr2 with _ e
  subst e
  obtain ⟨s0, hs0, ho0, _⟩ := comment_emitted env cg
    [.str "  # slot=", .int slot, .str ", instrument='", .str instrumentName, .str "'",
     .str ": lastEndCycle=", .nat (cg.lastEndCycle instrIdx),
     .str ", startCycle=", .nat startCycle,
     .str ", instrMaxDurationInCycles=", .nat instrMaxDurationInCycles] instrIdx slot
  obtain ⟨s1, hs1, ho1, hstart, _, _⟩ := emitPadToCycle_emitted hpad
  by_cases hc : condGateMap.isEmpty = true
  · rw [if_pos hc] at hout
    injection hout with _ e
    subst e
    have := EmittedFor.of_emitSlot cga instrIdx slot "seq_out"
      [.str "0x", .hex8 digOut, .str ",", .nat instrMaxDurationInCycles]
      [.str "# cycle ", .nat startCycle, .str "-",
         .nat (uintAdd startCycle instrMaxDurationInCycles),
         .str ": code word/mask on '", .str instrumentName, .str "'"]
      instrMaxDurationInCycles rfl
    rw [hstart] at this
    refine ⟨_, hs0.emitted_trans (hs1.emitted_trans this), ?_⟩
    rw [outputMnemonics_append, outputMnemonics_append, ho0, ho1, if_pos hc]
    rfl
  · rw [if_neg hc] at hout
    obtain ⟨pl, cgc, h1, hq1⟩ := Res.andThen_eq_ok hout
    obtain ⟨smAddr, cgd, h2, hq2⟩ := Res.andThen_eq_ok hq1
    clear hout hq1
    obtain ⟨dp1, e1⟩ := dpCall_eq_ok h1
    obtain ⟨dp2, e2⟩ := dpCall_eq_ok h2
    subst e1 e2
    injection hq2 with _ e
    subst e
    have := EmittedFor.of_emitSlot { cga with dp := dp2 } instrIdx slot "seq_out_sm"
      [.str "S", .nat smAddr, .str ",", .nat pl, .str ",", .nat instrMaxDurationInCycles]
      [.str "# cycle ", .nat startCycle, .str "-",
         .nat (uintAdd startCycle instrMaxDurationInCycles),
         .str ": conditional code word/mask on '", .str instrumentName, .str "'"]
      instrMaxDurationInCycles rfl
    rw [show ({ cga with dp := dp2 } : Codegen D).lastEndCycle instrIdx = startCycle
      from hstart] at this
    refine ⟨_, hs0.emitted_trans (hs1.emitted_trans ((EmittedFor.emitted_of_dp cga dp2 _ _).emitted_trans this)), ?_⟩
    rw [outputMnemonics_append, outputMnemonics_append, ho0, ho1, if_neg hc]
    rfl

/-! ## Lemmas: the collect phase and the emit phase -/

theorem CommentsOnly.only_refl (env : Env D) (cg : Codegen D) : CommentsOnly env cg cg :=
  ⟨⟨[], (List.append_nil _).symm, fun l hl => absurd hl (List.not_mem_nil l), fun _ => rfl⟩,
    rfl, rfl⟩

theorem CommentsOnly.only_trans {env : Env D} {cg cg1 cg2 : Codegen D}
    (h1 : CommentsOnly env cg cg1) (h2 : CommentsOnly env cg1 cg2) :
    CommentsOnly env cg cg2 := by
  obtain ⟨⟨a1, hc1, hs1, hv1⟩, hl1, hb1⟩ := h1
  obtain ⟨⟨a2, hc2, hs2, hv2⟩, hl2, hb2⟩ := h2
  refine ⟨⟨a1 ++ a2, ?_, ?_, ?_⟩, hl2.trans hl1, hb2.trans hb1⟩
  · rw [hc2, hc1, List.append_assoc]
  · intro l hl
    rcases List.mem_append.mp hl with h | h
    · exact hs1 l h
    · exact hs2 l h
  · intro hv
    rw [hv1 hv, hv2 hv]
    rfl

theorem CommentsOnly.of_comment (env : Env D) (cg : Codegen D) (c : Text) :
    CommentsOnly env cg (comment env cg c) :=
  ⟨comment_codeSection env cg c, comment_lastEndCycle env cg c, comment_bundleInfo env cg c⟩

theorem CommentsOnly.only_of_dp (env : Env D) (cg : Codegen D) (dp : D) :
    CommentsOnly env cg { cg with dp := dp } :=
  ⟨⟨[], (List.append_nil _).symm, fun l hl => absurd hl (List.not_mem_nil l), fun _ => rfl⟩,
    rfl, rfl⟩

theorem CommentsOnly.of_dpCall {α : Type} {env : Env D} {f : D → Except ExtErr (α × D)}
    {cg cg1 : Codegen D} {a : α} (h : dpCall f cg = .ok a cg1) : CommentsOnly env cg cg1 := by
  obtain ⟨dp, e⟩ := dpCall_eq_ok h
  subst e
  exact CommentsOnly.only_of_dp env cg dp

/-- What a successful run of the body of the group loop of `collectCodeGenInfo` does. -/
theorem collectGroup_ok {env : Env D} {instrIdx nrGroups : Nat} {ic : InstrumentControl}
    {acc acc1 : CodeGenInfo} {cg cg1 : Codegen D} {group : Nat}
    (h : collectGroup env instrIdx nrGroups ic acc cg group = .ok acc1 cg1) :
    ∃ bi, cellAt cg.bundleInfo instrIdx group = some bi
      ∧ CommentsOnly env cg cg1
      ∧ acc1.slot = acc.slot ∧ acc1.instrumentName = acc.instrumentName
      ∧ (bi.signalValue = "" →
          acc1.digOut = acc.digOut
          ∧ acc1.instrMaxDurationInCycles = acc.instrMaxDurationInCycles
          ∧ acc1.instrHasOutput = acc.instrHasOutput
          ∧ acc1.condGateMap = acc.condGateMap)
      ∧ (bi.signalValue ≠ "" →
          ∃ gdo, calcGroupDigOut env.OPT_VECTOR_MODE instrIdx group nrGroups ic
              bi.staticCodewordOverride = .ok gdo
            ∧ acc1.digOut = acc.digOut ||| gdo.groupDigOut
            ∧ acc1.instrMaxDurationInCycles
                = max acc.instrMaxDurationInCycles bi.durationInCycles
            ∧ acc1.instrHasOutput = true
            ∧ acc1.condGateMap =
                if bi.condition = .ALWAYS ∨ ic.ii.forceCondGatesOn = true then acc.condGateMap
                else emplace acc.condGateMap group
                  { condition := bi.condition, cond_operands := bi.cond_operands,
                    groupDigOut := gdo.groupDigOut })
      ∧ (bi.isMeasFeedback = false → acc1.feedbackMap = acc.feedbackMap)
      ∧ (bi.isMeasFeedback = true → ∃ fi, acc1.feedbackMap = emplace acc.feedbackMap group fi) := by
  unfold collectGroup at h
  split at h
  · exact Res.noConfusion h
  · rename_i bi hcell
    refine ⟨bi, hcell, ?_⟩
    obtain ⟨info4, cg2, hout, h⟩ := Res.andThen_eq_ok h
    -- the output part
    have hout2 : CommentsOnly env cg cg2
        ∧ info4.slot = acc.slot ∧ info4.instrumentName = acc.instrumentName
        ∧ info4.feedbackMap = acc.feedbackMap
        ∧ (bi.signalValue = "" →
            info4.digOut = acc.digOut
            ∧ info4.instrMaxDurationInCycles = acc.instrMaxDurationInCycles
            ∧ info4.instrHasOutput = acc.instrHasOutput
            ∧ info4.condGateMap = acc.condGateMap)
        ∧ (bi.signalValue ≠ "" →
            ∃ gdo, calcGroupDigOut env.OPT_VECTOR_MODE instrIdx group nrGroups ic
                bi.staticCodewordOverride = .ok gdo
              ∧ info4.digOut = acc.digOut ||| gdo.groupDigOut
              ∧ info4.instrMaxDurationInCycles
                  = max acc.instrMaxDurationInCycles bi.durationInCycles
              ∧ info4.instrHasOutput = true
              ∧ info4.condGateMap =
                  if bi.condition = .ALWAYS ∨ ic.ii.forceCondGatesOn = true then
                    acc.condGateMap
                  else emplace acc.condGateMap group
                    { condition := bi.condition, cond_operands := bi.cond_operands,
                      groupDigOut := gdo.groupDigOut }) := by
      by_cases hsv : bi.signalValue = ""
      · rw [if_neg (not_not.mpr hsv)] at hout
        injection hout with e1 e2
        subst e1 e2
        exact ⟨CommentsOnly.only_refl env cg, rfl, rfl, rfl, fun _ => ⟨rfl, rfl, rfl, rfl⟩,
          fun hne => absurd hsv hne⟩
      · rw [if_pos hsv] at hout
        simp only at hout
        split at hout
        · exact Res.noConfusion hout
        · rename_i gdo hgdo
          injection hout with e1 e2
          subst e1 e2
          refine ⟨CommentsOnly.of_comment env cg _, ?_, ?_, ?_, fun he => absurd he hsv,
            fun _ => ⟨gdo, hgdo, ?_, ?_, rfl, ?_⟩⟩
          · by_cases hc : bi.condition = .ALWAYS ∨ ic.ii.forceCondGatesOn = true <;>
              by_cases hd : bi.durationInCycles > acc.instrMaxDurationInCycles <;>
              simp only [hc, hd, if_true, if_false]
          · by_cases hc : bi.condition = .ALWAYS ∨ ic.ii.forceCondGatesOn = true <;>
              by_cases hd : bi.durationInCycles > acc.instrMaxDurationInCycles <;>
              simp only [hc, hd, if_true, if_false]
          · by_cases hc : bi.condition = .ALWAYS ∨ ic.ii.forceCondGatesOn = true <;>
              by_cases hd : bi.durationInCycles > acc.instrMaxDurationInCycles <;>
              simp only [hc, hd, if_true, if_false]
          · by_cases hc : bi.condition = .ALWAYS ∨ ic.ii.forceCondGatesOn = true <;>
              by_cases hd : bi.durationInCycles > acc.instrMaxDurationInCycles <;>
              simp only [hc, hd, if_true, if_false]
          · by_cases hc : bi.condition = .ALWAYS ∨ ic.ii.forceCondGatesOn = true <;>
              by_cases hd : bi.durationInCycles > acc.instrMaxDurationInCycles <;>
              simp only [hc, hd, if_true, if_false]
            · exact (Nat.max_eq_right (Nat.le_of_lt hd)).symm
            · exact (Nat.max_eq_left (Nat.le_of_not_lt hd)).symm
            · exact (Nat.max_eq_right (Nat.le_of_lt hd)).symm
            · exact (Nat.max_eq_left (Nat.le_of_not_lt hd)).symm
          · by_cases hc : bi.condition = .ALWAYS ∨ ic.ii.forceCondGatesOn = true <;>
              by_cases hd : bi.durationInCycles > acc.instrMaxDurationInCycles <;>
              simp only [hc, hd, if_true, if_false]
    obtain ⟨hco, hslot, hname, hfb, hempty, hpop⟩ := hout2
    -- the readout part
    by_cases hm : bi.isMeasFeedback = true
    · rw [if_pos hm] at h
      obtain ⟨resultBit, cg3, h3, hr⟩ := Res.andThen_eq_ok h
      clear h
      have e3 := pureCall_eq_ok h3
      subst e3
      split at hr
      · exact Res.noConfusion hr
      · obtain ⟨smBit, cg4, h4, hr2⟩ := Res.andThen_eq_ok hr
        injection hr2 with e1 e2
        subst e1 e2
        refine ⟨hco.only_trans (CommentsOnly.of_dpCall h4), hslot, hname, hempty, hpop, ?_, ?_⟩
        · intro hf
          rw [hf] at hm
          exact Bool.noConfusion hm
        · intro _
          exact ⟨_, by rw [← hfb]⟩
    · rw [if_neg hm] at h
      injection h with e1 e2
      subst e1 e2
      refine ⟨hco, hslot, hname, hempty, hpop, fun _ => hfb, fun ht => absurd ht hm⟩

theorem emplace_ne_nil {β : Type} (m : List (Nat × β)) (key : Nat) (val : β) :
    (emplace m key val).isEmpty = false := by
  unfold emplace
  split
  · rename_i h
    cases m with
    | nil => simp at h
    | cons a l => rfl
  · cases m <;> rfl

theorem cellAt_of_row {bundleInfo : List (List BundleInfo)} {instrIdx : Nat}
    {row : List BundleInfo} (hrow : bundleInfo.get? instrIdx = some row) (group : Nat) :
    cellAt bundleInfo instrIdx group = row.get? group := by
  unfold cellAt
  rw [hrow]

theorem cellOf_of_get? {row : List BundleInfo} {g : Nat} {bi : BundleInfo}
    (h : row.get? g = some bi) : cellOf row g = bi := by
  unfold cellOf
  rw [List.getD_eq_getElem?_getD, ← List.get?_eq_getElem?, h]
  rfl

/-- What a successful run of the group loop of `collectCodeGenInfo` over the groups `gs`
of one instrument computes. -/
theorem collectGroups_ok {env : Env D} {instrIdx nrGroups : Nat} {ic : InstrumentControl}
    {row : List BundleInfo} (gs : List Nat) :
    ∀ {acc acc1 : CodeGenInfo} {cg cg1 : Codegen D},
    forEachAcc (collectGroup env instrIdx nrGroups ic) gs acc cg = .ok acc1 cg1 →
    cg.bundleInfo.get? instrIdx = some row →
    CommentsOnly env cg cg1
      ∧ acc1.slot = acc.slot ∧ acc1.instrumentName = acc.instrumentName
      ∧ (∀ g ∈ gs.filter (isPopulated row),
          ∃ gdo, calcGroupDigOut env.OPT_VECTOR_MODE instrIdx g nrGroups ic
            (cellOf row g).staticCodewordOverride = .ok gdo)
      ∧ acc1.digOut =
          ((gs.filter (isPopulated row)).map fun g =>
            groupDigOutOf (calcGroupDigOut env.OPT_VECTOR_MODE instrIdx g nrGroups ic
              (cellOf row g).staticCodewordOverride)).foldl (· ||| ·) acc.digOut
      ∧ acc1.instrMaxDurationInCycles =
          ((gs.filter (isPopulated row)).map fun g =>
            (cellOf row g).durationInCycles).foldl max acc.instrMaxDurationInCycles
      ∧ acc1.instrHasOutput =
          (acc.instrHasOutput ||
            !(gs.filter (isPopulated row)).isEmpty)
      ∧ acc1.condGateMap.isEmpty =
          (acc.condGateMap.isEmpty &&
            (gs.filter (isPopulated row)).all fun g =>
              decide ((cellOf row g).condition = .ALWAYS ∨ ic.ii.forceCondGatesOn = true))
      ∧ acc1.feedbackMap.isEmpty =
          (acc.feedbackMap.isEmpty && gs.all fun g => !(cellOf row g).isMeasFeedback) := by
  induction gs with
  | nil =>
    intro acc acc1 cg cg1 h _
    injection h with e1 e2
    subst e1 e2
    refine ⟨CommentsOnly.only_refl env cg, rfl, rfl, ?_, rfl, rfl, ?_, ?_, ?_⟩
    · intro g hg
      exact absurd hg (List.not_mem_nil g)
    · simp
    · simp
    · simp
  | cons g gs ih =>
    intro acc acc1 cg cg1 h hrow
    unfold forEachAcc at h
    obtain ⟨acc2, cg2, hstep, hrest⟩ := Res.andThen_eq_ok h
    obtain ⟨bi, hcell, hco, hslot, hname, hempty, hpop, hnofb, hfb⟩ := collectGroup_ok hstep
    rw [cellAt_of_row hrow] at hcell
    have hbi : cellOf row g = bi := cellOf_of_get? hcell
    have hrow2 : cg2.bundleInfo.get? instrIdx = some row := by rw [hco.2.2]; exact hrow
    obtain ⟨hco2, hslot2, hname2, hcalc2, hdig2, hmax2, hout2, hcgm2, hfbm2⟩ := ih hrest hrow2
    have hfbm : acc2.feedbackMap.isEmpty
        = (acc.feedbackMap.isEmpty && !(cellOf row g).isMeasFeedback) := by
      rw [hbi]
      cases hm : bi.isMeasFeedback
      · rw [hnofb hm]; simp
      · obtain ⟨fi, e⟩ := hfb hm
        rw [e, emplace_ne_nil]; simp
    by_cases hsv : bi.signalValue = ""
    · obtain ⟨e1, e2, e3, e4⟩ := hempty hsv
      have hf : isPopulated row g = false := by
        unfold isPopulated
        rw [hbi]; simp [hsv]
      simp only [List.filter_cons, hf, Bool.false_eq_true, if_false]
      refine ⟨hco.only_trans hco2, hslot2.trans hslot, hname2.trans hname, hcalc2, ?_, ?_, ?_, ?_, ?_⟩
      · rw [hdig2, e1]
      · rw [hmax2, e2]
      · rw [hout2, e3]
      · rw [hcgm2, e4]
      · rw [hfbm2, hfbm, List.all_cons, Bool.and_assoc]
    · obtain ⟨gdo, hgdo, e1, e2, e3, e4⟩ := hpop hsv
      have ht : isPopulated row g = true := by
        unfold isPopulated
        rw [hbi]; simp [hsv]
      simp only [List.filter_cons, ht, if_true]
      refine ⟨hco.only_trans hco2, hslot2.trans hslot, hname2.trans hname, ?_, ?_, ?_, ?_, ?_, ?_⟩
      · intro g1 hg1
        rcases List.mem_cons.mp hg1 with e | hmem
        · rw [e, hbi]; exact ⟨gdo, hgdo⟩
        · exact hcalc2 g1 hmem
      · rw [hdig2, e1, List.map_cons, List.foldl_cons, hbi, hgdo]
        rfl
      · rw [hmax2, e2, List.map_cons, List.foldl_cons, hbi]
      · rw [hout2, e3]
        simp
      · rw [hcgm2, e4, List.all_cons, hbi]
        by_cases hc : bi.condition = .ALWAYS ∨ ic.ii.forceCondGatesOn = true
        · rw [if_pos hc]; simp [hc]
        · rw [if_neg hc, emplace_ne_nil]; simp [hc]
      · rw [hfbm2, hfbm, List.all_cons, Bool.and_assoc]

theorem collectInstr_ok {env : Env D} {codeGenMap map1 : CodeGenMap} {cg cg1 : Codegen D}
    {instrIdx : Nat} (h : collectInstr env codeGenMap cg instrIdx = .ok map1 cg1) :
    ∃ ic row info, env.instruments.get? instrIdx = some ic
      ∧ cg.bundleInfo.get? instrIdx = some row
      ∧ ic.ii.slot < (env.MAX_SLOTS : Int)
      ∧ map1 = codeGenMap ++ [info]
      ∧ CommentsOnly env cg cg1
      ∧ CollectedInfo env instrIdx ic row info := by
  unfold collectInstr at h
  split at h
  · exact Res.noConfusion h
  · rename_i ic hic
    split at h
    · exact Res.noConfusion h
    · rename_i hslot
      simp only at h
      split at h
      · exact Res.noConfusion h
      · rename_i row hrow
        obtain ⟨info, cg2, hloop, hr⟩ := Res.andThen_eq_ok h
        clear h
        injection hr with e1 e2
        subst e1 e2
        obtain ⟨hco, h1, h2, h3, h4, h5, h6, h7, h8⟩ := collectGroups_ok _ hloop hrow
        refine ⟨ic, row, info, hic, hrow, Int.lt_of_not_ge hslot, rfl, hco, h1, h2, h3, ?_, ?_,
          ?_, ?_, ?_⟩
        · rw [h4]; rfl
        · rw [h5]; rfl
        · rw [h6]; rfl
        · rw [h7]; rfl
        · rw [h8]; rfl

/-- The relation between an instrument index and the info collected for it. -/
theorem collectInstrs_ok {env : Env D} (is : List Nat) :
    ∀ {codeGenMap map1 : CodeGenMap} {cg cg1 : Codegen D},
    forEachAcc (collectInstr env) is codeGenMap cg = .ok map1 cg1 →
    CommentsOnly env cg cg1
      ∧ ∃ infos, map1 = codeGenMap ++ infos
        ∧ List.Forall₂
            (fun i info => ∃ ic row, env.instruments.get? i = some ic
              ∧ cg.bundleInfo.get? i = some row ∧ CollectedInfo env i ic row info)
            is infos := by
  induction is with
  | nil =>
    intro codeGenMap map1 cg cg1 h
    injection h with e1 e2
    subst e1 e2
    exact ⟨CommentsOnly.only_refl env cg, [], (List.append_nil _).symm, List.Forall₂.nil⟩
  | cons i is ih =>
    intro codeGenMap map1 cg cg1 h
    unfold forEachAcc at h
    obtain ⟨map2, cg2, hstep, hrest⟩ := Res.andThen_eq_ok h
    obtain ⟨ic, row, info, hic, hrow, _, hmap, hco, hinfo⟩ := collectInstr_ok hstep
    obtain ⟨hco2, infos, hmap2, hall⟩ := ih hrest
    refine ⟨hco.only_trans hco2, info :: infos, ?_, List.Forall₂.cons ⟨ic, row, hic, hrow, hinfo⟩ ?_⟩
    · rw [hmap2, hmap, List.append_assoc]
      rfl
    · rw [hco.2.2] at hall
      exact hall

theorem collectCodeGenInfo_ok {env : Env D} {cg cg1 : Codegen D} {startCycle dur : Nat}
    {codeGenMap : CodeGenMap}
    (h : collectCodeGenInfo env cg startCycle dur = .ok codeGenMap cg1) :
    CommentsOnly env cg cg1
      ∧ codeGenMap.length = env.instruments.length
      ∧ ∀ i ic, env.instruments.get? i = some ic →
          ∃ row info, cg.bundleInfo.get? i = some row ∧ codeGenMap.get? i = some info
            ∧ CollectedInfo env i ic row info := by
  unfold collectCodeGenInfo at h
  obtain ⟨hco, infos, hmap, hall⟩ := collectInstrs_ok _ h
  rw [List.nil_append] at hmap
  subst hmap
  have hlen : codeGenMap.length = env.instruments.length := by
    rw [← hall.length_eq, List.length_range]
  refine ⟨hco, hlen, ?_⟩
  intro i ic hic
  have hi : i < env.instruments.length := (List.get?_eq_some.mp hic).1
  have hi1 : i < (List.range env.instruments.length).length := by
    rw [List.length_range]; exact hi
  have hi2 : i < codeGenMap.length := by rw [hlen]; exact hi
  have := hall.get hi1 hi2
  simp only [List.get_eq_getElem, List.getElem_range] at this
  obtain ⟨ic1, row, hic1, hrow, hinfo⟩ := this
  rw [hic] at hic1
  injection hic1 with e
  subst e
  exact ⟨row, codeGenMap[i], hrow, List.get?_eq_get hi2, hinfo⟩

theorem bundleFinishInstr_ok {env : Env D} {codeGenMap : CodeGenMap}
    {startCycle dur : Nat} {isLastBundle : Bool} {cg cg1 : Codegen D} {instrIdx : Nat}
    (h : bundleFinishInstr env codeGenMap startCycle dur isLastBundle cg instrIdx
      = .ok () cg1) :
    ∃ info seg, codeGenMap.get? instrIdx = some info
      ∧ EmittedFor cg cg1 instrIdx info.slot seg
      ∧ outputMnemonics seg =
          if info.instrHasOutput = true then
            [if info.condGateMap.isEmpty then "seq_out" else "seq_out_sm"]
          else [] := by
  unfold bundleFinishInstr at h
  split at h
  · exact Res.noConfusion h
  · rename_i info hinfo
    simp only at h
    obtain ⟨_, cga, hA, hr1⟩ := Res.andThen_eq_ok h
    obtain ⟨_, cgb, hB, hC⟩ := Res.andThen_eq_ok hr1
    clear h hr1
    refine ⟨info, ?_⟩
    -- the comment of the last bundle
    generalize hg : (if isLastBundle = true ∧ instrIdx = 0 then
          comment env cg
            [.str " # last bundle of kernel, will pad outputs to match durations"]
         else cg) = cg0 at hA
    have h0 : ∃ seg, EmittedFor cg cg0 instrIdx info.slot seg ∧ outputMnemonics seg = [] := by
      rw [← hg]
      split
      · obtain ⟨seg, h1, h2, _⟩ := comment_emitted env cg
          [.str " # last bundle of kernel, will pad outputs to match durations"]
          instrIdx info.slot
        exact ⟨seg, h1, h2⟩
      · exact ⟨[], EmittedFor.emitted_refl _ _ _, rfl⟩
    obtain ⟨s0, hs0, ho0⟩ := h0
    -- output
    have hA2 : ∃ seg, EmittedFor cg0 cga instrIdx info.slot seg ∧ outputMnemonics seg =
        if info.instrHasOutput = true then
          [if info.condGateMap.isEmpty then "seq_out" else "seq_out_sm"]
        else [] := by
      by_cases ho : info.instrHasOutput = true
      · rw [if_pos ho] at hA
        rw [if_pos ho]
        exact emitOutput_emitted hA
      · rw [if_neg ho] at hA
        rw [if_neg ho]
        injection hA with _ e
        subst e
        exact ⟨[], EmittedFor.emitted_refl _ _ _, rfl⟩
    obtain ⟨sA, hsA, hoA⟩ := hA2
    -- feedback
    have hB2 : ∃ seg, EmittedFor cga cgb instrIdx info.slot seg ∧ outputMnemonics seg = [] := by
      split at hB
      · exact emitFeedback_emitted hB
      · injection hB with _ e
        subst e
        exact ⟨[], EmittedFor.emitted_refl _ _ _, rfl⟩
    obtain ⟨sB, hsB, hoB⟩ := hB2
    -- padding of the last bundle
    have hC2 : ∃ seg, EmittedFor cgb cg1 instrIdx info.slot seg ∧ outputMnemonics seg = [] := by
      split at hC
      · obtain ⟨seg, h1, h2, _⟩ := emitPadToCycle_emitted hC
        exact ⟨seg, h1, h2⟩
      · injection hC with _ e
        subst e
        exact ⟨[], EmittedFor.emitted_refl _ _ _, rfl⟩
    obtain ⟨sC, hsC, hoC⟩ := hC2
    refine ⟨s0 ++ (sA ++ (sB ++ sC)), hinfo, hs0.emitted_trans (hsA.emitted_trans (hsB.emitted_trans hsC)), ?_⟩
    rw [outputMnemonics_append, outputMnemonics_append, outputMnemonics_append, ho0, hoA, hoB,
      hoC, List.nil_append, List.append_nil, List.append_nil]

/-- A loop over pairwise distinct instruments, each iteration of which emits a segment for
its own instrument, emits the segments in order; every cursor advances by the duration of
the segment of its instrument, modulo `2^64`. -/
theorem forEach_segments {body : Codegen D → Nat → Res (Codegen D) Unit}
    {P : Nat → List CodeLine → Prop}
    (hbody : ∀ cg i cg1, body cg i = .ok () cg1 →
      ∃ seg, cg1.codeSection = cg.codeSection ++ seg
        ∧ cg1.lastEndCycle i % 2 ^ 64 = (cg.lastEndCycle i + totalDuration seg) % 2 ^ 64
        ∧ (∀ j, j ≠ i → cg1.lastEndCycle j = cg.lastEndCycle j)
        ∧ P i seg)
    (is : List Nat) :
    ∀ {cg cg1 : Codegen D}, is.Nodup → forEach body is cg = .ok () cg1 →
    ∃ segs, cg1.codeSection = cg.codeSection ++ segs.flatten
      ∧ (∀ j, j ∉ is → cg1.lastEndCycle j = cg.lastEndCycle j)
      ∧ List.Forall₂
          (fun i seg =>
            cg1.lastEndCycle i % 2 ^ 64 = (cg.lastEndCycle i + totalDuration seg) % 2 ^ 64
              ∧ P i seg)
          is segs := by
  induction is with
  | nil =>
    intro cg cg1 _ h
    injection h with _ e
    subst e
    exact ⟨[], by simp, fun _ _ => rfl, List.Forall₂.nil⟩
  | cons i is ih =>
    intro cg cg1 hnd h
    unfold forEach at h
    obtain ⟨_, cg2, hstep, hrest⟩ := Res.andThen_eq_ok h
    obtain ⟨seg, hc, hl, ho, hP⟩ := hbody cg i cg2 hstep
    have hnd2 := List.nodup_cons.mp hnd
    obtain ⟨segs, hc2, ho2, hall⟩ := ih hnd2.2 hrest
    refine ⟨seg :: segs, ?_, ?_, List.Forall₂.cons ⟨?_, hP⟩ ?_⟩
    · rw [hc2, hc, List.flatten_cons, List.append_assoc]
    · intro j hj
      have hji : j ≠ i := fun e => hj (by rw [e]; exact List.mem_cons_self _ _)
      have hjis : j ∉ is := fun hm => hj (List.mem_cons_of_mem _ hm)
      rw [ho2 j hjis, ho j hji]
    · rw [ho2 i hnd2.1, hl]
    · have hne : ∀ a ∈ is, a ≠ i := fun a ha e => hnd2.1 (by rw [← e]; exact ha)
      refine List.Forall₂.imp ?_ ((List.forall₂_and_left _ _).mpr ⟨hne, hall⟩)
      intro a b hab
      obtain ⟨hai, hl2, hPa⟩ := hab
      exact ⟨by rw [hl2, ho a hai], hPa⟩

/-- The code that a successful `bundleFinish` appends: comments of the collect phase, one
segment per instrument in instrument order, and the closing blank comment. -/
theorem bundleFinish_segments {env : Env D} {cg cg1 : Codegen D} {startCycle dur : Nat}
    {isLastBundle : Bool} (h : bundleFinish env cg startCycle dur isLastBundle = .ok () cg1) :
    ∃ pre segs post, cg1.codeSection = cg.codeSection ++ pre ++ segs.flatten ++ post
      ∧ (∀ l ∈ pre, ∃ t, l = CodeLine.short t "")
      ∧ (∀ l ∈ post, ∃ t, l = CodeLine.short t "")
      ∧ (∀ j, env.instruments.length ≤ j → cg1.lastEndCycle j = cg.lastEndCycle j)
      ∧ List.Forall₂
          (fun i seg => ∃ ic row info, env.instruments.get? i = some ic
            ∧ cg.bundleInfo.get? i = some row
            ∧ CollectedInfo env i ic row info
            ∧ cg1.lastEndCycle i % 2 ^ 64 = (cg.lastEndCycle i + totalDuration seg) % 2 ^ 64
            ∧ (∀ l ∈ seg, l.slot? = some ic.ii.slot ∨ ∃ t, l = CodeLine.short t "")
            ∧ outputMnemonics seg =
                if info.instrHasOutput = true then
                  [if info.condGateMap.isEmpty then "seq_out" else "seq_out_sm"]
                else [])
          (List.range env.instruments.length) segs := by
  unfold bundleFinish at h
  obtain ⟨codeGenMap, cga, hcollect, hr1⟩ := Res.andThen_eq_ok h
  obtain ⟨_, cgb, hloop, hr2⟩ := Res.andThen_eq_ok hr1
  clear h hr1
  injection hr2 with _ e
  subst e
  obtain ⟨⟨⟨pre, hpre, hpreC, _⟩, hlastA, hbiA⟩, hlen, hmap⟩ := collectCodeGenInfo_ok hcollect
  obtain ⟨post, hpost, hpostC, _⟩ := comment_codeSection env cgb []
  have hbody : ∀ (c : Codegen D) (i : Nat) (c1 : Codegen D),
      bundleFinishInstr env codeGenMap startCycle dur isLastBundle c i = .ok () c1 →
      ∃ seg, c1.codeSection = c.codeSection ++ seg
        ∧ c1.lastEndCycle i % 2 ^ 64 = (c.lastEndCycle i + totalDuration seg) % 2 ^ 64
        ∧ (∀ j, j ≠ i → c1.lastEndCycle j = c.lastEndCycle j)
        ∧ (∃ info, codeGenMap.get? i = some info
            ∧ (∀ l ∈ seg, l.slot? = some info.slot ∨ ∃ t, l = CodeLine.short t "")
            ∧ outputMnemonics seg =
                if info.instrHasOutput = true then
                  [if info.condGateMap.isEmpty then "seq_out" else "seq_out_sm"]
                else []) := by
    intro c i c1 hc
    obtain ⟨info, seg, hinfo, ⟨h1, h2, h3, h4⟩, h5⟩ := bundleFinishInstr_ok hc
    exact ⟨seg, h1, h2, h3, info, hinfo, h4, h5⟩
  obtain ⟨segs, hcode, hother, hall⟩ :=
    forEach_segments hbody (List.range env.instruments.length) (List.nodup_range _) hloop
  refine ⟨pre, segs, post, ?_, hpreC, hpostC, ?_, ?_⟩
  · rw [hpost, hcode, hpre]
  · intro j hj
    rw [comment_lastEndCycle, hother j (by rw [List.mem_range]; omega), hlastA]
  · have hmem : ∀ a ∈ List.range env.instruments.length, a < env.instruments.length :=
      fun a ha => List.mem_range.mp ha
    refine List.Forall₂.imp ?_ ((List.forall₂_and_left _ _).mpr ⟨hmem, hall⟩)
    intro i seg hi
    obtain ⟨hlt, hl, info, hinfo, hslot, hout⟩ := hi
    obtain ⟨row, info1, hrow, hinfo1, hci⟩ := hmap i _ (List.get?_eq_get hlt)
    rw [hinfo] at hinfo1
    injection hinfo1 with e
    subst e
    refine ⟨_, row, info, List.get?_eq_get hlt, hrow, hci, ?_, ?_, hout⟩
    · rw [comment_lastEndCycle, hl, hlastA]
    · rw [← hci.1]
      exact hslot

theorem Res.eq_ok_of_val?_some {σ α : Type} {r : Res σ α} {a : α} (h : r.val? = some a) :
    r = .ok a r.st := by
  cases r with
  | ok b s =>
    injection h with e
    subst e
    rfl
  | fail e s => exact Option.noConfusion h

theorem forall₂_range_get? {β : Type} {R : Nat → β → Prop} {n : Nat} {l : List β}
    (h : List.Forall₂ R (List.range n) l) :
    l.length = n ∧ ∀ i b, l.get? i = some b → i < n ∧ R i b := by
  have hlen : l.length = n := by rw [← h.length_eq, List.length_range]
  refine ⟨hlen, fun i b hb => ?_⟩
  obtain ⟨hi, e⟩ := List.get?_eq_some.mp hb
  have hi1 : i < (List.range n).length := by rw [List.length_range, ← hlen]; exact hi
  have := h.get hi1 hi
  simp only [List.get_eq_getElem, List.getElem_range] at this
  rw [List.get_eq_getElem] at e
  rw [e] at this
  exact ⟨by rw [← hlen]; exact hi, this⟩

theorem mem_populatedGroups (row : List BundleInfo) (g : Nat) :
    g ∈ populatedGroups row ↔ ∃ bi, row.get? g = some bi ∧ bi.signalValue ≠ "" := by
  unfold populatedGroups isPopulated
  rw [List.mem_filter, List.mem_range, decide_eq_true_eq]
  constructor
  · rintro ⟨hlt, hne⟩
    refine ⟨row.get ⟨g, hlt⟩, List.get?_eq_get hlt, ?_⟩
    rw [← cellOf_of_get? (List.get?_eq_get hlt)]
    exact hne
  · rintro ⟨bi, hbi, hne⟩
    refine ⟨(List.get?_eq_some.mp hbi).1, ?_⟩
    rw [cellOf_of_get? hbi]
    exact hne

theorem hex8_render (n : Nat) (h : n < 2 ^ DIGITAL_BITS) :
    Piece.render (.hex8 n) =
      String.mk [hexDigit (n / 16 ^ 7 % 16), hexDigit (n / 16 ^ 6 % 16),
        hexDigit (n / 16 ^ 5 % 16), hexDigit (n / 16 ^ 4 % 16), hexDigit (n / 16 ^ 3 % 16),
        hexDigit (n / 16 ^ 2 % 16), hexDigit (n / 16 % 16), hexDigit (n % 16)] := by
  have h32 : n < 4294967296 := h
  have h7 : n / 16 / 16 / 16 / 16 / 16 / 16 / 16 < 16 := by omega
  have e7 : n / 16 ^ 7 % 16 = n / 16 / 16 / 16 / 16 / 16 / 16 / 16 := by omega
  have e6 : n / 16 ^ 6 % 16 = n / 16 / 16 / 16 / 16 / 16 / 16 % 16 := by omega
  have e5 : n / 16 ^ 5 % 16 = n / 16 / 16 / 16 / 16 / 16 % 16 := by omega
  have e4 : n / 16 ^ 4 % 16 = n / 16 / 16 / 16 / 16 % 16 := by omega
  have e3 : n / 16 ^ 3 % 16 = n / 16 / 16 / 16 % 16 := by omega
  have e2 : n / 16 ^ 2 % 16 = n / 16 / 16 % 16 := by omega
  rw [e7, e6, e5, e4, e3, e2]
  simp [Piece.render, hexDigits, h7]

theorem testBit_foldl_or (ws : List Nat) (acc k : Nat) :
    (ws.foldl (· ||| ·) acc).testBit k = (acc.testBit k || ws.any fun w => w.testBit k) := by
  induction ws generalizing acc with
  | nil => simp
  | cons w ws ih =>
    rw [List.foldl_cons, ih, Nat.testBit_or, List.any_cons, Bool.or_assoc]

theorem testBit_orAll {ws : List Nat} {k : Nat} (h : (orAll ws).testBit k = true) :
    ∃ w ∈ ws, w.testBit k = true := by
  unfold orAll at h
  rw [testBit_foldl_or, Nat.zero_testBit, Bool.false_or, List.any_eq_true] at h
  exact h

/-! ## Lemmas: custom instructions -/

theorem calcSignalValue_commentsOnly (env : Env D) (cg : Codegen D) (sd : SignalDef) (s : Nat)
    (operands : List Nat) (iname : String) :
    CommentsOnly env cg (calcSignalValue env cg sd s operands iname).st := by
  unfold calcSignalValue
  split
  · exact CommentsOnly.only_refl env cg
  · split
    · exact CommentsOnly.only_refl env cg
    · split
      · exact CommentsOnly.only_refl env cg
      · split
        · exact CommentsOnly.only_refl env cg
        · split
          · exact CommentsOnly.only_refl env cg
          · unfold pureCall
            split
            · simp only [Res.andThen, Res.st]
              exact CommentsOnly.of_comment env cg _
            · exact CommentsOnly.only_refl env cg

theorem cellAt_setCell {bundleInfo : List (List BundleInfo)} {instrIdx group : Nat}
    {bi : BundleInfo} (h : cellAt bundleInfo instrIdx group = some bi) (bi1 : BundleInfo) :
    cellAt (setCell bundleInfo instrIdx group bi1) instrIdx group = some bi1 := by
  unfold cellAt at h
  split at h
  · exact Option.noConfusion h
  · rename_i row hrow
    unfold cellAt setCell
    have hg : group < row.length := (List.get?_eq_some.mp h).1
    have e : (List.modify (fun row => row.set group bi1) instrIdx bundleInfo).get? instrIdx
        = some (row.set group bi1) := by
      rw [List.get?_eq_getElem?, List.getElem?_modify_eq, ← List.get?_eq_getElem?, hrow]
      rfl
    rw [e]
    simp only
    rw [List.get?_eq_getElem?, List.getElem?_set_self (by exact hg)]

theorem storeSignalValue_cases (env : Env D) (custom : CustomInstruction)
    (csv : CalcSignalValue) (bi : BundleInfo) (hne : csv.signalValueString ≠ "") :
    (bi.signalValue = "" →
      (∀ o, env.findStaticCodewordOverride custom.instruction_type csv.operandIdx = .ok o →
        storeSignalValue env custom csv bi
          = .ok () { bi with signalValue := csv.signalValueString, staticCodewordOverride := o })
      ∧ (∀ x, env.findStaticCodewordOverride custom.instruction_type csv.operandIdx = .error x →
        storeSignalValue env custom csv bi
          = .fail (.external x) { bi with signalValue := csv.signalValueString }))
    ∧ (bi.signalValue ≠ "" → bi.signalValue = csv.signalValueString →
        storeSignalValue env custom csv bi = .ok () bi)
    ∧ (bi.signalValue ≠ "" → bi.signalValue ≠ csv.signalValueString →
        storeSignalValue env custom csv bi = .fail .signalConflict bi) := by
  unfold storeSignalValue
  rw [if_pos hne]
  refine ⟨fun he => ⟨fun o ho => ?_, fun x hx => ?_⟩, fun h1 h2 => ?_, fun h1 h2 => ?_⟩
  · rw [if_pos he]
    simp only [ho]
  · rw [if_pos he]
    simp only [hx]
  · rw [if_neg h1, if_pos h2]
  · rw [if_neg h1, if_neg h2]

/-- After the signal value is stored, the rest of the loop body keeps `signalValue` and
`staticCodewordOverride` and cannot raise a signal conflict. -/
theorem storeSignal_after (env : Env D) (custom : CustomInstruction)
    (instrCond : tInstructionCondition) (ops : Operands) (isReadout : Bool)
    (csv : CalcSignalValue) (bi : BundleInfo) :
    (∀ bi1, storeSignalValue env custom csv bi = .ok () bi1 →
      (storeSignal env custom instrCond ops isReadout csv bi).err? ≠ some .signalConflict
      ∧ (storeSignal env custom instrCond ops isReadout csv bi).st.signalValue
          = bi1.signalValue
      ∧ (storeSignal env custom instrCond ops isReadout csv bi).st.staticCodewordOverride
          = bi1.staticCodewordOverride)
    ∧ (∀ e bi1, storeSignalValue env custom csv bi = .fail e bi1 →
      storeSignal env custom instrCond ops isReadout csv bi = .fail e bi1) := by
  constructor
  · intro bi1 h
    unfold storeSignal
    rw [h]
    simp only [Res.andThen]
    by_cases hr : isReadout = true
    · rw [if_pos hr]
      by_cases hq : ops.qubits.length ≠ 1
      · rw [if_pos hq]
        exact ⟨by simp [Res.err?], rfl, rfl⟩
      · rw [if_neg hq]
        by_cases hm : env.getReadoutMode custom.instruction_type = "feedback"
        · rw [if_pos hm]
          exact ⟨by simp [Res.err?], rfl, rfl⟩
        · rw [if_neg hm]
          exact ⟨by simp [Res.err?], rfl, rfl⟩
    · rw [if_neg hr]
      exact ⟨by simp [Res.err?], rfl, rfl⟩
  · intro e bi1 h
    unfold storeSignal
    rw [h]
    rfl

theorem onCell_some {α : Type} {cg : Codegen D} {instrIdx group : Nat} {bi : BundleInfo}
    (h : cellAt cg.bundleInfo instrIdx group = some bi) (f : BundleInfo → Res BundleInfo α) :
    (onCell cg instrIdx group f).err? = (f bi).err?
    ∧ (onCell cg instrIdx group f).st
        = { cg with bundleInfo := setCell cg.bundleInfo instrIdx group (f bi).st } := by
  unfold onCell
  rw [h]
  simp only
  cases f bi with
  | ok a b => exact ⟨rfl, rfl⟩
  | fail e b => exact ⟨rfl, rfl⟩

theorem forEach_cons {σ : Type} (body : σ → Nat → Res σ Unit) (i : Nat) (is : List Nat)
    (st : σ) :
    forEach body (i :: is) st = (body st i).andThen fun _ st1 => forEach body is st1 := rfl

theorem forEach_append {σ : Type} (body : σ → Nat → Res σ Unit) (l1 l2 : List Nat) (st : σ) :
    forEach body (l1 ++ l2) st = (forEach body l1 st).andThen fun _ st1 => forEach body l2 st1 := by
  induction l1 generalizing st with
  | nil => rfl
  | cons i l1 ih =>
    rw [List.cons_append, forEach_cons, forEach_cons]
    cases body st i with
    | ok a s1 =>
      simp only [Res.andThen]
      exact ih s1
    | fail e s1 => rfl

/-- A loop over `0 .. n-1` fails exactly when some iteration fails after all earlier ones
have succeeded, and then it ends in the state of that iteration. -/
theorem forEach_range_fail {σ : Type} (body : σ → Nat → Res σ Unit) (n : Nat) (st : σ)
    (e : Err) (st1 : σ) :
    forEach body (List.range n) st = .fail e st1 ↔
      ∃ s st0, s < n ∧ forEach body (List.range s) st = .ok () st0
        ∧ body st0 s = .fail e st1 := by
  induction n with
  | zero =>
    constructor
    · intro h
      exact Res.noConfusion h
    · rintro ⟨s, _, hs, _⟩
      exact absurd hs (Nat.not_lt_zero s)
  | succ n ih =>
    rw [List.range_succ, forEach_append]
    constructor
    · intro h
      cases hpre : forEach body (List.range n) st with
      | ok a s1 =>
        rw [hpre] at h
        simp only [Res.andThen, forEach] at h
        cases hb : body s1 n with
        | ok a2 s2 =>
          rw [hb] at h
          exact Res.noConfusion h
        | fail e2 s2 =>
          rw [hb] at h
          simp only [Res.andThen] at h
          injection h with h1 h2
          subst h1 h2
          exact ⟨n, s1, Nat.lt_succ_self n, hpre, hb⟩
      | fail e1 s1 =>
        rw [hpre] at h
        simp only [Res.andThen] at h
        injection h with h1 h2
        subst h1 h2
        obtain ⟨s, st0, hs, h3, h4⟩ := (ih).mp hpre
        exact ⟨s, st0, Nat.lt_succ_of_lt hs, h3, h4⟩
    · rintro ⟨s, st0, hs, hpre, hb⟩
      by_cases hsn : s = n
      · subst hsn
        rw [hpre]
        simp only [Res.andThen, forEach, hb]
      · have hlt : s < n := by omega
        have := (ih).mpr ⟨s, st0, hlt, hpre, hb⟩
        rw [this]
        rfl

theorem appendAll_error {env : Env D} (l : List Expression) :
    ∀ (ops : Operands) (e : Err), appendAll env ops l = .error e → ∃ x, e = .external x := by
  induction l with
  | nil =>
    intro ops e h
    exact Except.noConfusion h
  | cons ob rest ih =>
    intro ops e h
    unfold appendAll at h
    split at h
    · injection h with h
      exact ⟨_, h.symm⟩
    · exact ih _ _ h

theorem convertBreg_error {env : Env D} {e : Expression} {x : Err}
    (h : convertBreg env e = .error x) : x ≠ .signalConflict := by
  unfold convertBreg at h
  split at h
  · exact Except.noConfusion h
  · injection h with h
    rw [← h]
    exact fun h2 => Err.noConfusion h2

theorem decode_condition_ne_conflict (env : Env D) (condition : Expression) :
    decode_condition env condition ≠ .error .signalConflict := by
  intro h
  unfold decode_condition at h
  repeat' split at h
  all_goals first
    | exact Except.noConfusion h
    | (injection h with h; exact Err.noConfusion h)
    | (injection h with h
       subst h
       rename_i heq
       exact convertBreg_error heq rfl)

theorem CommentsAppended.appended_refl (env : Env D) (cg : Codegen D) : CommentsAppended env cg cg :=
  ⟨[], (List.append_nil _).symm, fun l hl => absurd hl (List.not_mem_nil l), fun _ => rfl⟩

theorem CommentsAppended.appended_trans {env : Env D} {cg cg1 cg2 : Codegen D}
    (h1 : CommentsAppended env cg cg1) (h2 : CommentsAppended env cg1 cg2) :
    CommentsAppended env cg cg2 := by
  obtain ⟨a1, hc1, hs1, hv1⟩ := h1
  obtain ⟨a2, hc2, hs2, hv2⟩ := h2
  refine ⟨a1 ++ a2, ?_, ?_, ?_⟩
  · rw [hc2, hc1, List.append_assoc]
  · intro l hl
    rcases List.mem_append.mp hl with h | h
    · exact hs1 l h
    · exact hs2 l h
  · intro hv
    rw [hv1 hv, hv2 hv]
    rfl

theorem CommentsAppended.of_codeSection_eq {env : Env D} {cg cg1 : Codegen D}
    (h : cg1.codeSection = cg.codeSection) : CommentsAppended env cg cg1 :=
  ⟨[], by rw [h, List.append_nil], fun l hl => absurd hl (List.not_mem_nil l), fun _ => rfl⟩

theorem onCell_codeSection {α : Type} (cg : Codegen D) (instrIdx group : Nat)
    (f : BundleInfo → Res BundleInfo α) :
    (onCell cg instrIdx group f).st.codeSection = cg.codeSection := by
  unfold onCell
  split
  · rfl
  · split <;> rfl

theorem signalStep_comments (env : Env D) (custom : CustomInstruction)
    (instrCond : tInstructionCondition) (ops : Operands) (isReadout : Bool) (sd : SignalDef)
    (cg : Codegen D) (s : Nat) :
    CommentsAppended env cg (signalStep env custom instrCond ops isReadout sd cg s).st := by
  have hco := calcSignalValue_commentsOnly env cg sd s ops.qubits custom.instruction_type.name
  unfold signalStep
  cases hc : calcSignalValue env cg sd s ops.qubits custom.instruction_type.name with
  | ok csv cg1 =>
    rw [hc] at hco
    simp only [Res.andThen]
    exact hco.1.appended_trans (CommentsAppended.of_codeSection_eq (onCell_codeSection _ _ _ _))
  | fail e cg1 =>
    rw [hc] at hco
    exact hco.1

theorem forEach_signalStep_comments (env : Env D) (custom : CustomInstruction)
    (instrCond : tInstructionCondition) (ops : Operands) (isReadout : Bool) (sd : SignalDef)
    (is : List Nat) :
    ∀ cg : Codegen D, CommentsAppended env cg
      (forEach (signalStep env custom instrCond ops isReadout sd) is cg).st := by
  induction is with
  | nil => intro cg; exact CommentsAppended.appended_refl env cg
  | cons i is ih =>
    intro cg
    rw [forEach_cons]
    have h1 := signalStep_comments env custom instrCond ops isReadout sd cg i
    cases hb : signalStep env custom instrCond ops isReadout sd cg i with
    | ok a cg1 =>
      rw [hb] at h1
      simp only [Res.andThen]
      exact h1.appended_trans (ih cg1)
    | fail e cg1 =>
      rw [hb] at h1
      exact h1

theorem custom_instruction_comments (env : Env D) (cg : Codegen D)
    (custom : CustomInstruction) :
    CommentsAppended env cg (custom_instruction env cg custom).st := by
  unfold custom_instruction
  split
  · exact CommentsAppended.appended_refl env cg
  · split
    · exact CommentsAppended.appended_refl env cg
    · split
      · exact CommentsAppended.appended_refl env cg
      · split
        · exact CommentsAppended.appended_refl env cg
        · simp only
          have h0 : CommentsAppended env cg (instructionComment env cg custom) := by
            unfold instructionComment
            split
            · exact comment_codeSection env cg _
            · exact comment_codeSection env cg _
          unfold pureCall
          split
          · simp only [Res.andThen]
            exact h0.appended_trans (forEach_signalStep_comments env custom _ _ _ _ _ _)
          · exact h0

/-- What processing one signal does to its cell. -/
theorem signalStep_cell (env : Env D) (cg : Codegen D)
    (custom : CustomInstruction) (instrCond : tInstructionCondition) (ops : Operands)
    (isReadout : Bool) (sd : SignalDef) (s : Nat) (csv : CalcSignalValue) (bi : BundleInfo)
    (hcsv : (calcSignalValue env cg sd s ops.qubits custom.instruction_type.name).val?
      = some csv)
    (hne : csv.signalValueString ≠ "")
    (hcell : cellAt cg.bundleInfo csv.si.instrIdx csv.si.group = some bi) :
    ((signalStep env custom instrCond ops isReadout sd cg s).err? = some .signalConflict ↔
        bi.signalValue ≠ "" ∧ bi.signalValue ≠ csv.signalValueString)
    ∧ (bi.signalValue ≠ "" → bi.signalValue ≠ csv.signalValueString →
        cellAt (signalStep env custom instrCond ops isReadout sd cg s).st.bundleInfo
          csv.si.instrIdx csv.si.group = some bi)
    ∧ (bi.signalValue = "" →
        ∃ bi1, cellAt (signalStep env custom instrCond ops isReadout sd cg s).st.bundleInfo
            csv.si.instrIdx csv.si.group = some bi1
          ∧ bi1.signalValue = csv.signalValueString
          ∧ (∀ o, env.findStaticCodewordOverride custom.instruction_type csv.operandIdx
                = .ok o → bi1.staticCodewordOverride = o)
          ∧ (∀ x, env.findStaticCodewordOverride custom.instruction_type csv.operandIdx
                = .error x →
              (signalStep env custom instrCond ops isReadout sd cg s).err?
                = some (.external x)))
    ∧ (bi.signalValue = csv.signalValueString →
        ∃ bi1, cellAt (signalStep env custom instrCond ops isReadout sd cg s).st.bundleInfo
            csv.si.instrIdx csv.si.group = some bi1
          ∧ bi1.signalValue = bi.signalValue
          ∧ bi1.staticCodewordOverride = bi.staticCodewordOverride) := by
  have hco := calcSignalValue_commentsOnly env cg sd s ops.qubits custom.instruction_type.name
  have hok := Res.eq_ok_of_val?_some hcsv
  have hcell1 : cellAt
      (calcSignalValue env cg sd s ops.qubits custom.instruction_type.name).st.bundleInfo
      csv.si.instrIdx csv.si.group = some bi := by
    rw [hco.2.2]
    exact hcell
  have hstep : signalStep env custom instrCond ops isReadout sd cg s
      = onCell (calcSignalValue env cg sd s ops.qubits custom.instruction_type.name).st
          csv.si.instrIdx csv.si.group (storeSignal env custom instrCond ops isReadout csv) := by
    unfold signalStep
    rw [hok]
    rfl
  obtain ⟨herr, hst⟩ := onCell_some hcell1 (storeSignal env custom instrCond ops isReadout csv)
  have hcellAfter : cellAt (signalStep env custom instrCond ops isReadout sd cg s).st.bundleInfo
      csv.si.instrIdx csv.si.group
      = some (storeSignal env custom instrCond ops isReadout csv bi).st := by
    rw [hstep, hst]
    exact cellAt_setCell hcell1 _
  obtain ⟨hempty, hsame, hdiff⟩ := storeSignalValue_cases env custom csv bi hne
  obtain ⟨hafterOk, hafterFail⟩ := storeSignal_after env custom instrCond ops isReadout csv bi
  refine ⟨?_, ?_, ?_, ?_⟩
  · rw [hstep, herr]
    constructor
    · intro h
      by_cases h1 : bi.signalValue = ""
      · exfalso
        cases hf : env.findStaticCodewordOverride custom.instruction_type csv.operandIdx with
        | ok o => exact (hafterOk _ ((hempty h1).1 o hf)).1 h
        | error x =>
          rw [hafterFail _ _ ((hempty h1).2 x hf)] at h
          injection h with h
          exact Err.noConfusion h
      · by_cases h2 : bi.signalValue = csv.signalValueString
        · exact absurd h (hafterOk _ (hsame h1 h2)).1
        · exact ⟨h1, h2⟩
    · rintro ⟨h1, h2⟩
      rw [hafterFail _ _ (hdiff h1 h2)]
      rfl
  · intro h1 h2
    rw [hcellAfter, hafterFail _ _ (hdiff h1 h2)]
    rfl
  · intro h1
    refine ⟨_, hcellAfter, ?_, ?_, ?_⟩
    · cases hf : env.findStaticCodewordOverride custom.instruction_type csv.operandIdx with
      | ok o => rw [(hafterOk _ ((hempty h1).1 o hf)).2.1]
      | error x => rw [hafterFail _ _ ((hempty h1).2 x hf)]; rfl
    · intro o hf
      rw [(hafterOk _ ((hempty h1).1 o hf)).2.2]
    · intro x hf
      rw [hstep, herr, hafterFail _ _ ((hempty h1).2 x hf)]
      rfl
  · intro h2
    have h1 : bi.signalValue ≠ "" := by rw [h2]; exact hne
    refine ⟨_, hcellAfter, ?_, ?_⟩
    · rw [(hafterOk _ (hsame h1 h2)).2.1]
    · rw [(hafterOk _ (hsame h1 h2)).2.2]

/-- A signal conflict of `custom_instruction` is a signal conflict of one of its signals. -/
theorem custom_instruction_conflict_iff (env : Env D) (cg : Codegen D)
    (custom : CustomInstruction) :
    (custom_instruction env cg custom).err? = some .signalConflict ↔
        ∃ instrCond1 ops1 sd1 s1 cg1,
          decode_condition env custom.condition = .ok instrCond1
          ∧ custom.instruction_type.template_operands = []
          ∧ appendAll env {} custom.operands = .ok ops1
          ∧ env.findSignalDefinition custom.instruction_type = .ok sd1
          ∧ s1 < sd1.signal.length
          ∧ forEach
              (signalStep env custom instrCond1 ops1 (env.isReadout custom.instruction_type)
                sd1)
              (List.range s1) (instructionComment env cg custom) = .ok () cg1
          ∧ (signalStep env custom instrCond1 ops1 (env.isReadout custom.instruction_type) sd1
              cg1 s1).err? = some .signalConflict := by
  unfold custom_instruction
  cases hdec : decode_condition env custom.condition with
  | error e =>
    simp only
    constructor
    · intro h
      injection h with h
      rw [h] at hdec
      exact absurd hdec (decode_condition_ne_conflict env custom.condition)
    · rintro ⟨_, _, _, _, _, h, _⟩
      exact Except.noConfusion h
  | ok ic =>
    simp only
    cases htpl : custom.instruction_type.template_operands with
    | cons a l =>
      simp only [List.isEmpty_cons, Bool.not_false, if_true]
      constructor
      · intro h
        injection h with h
        exact Err.noConfusion h
      · rintro ⟨_, _, _, _, _, _, h, _⟩
        exact List.noConfusion h
    | nil =>
      simp only [List.isEmpty_nil, Bool.not_true, Bool.false_eq_true, if_false, appendAll]
      cases hops : appendAll env {} custom.operands with
      | error e =>
        simp only
        obtain ⟨x, hx⟩ := appendAll_error _ _ _ hops
        constructor
        · intro h
          injection h with h
          rw [hx] at h
          exact Err.noConfusion h
        · rintro ⟨_, _, _, _, _, _, _, h, _⟩
          exact Except.noConfusion h
      | ok ops1 =>
        simp only
        cases hsd : env.findSignalDefinition custom.instruction_type with
        | error x =>
          simp only [pureCall, Res.andThen]
          constructor
          · intro h
            injection h with h
            exact Err.noConfusion h
          · rintro ⟨_, _, _, _, _, _, _, _, h, _⟩
            exact Except.noConfusion h
        | ok sd1 =>
          simp only [pureCall, Res.andThen]
          constructor
          · intro h
            cases hloop : forEach
                (signalStep env custom ic ops1 (env.isReadout custom.instruction_type) sd1)
                (List.range sd1.signal.length) (instructionComment env cg custom) with
            | ok a st1 =>
              rw [hloop] at h
              exact Option.noConfusion h
            | fail e st1 =>
              rw [hloop] at h
              injection h with h
              subst h
              obtain ⟨s1, cg1, hs1, hpre, hb⟩ := (forEach_range_fail _ _ _ _ _).mp hloop
              exact ⟨ic, ops1, sd1, s1, cg1, rfl, trivial, rfl, rfl, hs1, hpre, by rw [hb]; rfl⟩
          · rintro ⟨ic2, ops2, sd2, s1, cg1, h1, _, h3, h4, hs1, hpre, hb⟩
            injection h1 with h1
            injection h3 with h3
            injection h4 with h4
            subst h1 h3 h4
            cases hbody : signalStep env custom ic ops1
                (env.isReadout custom.instruction_type) sd1 cg1 s1 with
            | ok a st1 =>
              rw [hbody] at hb
              exact Option.noConfusion hb
            | fail e st1 =>
              rw [hbody] at hb
              injection hb with hb
              subst hb
              rw [(forEach_range_fail _ _ _ _ _).mpr ⟨s1, cg1, hs1, hpre, hbody⟩]
              rfl

/-! ## Lemmas: the bundle matrix -/

theorem cellAt_setCell_cases {bundleInfo : List (List BundleInfo)} {instrIdx group i g : Nat}
    {bi c : BundleInfo} (h : cellAt (setCell bundleInfo instrIdx group bi) i g = some c) :
    (i = instrIdx ∧ g = group ∧ c = bi) ∨ cellAt bundleInfo i g = some c := by
  unfold cellAt setCell at h
  unfold cellAt
  by_cases hi : i = instrIdx
  · subst hi
    rw [List.get?_eq_getElem?, List.getElem?_modify_eq] at h
    cases hrow : bundleInfo[i]? with
    | none =>
      rw [hrow] at h
      simp at h
    | some row =>
      rw [hrow] at h
      simp only [Option.map_eq_map, Option.map_some'] at h
      rw [List.get?_eq_getElem?, hrow]
      simp only
      by_cases hg : g = group
      · subst hg
        left
        rw [List.get?_eq_getElem?, List.getElem?_set_self'] at h
        cases hc : row[g]? with
        | none =>
          rw [hc] at h
          simp at h
        | some c0 =>
          rw [hc] at h
          simp only [Option.map_eq_map, Option.map_some'] at h
          injection h with h
          exact ⟨trivial, rfl, h.symm⟩
      · right
        rw [List.get?_eq_getElem?, List.getElem?_set_ne (fun e => hg e.symm)] at h
        rw [List.get?_eq_getElem?]
        exact h
  · right
    rw [List.get?_eq_getElem?, List.getElem?_modify_ne _ _ (fun e => hi e.symm)] at h
    rw [List.get?_eq_getElem?]
    exact h

/-- A loop keeps what each of its iterations keeps. -/
theorem forEach_invariant {σ : Type} {body : σ → Nat → Res σ Unit} {P : σ → Prop}
    (hbody : ∀ st i st1, body st i = .ok () st1 → P st → P st1) (is : List Nat) :
    ∀ {st st1 : σ}, forEach body is st = .ok () st1 → P st → P st1 := by
  induction is with
  | nil =>
    intro st st1 h hP
    injection h with _ e
    subst e
    exact hP
  | cons i is ih =>
    intro st st1 h hP
    rw [forEach_cons] at h
    obtain ⟨_, st2, hstep, hrest⟩ := Res.andThen_eq_ok h
    exact ih hrest (hbody st i st2 hstep hP)

theorem storeSignal_ok_duration {env : Env D} {custom : CustomInstruction}
    {instrCond : tInstructionCondition} {ops : Operands} {isReadout : Bool}
    {csv : CalcSignalValue} {bi bi1 : BundleInfo}
    (h : storeSignal env custom instrCond ops isReadout csv bi = .ok () bi1) :
    bi1.durationInCycles = custom.instruction_type.duration := by
  unfold storeSignal at h
  obtain ⟨_, b1, _, hr1⟩ := Res.andThen_eq_ok h
  obtain ⟨_, b2, hmid, hr2⟩ := Res.andThen_eq_ok hr1
  clear h hr1
  injection hr2 with _ e
  subst e
  show b2.durationInCycles = _
  split at hmid
  · split at hmid
    · exact Res.noConfusion hmid
    · split at hmid
      · injection hmid with _ e
        subst e
        rfl
      · injection hmid with _ e
        subst e
        rfl
  · injection hmid with _ e
    subst e
    rfl

theorem signalStep_signalHasDuration {env : Env D} {custom : CustomInstruction}
    {instrCond : tInstructionCondition} {ops : Operands} {isReadout : Bool} {sd : SignalDef}
    {cg cg1 : Codegen D} {s : Nat} (hdur : 0 < custom.instruction_type.duration)
    (h : signalStep env custom instrCond ops isReadout sd cg s = .ok () cg1)
    (hinv : SignalHasDuration cg.bundleInfo) : SignalHasDuration cg1.bundleInfo := by
  unfold signalStep at h
  obtain ⟨csv, cga, hcsv, hcell⟩ := Res.andThen_eq_ok h
  clear h
  have hco := calcSignalValue_commentsOnly env cg sd s ops.qubits custom.instruction_type.name
  rw [hcsv] at hco
  have hbi : cga.bundleInfo = cg.bundleInfo := hco.2.2
  unfold onCell at hcell
  split at hcell
  · exact Res.noConfusion hcell
  · rename_i bi hbi0
    split at hcell
    · rename_i a bi1 hst
      injection hcell with _ e
      subst e
      have hd := storeSignal_ok_duration hst
      intro i g c hc hne
      rcases cellAt_setCell_cases hc with ⟨_, _, e⟩ | hold
      · rw [e, hd]
        exact hdur
      · rw [hbi] at hold
        exact hinv i g c hold hne
    · exact Res.noConfusion hcell

theorem custom_instruction_signalHasDuration {env : Env D} {custom : CustomInstruction}
    {cg cg1 : Codegen D} (hdur : 0 < custom.instruction_type.duration)
    (h : custom_instruction env cg custom = .ok () cg1)
    (hinv : SignalHasDuration cg.bundleInfo) : SignalHasDuration cg1.bundleInfo := by
  unfold custom_instruction at h
  split at h
  · exact Res.noConfusion h
  · split at h
    · exact Res.noConfusion h
    · split at h
      · exact Res.noConfusion h
      · split at h
        · exact Res.noConfusion h
        · simp only at h
          obtain ⟨sd, cga, hsd, hloop⟩ := Res.andThen_eq_ok h
          have e := pureCall_eq_ok hsd
          subst e
          refine forEach_invariant (P := fun c : Codegen D => SignalHasDuration c.bundleInfo)
            (fun st i st1 hb hP => signalStep_signalHasDuration hdur hb hP) _ hloop ?_
          have : (instructionComment env cg custom).bundleInfo = cg.bundleInfo := by
            unfold instructionComment
            split <;> exact comment_bundleInfo _ _ _
          show SignalHasDuration (instructionComment env cg custom).bundleInfo
          rw [this]
          exact hinv

theorem bundleStart_bundleInfo (env : Env D) (cg : Codegen D) (cmnt : Text) :
    (bundleStart env cg cmnt).bundleInfo
      = env.instruments.map fun ic => List.replicate ic.controlModeGroupCnt {} := by
  unfold bundleStart
  simp only
  rw [comment_bundleInfo]

theorem bundleStart_cell {env : Env D} {cg : Codegen D} {cmnt : Text} {instrIdx group : Nat}
    {bi : BundleInfo}
    (h : cellAt (bundleStart env cg cmnt).bundleInfo instrIdx group = some bi) : bi = {} := by
  rw [bundleStart_bundleInfo] at h
  unfold cellAt at h
  split at h
  · exact Option.noConfusion h
  · rename_i row hrow
    rw [List.get?_eq_getElem?, List.getElem?_map] at hrow
    cases hic : env.instruments[instrIdx]? with
    | none =>
      rw [hic] at hrow
      exact Option.noConfusion hrow
    | some ic =>
      rw [hic] at hrow
      simp only [Option.map_some'] at hrow
      injection hrow with hrow
      subst hrow
      have := List.get?_mem h
      exact List.eq_of_mem_replicate this

/-! ## Lemmas: what a call appends, whether it returns or throws -/

theorem AppendedLines.lines_refl (P : CodeLine → Prop) (cg : Codegen D) :
    AppendedLines P cg cg :=
  ⟨[], (List.append_nil _).symm, fun l hl => absurd hl (List.not_mem_nil l)⟩

theorem AppendedLines.lines_trans {P : CodeLine → Prop} {cg cg1 cg2 : Codegen D}
    (h1 : AppendedLines P cg cg1) (h2 : AppendedLines P cg1 cg2) : AppendedLines P cg cg2 := by
  obtain ⟨a, ha, hPa⟩ := h1
  obtain ⟨b, hb, hPb⟩ := h2
  refine ⟨a ++ b, by rw [hb, ha, List.append_assoc], ?_⟩
  intro l hl
  rcases List.mem_append.mp hl with h | h
  · exact hPa l h
  · exact hPb l h

theorem AppendedLines.lines_mono {P Q : CodeLine → Prop} {cg cg1 : Codegen D}
    (h : AppendedLines P cg cg1) (hPQ : ∀ l, P l → Q l) : AppendedLines Q cg cg1 := by
  obtain ⟨a, ha, hPa⟩ := h
  exact ⟨a, ha, fun l hl => hPQ l (hPa l hl)⟩

theorem AppendedLines.of_codeSection_same {P : CodeLine → Prop} {cg cg1 : Codegen D}
    (h : cg1.codeSection = cg.codeSection) : AppendedLines P cg cg1 :=
  ⟨[], by rw [h, List.append_nil], fun l hl => absurd hl (List.not_mem_nil l)⟩

theorem AppendedLines.of_line {P : CodeLine → Prop} {cg cg1 : Codegen D} {l : CodeLine}
    (h : cg1.codeSection = cg.codeSection ++ [l]) (hP : P l) : AppendedLines P cg cg1 :=
  ⟨[l], h, fun l1 hl1 => by rw [List.mem_singleton] at hl1; rw [hl1]; exact hP⟩

theorem AppendedLines.lines_andThen {P : CodeLine → Prop} {α β : Type} {cg : Codegen D}
    {r : Res (Codegen D) α} {f : α → Codegen D → Res (Codegen D) β}
    (h1 : AppendedLines P cg r.st)
    (h2 : ∀ a s, r = .ok a s → AppendedLines P s (f a s).st) :
    AppendedLines P cg (r.andThen f).st := by
  cases r with
  | ok a s => exact h1.lines_trans (h2 a s rfl)
  | fail e s => exact h1

theorem AppendedLines.lines_of_comment {P : CodeLine → Prop} (env : Env D) (cg : Codegen D)
    (c : Text) (hP : ∀ t, P (CodeLine.short t "")) : AppendedLines P cg (comment env cg c) := by
  obtain ⟨cmts, h, hc, _⟩ := comment_codeSection env cg c
  refine ⟨cmts, h, fun l hl => ?_⟩
  obtain ⟨t, e⟩ := hc l hl
  rw [e]
  exact hP t

theorem AppendedLines.lines_of_dpCall {P : CodeLine → Prop} {α : Type}
    (f : D → Except ExtErr (α × D)) (cg : Codegen D) : AppendedLines P cg (dpCall f cg).st := by
  unfold dpCall
  split
  · exact AppendedLines.of_codeSection_same rfl
  · exact AppendedLines.lines_refl P cg

theorem AppendedLines.of_pureCall {P : CodeLine → Prop} {α : Type}
    (r : Except ExtErr α) (cg : Codegen D) : AppendedLines P cg (pureCall r cg).st := by
  unfold pureCall
  split <;> exact AppendedLines.lines_refl P cg

theorem AppendedLines.of_forEach {P : CodeLine → Prop}
    {body : Codegen D → Nat → Res (Codegen D) Unit}
    (hbody : ∀ c i, AppendedLines P c (body c i).st) (is : List Nat) :
    ∀ cg : Codegen D, AppendedLines P cg (forEach body is cg).st := by
  induction is with
  | nil => exact fun cg => AppendedLines.lines_refl P cg
  | cons i is ih =>
    intro cg
    rw [forEach_cons]
    exact AppendedLines.lines_andThen (hbody cg i) fun _ s _ => ih s

theorem AppendedLines.of_forEachAcc {P : CodeLine → Prop} {α : Type}
    {body : α → Codegen D → Nat → Res (Codegen D) α}
    (hbody : ∀ a c i, AppendedLines P c (body a c i).st) (is : List Nat) :
    ∀ (acc : α) (cg : Codegen D), AppendedLines P cg (forEachAcc body is acc cg).st := by
  induction is with
  | nil => exact fun _ cg => AppendedLines.lines_refl P cg
  | cons i is ih =>
    intro acc cg
    unfold forEachAcc
    exact AppendedLines.lines_andThen (hbody acc cg i) fun a s _ => ih a s

theorem emitPadToCycle_appended {P : CodeLine → Prop} (cg : Codegen D)
    (instrIdx startCycle : Nat) (slot : Int) (instrumentName : String)
    (hP : ∀ ops cmt, P (CodeLine.line (.slot slot) "seq_wait" ops cmt)) :
    AppendedLines P cg (emitPadToCycle cg instrIdx startCycle slot instrumentName).st := by
  rw [emitPadToCycle_eq]
  split
  · exact AppendedLines.lines_refl P cg
  · split
    · exact AppendedLines.of_line rfl (hP _ _)
    · exact AppendedLines.of_codeSection_same rfl

theorem collectGroup_appended {P : CodeLine → Prop} (hP : ∀ t, P (CodeLine.short t ""))
    (env : Env D) (instrIdx nrGroups : Nat) (ic : InstrumentControl) (acc : CodeGenInfo)
    (cg : Codegen D) (group : Nat) :
    AppendedLines P cg (collectGroup env instrIdx nrGroups ic acc cg group).st := by
  unfold collectGroup
  split
  · exact AppendedLines.lines_refl P cg
  · rename_i bi _
    refine AppendedLines.lines_andThen ?_ ?_
    · by_cases hs : bi.signalValue ≠ ""
      · rw [if_pos hs]
        simp only
        generalize calcGroupDigOut env.OPT_VECTOR_MODE instrIdx group nrGroups ic
          bi.staticCodewordOverride = r
        cases r with
        | error e => exact AppendedLines.lines_refl P cg
        | ok gdo => exact AppendedLines.lines_of_comment env cg _ hP
      · rw [if_neg hs]
        exact AppendedLines.lines_refl P cg
    · intro info s _
      split
      · refine AppendedLines.lines_andThen (AppendedLines.of_pureCall _ _) ?_
        intro rb s1 _
        split
        · exact AppendedLines.lines_refl P s1
        · refine AppendedLines.lines_andThen (AppendedLines.lines_of_dpCall _ _) ?_
          intro _ s2 _
          exact AppendedLines.lines_refl P s2
      · exact AppendedLines.lines_refl P s

theorem collectCodeGenInfo_appended {P : CodeLine → Prop} (hP : ∀ t, P (CodeLine.short t ""))
    (env : Env D) (cg : Codegen D) (startCycle dur : Nat) :
    AppendedLines P cg (collectCodeGenInfo env cg startCycle dur).st := by
  unfold collectCodeGenInfo
  refine AppendedLines.of_forEachAcc ?_ _ _ _
  intro map c i
  unfold collectInstr
  split
  · exact AppendedLines.lines_refl P c
  · split
    · exact AppendedLines.lines_refl P c
    · split
      · exact AppendedLines.lines_refl P c
      · refine AppendedLines.lines_andThen
          (AppendedLines.of_forEachAcc (fun a c1 g => collectGroup_appended hP env _ _ _ a c1 g)
            _ _ _) ?_
        intro _ s _
        exact AppendedLines.lines_refl P s

/-! ## Lemmas: a bundle without instructions -/

theorem cellOf_of_all_default {row : List BundleInfo} (h : ∀ bi ∈ row, bi = {}) (g : Nat) :
    cellOf row g = {} := by
  unfold cellOf
  by_cases hg : g < row.length
  · rw [List.getD_eq_getElem _ _ hg]
    exact h _ (List.getElem_mem hg)
  · exact List.getD_eq_default _ _ (Nat.le_of_not_lt hg)

theorem populatedGroups_of_all_default {row : List BundleInfo} (h : ∀ bi ∈ row, bi = {}) :
    populatedGroups row = [] := by
  unfold populatedGroups
  rw [List.filter_eq_nil_iff]
  intro g _
  unfold isPopulated
  rw [cellOf_of_all_default h g]
  decide

theorem collected_of_all_default {env : Env D} {instrIdx : Nat} {ic : InstrumentControl}
    {row : List BundleInfo} {info : CodeGenInfo} (h : ∀ bi ∈ row, bi = {})
    (hci : CollectedInfo env instrIdx ic row info) :
    info.instrHasOutput = false ∧ info.feedbackMap.isEmpty = true := by
  obtain ⟨_, _, _, _, _, hout, _, hfb⟩ := hci
  constructor
  · rw [hout, populatedGroups_of_all_default h]
    rfl
  · rw [hfb, List.all_eq_true]
    intro g _
    rw [cellOf_of_all_default h g]
    rfl

theorem row_of_bundleStart {env : Env D} {cg : Codegen D} {cmnt : Text} {instrIdx : Nat}
    {row : List BundleInfo}
    (h : (bundleStart env cg cmnt).bundleInfo.get? instrIdx = some row) :
    ∃ ic, env.instruments.get? instrIdx = some ic
      ∧ row = List.replicate ic.controlModeGroupCnt {} := by
  rw [bundleStart_bundleInfo, List.get?_eq_getElem?, List.getElem?_map] at h
  cases hic : env.instruments[instrIdx]? with
  | none =>
    rw [hic] at h
    exact Option.noConfusion h
  | some ic =>
    rw [hic] at h
    simp only [Option.map_some'] at h
    injection h with h
    exact ⟨ic, by rw [List.get?_eq_getElem?, hic], h.symm⟩

/-- The lines that the body of the emit loop of `bundleFinish` appends for an instrument
without output in a bundle without feedback: comments and a padding at most. -/
theorem bundleFinishInstr_appended_idle {P : CodeLine → Prop} {env : Env D}
    {codeGenMap : CodeGenMap}
    (hP1 : ∀ t, P (CodeLine.short t ""))
    (hP2 : ∀ slot ops cmt, P (CodeLine.line (.slot slot) "seq_wait" ops cmt))
    (hmap : ∀ info ∈ codeGenMap, info.instrHasOutput = false ∧ info.feedbackMap.isEmpty = true)
    (startCycle dur : Nat) (isLastBundle : Bool) (cg : Codegen D) (instrIdx : Nat) :
    AppendedLines P cg
      (bundleFinishInstr env codeGenMap startCycle dur isLastBundle cg instrIdx).st := by
  have hfb : bundleHasFeedback codeGenMap = false := by
    unfold bundleHasFeedback
    rw [List.any_eq_false]
    intro info hinfo
    rw [(hmap info hinfo).2]
    decide
  unfold bundleFinishInstr
  split
  · exact AppendedLines.lines_refl P cg
  · rename_i info hinfo
    have hout := (hmap info (List.get?_mem hinfo)).1
    simp only [hout, hfb, Bool.false_eq_true, if_false]
    have h0 : AppendedLines P cg
        (if isLastBundle = true ∧ instrIdx = 0 then
          comment env cg [.str " # last bundle of kernel, will pad outputs to match durations"]
         else cg) := by
      split
      · exact AppendedLines.lines_of_comment env cg _ hP1
      · exact AppendedLines.lines_refl P cg
    simp only [Res.andThen]
    split
    · exact h0.lines_trans (emitPadToCycle_appended _ _ _ _ _ (hP2 _))
    · exact h0

/-- A `bundleFinish` that directly follows `bundleStart` appends comments and paddings
only, whether it returns or throws. -/
theorem bundleFinish_after_bundleStart {P : CodeLine → Prop} (env : Env D) (cg : Codegen D)
    (cmnt : Text) (startCycle dur : Nat) (isLastBundle : Bool)
    (hP1 : ∀ t, P (CodeLine.short t ""))
    (hP2 : ∀ slot ops cmt, P (CodeLine.line (.slot slot) "seq_wait" ops cmt)) :
    AppendedLines P (bundleStart env cg cmnt)
      (bundleFinish env (bundleStart env cg cmnt) startCycle dur isLastBundle).st := by
  unfold bundleFinish
  refine AppendedLines.lines_andThen (collectCodeGenInfo_appended hP1 env _ _ _) ?_
  intro codeGenMap cgA hcollect
  obtain ⟨_, hlen, hall⟩ := collectCodeGenInfo_ok hcollect
  have hmap : ∀ info ∈ codeGenMap,
      info.instrHasOutput = false ∧ info.feedbackMap.isEmpty = true := by
    intro info hinfo
    obtain ⟨i, hi, e⟩ := List.getElem_of_mem hinfo
    have hi2 : i < env.instruments.length := by rw [← hlen]; exact hi
    obtain ⟨row, info1, hrow, hinfo1, hci⟩ := hall i _ (List.get?_eq_get hi2)
    rw [List.get?_eq_getElem?, List.getElem?_eq_getElem hi, e] at hinfo1
    injection hinfo1 with e1
    subst e1
    obtain ⟨ic, _, hr⟩ := row_of_bundleStart hrow
    refine collected_of_all_default ?_ hci
    intro bi hbi
    rw [hr] at hbi
    exact List.eq_of_mem_replicate hbi
  refine AppendedLines.lines_andThen
    (AppendedLines.of_forEach
      (fun c i => bundleFinishInstr_appended_idle hP1 hP2 hmap _ _ _ c i) _ _) ?_
  intro _ cgB _
  exact AppendedLines.lines_of_comment env cgB _ hP1

/-! ## Lemmas: the instructions of a bundle -/

theorem instructionMnemonics_append (a b : List CodeLine) :
    instructionMnemonics (a ++ b) = instructionMnemonics a ++ instructionMnemonics b := by
  unfold instructionMnemonics
  rw [List.map_append, List.filter_append]

theorem instructionMnemonics_comments {ls : List CodeLine}
    (h : ∀ l ∈ ls, ∃ t, l = CodeLine.short t "") : instructionMnemonics ls = [] := by
  unfold instructionMnemonics
  rw [List.filter_eq_nil_iff]
  intro m hm
  obtain ⟨l, hl, e⟩ := List.mem_map.mp hm
  obtain ⟨t, e1⟩ := h l hl
  rw [← e, e1]
  simp [CodeLine.mnemonic]

theorem feedbackMnemonics_eq_filter (ls : List CodeLine) :
    feedbackMnemonics ls
      = (instructionMnemonics ls).filter fun m => m == "seq_in_sm" || m == "seq_inv_sm" := by
  unfold feedbackMnemonics instructionMnemonics
  induction ls with
  | nil => rfl
  | cons l ls ih =>
    rw [List.map_cons, List.filter_cons, List.filter_cons]
    by_cases h1 : l.isFeedback = true
    · have h2 : (l.mnemonic != "" && l.mnemonic != "seq_wait") = true := by
        unfold CodeLine.isFeedback at h1
        rw [Bool.or_eq_true, beq_iff_eq, beq_iff_eq] at h1
        rcases h1 with e | e <;> rw [e] <;> decide
      rw [if_pos h1, if_pos h2, List.map_cons, List.filter_cons, ih]
      rw [if_pos (by exact h1)]
    · rw [if_neg h1]
      by_cases h2 : (l.mnemonic != "" && l.mnemonic != "seq_wait") = true
      · rw [if_pos h2, List.filter_cons, ih, if_neg (by exact h1)]
      · rw [if_neg h2, ih]

theorem outputMnemonics_eq_filter (ls : List CodeLine) :
    outputMnemonics ls
      = (instructionMnemonics ls).filter fun m => m == "seq_out" || m == "seq_out_sm" := by
  unfold outputMnemonics instructionMnemonics
  induction ls with
  | nil => rfl
  | cons l ls ih =>
    rw [List.map_cons, List.filter_cons, List.filter_cons]
    by_cases h1 : l.isOutput = true
    · have h2 : (l.mnemonic != "" && l.mnemonic != "seq_wait") = true := by
        unfold CodeLine.isOutput at h1
        rw [Bool.or_eq_true, beq_iff_eq, beq_iff_eq] at h1
        rcases h1 with e | e <;> rw [e] <;> decide
      rw [if_pos h1, if_pos h2, List.map_cons, List.filter_cons, ih]
      rw [if_pos (by exact h1)]
    · rw [if_neg h1]
      by_cases h2 : (l.mnemonic != "" && l.mnemonic != "seq_wait") = true
      · rw [if_pos h2, List.filter_cons, ih, if_neg (by exact h1)]
      · rw [if_neg h2, ih]

/-- Two descriptions of what was appended between the same two states agree. -/
theorem appended_unique {cg cg1 : Codegen D} {a b : List CodeLine}
    (ha : cg1.codeSection = cg.codeSection ++ a) (hb : cg1.codeSection = cg.codeSection ++ b) :
    a = b :=
  List.append_cancel_left (ha.symm.trans hb)

theorem emitPadToCycle_shape {cg cg1 : Codegen D} {instrIdx startCycle : Nat} {slot : Int}
    {instrumentName : String}
    (h : emitPadToCycle cg instrIdx startCycle slot instrumentName = .ok () cg1) :
    ∃ seg, EmittedFor cg cg1 instrIdx slot seg ∧ instructionMnemonics seg = []
      ∧ cg1.lastEndCycle instrIdx = startCycle
      ∧ uintSub startCycle (cg.lastEndCycle instrIdx) < 2 ^ 63 := by
  obtain ⟨seg, hem, _, hcur, _, _⟩ := emitPadToCycle_emitted h
  rw [emitPadToCycle_eq] at h
  split at h
  · exact Res.noConfusion h
  · rename_i hle
    refine ⟨seg, hem, ?_, hcur, Nat.lt_of_not_le hle⟩
    split at h
    · injection h with _ e
      subst e
      rw [appended_unique hem.1 rfl]
      rfl
    · injection h with _ e
      subst e
      rw [appended_unique hem.1 (List.append_nil _).symm]
      rfl

theorem emitOutput_shape {env : Env D} {cg cg1 : Codegen D} {condGateMap : CondGateMap}
    {digOut instrMaxDurationInCycles instrIdx startCycle : Nat} {slot : Int}
    {instrumentName : String}
    (h : emitOutput env cg condGateMap digOut instrMaxDurationInCycles instrIdx startCycle slot
      instrumentName = .ok () cg1) :
    ∃ seg, EmittedFor cg cg1 instrIdx slot seg
      ∧ instructionMnemonics seg = [if condGateMap.isEmpty then "seq_out" else "seq_out_sm"]
      ∧ cg1.lastEndCycle instrIdx = uintAdd startCycle instrMaxDurationInCycles
      ∧ uintSub startCycle (cg.lastEndCycle instrIdx) < 2 ^ 63 := by
  obtain ⟨seg, hem, _⟩ := emitOutput_emitted h
  unfold emitOutput at h
  obtain ⟨_, cga, hpad, hr1⟩ := Res.andThen_eq_ok h
  obtain ⟨_, cgb, hout, hr2⟩ := Res.andThen_eq_ok hr1
  clear h hr1
  injection hr2 with _ e
  subst e
  obtain ⟨s0, hs0, hc0, _⟩ := comment_codeSection env cg
    [.str "  # slot=", .int slot, .str ", instrument='", .str instrumentName, .str "'",
     .str ": lastEndCycle=", .nat (cg.lastEndCycle instrIdx),
     .str ", startCycle=", .nat startCycle,
     .str ", instrMaxDurationInCycles=", .nat instrMaxDurationInCycles]
  obtain ⟨s1, hs1, hi1, _, hle⟩ := emitPadToCycle_shape hpad
  rw [comment_lastEndCycle] at hle
  refine ⟨seg, hem, ?_, ?_, hle⟩
  · by_cases hc : condGateMap.isEmpty = true
    · rw [if_pos hc] at hout
      injection hout with _ e
      subst e
      have : seg = s0 ++ (s1 ++ [CodeLine.line (.slot slot) "seq_out"
          [.str "0x", .hex8 digOut, .str ",", .nat instrMaxDurationInCycles]
          [.str "# cycle ", .nat startCycle, .str "-",
            .nat (uintAdd startCycle instrMaxDurationInCycles),
            .str ": code word/mask on '", .str instrumentName, .str "'"]]) := by
        refine appended_unique hem.1 ?_
        show (emitSlot cga slot _ _ _).codeSection = _
        unfold emitSlot
        simp only
        rw [hs1.1, hs0, List.append_assoc, List.append_assoc]
      rw [this, instructionMnemonics_append, instructionMnemonics_append,
        instructionMnemonics_comments hc0, hi1, if_pos hc]
      rfl
    · rw [if_neg hc] at hout
      obtain ⟨pl, cgc, h1, hq1⟩ := Res.andThen_eq_ok hout
      obtain ⟨smAddr, cgd, h2, hq2⟩ := Res.andThen_eq_ok hq1
      clear hout hq1
      obtain ⟨dp1, e1⟩ := dpCall_eq_ok h1
      obtain ⟨dp2, e2⟩ := dpCall_eq_ok h2
      subst e1 e2
      injection hq2 with _ e
      subst e
      have : seg = s0 ++ (s1 ++ [CodeLine.line (.slot slot) "seq_out_sm"
          [.str "S", .nat smAddr, .str ",", .nat pl, .str ",", .nat instrMaxDurationInCycles]
          [.str "# cycle ", .nat startCycle, .str "-",
            .nat (uintAdd startCycle instrMaxDurationInCycles),
            .str ": conditional code word/mask on '", .str instrumentName, .str "'"]]) := by
        refine appended_unique hem.1 ?_
        show (emitSlot _ slot _ _ _).codeSection = _
        unfold emitSlot
        simp only
        rw [hs1.1, hs0, List.append_assoc, List.append_assoc]
      rw [this, instructionMnemonics_append, instructionMnemonics_append,
        instructionMnemonics_comments hc0, hi1, if_neg hc]
      rfl
  · show Function.update _ instrIdx _ instrIdx = _
    rw [Function.update_same]

theorem emitFeedback_shape {env : Env D} {cg cg1 : Codegen D} {feedbackMap : FeedbackMap}
    {instrIdx startCycle : Nat} {slot : Int} {instrumentName : String}
    (h : emitFeedback env cg feedbackMap instrIdx startCycle slot instrumentName = .ok () cg1) :
    ∃ seg, EmittedFor cg cg1 instrIdx slot seg
      ∧ instructionMnemonics seg = [if feedbackMap.isEmpty then "seq_inv_sm" else "seq_in_sm"]
      ∧ cg1.lastEndCycle instrIdx = uintAdd (max (cg.lastEndCycle instrIdx) startCycle) 1 := by
  obtain ⟨seg, hem, _⟩ := emitFeedback_emitted h
  unfold emitFeedback at h
  obtain ⟨_, cga, hpad, hrest⟩ := Res.andThen_eq_ok h
  clear h
  have hca : ∃ s1, cga.codeSection = cg.codeSection ++ s1 ∧ instructionMnemonics s1 = []
      ∧ cga.lastEndCycle instrIdx = max (cg.lastEndCycle instrIdx) startCycle := by
    split at hpad
    · rename_i hgt
      obtain ⟨s1, hs1, hi1, hcur, _⟩ := emitPadToCycle_shape hpad
      exact ⟨s1, hs1.1, hi1, by rw [hcur]; omega⟩
    · rename_i hle
      injection hpad with _ e
      subst e
      exact ⟨[], (List.append_nil _).symm, rfl, by omega⟩
  obtain ⟨s1, hs1, hi1, hcur⟩ := hca
  split at hrest
  · rename_i hfm
    obtain ⟨mux, cgb, h1, hr1⟩ := Res.andThen_eq_ok hrest
    obtain ⟨_, cgc, h2, hr2⟩ := Res.andThen_eq_ok hr1
    obtain ⟨sizeTag, cgd, h3, hr3⟩ := Res.andThen_eq_ok hr2
    obtain ⟨smAddr, cge, h4, hr4⟩ := Res.andThen_eq_ok hr3
    clear hrest hr1 hr2 hr3
    obtain ⟨dp1, e1⟩ := dpCall_eq_ok h1
    obtain ⟨dp2, e2⟩ := dpCall_eq_ok h2
    have e3 := pureCall_eq_ok h3
    have e4 := pureCall_eq_ok h4
    subst e1 e2 e3 e4
    injection hr4 with _ e
    subst e
    have hne : feedbackMap.isEmpty = false := by
      cases hb : feedbackMap.isEmpty with
      | false => rfl
      | true => rw [hb] at hfm; exact absurd hfm (by decide)
    refine ⟨seg, hem, ?_, ?_⟩
    · have : seg = s1 ++ [CodeLine.line (.slot slot) "seq_in_sm"
          [.str "S", .nat smAddr, .str ",", .nat mux, .str ",", .nat sizeTag]
          [.str "# cycle ", .nat (cga.lastEndCycle instrIdx), .str "-",
           .nat (uintAdd (cga.lastEndCycle instrIdx) 1), .str ": feedback on '",
           .str instrumentName, .str "'"]] := by
        refine appended_unique hem.1 ?_
        show (emitSlot _ slot _ _ _).codeSection = _
        unfold emitSlot
        simp only
        rw [hs1, List.append_assoc]
      rw [this, instructionMnemonics_append, hi1, hne]
      rfl
    · show Function.update _ instrIdx _ instrIdx = _
      rw [Function.update_same]
      show uintAdd (cga.lastEndCycle instrIdx) 1 = _
      rw [hcur]
  · rename_i hfm
    injection hrest with _ e
    subst e
    have hne : feedbackMap.isEmpty = true := by
      cases hb : feedbackMap.isEmpty with
      | true => rfl
      | false => rw [hb] at hfm; exact absurd rfl hfm
    refine ⟨seg, hem, ?_, ?_⟩
    · have : seg = s1 ++ [CodeLine.line (.slot slot) "seq_inv_sm"
          [.str "S", .nat 0, .str ",", .nat 1]
          [.str "# cycle ", .nat (cga.lastEndCycle instrIdx), .str "-",
           .nat (uintAdd (cga.lastEndCycle instrIdx) 1), .str ": invalidate SM on '",
           .str instrumentName, .str "'"]] := by
        refine appended_unique hem.1 ?_
        show (emitSlot _ slot _ _ _).codeSection = _
        unfold emitSlot
        simp only
        rw [hs1, List.append_assoc]
      rw [this, instructionMnemonics_append, hi1, hne]
      rfl
    · show Function.update _ instrIdx _ instrIdx = _
      rw [Function.update_same]
      show uintAdd (cga.lastEndCycle instrIdx) 1 = _
      rw [hcur]

/-- What a successful iteration of the emit loop of `bundleFinish` appends for its
instrument, and where it leaves the cursor. -/
theorem bundleFinishInstr_shape {env : Env D} {codeGenMap : CodeGenMap}
    {startCycle dur : Nat} {isLastBundle : Bool} {cg cg1 : Codegen D} {instrIdx : Nat}
    (h : bundleFinishInstr env codeGenMap startCycle dur isLastBundle cg instrIdx
      = .ok () cg1) :
    ∃ info seg, codeGenMap.get? instrIdx = some info
      ∧ EmittedFor cg cg1 instrIdx info.slot seg
      ∧ instructionMnemonics seg =
          (if info.instrHasOutput = true then
            [if info.condGateMap.isEmpty then "seq_out" else "seq_out_sm"]
           else [])
          ++ (if bundleHasFeedback codeGenMap = true then
            [if info.feedbackMap.isEmpty then "seq_inv_sm" else "seq_in_sm"]
           else [])
      ∧ cg1.lastEndCycle instrIdx
          = cursorAfter startCycle dur isLastBundle (bundleHasFeedback codeGenMap) info
              (cg.lastEndCycle instrIdx)
      ∧ (info.instrHasOutput = true →
          uintSub startCycle (cg.lastEndCycle instrIdx) < 2 ^ 63) := by
  unfold bundleFinishInstr at h
  split at h
  · exact Res.noConfusion h
  · rename_i info hinfo
    simp only at h
    obtain ⟨_, cga, hA, hr1⟩ := Res.andThen_eq_ok h
    obtain ⟨_, cgb, hB, hC⟩ := Res.andThen_eq_ok hr1
    clear h hr1
    refine ⟨info, ?_⟩
    generalize hg : (if isLastBundle = true ∧ instrIdx = 0 then
          comment env cg
            [.str " # last bundle of kernel, will pad outputs to match durations"]
         else cg) = cg0 at hA
    have h0 : ∃ seg, EmittedFor cg cg0 instrIdx info.slot seg ∧ instructionMnemonics seg = []
        ∧ cg0.lastEndCycle instrIdx = cg.lastEndCycle instrIdx := by
      rw [← hg]
      split
      · obtain ⟨seg, h1, _, h3⟩ := comment_emitted env cg
          [.str " # last bundle of kernel, will pad outputs to match durations"]
          instrIdx info.slot
        exact ⟨seg, h1, instructionMnemonics_comments h3, by rw [comment_lastEndCycle]⟩
      · exact ⟨[], EmittedFor.emitted_refl _ _ _, rfl, rfl⟩
    obtain ⟨s0, hs0, hi0, hc0⟩ := h0
    -- output
    have hA2 : ∃ seg, EmittedFor cg0 cga instrIdx info.slot seg
        ∧ instructionMnemonics seg =
            (if info.instrHasOutput = true then
              [if info.condGateMap.isEmpty then "seq_out" else "seq_out_sm"]
             else [])
        ∧ cga.lastEndCycle instrIdx =
            (if info.instrHasOutput = true then
              uintAdd startCycle info.instrMaxDurationInCycles
             else cg.lastEndCycle instrIdx)
        ∧ (info.instrHasOutput = true →
            uintSub startCycle (cg.lastEndCycle instrIdx) < 2 ^ 63) := by
      by_cases ho : info.instrHasOutput = true
      · rw [if_pos ho] at hA
        rw [if_pos ho, if_pos ho]
        obtain ⟨seg, h1, h2, h3, h4⟩ := emitOutput_shape hA
        exact ⟨seg, h1, h2, h3, fun _ => by rw [← hc0]; exact h4⟩
      · rw [if_neg ho] at hA
        rw [if_neg ho, if_neg ho]
        injection hA with _ e
        subst e
        exact ⟨[], EmittedFor.emitted_refl _ _ _, rfl, hc0, fun hh => absurd hh ho⟩
    obtain ⟨sA, hsA, hiA, hcA, hle⟩ := hA2
    -- feedback
    have hB2 : ∃ seg, EmittedFor cga cgb instrIdx info.slot seg
        ∧ instructionMnemonics seg =
            (if bundleHasFeedback codeGenMap = true then
              [if info.feedbackMap.isEmpty then "seq_inv_sm" else "seq_in_sm"]
             else [])
        ∧ cgb.lastEndCycle instrIdx =
            (if bundleHasFeedback codeGenMap = true then
              uintAdd (max (cga.lastEndCycle instrIdx) startCycle) 1
             else cga.lastEndCycle instrIdx) := by
      by_cases hf : bundleHasFeedback codeGenMap = true
      · rw [if_pos hf] at hB
        rw [if_pos hf, if_pos hf]
        exact emitFeedback_shape hB
      · rw [if_neg hf] at hB
        rw [if_neg hf, if_neg hf]
        injection hB with _ e
        subst e
        exact ⟨[], EmittedFor.emitted_refl _ _ _, rfl, rfl⟩
    obtain ⟨sB, hsB, hiB, hcB⟩ := hB2
    -- padding of the last bundle
    have hC2 : ∃ seg, EmittedFor cgb cg1 instrIdx info.slot seg ∧ instructionMnemonics seg = []
        ∧ cg1.lastEndCycle instrIdx =
            (if isLastBundle = true then uintAdd startCycle dur
             else cgb.lastEndCycle instrIdx) := by
      by_cases hl : isLastBundle = true
      · rw [if_pos hl] at hC
        rw [if_pos hl]
        obtain ⟨seg, h1, h2, h3, _⟩ := emitPadToCycle_shape hC
        exact ⟨seg, h1, h2, h3⟩
      · rw [if_neg hl] at hC
        rw [if_neg hl]
        injection hC with _ e
        subst e
        exact ⟨[], EmittedFor.emitted_refl _ _ _, rfl, rfl⟩
    obtain ⟨sC, hsC, hiC, hcC⟩ := hC2
    refine ⟨s0 ++ (sA ++ (sB ++ sC)), hinfo,
      hs0.emitted_trans (hsA.emitted_trans (hsB.emitted_trans hsC)), ?_, ?_, hle⟩
    · rw [instructionMnemonics_append, instructionMnemonics_append,
        instructionMnemonics_append, hi0, hiA, hiB, hiC, List.nil_append, List.append_nil]
    · rw [hcC, hcB, hcA]
      unfold cursorAfter
      by_cases hl : isLastBundle = true
      · simp only [hl, if_true]
      · simp only [hl, if_false]

/-- A loop over pairwise distinct instruments, each iteration of which appends a segment
and moves the cursor of its own instrument only: the segments follow each other in order,
and what holds of an iteration between the cursor before and after it holds between the
cursors before and after the loop. -/
theorem forEach_segments_cursor {body : Codegen D → Nat → Res (Codegen D) Unit}
    {P : Nat → Nat → Nat → List CodeLine → Prop}
    (hbody : ∀ cg i cg1, body cg i = .ok () cg1 →
      ∃ seg, cg1.codeSection = cg.codeSection ++ seg
        ∧ (∀ j, j ≠ i → cg1.lastEndCycle j = cg.lastEndCycle j)
        ∧ P i (cg.lastEndCycle i) (cg1.lastEndCycle i) seg)
    (is : List Nat) :
    ∀ {cg cg1 : Codegen D}, is.Nodup → forEach body is cg = .ok () cg1 →
    ∃ segs, cg1.codeSection = cg.codeSection ++ segs.flatten
      ∧ (∀ j, j ∉ is → cg1.lastEndCycle j = cg.lastEndCycle j)
      ∧ List.Forall₂ (fun i seg => P i (cg.lastEndCycle i) (cg1.lastEndCycle i) seg)
          is segs := by
  induction is with
  | nil =>
    intro cg cg1 _ h
    injection h with _ e
    subst e
    exact ⟨[], by simp, fun _ _ => rfl, List.Forall₂.nil⟩
  | cons i is ih =>
    intro cg cg1 hnd h
    rw [forEach_cons] at h
    obtain ⟨_, cg2, hstep, hrest⟩ := Res.andThen_eq_ok h
    obtain ⟨seg, hc, ho, hP⟩ := hbody cg i cg2 hstep
    have hnd2 := List.nodup_cons.mp hnd
    obtain ⟨segs, hc2, ho2, hall⟩ := ih hnd2.2 hrest
    refine ⟨seg :: segs, ?_, ?_, List.Forall₂.cons ?_ ?_⟩
    · rw [hc2, hc, List.flatten_cons, List.append_assoc]
    · intro j hj
      have hji : j ≠ i := fun e => hj (by rw [e]; exact List.mem_cons_self _ _)
      have hjis : j ∉ is := fun hm => hj (List.mem_cons_of_mem _ hm)
      rw [ho2 j hjis, ho j hji]
    · rw [ho2 i hnd2.1]
      exact hP
    · have hne : ∀ a ∈ is, a ≠ i := fun a ha e => hnd2.1 (by rw [← e]; exact ha)
      refine List.Forall₂.imp ?_ ((List.forall₂_and_left _ _).mpr ⟨hne, hall⟩)
      intro a b hab
      obtain ⟨hai, hPa⟩ := hab
      rw [← ho a hai]
      exact hPa

theorem collected_feedbackMap {env : Env D} {instrIdx : Nat} {ic : InstrumentControl}
    {row : List BundleInfo} {info : CodeGenInfo} (hci : CollectedInfo env instrIdx ic row info) :
    info.feedbackMap.isEmpty = !rowHasFeedback row := by
  obtain ⟨_, _, _, _, _, _, _, hfb⟩ := hci
  rw [hfb]
  unfold rowHasFeedback
  rw [List.not_any_eq_all_not]

theorem bundleHasFeedback_eq {env : Env D} {cg cg1 : Codegen D} {startCycle dur : Nat}
    {codeGenMap : CodeGenMap}
    (h : collectCodeGenInfo env cg startCycle dur = .ok codeGenMap cg1) :
    bundleHasFeedback codeGenMap = bundleFeedback env cg := by
  obtain ⟨_, hlen, hall⟩ := collectCodeGenInfo_ok h
  have hiff : bundleHasFeedback codeGenMap = true ↔ bundleFeedback env cg = true := by
    unfold bundleHasFeedback bundleFeedback
    rw [List.any_eq_true, List.any_eq_true]
    constructor
    · rintro ⟨info, hinfo, hne⟩
      obtain ⟨i, hi, e⟩ := List.getElem_of_mem hinfo
      have hi2 : i < env.instruments.length := by rw [← hlen]; exact hi
      obtain ⟨row, info1, hrow, hinfo1, hci⟩ := hall i _ (List.get?_eq_get hi2)
      rw [List.get?_eq_getElem?, List.getElem?_eq_getElem hi, e] at hinfo1
      injection hinfo1 with e1
      subst e1
      refine ⟨i, List.mem_range.mpr hi2, ?_⟩
      have hrow2 : cg.bundleInfo.getD i [] = row := by
        rw [List.getD_eq_getElem?_getD, ← List.get?_eq_getElem?, hrow]
        rfl
      rw [hrow2]
      rw [collected_feedbackMap hci] at hne
      simpa using hne
    · rintro ⟨i, hi, hfb⟩
      have hi2 : i < env.instruments.length := List.mem_range.mp hi
      obtain ⟨row, info, hrow, hinfo, hci⟩ := hall i _ (List.get?_eq_get hi2)
      have hrow2 : cg.bundleInfo.getD i [] = row := by
        rw [List.getD_eq_getElem?_getD, ← List.get?_eq_getElem?, hrow]
        rfl
      rw [hrow2] at hfb
      refine ⟨info, List.get?_mem hinfo, ?_⟩
      rw [collected_feedbackMap hci, hfb]
      rfl
  cases hb : bundleFeedback env cg with
  | true => exact hiff.mpr hb
  | false =>
    cases ha : bundleHasFeedback codeGenMap with
    | false => rfl
    | true => rw [hiff.mp ha] at hb; exact Bool.noConfusion hb

/-- The code that a successful `bundleFinish` appends and the cursors it leaves: comments
of the collect phase, one segment per instrument in instrument order, and the closing
blank comment. -/
theorem bundleFinish_shape {env : Env D} {cg cg1 : Codegen D} {startCycle dur : Nat}
    {isLastBundle : Bool} (h : bundleFinish env cg startCycle dur isLastBundle = .ok () cg1) :
    ∃ codeGenMap pre segs post,
      (collectCodeGenInfo env cg startCycle dur).val? = some codeGenMap
      ∧ bundleHasFeedback codeGenMap = bundleFeedback env cg
      ∧ cg1.codeSection = cg.codeSection ++ pre ++ segs.flatten ++ post
      ∧ (∀ l ∈ pre, ∃ t, l = CodeLine.short t "")
      ∧ (∀ l ∈ post, ∃ t, l = CodeLine.short t "")
      ∧ List.Forall₂
          (fun i seg => ∃ ic row info, env.instruments.get? i = some ic
            ∧ cg.bundleInfo.get? i = some row
            ∧ codeGenMap.get? i = some info
            ∧ CollectedInfo env i ic row info
            ∧ (∀ l ∈ seg, l.slot? = some ic.ii.slot ∨ ∃ t, l = CodeLine.short t "")
            ∧ instructionMnemonics seg =
                (if info.instrHasOutput = true then
                  [if info.condGateMap.isEmpty then "seq_out" else "seq_out_sm"]
                 else [])
                ++ (if bundleFeedback env cg = true then
                  [if info.feedbackMap.isEmpty then "seq_inv_sm" else "seq_in_sm"]
                 else [])
            ∧ cg1.lastEndCycle i
                = cursorAfter startCycle dur isLastBundle (bundleFeedback env cg) info
                    (cg.lastEndCycle i)
            ∧ (info.instrHasOutput = true → uintSub startCycle (cg.lastEndCycle i) < 2 ^ 63))
          (List.range env.instruments.length) segs := by
  unfold bundleFinish at h
  obtain ⟨codeGenMap, cga, hcollect, hr1⟩ := Res.andThen_eq_ok h
  obtain ⟨_, cgb, hloop, hr2⟩ := Res.andThen_eq_ok hr1
  clear h hr1
  injection hr2 with _ e
  subst e
  have hfb := bundleHasFeedback_eq hcollect
  obtain ⟨⟨⟨pre, hpre, hpreC, _⟩, hlastA, hbiA⟩, hlen, hmap⟩ := collectCodeGenInfo_ok hcollect
  obtain ⟨post, hpost, hpostC, _⟩ := comment_codeSection env cgb []
  obtain ⟨Q, hQ⟩ : ∃ Q : Nat → Nat → Nat → List CodeLine → Prop,
      Q = fun i before after seg => ∃ info, codeGenMap.get? i = some info
            ∧ (∀ l ∈ seg, l.slot? = some info.slot ∨ ∃ t, l = CodeLine.short t "")
            ∧ instructionMnemonics seg =
                (if info.instrHasOutput = true then
                  [if info.condGateMap.isEmpty then "seq_out" else "seq_out_sm"]
                 else [])
                ++ (if bundleHasFeedback codeGenMap = true then
                  [if info.feedbackMap.isEmpty then "seq_inv_sm" else "seq_in_sm"]
                 else [])
            ∧ after
                = cursorAfter startCycle dur isLastBundle (bundleHasFeedback codeGenMap) info
                    before
            ∧ (info.instrHasOutput = true → uintSub startCycle before < 2 ^ 63) := ⟨_, rfl⟩
  have hbody : ∀ (c : Codegen D) (i : Nat) (c1 : Codegen D),
      bundleFinishInstr env codeGenMap startCycle dur isLastBundle c i = .ok () c1 →
      ∃ seg, c1.codeSection = c.codeSection ++ seg
        ∧ (∀ j, j ≠ i → c1.lastEndCycle j = c.lastEndCycle j)
        ∧ Q i (c.lastEndCycle i) (c1.lastEndCycle i) seg := by
    intro c i c1 hc
    obtain ⟨info, seg, hinfo, ⟨h1, _, h3, h4⟩, h5, h6, h7⟩ := bundleFinishInstr_shape hc
    rw [hQ]
    exact ⟨seg, h1, h3, info, hinfo, h4, h5, h6, h7⟩
  obtain ⟨segs, hcode, hother, hall⟩ :=
    forEach_segments_cursor hbody (List.range env.instruments.length) (List.nodup_range _) hloop
  rw [hQ] at hall
  refine ⟨codeGenMap, pre, segs, post, by rw [hcollect]; rfl, hfb, ?_, hpreC, hpostC, ?_⟩
  · rw [hpost, hcode, hpre]
  · have hmem : ∀ a ∈ List.range env.instruments.length, a < env.instruments.length :=
      fun a ha => List.mem_range.mp ha
    refine List.Forall₂.imp ?_ ((List.forall₂_and_left _ _).mpr ⟨hmem, hall⟩)
    intro i seg hi
    obtain ⟨hlt, info, hinfo, hslot, hmn, hcur, hle⟩ := hi
    obtain ⟨row, info1, hrow, hinfo1, hci⟩ := hmap i _ (List.get?_eq_get hlt)
    rw [hinfo] at hinfo1
    injection hinfo1 with e
    subst e
    refine ⟨_, row, info, List.get?_eq_get hlt, hrow, hinfo, hci, ?_, ?_, ?_, ?_⟩
    · rw [← hci.1]
      exact hslot
    · rw [← hfb]
      exact hmn
    · rw [comment_lastEndCycle, hcur, hlastA, hfb]
    · intro ho
      rw [← hlastA]
      exact hle ho

theorem cursorAfter_lt (startCycle dur : Nat) (isLastBundle hasFeedback : Bool)
    (info : CodeGenInfo) {before : Nat} (h : before < 2 ^ 64) :
    cursorAfter startCycle dur isLastBundle hasFeedback info before < 2 ^ 64 := by
  unfold cursorAfter
  split
  · exact uintAdd_lt _ _
  · split
    · exact uintAdd_lt _ _
    · split
      · exact uintAdd_lt _ _
      · exact h

/-- A successful `bundleFinish` leaves every cursor a `UInt` value, if it was one before. -/
theorem bundleFinish_cursor_lt {env : Env D} {cg cg1 : Codegen D} {startCycle dur : Nat}
    {isLastBundle : Bool} (h : bundleFinish env cg startCycle dur isLastBundle = .ok () cg1)
    (hr : ∀ j, cg.lastEndCycle j < 2 ^ 64) : ∀ j, cg1.lastEndCycle j < 2 ^ 64 := by
  intro j
  obtain ⟨_, _, _, _, _, _, hother, _⟩ := bundleFinish_segments h
  obtain ⟨codeGenMap, pre, segs, post, _, _, _, _, _, hall⟩ := bundleFinish_shape h
  obtain ⟨hlen, hget⟩ := forall₂_range_get? hall
  by_cases hj : j < env.instruments.length
  · obtain ⟨_, ic, row, info, _, _, _, _, _, _, hcur, _⟩ :=
      hget j _ (List.get?_eq_get (by rw [hlen]; exact hj))
    rw [hcur]
    exact cursorAfter_lt _ _ _ _ _ (hr j)
  · rw [hother j (Nat.le_of_not_lt hj)]
    exact hr j

/-- An instrument with output whose cursor is past `startCycle`, so that the difference of
the two reads as a negative number: its iteration of the emit loop throws the time travel
error, having appended comments only. -/
theorem bundleFinishInstr_timeTravel {env : Env D} {codeGenMap : CodeGenMap}
    {startCycle dur : Nat} {isLastBundle : Bool} {cg : Codegen D} {instrIdx : Nat}
    {info : CodeGenInfo} (hinfo : codeGenMap.get? instrIdx = some info)
    (hout : info.instrHasOutput = true)
    (hlate : 2 ^ 63 ≤ uintSub startCycle (cg.lastEndCycle instrIdx)) :
    ∃ cg1, bundleFinishInstr env codeGenMap startCycle dur isLastBundle cg instrIdx
        = .fail .timeTravel cg1
      ∧ CommentsAppended env cg cg1 := by
  unfold bundleFinishInstr
  rw [hinfo]
  simp only [hout, if_true]
  generalize hg : (if isLastBundle = true ∧ instrIdx = 0 then
        comment env cg
          [.str " # last bundle of kernel, will pad outputs to match durations"]
       else cg) = cg0
  have h0 : CommentsAppended env cg cg0 ∧ cg0.lastEndCycle = cg.lastEndCycle := by
    rw [← hg]
    split
    · exact ⟨comment_codeSection env cg _, comment_lastEndCycle env cg _⟩
    · exact ⟨CommentsAppended.appended_refl env cg, rfl⟩
  unfold emitOutput
  simp only
  rw [emitPadToCycle_eq, if_pos (by rw [comment_lastEndCycle, h0.2]; exact hlate)]
  exact ⟨_, rfl, h0.1.appended_trans (comment_codeSection env cg0 _)⟩

theorem bundleFinish_loop_other {env : Env D} {codeGenMap : CodeGenMap}
    {startCycle dur : Nat} {isLastBundle : Bool} {is : List Nat} {cg cg1 : Codegen D}
    (hnd : is.Nodup)
    (h : forEach (bundleFinishInstr env codeGenMap startCycle dur isLastBundle) is cg
      = .ok () cg1) :
    ∀ j, j ∉ is → cg1.lastEndCycle j = cg.lastEndCycle j := by
  have hbody : ∀ (c : Codegen D) (i : Nat) (c1 : Codegen D),
      bundleFinishInstr env codeGenMap startCycle dur isLastBundle c i = .ok () c1 →
      ∃ seg, c1.codeSection = c.codeSection ++ seg
        ∧ (∀ j, j ≠ i → c1.lastEndCycle j = c.lastEndCycle j)
        ∧ (fun _ _ _ _ => True) i (c.lastEndCycle i) (c1.lastEndCycle i) seg := by
    intro c i c1 hc
    obtain ⟨info, seg, _, ⟨h1, _, h3, _⟩, _⟩ := bundleFinishInstr_shape hc
    exact ⟨seg, h1, h3, trivial⟩
  obtain ⟨_, _, hother, _⟩ :=
    forEach_segments_cursor (P := fun _ _ _ _ => True) hbody is hnd h
  exact hother

/-- The time travel of an instrument with output ends `bundleFinish`, once the collect
phase and the instruments before it have gone through. -/
theorem bundleFinish_timeTravel_at {env : Env D} {cg cgA cgB : Codegen D}
    {startCycle dur : Nat} {isLastBundle : Bool} {codeGenMap : CodeGenMap} {instrIdx : Nat}
    {ic : InstrumentControl} {row : List BundleInfo}
    (hic : env.instruments.get? instrIdx = some ic)
    (hrow : cg.bundleInfo.get? instrIdx = some row)
    (hout : populatedGroups row ≠ [])
    (hlate : 2 ^ 63 ≤ uintSub startCycle (cg.lastEndCycle instrIdx))
    (hcollect : collectCodeGenInfo env cg startCycle dur = .ok codeGenMap cgA)
    (hpre : forEach (bundleFinishInstr env codeGenMap startCycle dur isLastBundle)
      (List.range instrIdx) cgA = .ok () cgB) :
    ∃ cg1, bundleFinish env cg startCycle dur isLastBundle = .fail .timeTravel cg1
      ∧ CommentsAppended env cgB cg1 := by
  obtain ⟨⟨_, hlastA, _⟩, _, hmap⟩ := collectCodeGenInfo_ok hcollect
  obtain ⟨row1, info, hrow1, hinfo, hci⟩ := hmap instrIdx ic hic
  rw [hrow] at hrow1
  injection hrow1 with e
  subst e
  have hhas : info.instrHasOutput = true := by
    obtain ⟨_, _, _, _, _, ho, _⟩ := hci
    rw [ho]
    cases hp : populatedGroups row with
    | nil => exact absurd hp hout
    | cons a l => rfl
  have hcur : 2 ^ 63 ≤ uintSub startCycle (cgB.lastEndCycle instrIdx) := by
    rw [bundleFinish_loop_other (List.nodup_range _) hpre instrIdx
      (by rw [List.mem_range]; exact Nat.lt_irrefl _), hlastA]
    exact hlate
  obtain ⟨cg1, hfail, hcm⟩ :=
    @bundleFinishInstr_timeTravel _ env _ _ dur isLastBundle _ _ _ hinfo hhas hcur
  have hi : instrIdx < env.instruments.length := (List.get?_eq_some.mp hic).1
  have hloop := (forEach_range_fail
    (bundleFinishInstr env codeGenMap startCycle dur isLastBundle) env.instruments.length cgA
    .timeTravel cg1).mpr ⟨instrIdx, cgB, hi, hpre, hfail⟩
  refine ⟨cg1, ?_, hcm⟩
  unfold bundleFinish
  rw [hcollect]
  simp only [Res.andThen]
  rw [hloop]

/-! ## Lemmas: conditions -/

theorem decode_binary (env : Env D) (name : String) (a b : Expression) (ba bb : Nat)
    (hn : name ∉ negationNames)
    (ha : env.convert_breg_reference a = .ok ba) (hb : env.convert_breg_reference b = .ok bb) :
    decode_condition env (.function_call name [a, b]) =
      if name = "operator&" ∨ name = "operator&&" then
        .ok { cond_type := .AND, cond_operands := [ba, bb] }
      else if name = "operator|" ∨ name = "operator||" then
        .ok { cond_type := .OR, cond_operands := [ba, bb] }
      else if name = "operator^" ∨ name = "operator^^" ∨ name = "operator!=" then
        .ok { cond_type := .XOR, cond_operands := [ba, bb] }
      else if name = "operator==" then
        .ok { cond_type := .NXOR, cond_operands := [ba, bb] }
      else .error .unsupportedConditionFunction := by
  have h1 : ¬ (name = "operator!" ∨ name = "operator~") := by
    intro h
    apply hn
    unfold negationNames
    rcases h with h | h <;> simp [h]
  unfold decode_condition
  simp only [h1, if_false, convertBreg, ha, hb]

theorem decode_negated_binary (env : Env D) (neg name : String) (a b : Expression) (ba bb : Nat)
    (hn : neg ∈ negationNames)
    (ha : env.convert_breg_reference a = .ok ba) (hb : env.convert_breg_reference b = .ok bb) :
    decode_condition env (.function_call neg [.function_call name [a, b]]) =
      if name = "operator&" ∨ name = "operator&&" then
        .ok { cond_type := .NAND, cond_operands := [ba, bb] }
      else if name = "operator|" ∨ name = "operator||" then
        .ok { cond_type := .NOR, cond_operands := [ba, bb] }
      else if name = "operator^" ∨ name = "operator^^" ∨ name = "operator!=" then
        .ok { cond_type := .NXOR, cond_operands := [ba, bb] }
      else if name = "operator==" then
        .ok { cond_type := .XOR, cond_operands := [ba, bb] }
      else .error .unsupportedGateCondition := by
  have h1 : neg = "operator!" ∨ neg = "operator~" := by
    unfold negationNames at hn
    simpa using hn
  unfold decode_condition
  simp only [h1, if_true, convertBreg, ha, hb]

theorem decode_condition_operandCount {env : Env D} {condition : Expression}
    {c : tInstructionCondition} (h : decode_condition env condition = .ok c) :
    c.cond_operands.length = c.cond_type.operandCount := by
  unfold decode_condition at h
  repeat' split at h
  all_goals first
    | exact Except.noConfusion h
    | (injection h with h; subst h; rfl)

theorem decode_negation_count {env : Env D} {neg : String} {operands : List Expression}
    (hn : neg ∈ negationNames) (hl : operands.length ≠ 1) :
    decode_condition env (.function_call neg operands) = .error .conditionFunctionCompat := by
  have h1 : neg = "operator!" ∨ neg = "operator~" := by
    unfold negationNames at hn
    simpa using hn
  unfold decode_condition
  simp only [h1, if_true]
  rcases operands with _ | ⟨a, _ | ⟨b, l⟩⟩
  · rfl
  · exact absurd rfl hl
  · cases a <;> rfl

theorem decode_function_count {env : Env D} {name : String} {operands : List Expression}
    (hn : name ∉ negationNames) (hl : operands.length ≠ 2) :
    decode_condition env (.function_call name operands) = .error .conditionFunctionCompat := by
  have h1 : ¬ (name = "operator!" ∨ name = "operator~") := by
    intro h
    apply hn
    unfold negationNames
    rcases h with h | h <;> simp [h]
  unfold decode_condition
  simp only [h1, if_false]
  rcases operands with _ | ⟨a, _ | ⟨b, _ | ⟨c, l⟩⟩⟩
  · rfl
  · rfl
  · exact absurd rfl hl
  · rfl

theorem decode_binary_error {env : Env D} {name : String} {a b : Expression}
    (hn : name ∉ binaryConditionNames) :
    ∃ e, decode_condition env (.function_call name [a, b]) = .error e := by
  by_cases hneg : name ∈ negationNames
  · exact ⟨_, decode_negation_count hneg (by simp)⟩
  · have h1 : ¬ (name = "operator!" ∨ name = "operator~") := by
      intro h
      apply hneg
      unfold negationNames
      rcases h with h | h <;> simp [h]
    unfold binaryConditionNames at hn
    simp only [List.mem_cons, List.mem_singleton, List.not_mem_nil, or_false, not_or] at hn
    obtain ⟨n1, n2, n3, n4, n5, n6, n7, n8⟩ := hn
    unfold decode_condition
    simp only [h1, if_false, convertBreg]
    cases env.convert_breg_reference a with
    | error x => exact ⟨_, rfl⟩
    | ok ba =>
      cases env.convert_breg_reference b with
      | error x => exact ⟨_, rfl⟩
      | ok bb =>
        simp only [n1, n2, n3, n4, n5, n6, n7, n8, or_self, if_false]
        exact ⟨_, rfl⟩

theorem decode_negation_other {env : Env D} {neg : String} {operands : List Expression}
    (hn : neg ∈ negationNames)
    (href : ¬ ∃ kind index, operands = [.reference kind index])
    (hfun : ¬ ∃ name a b, name ∈ binaryConditionNames
      ∧ operands = [.function_call name [a, b]]) :
    ∃ e, decode_condition env (.function_call neg operands) = .error e := by
  by_cases hl : operands.length = 1
  · obtain ⟨x, hx⟩ := List.length_eq_one.mp hl
    subst hx
    have h1 : neg = "operator!" ∨ neg = "operator~" := by
      unfold negationNames at hn
      simpa using hn
    cases x with
    | bit_literal v =>
      unfold decode_condition
      simp only [h1, if_true]
      exact ⟨_, rfl⟩
    | int_literal v =>
      unfold decode_condition
      simp only [h1, if_true]
      exact ⟨_, rfl⟩
    | reference kind index => exact absurd ⟨kind, index, rfl⟩ href
    | function_call name ops =>
      rcases ops with _ | ⟨a, _ | ⟨b, _ | ⟨c, l⟩⟩⟩
      · unfold decode_condition
        simp only [h1, if_true]
        exact ⟨_, rfl⟩
      · unfold decode_condition
        simp only [h1, if_true]
        exact ⟨_, rfl⟩
      · have hname : name ∉ binaryConditionNames := fun hm => hfun ⟨name, a, b, hm, rfl⟩
        unfold binaryConditionNames at hname
        simp only [List.mem_cons, List.mem_singleton, List.not_mem_nil, or_false, not_or]
          at hname
        obtain ⟨n1, n2, n3, n4, n5, n6, n7, n8⟩ := hname
        unfold decode_condition
        simp only [h1, if_true, convertBreg]
        cases env.convert_breg_reference a with
        | error x => exact ⟨_, rfl⟩
        | ok ba =>
          cases env.convert_breg_reference b with
          | error x => exact ⟨_, rfl⟩
          | ok bb =>
            simp only [n1, n2, n3, n4, n5, n6, n7, n8, or_self, if_false]
            exact ⟨_, rfl⟩
      · unfold decode_condition
        simp only [h1, if_true]
        exact ⟨_, rfl⟩
  · exact ⟨_, decode_negation_count hn hl⟩

/-! ## Lemmas: expressions -/


theorem check_int_literal_ok_iff (value bottomRoom headRoom : Int) :
    check_int_literal value bottomRoom headRoom = .ok ()
      ↔ bottomRoom ≤ value ∧ value < 2 ^ 32 - 1 - headRoom := by
  unfold check_int_literal
  by_cases h1 : value - bottomRoom < 0
  · rw [if_pos h1]
    constructor
    · intro h
      exact Except.noConfusion h
    · intro h
      omega
  · rw [if_neg h1]
    by_cases h2 : value ≥ 2 ^ 32 - 1 - headRoom
    · rw [if_pos h2]
      constructor
      · intro h
        exact Except.noConfusion h
      · intro h
        omega
    · rw [if_neg h2]
      constructor
      · intro _
        constructor <;> omega
      · intro _
        rfl

theorem check_int_literal_error (value bottomRoom headRoom : Int)
    (h : ¬ (bottomRoom ≤ value ∧ value < 2 ^ 32 - 1 - headRoom)) :
    ∃ e, check_int_literal value bottomRoom headRoom = .error e ∧ e.kind = .input := by
  unfold check_int_literal
  by_cases h1 : value - bottomRoom < 0
  · rw [if_pos h1]
    exact ⟨_, rfl, rfl⟩
  · rw [if_neg h1]
    by_cases h2 : value ≥ 2 ^ 32 - 1 - headRoom
    · rw [if_pos h2]
      exact ⟨_, rfl, rfl⟩
    · exact absurd ⟨by omega, by omega⟩ h

theorem op_str_int_cases {env : Env D} {op : Expression} {s : Text}
    (h : op_str_int env op = .ok s) :
    (∃ reg : Nat, s = [.str "R", .int reg])
      ∨ (∃ v, op = .int_literal v ∧ s = [.int v] ∧ check_int_literal v 0 0 = .ok ()) := by
  unfold op_str_int at h
  split at h
  · split at h
    · exact Except.noConfusion h
    · rename_i reg _
      injection h with h
      exact Or.inl ⟨reg, h.symm⟩
  · rename_i value
    split at h
    · exact Except.noConfusion h
    · rename_i u hc
      injection h with h
      exact Or.inr ⟨value, rfl, h.symm, hc⟩
  · exact Except.noConfusion h


theorem endsWithR_R : endsWithR "R" = true := by decide
theorem endsWithR_commaR : endsWithR ",R" = true := by decide
theorem endsWithR_comma : endsWithR "," = false := by decide
theorem endsWithR_one : endsWithR "1," = false := by decide

theorem literalsChecked_short (t : Text) (instr : String) (h : takesLiteral instr = false) :
    LiteralsChecked (CodeLine.short t instr) := by
  intro hm
  rw [show (CodeLine.short t instr).mnemonic = instr from rfl, h] at hm
  exact Bool.noConfusion hm

theorem literalsChecked_nop (t : Text) : LiteralsChecked (CodeLine.short t "nop") :=
  literalsChecked_short t "nop" (by decide)

theorem literalsChecked_comment (t : Text) : LiteralsChecked (CodeLine.short t "") :=
  literalsChecked_short t "" (by decide)

theorem literalsChecked_of_ops (sel : Sel) (instr : String) (ops cmt : Text)
    (h : ∀ v ∈ Text.literals ops, check_int_literal v 0 0 = .ok ()) :
    LiteralsChecked (CodeLine.line sel instr ops cmt) :=
  fun _ => h

/-- The operands of `emit_mnem2args`. -/
theorem literals_two_operands {s0 s1 target : Text}
    (h0 : (∃ reg : Nat, s0 = [.str "R", .int reg])
      ∨ (∃ v, s0 = [.int v] ∧ check_int_literal v 0 0 = .ok ()))
    (h1 : (∃ reg : Nat, s1 = [.str "R", .int reg])
      ∨ (∃ v, s1 = [.int v] ∧ check_int_literal v 0 0 = .ok ()))
    (ht : (∃ d : Nat, target = [.str "R", .int d]) ∨ ∃ x, target = [.str x]) :
    ∀ v ∈ Text.literals (s0 ++ [.str ","] ++ s1 ++ [.str ","] ++ target),
      check_int_literal v 0 0 = .ok () := by
  rcases h0 with ⟨r0, e0⟩ | ⟨v0, e0, c0⟩ <;> rcases h1 with ⟨r1, e1⟩ | ⟨v1, e1, c1⟩
    <;> rcases ht with ⟨d, et⟩ | ⟨x, et⟩ <;> subst e0 e1 et
    <;> intro v hv
    <;> simp [Text.literals, literalsAux, endsWithR_R, endsWithR_comma] at hv
  all_goals first
    | (rcases hv with hv | hv <;> rw [hv] <;> assumption)
    | (rw [hv]; assumption)

theorem emit_mnem2args_checked (env : Env D) (cg : Codegen D) (ops : List Expression)
    (expression : Expression) (mnem : String) (arg0 arg1 : Nat) (target : Text)
    (ht : (∃ d : Nat, target = [.str "R", .int d]) ∨ ∃ x, target = [.str x]) :
    AppendedLines LiteralsChecked cg
      (emit_mnem2args env cg ops expression mnem arg0 arg1 target).st := by
  unfold emit_mnem2args
  split
  · exact AppendedLines.lines_refl _ cg
  · split
    · exact AppendedLines.lines_refl _ cg
    · rename_i s0 h0
      split
      · exact AppendedLines.lines_refl _ cg
      · split
        · exact AppendedLines.lines_refl _ cg
        · rename_i s1 h1
          refine AppendedLines.of_line rfl (literalsChecked_of_ops _ _ _ _ ?_)
          refine literals_two_operands ?_ ?_ ht
          · rcases op_str_int_cases h0 with h | ⟨v, _, e, c⟩
            · exact Or.inl h
            · exact Or.inr ⟨v, e, c⟩
          · rcases op_str_int_cases h1 with h | ⟨v, _, e, c⟩
            · exact Or.inl h
            · exact Or.inr ⟨v, e, c⟩


theorem binCastLoop_mask (env : Env D) (dp : D) (ops : List Expression) :
    ∀ (i smAddr mask smAddr1 mask1 : Nat),
      binCastLoop env dp ops i smAddr mask = .ok (smAddr1, mask1) →
      ∃ bs : List Nat, bs.length = ops.length
        ∧ mask1 = bs.foldl (fun acc b => acc ||| shl1ul (b % 32)) mask := by
  induction ops with
  | nil =>
    intro i smAddr mask smAddr1 mask1 h
    unfold binCastLoop at h
    injection h with h
    injection h with _ h2
    exact ⟨[], rfl, h2.symm⟩
  | cons op rest ih =>
    intro i smAddr mask smAddr1 mask1 h
    unfold binCastLoop at h
    split at h
    · split at h
      · exact Except.noConfusion h
      · split at h
        · exact Except.noConfusion h
        · rename_i smBit _
          simp only at h
          split at h
          · exact Except.noConfusion h
          · obtain ⟨bs, hl, hm⟩ := ih _ _ _ _ _ h
            exact ⟨smBit :: bs, by rw [List.length_cons, List.length_cons, hl], hm⟩
    · exact Except.noConfusion h

theorem shl1ul_mod_lt (b : Nat) : shl1ul (b % 32) < 2 ^ 32 := by
  have hk : b % 32 < 32 := Nat.mod_lt _ (by norm_num)
  unfold shl1ul
  rw [Nat.one_shiftLeft]
  have h1 : (2 : Nat) ^ (b % 32) < 2 ^ 32 := Nat.pow_lt_pow_right (by norm_num) hk
  have h2 : (2 : Nat) ^ 32 < 2 ^ 64 := by norm_num
  rw [Nat.mod_eq_of_lt (lt_trans h1 h2)]
  exact h1

theorem mask_two_bits_lt (a b : Nat) :
    (0 ||| shl1ul (a % 32)) ||| shl1ul (b % 32) < 2 ^ 32 - 1 := by
  have hlt : (0 ||| shl1ul (a % 32)) ||| shl1ul (b % 32) < 2 ^ 32 :=
    Nat.or_lt_two_pow (Nat.or_lt_two_pow (by norm_num) (shl1ul_mod_lt a)) (shl1ul_mod_lt b)
  have hne : (0 ||| shl1ul (a % 32)) ||| shl1ul (b % 32) ≠ 2 ^ 32 - 1 := by
    intro e
    have ht : ∀ k, k < 32 →
        ((0 ||| shl1ul (a % 32)) ||| shl1ul (b % 32)).testBit k = true := by
      intro k hk
      rw [e, Nat.testBit_two_pow_sub_one]
      exact decide_eq_true hk
    have h0 := ht 0 (by norm_num)
    have h1 := ht 1 (by norm_num)
    have h2 := ht 2 (by norm_num)
    simp only [Nat.testBit_or, Nat.zero_testBit, Bool.false_or, testBit_shl1ul,
      Bool.or_eq_true, decide_eq_true_eq] at h0 h1 h2
    omega
  omega

theorem mask_one_bit_lt (a : Nat) : 0 ||| shl1ul (a % 32) < 2 ^ 32 - 1 := by
  have := mask_two_bits_lt a a
  rw [Nat.or_assoc, Nat.or_self] at this
  exact this

theorem emit_bin_cast_ok {env : Env D} {cg cg1 : Codegen D} {ops : List Expression}
    {n mask : Nat} (h : emit_bin_cast env cg ops n = .ok mask cg1) (hn : n ≤ 2) :
    mask < 2 ^ 32 - 1 := by
  unfold emit_bin_cast at h
  split at h
  · exact Res.noConfusion h
  · rename_i hlen
    split at h
    · exact Res.noConfusion h
    · rename_i smAddr m hloop
      injection h with h _
      subst h
      obtain ⟨bs, hl, hm⟩ := binCastLoop_mask env cg.dp ops 0 0 0 smAddr m hloop
      have hbs : bs.length ≤ 2 := by
        rw [hl]
        have : ops.length = n := by
          by_contra hc
          exact hlen hc
        omega
      rw [hm]
      rcases bs with _ | ⟨a, _ | ⟨b, _ | ⟨c, l⟩⟩⟩
      · simp
      · exact mask_one_bit_lt a
      · exact mask_two_bits_lt a b
      · simp at hbs

theorem emit_bin_cast_checked (env : Env D) (cg : Codegen D) (ops : List Expression)
    (n : Nat) : AppendedLines LiteralsChecked cg (emit_bin_cast env cg ops n).st := by
  unfold emit_bin_cast
  split
  · exact AppendedLines.lines_refl _ cg
  · split
    · exact AppendedLines.lines_refl _ cg
    · rename_i smAddr mask _
      refine ⟨[.line (.text []) "seq_cl_sm" [.str "S", .nat smAddr] [],
        .line (.text []) "seq_wait" [.str "3"] [],
        .line (.text []) "move_sm" [.str env.REG_TMP0] [], .short [] "nop"], ?_, ?_⟩
      · simp [emit4, emit2, Res.st]
      intro l hl
      simp only [List.mem_cons, List.mem_singleton, List.not_mem_nil, or_false] at hl
      rcases hl with e | e | e | e <;> rw [e] <;> intro hm
        <;> simp [CodeLine.mnemonic, takesLiteral] at hm


theorem AppendedLines.emit4_step {P : CodeLine → Prop} {cg cg1 : Codegen D}
    (h : AppendedLines P cg cg1) (labelOrSel : Text) (instr : String) (ops cmt : Text)
    (hP : P (CodeLine.line (.text labelOrSel) instr ops cmt)) :
    AppendedLines P cg (emit4 cg1 labelOrSel instr ops cmt) :=
  h.lines_trans (AppendedLines.of_line rfl hP)

theorem AppendedLines.emit2_step {P : CodeLine → Prop} {cg cg1 : Codegen D}
    (h : AppendedLines P cg cg1) (labelOrComment : Text) (instr : String)
    (hP : P (CodeLine.short labelOrComment instr)) :
    AppendedLines P cg (emit2 cg1 labelOrComment instr) :=
  h.lines_trans (AppendedLines.of_line rfl hP)

theorem literalsChecked_and (env : Env D) (sel : Sel) (mask : Nat) (cmt : Text)
    (h : mask < 2 ^ 32 - 1) :
    LiteralsChecked (CodeLine.line sel "and"
      [.str env.REG_TMP0, .str ",", .nat mask, .str ",", .str env.REG_TMP1] cmt) := by
  refine literalsChecked_of_ops _ _ _ _ ?_
  intro v hv
  simp [Text.literals, literalsAux, endsWithR_comma] at hv
  rw [hv, check_int_literal_ok_iff]
  constructor <;> omega

theorem literalsChecked_no_numbers (sel : Sel) (instr : String) (a b c : String) (cmt : Text) :
    LiteralsChecked (CodeLine.line sel instr [.str a, .str b, .str c] cmt) := by
  refine literalsChecked_of_ops _ _ _ _ ?_
  intro v hv
  simp [Text.literals, literalsAux] at hv

/-- A bit cast of at most two operands followed by `and`, `nop` and `jlt`. -/
theorem maskTest_checked (env : Env D) (cg : Codegen D) (ops : List Expression) (n : Nat)
    (hn : n ≤ 2) (label : String) (cmt : Text) :
    AppendedLines LiteralsChecked cg
      ((emit_bin_cast env cg ops n).andThen fun mask cg1 =>
        let cg2 := emit4 cg1 [] "and"
          [.str env.REG_TMP0, .str ",", .nat mask, .str ",", .str env.REG_TMP1] []
        let cg3 := emit2 cg2 [] "nop"
        .ok () (emit4 cg3 [] "jlt" [.str env.REG_TMP1, .str ",1,@", .str label] cmt)).st := by
  refine AppendedLines.lines_andThen (emit_bin_cast_checked env cg ops n) ?_
  intro mask s hs
  refine ⟨[.line (.text []) "and"
      [.str env.REG_TMP0, .str ",", .nat mask, .str ",", .str env.REG_TMP1] [],
    .short [] "nop",
    .line (.text []) "jlt" [.str env.REG_TMP1, .str ",1,@", .str label] cmt], ?_, ?_⟩
  · simp [emit4, emit2, Res.st]
  · intro l hl
    simp only [List.mem_cons, List.mem_singleton, List.not_mem_nil, or_false] at hl
    rcases hl with e | e | e <;> rw [e]
    · exact literalsChecked_and env _ mask _ (emit_bin_cast_ok hs hn)
    · exact literalsChecked_nop _
    · exact literalsChecked_no_numbers _ _ _ _ _ _

theorem lowerGreater_checked (env : Env D) (cg : Codegen D) (label : String)
    (operands : List Expression) :
    AppendedLines LiteralsChecked cg (lowerGreater env cg label operands).st := by
  unfold lowerGreater
  split
  · exact AppendedLines.lines_refl _ cg
  · -- RL
    split
    · rename_i op0 value _
      split
      · exact AppendedLines.lines_refl _ cg
      · rename_i hc
        split
        · exact AppendedLines.lines_refl _ cg
        · rename_i s0 h0
          refine AppendedLines.of_line rfl (literalsChecked_of_ops _ _ _ _ ?_)
          have hc1 := (check_int_literal_ok_iff value 0 1).mp hc
          have hv : check_int_literal (value + 1) 0 0 = .ok () := by
            rw [check_int_literal_ok_iff]
            constructor <;> omega
          intro v hm
          rcases op_str_int_cases h0 with ⟨r0, e0⟩ | ⟨v0, _, e0, c0⟩ <;> subst e0
            <;> simp [Text.literals, literalsAux, endsWithR_R, endsWithR_comma] at hm
          · rw [hm]; exact hv
          · rcases hm with hm | hm <;> rw [hm] <;> assumption
    · exact AppendedLines.lines_refl _ cg
  · -- RR
    split
    · rename_i op0 op1 _
      split
      · exact AppendedLines.lines_refl _ cg
      · rename_i s1 h1
        simp only
        have hadd : LiteralsChecked (CodeLine.line (.text []) "add"
            ([.str "1,"] ++ s1 ++ [.str ",", .str env.REG_TMP0]) []) := by
          refine literalsChecked_of_ops _ _ _ _ ?_
          intro v hm
          rcases op_str_int_cases h1 with ⟨r1, e1⟩ | ⟨v1, _, e1, c1⟩ <;> subst e1
            <;> simp [Text.literals, literalsAux, endsWithR_R, endsWithR_one] at hm
          rw [hm]; assumption
        have h2 := ((AppendedLines.lines_refl LiteralsChecked cg).emit4_step [] "add"
          ([.str "1,"] ++ s1 ++ [.str ",", .str env.REG_TMP0]) [] hadd).emit2_step [] "nop"
          (literalsChecked_nop _)
        split
        · exact h2
        · rename_i s0 h0
          refine h2.emit4_step _ _ _ _ (literalsChecked_of_ops _ _ _ _ ?_)
          intro v hm
          rcases op_str_int_cases h0 with ⟨r0, e0⟩ | ⟨v0, _, e0, c0⟩ <;> subst e0
            <;> simp [Text.literals, literalsAux, endsWithR_R] at hm
          rw [hm]; assumption
    · exact AppendedLines.lines_refl _ cg
  · -- LR
    split
    · rename_i value op1 _
      split
      · exact AppendedLines.lines_refl _ cg
      · rename_i hc
        split
        · exact AppendedLines.lines_refl _ cg
        · rename_i s1 h1
          refine AppendedLines.of_line rfl (literalsChecked_of_ops _ _ _ _ ?_)
          have hc1 := (check_int_literal_ok_iff value 1 0).mp hc
          have hv : check_int_literal (value - 1) 0 0 = .ok () := by
            rw [check_int_literal_ok_iff]
            constructor <;> omega
          intro v hm
          rcases op_str_int_cases h1 with ⟨r1, e1⟩ | ⟨v1, _, e1, c1⟩ <;> subst e1
            <;> simp [Text.literals, literalsAux, endsWithR_R] at hm
          · rw [hm]; exact hv
          · rcases hm with hm | hm <;> rw [hm] <;> assumption
    · exact AppendedLines.lines_refl _ cg


theorem lowerFunction_checked (env : Env D) (cg : Codegen D) (expression : Expression)
    (lhs : Option Expression) (label : String) (captured : List Expression) (name : String)
    (operands : List Expression) :
    AppendedLines LiteralsChecked cg
      (lowerFunction env cg expression lhs label captured name operands).st := by
  unfold lowerFunction
  split
  · -- int arithmetic
    split
    · exact AppendedLines.lines_refl _ cg
    · split
      · exact AppendedLines.lines_refl _ cg
      · rename_i dest _
        split <;> exact emit_mnem2args_checked env cg _ _ _ _ _ _ (Or.inl ⟨dest, rfl⟩)
  · split
    · -- bit arithmetic
      exact maskTest_checked env cg operands 2 (Nat.le_refl 2) label _
    · split
      · -- relop, group 1
        split
        · exact AppendedLines.lines_refl _ cg
        · rename_i profile _
          refine AppendedLines.lines_andThen ?_ ?_
          · split <;> exact emit_mnem2args_checked env cg _ _ _ _ _ _ (Or.inr ⟨_, rfl⟩)
          · intro _ s _
            refine ((AppendedLines.lines_refl LiteralsChecked s).emit2_step [] "nop"
              (literalsChecked_nop _)).emit4_step _ _ _ _ (literalsChecked_of_ops _ _ _ _ ?_)
            intro v hm
            simp [Text.literals, literalsAux] at hm
      · split
        · split
          · exact AppendedLines.lines_refl _ cg
          · exact emit_mnem2args_checked env cg _ _ _ _ _ _ (Or.inr ⟨_, rfl⟩)
          · exact emit_mnem2args_checked env cg _ _ _ _ _ _ (Or.inr ⟨_, rfl⟩)
        · split
          · split
            · exact AppendedLines.lines_refl _ cg
            · exact emit_mnem2args_checked env cg _ _ _ _ _ _ (Or.inr ⟨_, rfl⟩)
            · exact emit_mnem2args_checked env cg _ _ _ _ _ _ (Or.inr ⟨_, rfl⟩)
          · split
            · exact lowerGreater_checked env cg label operands
            · split <;> exact AppendedLines.lines_refl _ cg

theorem lowerFunctionCall_checked (env : Env D) (cg : Codegen D) (expression : Expression)
    (lhs : Option Expression) (label : String) (name : String) (operands : List Expression) :
    AppendedLines LiteralsChecked cg
      (lowerFunctionCall env cg expression lhs label name operands).st := by
  unfold lowerFunctionCall
  split
  · split
    · exact lowerFunction_checked env cg _ _ _ _ _ _
    · exact AppendedLines.lines_refl _ cg
  · split
    · split
      · exact AppendedLines.lines_refl _ cg
      · split
        · exact AppendedLines.lines_refl _ cg
        · rename_i s0 h0
          split
          · exact AppendedLines.lines_refl _ cg
          · refine AppendedLines.of_line rfl (literalsChecked_of_ops _ _ _ _ ?_)
            intro v hm
            rcases op_str_int_cases h0 with ⟨r0, e0⟩ | ⟨v0, _, e0, c0⟩ <;> subst e0
              <;> simp [Text.literals, literalsAux, endsWithR_R, endsWithR_commaR] at hm
            rw [hm]; assumption
    · split
      · exact maskTest_checked env cg operands 1 (by norm_num) label _
      · exact lowerFunction_checked env cg _ _ _ _ _ _

theorem do_handle_expression_checked (env : Env D) (cg : Codegen D) (expression : Expression)
    (lhs : Option Expression) (label_if_false descr : String) :
    AppendedLines LiteralsChecked cg
      (do_handle_expression env cg expression lhs label_if_false descr).st := by
  unfold do_handle_expression
  simp only
  generalize hg : (match lhs with
    | some l =>
      comment env cg
        [.str "# Expression '", .str descr, .str "': ", .str (env.describe_expression l),
         .str " = ", .str (env.describe_expression expression)]
    | none => cg) = cg0
  have h0 : AppendedLines LiteralsChecked cg cg0 := by
    rw [← hg]
    split
    · exact AppendedLines.lines_of_comment env cg _ literalsChecked_comment
    · exact AppendedLines.lines_refl _ cg
  refine h0.lines_trans ?_
  split
  · -- integer literal
    rename_i value
    split
    · exact AppendedLines.lines_refl _ cg0
    · rename_i hc
      split
      · exact AppendedLines.lines_refl _ cg0
      · refine AppendedLines.of_line rfl (literalsChecked_of_ops _ _ _ _ ?_)
        intro v hm
        simp [Text.literals, literalsAux, endsWithR_commaR] at hm
        rw [hm]
        exact hc
  · -- reference
    split
    · split
      · exact AppendedLines.lines_refl _ cg0
      · split
        · exact AppendedLines.lines_refl _ cg0
        · refine AppendedLines.of_line rfl (literalsChecked_of_ops _ _ _ _ ?_)
          intro v hm
          simp [Text.literals, literalsAux, endsWithR_R, endsWithR_commaR] at hm
    · refine AppendedLines.lines_andThen (emit_bin_cast_checked env cg0 _ 1) ?_
      intro mask s hs
      exact ((AppendedLines.lines_refl LiteralsChecked s).emit4_step [] "and" _ []
        (literalsChecked_and env _ mask _ (emit_bin_cast_ok hs (by norm_num)))).emit2_step
        [] "nop" (literalsChecked_nop _)
  · exact lowerFunctionCall_checked env cg0 _ _ _ _ _
  · exact AppendedLines.lines_refl _ cg0

/-! ### Structured control flow -/

theorem withCode_nil (cg : Codegen D) : withCode cg [] = cg := by
  cases cg
  simp [withCode]

theorem withCode_withCode (cg : Codegen D) (a b : List CodeLine) :
    withCode (withCode cg a) b = withCode cg (a ++ b) := by
  simp [withCode, List.append_assoc]

theorem emit2_eq_withCode (cg : Codegen D) (t : Text) (instr : String) :
    emit2 cg t instr = withCode cg [.short t instr] := rfl

theorem emit4_eq_withCode (cg : Codegen D) (l : Text) (instr : String) (ops cmt : Text) :
    emit4 cg l instr ops cmt = withCode cg [.line (.text l) instr ops cmt] := rfl

theorem comments_nil (env : Env D) : Comments env [] :=
  ⟨fun _ h => absurd h (List.not_mem_nil _), fun _ => rfl⟩

theorem comments_append {env : Env D} {a b : List CodeLine} (ha : Comments env a)
    (hb : Comments env b) : Comments env (a ++ b) := by
  refine ⟨fun l hl => ?_, fun hv => ?_⟩
  · rcases List.mem_append.mp hl with h | h
    · exact ha.1 l h
    · exact hb.1 l h
  · rw [ha.2 hv, hb.2 hv]
    rfl

/-- A call of `comment` with a text that starts with `#` appends comments only. -/
theorem comment_withCode (env : Env D) (cg : Codegen D) (s : String) (rest : Text)
    (hs : s.data.head? = some '#') :
    ∃ cmts, Comments env cmts ∧ comment env cg (.str s :: rest) = withCode cg cmts := by
  unfold comment
  by_cases hv : env.verbose = true
  · rw [if_pos hv]
    refine ⟨[_], ⟨fun l hl => ?_, fun h => ?_⟩, emit2_eq_withCode _ _ _⟩
    · rw [List.mem_singleton.mp hl]
      simp [CodeLine.isComment, hs]
    · rw [h] at hv
      exact absurd hv (by decide)
  · rw [if_neg hv]
    exact ⟨[], comments_nil env, (withCode_nil cg).symm⟩

/-! ### Functions that are rejected -/

theorem get_profile_nested {x y : Expression}
    (h : x.isFunctionCall = true ∨ y.isFunctionCall = true) :
    get_profile [x, y] = .error .nestedFunctionCall := by
  cases x <;> cases y <;> simp [Expression.isFunctionCall] at h <;> rfl

theorem lowerFunction_two_literals (env : Env D) (cg : Codegen D) (expression : Expression)
    (lhs : Option Expression) (label : String) (captured : List Expression) {name : String}
    (a b : Int) (h : name ∈ arithmeticNames ++ relationalNames) :
    lowerFunction env cg expression lhs label captured name [.int_literal a, .int_literal b]
      = .fail .twoLiterals cg := by
  simp only [arithmeticNames, relationalNames, List.cons_append, List.nil_append, List.mem_cons,
    List.mem_singleton, List.not_mem_nil, or_false] at h
  rcases h with h | h | h | h | h | h | h | h | h | h <;> subst h <;>
    simp [lowerFunction, intOperation, bitOperation, relOperation, get_profile, lowerGreater]

theorem lowerFunction_nested (env : Env D) (cg : Codegen D) (expression : Expression)
    (lhs : Option Expression) (label : String) (captured : List Expression) {name : String}
    {x y : Expression} (h : name ∈ arithmeticNames ++ relationalNames)
    (hxy : x.isFunctionCall = true ∨ y.isFunctionCall = true) :
    lowerFunction env cg expression lhs label captured name [x, y]
      = .fail .nestedFunctionCall cg := by
  have hp := get_profile_nested hxy
  simp only [arithmeticNames, relationalNames, List.cons_append, List.nil_append, List.mem_cons,
    List.mem_singleton, List.not_mem_nil, or_false] at h
  rcases h with h | h | h | h | h | h | h | h | h | h <;> subst h <;>
    simp [lowerFunction, intOperation, bitOperation, relOperation, hp, lowerGreater]

theorem lowerFunction_not_implemented (env : Env D) (cg : Codegen D) (expression : Expression)
    (lhs : Option Expression) (label : String) (captured operands : List Expression) :
    lowerFunction env cg expression lhs label captured "operator<=" operands
      = .fail .notImplemented cg := by
  simp [lowerFunction, intOperation, bitOperation, relOperation]

theorem lowerFunction_unsupported (env : Env D) (cg : Codegen D) (expression : Expression)
    (lhs : Option Expression) (label : String) (captured operands : List Expression)
    {name : String} (h : name ∉ supportedNames) :
    lowerFunction env cg expression lhs label captured name operands
      = .fail .functionNotSupported cg := by
  simp only [supportedNames, List.mem_cons, List.mem_singleton, List.not_mem_nil, or_false,
    not_or] at h
  obtain ⟨_, _, _, h1, h2, h3, h4, h5, h6, h7, h8, h9, h10, h11, h12, h13, h14⟩ := h
  simp [lowerFunction, intOperation, bitOperation, relOperation, h1, h2, h3, h4, h5, h6, h7,
    h8, h9, h10, h11, h12, h13, h14]

/-- A function call is lowered by `lowerFunctionCall`, after the comment that names the
left hand side, if there is one. -/
theorem do_handle_expression_function (env : Env D) (cg : Codegen D) (name : String)
    (operands : List Expression) (lhs : Option Expression) (label descr : String) :
    ∃ cmts, Comments env cmts
      ∧ do_handle_expression env cg (.function_call name operands) lhs label descr
        = lowerFunctionCall env (withCode cg cmts) (.function_call name operands) lhs label
            name operands := by
  cases lhs with
  | none => exact ⟨[], comments_nil env, by rw [withCode_nil]; rfl⟩
  | some l =>
    obtain ⟨cmts, hc, he⟩ := comment_withCode env cg "# Expression '"
      [.str descr, .str "': ", .str (env.describe_expression l), .str " = ",
       .str (env.describe_expression (.function_call name operands))] (by decide)
    refine ⟨cmts, hc, ?_⟩
    unfold do_handle_expression
    simp only
    rw [he]

/-- A function other than the cast and the functions of one operand is lowered by
`lowerFunction` on its own operands. -/
theorem lowerFunctionCall_other (env : Env D) (cg : Codegen D) (expression : Expression)
    (lhs : Option Expression) (label : String) {name : String} (operands : List Expression)
    (h1 : name ≠ "int") (h2 : name ≠ "operator~") (h3 : name ≠ "operator!") :
    lowerFunctionCall env cg expression lhs label name operands
      = lowerFunction env cg expression lhs label operands name operands := by
  unfold lowerFunctionCall
  rw [if_neg h1, if_neg h2, if_neg h3]

theorem lowerFunctionCall_cast (env : Env D) (cg : Codegen D) (expression : Expression)
    (lhs : Option Expression) (label : String) (name : String) (operands : List Expression) :
    lowerFunctionCall env cg expression lhs label "int" [.function_call name operands]
      = lowerFunction env cg expression lhs label [.function_call name operands] name
          operands := by
  unfold lowerFunctionCall
  rw [if_pos rfl]

theorem two_operand_name_ne {name : String} (h : name ∈ arithmeticNames ++ relationalNames) :
    name ≠ "int" ∧ name ≠ "operator~" ∧ name ≠ "operator!" := by
  simp only [arithmeticNames, relationalNames, List.cons_append, List.nil_append, List.mem_cons,
    List.mem_singleton, List.not_mem_nil, or_false] at h
  rcases h with h | h | h | h | h | h | h | h | h | h <;> subst h <;> decide

/-! ### The bit-cast protocol -/

theorem shl1ul_mod_eq (b : Nat) : shl1ul (b % 32) = 1 <<< (b % 32) := by
  have hk : b % 32 < 32 := Nat.mod_lt _ (by norm_num)
  unfold shl1ul
  rw [Nat.one_shiftLeft]
  have h1 : (2 : Nat) ^ (b % 32) < 2 ^ 32 := Nat.pow_lt_pow_right (by norm_num) hk
  exact Nat.mod_eq_of_lt (lt_trans h1 (by norm_num))

theorem binCastLoop_not_reference (env : Env D) (dp : D) (ops : List Expression)
    (h : ∃ op ∈ ops, ∀ kind index, op ≠ Expression.reference kind index) :
    ∀ i smAddr mask, ∃ e, binCastLoop env dp ops i smAddr mask = .error e := by
  induction ops with
  | nil =>
    obtain ⟨op, hop, _⟩ := h
    exact absurd hop (List.not_mem_nil _)
  | cons op rest ih =>
    intro i smAddr mask
    cases op with
    | reference kind index =>
      have hrest : ∃ x ∈ rest, ∀ kind index, x ≠ Expression.reference kind index := by
        obtain ⟨x, hx, hne⟩ := h
        rcases List.mem_cons.mp hx with e | hmem
        · exact absurd e (hne kind index)
        · exact ⟨x, hmem, hne⟩
      rw [binCastLoop]
      split
      · exact ⟨_, rfl⟩
      · split
        · exact ⟨_, rfl⟩
        · simp only
          split
          · exact ⟨_, rfl⟩
          · exact ih hrest _ _ _
    | bit_literal v => exact ⟨_, rfl⟩
    | int_literal v => exact ⟨_, rfl⟩
    | function_call n o => exact ⟨_, rfl⟩

theorem binCastLoop_spec (env : Env D) (dp : D) {ops : List Expression} {ss : List Nat}
    (h : BitOperands env dp ops ss) :
    ∀ i smAddr mask, i ≠ 0 →
      ((∀ s ∈ ss, s / 32 = smAddr) →
        binCastLoop env dp ops i smAddr mask
          = .ok (smAddr, ss.foldl (fun acc s => acc ||| shl1ul (s % 32)) mask))
      ∧ (¬ (∀ s ∈ ss, s / 32 = smAddr) →
        binCastLoop env dp ops i smAddr mask = .error .dsmAddress) := by
  induction h with
  | nil =>
    intro i smAddr mask _
    exact ⟨fun _ => rfl, fun hn => absurd (fun s hs => absurd hs (List.not_mem_nil _)) hn⟩
  | @cons op s rest srest hd _ ih =>
    intro i smAddr mask hi
    obtain ⟨⟨kind, index, hop⟩, breg, hb, hs⟩ := hd
    subst hop
    have hstep : binCastLoop env dp (.reference kind index :: rest) i smAddr mask
        = if i ≠ 0 ∧ smAddr ≠ s / 32 then .error .dsmAddress
          else binCastLoop env dp rest (i + 1) (if i = 0 then s / 32 else smAddr)
            (mask ||| shl1ul (s % 32)) := by
      rw [binCastLoop]
      simp only [hb, hs]
    rw [hstep]
    constructor
    · intro hall
      have h0 : s / 32 = smAddr := hall s (List.mem_cons_self _ _)
      rw [if_neg (fun hc => hc.2 h0.symm), if_neg hi]
      rw [(ih (i + 1) smAddr (mask ||| shl1ul (s % 32)) (Nat.succ_ne_zero i)).1
        (fun x hx => hall x (List.mem_cons_of_mem _ hx))]
      rfl
    · intro hnot
      by_cases h0 : smAddr = s / 32
      · rw [if_neg (fun hc => hc.2 h0), if_neg hi]
        refine (ih (i + 1) smAddr (mask ||| shl1ul (s % 32)) (Nat.succ_ne_zero i)).2 ?_
        intro hall
        refine hnot fun x hx => ?_
        rcases List.mem_cons.mp hx with e | hmem
        · rw [e]
          exact h0.symm
        · exact hall x hmem
      · rw [if_pos ⟨hi, h0⟩]

theorem binCastLoop_first (env : Env D) (dp : D) {ops : List Expression} {ss : List Nat}
    (h : BitOperands env dp ops ss) (hne : ss ≠ []) :
    ((∀ s ∈ ss, s / 32 = ss.headD 0 / 32) →
        binCastLoop env dp ops 0 0 0
          = .ok (ss.headD 0 / 32, ss.foldl (fun acc s => acc ||| shl1ul (s % 32)) 0))
      ∧ (¬ (∀ s ∈ ss, s / 32 = ss.headD 0 / 32) →
        binCastLoop env dp ops 0 0 0 = .error .dsmAddress) := by
  cases h with
  | nil => exact absurd rfl hne
  | @cons op s rest srest hd htl =>
    obtain ⟨⟨kind, index, hop⟩, breg, hb, hs⟩ := hd
    subst hop
    have hstep : binCastLoop env dp (.reference kind index :: rest) 0 0 0
        = binCastLoop env dp rest 1 (s / 32) (0 ||| shl1ul (s % 32)) := by
      rw [binCastLoop]
      simp only [hb, hs]
      simp
    rw [hstep]
    have ih := binCastLoop_spec env dp htl 1 (s / 32) (0 ||| shl1ul (s % 32)) (by norm_num)
    simp only [List.headD_cons, List.foldl_cons]
    constructor
    · intro hall
      exact ih.1 fun x hx => hall x (List.mem_cons_of_mem _ hx)
    · intro hnot
      refine ih.2 fun hall => hnot fun x hx => ?_
      rcases List.mem_cons.mp hx with e | hmem
      · rw [e]
      · exact hall x hmem

theorem testBit_foldl_or_map (f : Nat → Nat) (ss : List Nat) (k : Nat) :
    ∀ m, (ss.foldl (fun acc s => acc ||| f s) m).testBit k
      = (m.testBit k || ss.any fun s => (f s).testBit k) := by
  induction ss with
  | nil => intro m; simp
  | cons s rest ih =>
    intro m
    rw [List.foldl_cons, ih, Nat.testBit_or, List.any_cons, Bool.or_assoc]

theorem mask_testBit (ss : List Nat) (k : Nat) :
    (ss.foldl (fun acc s => acc ||| shl1ul (s % 32)) 0).testBit k = true
      ↔ ∃ s ∈ ss, s % 32 = k := by
  rw [testBit_foldl_or_map, Nat.zero_testBit, Bool.false_or, List.any_eq_true]
  constructor
  · rintro ⟨s, hs, ht⟩
    rw [testBit_shl1ul] at ht
    exact ⟨s, hs, (of_decide_eq_true ht).1⟩
  · rintro ⟨s, hs, e⟩
    refine ⟨s, hs, ?_⟩
    rw [testBit_shl1ul]
    have : s % 32 < 32 := Nat.mod_lt _ (by norm_num)
    exact decide_eq_true ⟨e, by omega⟩

theorem mask_eq_orAll (ss : List Nat) :
    ss.foldl (fun acc s => acc ||| shl1ul (s % 32)) 0
      = orAll (ss.map fun s => 1 <<< (s % 32)) := by
  unfold orAll
  rw [List.foldl_map]
  congr 1
  funext acc s
  rw [shl1ul_mod_eq]

theorem mask_lt (ss : List Nat) :
    ss.foldl (fun acc s => acc ||| shl1ul (s % 32)) 0 < 2 ^ 32 := by
  apply Nat.lt_pow_two_of_testBit
  intro k hk
  cases hb : (ss.foldl (fun acc s => acc ||| shl1ul (s % 32)) 0).testBit k with
  | false => rfl
  | true =>
    obtain ⟨s, _, e⟩ := (mask_testBit ss k).mp hb
    have : s % 32 < 32 := Nat.mod_lt _ (by norm_num)
    omega

theorem mask_pos {ss : List Nat} (hne : ss ≠ []) :
    0 < ss.foldl (fun acc s => acc ||| shl1ul (s % 32)) 0 := by
  cases ss with
  | nil => exact absurd rfl hne
  | cons s rest =>
    rw [Nat.pos_iff_ne_zero]
    intro e
    have := (mask_testBit (s :: rest) (s % 32)).mpr ⟨s, List.mem_cons_self _ _, rfl⟩
    rw [e, Nat.zero_testBit] at this
    exact Bool.noConfusion this

/-! ### The exceptions of a call -/

theorem failsOnlyWith_ok {σ α : Type} (P : Err → Prop) (a : α) (s : σ) :
    FailsOnlyWith P (Res.ok a s) :=
  fun _ _ h => Res.noConfusion h

theorem failsOnlyWith_fail {σ α : Type} {P : Err → Prop} {e : Err} (s : σ) (h : P e) :
    FailsOnlyWith P (Res.fail e s : Res σ α) := by
  intro e1 s1 h1
  injection h1 with h1 _
  rw [← h1]
  exact h

theorem failsOnlyWith_andThen {σ α β : Type} {P : Err → Prop} {r : Res σ α}
    {f : α → σ → Res σ β} (hr : FailsOnlyWith P r)
    (hf : ∀ a s, r = .ok a s → FailsOnlyWith P (f a s)) : FailsOnlyWith P (r.andThen f) := by
  cases r with
  | ok a s => exact hf a s rfl
  | fail e s =>
    intro e1 s1 h1
    exact hr e1 s1 (by simpa [Res.andThen] using h1)

theorem failsOnlyWith_dpCall {α : Type} {P : Err → Prop} (hX : ∀ x, P (.external x))
    (f : D → Except ExtErr (α × D)) (cg : Codegen D) : FailsOnlyWith P (dpCall f cg) := by
  unfold dpCall
  split
  · exact failsOnlyWith_ok P _ _
  · exact failsOnlyWith_fail _ (hX _)

theorem failsOnlyWith_pureCall {α : Type} {P : Err → Prop} (hX : ∀ x, P (.external x))
    (r : Except ExtErr α) (cg : Codegen D) : FailsOnlyWith P (pureCall r cg) := by
  unfold pureCall
  split
  · exact failsOnlyWith_ok P _ _
  · exact failsOnlyWith_fail _ (hX _)

theorem failsOnlyWith_emitPadToCycle {P : Err → Prop} (hT : P .timeTravel) (cg : Codegen D)
    (instrIdx startCycle : Nat) (slot : Int) (instrumentName : String) :
    FailsOnlyWith P (emitPadToCycle cg instrIdx startCycle slot instrumentName) := by
  rw [emitPadToCycle_eq]
  split
  · exact failsOnlyWith_fail _ hT
  · split <;> exact failsOnlyWith_ok P _ _

theorem failsOnlyWith_emitOutput {P : Err → Prop} (hT : P .timeTravel)
    (hX : ∀ x, P (.external x)) (env : Env D) (cg : Codegen D) (condGateMap : CondGateMap)
    (digOut maxDur instrIdx startCycle : Nat) (slot : Int) (instrumentName : String) :
    FailsOnlyWith P
      (emitOutput env cg condGateMap digOut maxDur instrIdx startCycle slot instrumentName) := by
  unfold emitOutput
  refine failsOnlyWith_andThen (failsOnlyWith_emitPadToCycle hT _ _ _ _ _) fun _ cg1 _ => ?_
  refine failsOnlyWith_andThen ?_ fun _ _ _ => failsOnlyWith_ok P _ _
  split
  · exact failsOnlyWith_ok P _ _
  · refine failsOnlyWith_andThen (failsOnlyWith_dpCall hX _ _) fun _ _ _ => ?_
    exact failsOnlyWith_andThen (failsOnlyWith_dpCall hX _ _) fun _ _ _ =>
      failsOnlyWith_ok P _ _

theorem failsOnlyWith_emitFeedback {P : Err → Prop} (hT : P .timeTravel)
    (hX : ∀ x, P (.external x)) (env : Env D) (cg : Codegen D) (feedbackMap : FeedbackMap)
    (instrIdx startCycle : Nat) (slot : Int) (instrumentName : String) :
    FailsOnlyWith P
      (emitFeedback env cg feedbackMap instrIdx startCycle slot instrumentName) := by
  unfold emitFeedback
  refine failsOnlyWith_andThen ?_ fun _ cg1 _ => ?_
  · split
    · exact failsOnlyWith_emitPadToCycle hT _ _ _ _ _
    · exact failsOnlyWith_ok P _ _
  · split
    · refine failsOnlyWith_andThen (failsOnlyWith_dpCall hX _ _) fun _ _ _ => ?_
      refine failsOnlyWith_andThen (failsOnlyWith_dpCall hX _ _) fun _ _ _ => ?_
      refine failsOnlyWith_andThen (failsOnlyWith_pureCall hX _ _) fun _ _ _ => ?_
      exact failsOnlyWith_andThen (failsOnlyWith_pureCall hX _ _) fun _ _ _ =>
        failsOnlyWith_ok P _ _
    · exact failsOnlyWith_ok P _ _

theorem forEach_range_ok_at {σ : Type} (body : σ → Nat → Res σ Unit) (n : Nat) (st st1 : σ)
    (h : forEach body (List.range n) st = .ok () st1) :
    ∀ s, s < n → ∃ st0 st2, forEach body (List.range s) st = .ok () st0
      ∧ body st0 s = .ok () st2 := by
  induction n generalizing st1 with
  | zero => intro s hs; exact absurd hs (Nat.not_lt_zero s)
  | succ n ih =>
    rw [List.range_succ, forEach_append] at h
    obtain ⟨_, sa, hpre, hlast⟩ := Res.andThen_eq_ok h
    intro s hs
    by_cases hsn : s = n
    · subst hsn
      rw [forEach_cons] at hlast
      obtain ⟨_, sb, hb, _⟩ := Res.andThen_eq_ok hlast
      exact ⟨sa, sb, hpre, hb⟩
    · exact ih sa hpre s (by omega)

/-- In a last bundle with feedback, the iteration of the emit loop for an instrument whose
output lasts at least as long as the bundle throws, as long as no cycle count wraps: the
end of the feedback-cycle instruction is below `2^64` and the output exceeds the bundle by
less than `2^63` cycles. -/
theorem bundleFinishInstr_overrun {env : Env D} {codeGenMap : CodeGenMap}
    {startCycle dur : Nat} (cg : Codegen D) {instrIdx : Nat} {info : CodeGenInfo}
    (hinfo : codeGenMap.get? instrIdx = some info) (hout : info.instrHasOutput = true)
    (hfb : bundleHasFeedback codeGenMap = true)
    (hdur : dur ≤ info.instrMaxDurationInCycles)
    (hend : startCycle + info.instrMaxDurationInCycles + 1 < 2 ^ 64)
    (hfar : info.instrMaxDurationInCycles - dur < 2 ^ 63) :
    ∃ e cg1, bundleFinishInstr env codeGenMap startCycle dur true cg instrIdx = .fail e cg1
      ∧ (e = .timeTravel ∨ ∃ x, e = .external x) := by
  cases hr : bundleFinishInstr env codeGenMap startCycle dur true cg instrIdx with
  | fail e cg1 =>
    refine ⟨e, cg1, rfl, ?_⟩
    have hfo : FailsOnlyWith (fun e => e = .timeTravel ∨ ∃ x, e = .external x)
        (bundleFinishInstr env codeGenMap startCycle dur true cg instrIdx) := by
      unfold bundleFinishInstr
      rw [hinfo]
      simp only [hout, hfb, if_true]
      refine failsOnlyWith_andThen
        (failsOnlyWith_emitOutput (Or.inl rfl) (fun x => Or.inr ⟨x, rfl⟩) _ _ _ _ _ _ _ _ _)
        fun _ _ _ => ?_
      exact failsOnlyWith_andThen
        (failsOnlyWith_emitFeedback (Or.inl rfl) (fun x => Or.inr ⟨x, rfl⟩) _ _ _ _ _ _ _)
        fun _ _ _ => failsOnlyWith_emitPadToCycle (Or.inl rfl) _ _ _ _ _
    exact hfo e cg1 hr
  | ok u cg1 =>
    exfalso
    unfold bundleFinishInstr at hr
    rw [hinfo] at hr
    simp only [hout, hfb, if_true] at hr
    obtain ⟨_, cga, hA, hr1⟩ := Res.andThen_eq_ok hr
    obtain ⟨_, cgb, hB, hC⟩ := Res.andThen_eq_ok hr1
    obtain ⟨_, _, _, hcurA, _⟩ := emitOutput_shape hA
    obtain ⟨_, _, _, hcurB⟩ := emitFeedback_shape hB
    obtain ⟨_, _, _, _, hle⟩ := emitPadToCycle_shape hC
    rw [hcurB, hcurA] at hle
    unfold uintSub uintAdd at hle
    have : max ((startCycle + info.instrMaxDurationInCycles) % 2 ^ 64) startCycle
        = startCycle + info.instrMaxDurationInCycles := by omega
    rw [this] at hle
    omega

/-! ### The shape of the bundle matrix -/

theorem bundleShape_bundleStart (env : Env D) (cg : Codegen D) (cmnt : Text) :
    BundleShape env (bundleStart env cg cmnt).bundleInfo := by
  rw [bundleStart_bundleInfo]
  intro instrIdx ic row hic hrow
  rw [List.get?_eq_getElem?, List.getElem?_map] at hrow
  rw [List.get?_eq_getElem?] at hic
  rw [hic] at hrow
  simp only [Option.map_some'] at hrow
  injection hrow with hrow
  rw [← hrow, List.length_replicate]

theorem setCell_get?_length {bundleInfo : List (List BundleInfo)} {instrIdx group j : Nat}
    {bi : BundleInfo} {row1 : List BundleInfo}
    (h : (setCell bundleInfo instrIdx group bi).get? j = some row1) :
    ∃ row, bundleInfo.get? j = some row ∧ row1.length = row.length := by
  unfold setCell at h
  rw [List.get?_eq_getElem?] at h ⊢
  by_cases hj : j = instrIdx
  · subst hj
    rw [List.getElem?_modify_eq] at h
    cases hrow : bundleInfo[j]? with
    | none =>
      rw [hrow] at h
      simp at h
    | some row =>
      rw [hrow] at h
      simp only [Option.map_eq_map, Option.map_some'] at h
      injection h with h
      exact ⟨row, rfl, by rw [← h, List.length_set]⟩
  · rw [List.getElem?_modify_ne _ _ (fun e => hj e.symm)] at h
    exact ⟨row1, h, rfl⟩

theorem bundleShape_setCell {env : Env D} {bundleInfo : List (List BundleInfo)}
    (h : BundleShape env bundleInfo) (instrIdx group : Nat) (bi : BundleInfo) :
    BundleShape env (setCell bundleInfo instrIdx group bi) := by
  intro j ic row1 hic hrow1
  obtain ⟨row, hrow, hlen⟩ := setCell_get?_length hrow1
  rw [hlen]
  exact h j ic row hic hrow

theorem st_andThen {σ α β : Type} {I : σ → Prop} {r : Res σ α} {f : α → σ → Res σ β}
    (hr : I r.st) (hf : ∀ a s, r = .ok a s → I (f a s).st) : I (r.andThen f).st := by
  cases r with
  | ok a s => exact hf a s rfl
  | fail e s => exact hr

theorem forEach_st {σ : Type} {I : σ → Prop} {body : σ → Nat → Res σ Unit}
    (hbody : ∀ st i, I st → I (body st i).st) (is : List Nat) :
    ∀ st, I st → I (forEach body is st).st := by
  induction is with
  | nil => exact fun st h => h
  | cons i is ih =>
    intro st h
    rw [forEach_cons]
    refine st_andThen (hbody st i h) fun a s hs => ih s ?_
    have := hbody st i h
    rw [hs] at this
    exact this

theorem bundleShape_signalStep {env : Env D} {custom : CustomInstruction}
    {instrCond : tInstructionCondition} {ops : Operands} {isReadout : Bool} {sd : SignalDef}
    (cg : Codegen D) (s : Nat) (h : BundleShape env cg.bundleInfo) :
    BundleShape env (signalStep env custom instrCond ops isReadout sd cg s).st.bundleInfo := by
  unfold signalStep
  have hco := calcSignalValue_commentsOnly env cg sd s ops.qubits custom.instruction_type.name
  refine st_andThen (I := fun c : Codegen D => BundleShape env c.bundleInfo) ?_ ?_
  · show BundleShape env _
    rw [hco.2.2]
    exact h
  · intro csv cg1 hcsv
    rw [hcsv] at hco
    have hb : cg1.bundleInfo = cg.bundleInfo := hco.2.2
    show BundleShape env _
    unfold onCell
    split
    · show BundleShape env cg1.bundleInfo
      rw [hb]
      exact h
    · split
      · show BundleShape env (setCell cg1.bundleInfo _ _ _)
        rw [hb]
        exact bundleShape_setCell h _ _ _
      · show BundleShape env (setCell cg1.bundleInfo _ _ _)
        rw [hb]
        exact bundleShape_setCell h _ _ _

theorem bundleShape_custom_instruction (env : Env D) (cg : Codegen D)
    (custom : CustomInstruction) (h : BundleShape env cg.bundleInfo) :
    BundleShape env (custom_instruction env cg custom).st.bundleInfo := by
  unfold custom_instruction
  split
  · exact h
  · split
    · exact h
    · split
      · exact h
      · split
        · exact h
        · simp only
          have hc : (instructionComment env cg custom).bundleInfo = cg.bundleInfo := by
            unfold instructionComment
            split <;> exact comment_bundleInfo _ _ _
          refine st_andThen (I := fun c : Codegen D => BundleShape env c.bundleInfo) ?_ ?_
          · unfold pureCall
            split
            · show BundleShape env (instructionComment env cg custom).bundleInfo
              rw [hc]
              exact h
            · show BundleShape env (instructionComment env cg custom).bundleInfo
              rw [hc]
              exact h
          · intro sd cg2 hsd
            have e := pureCall_eq_ok hsd
            subst e
            refine forEach_st (I := fun c : Codegen D => BundleShape env c.bundleInfo)
              (fun st i hst => bundleShape_signalStep st i hst) _ _ ?_
            show BundleShape env (instructionComment env cg custom).bundleInfo
            rw [hc]
            exact h

theorem selectControlModeGroup_in_range (optVectorMode : Bool) {group : Nat}
    {ic : InstrumentControl} (h : group < ic.controlModeGroupCnt) :
    ∃ controlModeGroup, selectControlModeGroup optVectorMode group ic = .ok controlModeGroup
      ∧ controlModeGroup < ic.controlModeGroupCnt := by
  unfold selectControlModeGroup
  rw [if_neg (by omega)]
  by_cases hv : optVectorMode = true ∧ ic.controlModeGroupCnt = 1
  · rw [if_pos hv]
    exact ⟨0, rfl, by omega⟩
  · rw [if_neg hv, if_pos h]
    exact ⟨group, rfl, h⟩

theorem calcGroupDigOut_noGroupError (optVectorMode : Bool) (instrIdx nrGroups : Nat)
    {group : Nat} {ic : InstrumentControl} (override : Int)
    (h : group < ic.controlModeGroupCnt) {e : Err}
    (he : calcGroupDigOut optVectorMode instrIdx group nrGroups ic override = .error e) :
    NoGroupError e := by
  obtain ⟨g, hg, _⟩ := selectControlModeGroup_in_range optVectorMode h
  unfold calcGroupDigOut at he
  rw [hg] at he
  simp only at he
  split at he
  · rename_i e1 hf
    injection he with he
    subst he
    unfold controlFragment at hf
    simp only at hf
    split at hf
    · exact Except.noConfusion hf
    · split at hf
      · exact Except.noConfusion hf
      · injection hf with hf
        rw [← hf]
        exact ⟨by decide, by decide⟩
  · split at he
    · rename_i e1 ht
      injection he with he
      subst he
      unfold addTrigger at ht
      simp only at ht
      split at ht
      · exact Except.noConfusion ht
      · split at ht
        · exact Except.noConfusion ht
        · split at ht
          · exact Except.noConfusion ht
          · split at ht
            · split at ht
              · exact Except.noConfusion ht
              · injection ht with ht
                rw [← ht]
                exact ⟨by decide, by decide⟩
            · injection ht with ht
              rw [← ht]
              exact ⟨by decide, by decide⟩
    · exact Except.noConfusion he

theorem failsOnlyWith_forEachAcc {σ α : Type} {P : Err → Prop} {I : σ → Prop}
    {body : α → σ → Nat → Res σ α} (is : List Nat)
    (hbody : ∀ acc st i, i ∈ is → I st →
      FailsOnlyWith P (body acc st i) ∧ ∀ acc1 st1, body acc st i = .ok acc1 st1 → I st1) :
    ∀ acc st, I st → FailsOnlyWith P (forEachAcc body is acc st) := by
  induction is with
  | nil => exact fun acc st _ => failsOnlyWith_ok P _ _
  | cons i is ih =>
    intro acc st hI
    unfold forEachAcc
    obtain ⟨hf, hk⟩ := hbody acc st i (List.mem_cons_self _ _) hI
    refine failsOnlyWith_andThen hf fun acc1 st1 h1 => ?_
    exact ih (fun a s j hj hs => hbody a s j (List.mem_cons_of_mem _ hj) hs) acc1 st1
      (hk acc1 st1 h1)

theorem failsOnlyWith_forEach {σ : Type} {P : Err → Prop}
    {body : σ → Nat → Res σ Unit} (hbody : ∀ st i, FailsOnlyWith P (body st i))
    (is : List Nat) : ∀ st, FailsOnlyWith P (forEach body is st) := by
  induction is with
  | nil => exact fun st => failsOnlyWith_ok P _ _
  | cons i is ih =>
    intro st
    rw [forEach_cons]
    exact failsOnlyWith_andThen (hbody st i) fun _ s _ => ih s

theorem failsOnlyWith_collectGroup {env : Env D} {instrIdx nrGroups : Nat}
    {ic : InstrumentControl} (acc : CodeGenInfo) (cg : Codegen D) {group : Nat}
    (h : group < ic.controlModeGroupCnt) :
    FailsOnlyWith NoGroupError (collectGroup env instrIdx nrGroups ic acc cg group) := by
  have hX : ∀ x, NoGroupError (.external x) := fun x => ⟨by simp, by simp⟩
  unfold collectGroup
  split
  · exact failsOnlyWith_fail _ ⟨by decide, by decide⟩
  · rename_i bi _
    refine failsOnlyWith_andThen ?_ fun info4 cg2 _ => ?_
    · split
      · simp only
        split
        · rename_i e he
          exact failsOnlyWith_fail _ (calcGroupDigOut_noGroupError _ _ _ _ h he)
        · exact failsOnlyWith_ok _ _ _
      · exact failsOnlyWith_ok _ _ _
    · split
      · refine failsOnlyWith_andThen (failsOnlyWith_pureCall hX _ _) fun _ _ _ => ?_
        split
        · exact failsOnlyWith_fail _ ⟨by decide, by decide⟩
        · exact failsOnlyWith_andThen (failsOnlyWith_dpCall hX _ _) fun _ _ _ =>
            failsOnlyWith_ok _ _ _
      · exact failsOnlyWith_ok _ _ _

theorem failsOnlyWith_collectInstr {env : Env D} (codeGenMap : CodeGenMap) (cg : Codegen D)
    (instrIdx : Nat) (h : BundleShape env cg.bundleInfo) :
    FailsOnlyWith NoGroupError (collectInstr env codeGenMap cg instrIdx) := by
  unfold collectInstr
  split
  · exact failsOnlyWith_fail _ ⟨by decide, by decide⟩
  · rename_i ic hic
    split
    · exact failsOnlyWith_fail _ ⟨by decide, by decide⟩
    · simp only
      split
      · exact failsOnlyWith_fail _ ⟨by decide, by decide⟩
      · rename_i row hrow
        have hlen := h instrIdx ic row hic hrow
        refine failsOnlyWith_andThen ?_ fun _ _ _ => failsOnlyWith_ok _ _ _
        refine failsOnlyWith_forEachAcc (I := fun _ => True) _ ?_ _ _ trivial
        intro acc st g hg _
        refine ⟨failsOnlyWith_collectGroup acc st ?_, fun _ _ _ => trivial⟩
        rw [← hlen]
        exact List.mem_range.mp hg

theorem failsOnlyWith_collectCodeGenInfo {env : Env D} (cg : Codegen D)
    (startCycle dur : Nat) (h : BundleShape env cg.bundleInfo) :
    FailsOnlyWith NoGroupError (collectCodeGenInfo env cg startCycle dur) := by
  unfold collectCodeGenInfo
  refine failsOnlyWith_forEachAcc (I := fun st : Codegen D => BundleShape env st.bundleInfo)
    _ ?_ _ _ h
  intro acc st i _ hst
  refine ⟨failsOnlyWith_collectInstr acc st i hst, fun acc1 st1 hok => ?_⟩
  obtain ⟨_, _, _, _, _, _, _, hco, _⟩ := collectInstr_ok hok
  show BundleShape env st1.bundleInfo
  rw [hco.2.2]
  exact hst

theorem failsOnlyWith_bundleFinishInstr (env : Env D) (codeGenMap : CodeGenMap)
    (startCycle dur : Nat) (isLastBundle : Bool) (cg : Codegen D) (instrIdx : Nat) :
    FailsOnlyWith NoGroupError
      (bundleFinishInstr env codeGenMap startCycle dur isLastBundle cg instrIdx) := by
  have hX : ∀ x, NoGroupError (.external x) := fun x => ⟨by simp, by simp⟩
  have hT : NoGroupError .timeTravel := ⟨by decide, by decide⟩
  unfold bundleFinishInstr
  cases codeGenMap.get? instrIdx with
  | none => exact failsOnlyWith_fail _ ⟨by decide, by decide⟩
  | some info =>
    simp only
    refine failsOnlyWith_andThen ?_ fun _ _ _ => ?_
    · cases info.instrHasOutput with
      | true => exact failsOnlyWith_emitOutput hT hX _ _ _ _ _ _ _ _ _
      | false => exact failsOnlyWith_ok _ _ _
    · refine failsOnlyWith_andThen ?_ fun _ _ _ => ?_
      · cases bundleHasFeedback codeGenMap with
        | true => exact failsOnlyWith_emitFeedback hT hX _ _ _ _ _ _ _
        | false => exact failsOnlyWith_ok _ _ _
      · cases isLastBundle with
        | true => exact failsOnlyWith_emitPadToCycle hT _ _ _ _ _
        | false => exact failsOnlyWith_ok _ _ _

theorem failsOnlyWith_bundleFinish {env : Env D} (cg : Codegen D)
    (startCycle dur : Nat) (isLastBundle : Bool) (h : BundleShape env cg.bundleInfo) :
    FailsOnlyWith NoGroupError (bundleFinish env cg startCycle dur isLastBundle) := by
  unfold bundleFinish
  refine failsOnlyWith_andThen (failsOnlyWith_collectCodeGenInfo cg startCycle dur h)
    fun codeGenMap cg1 _ => ?_
  exact failsOnlyWith_andThen
    (failsOnlyWith_forEach (fun st i => failsOnlyWith_bundleFinishInstr env codeGenMap
      startCycle dur isLastBundle st i) _ cg1)
    fun _ _ _ => failsOnlyWith_ok _ _ _

/-! ### Program framing -/

theorem jumpTargets_append (a b : List CodeLine) :
    jumpTargets (a ++ b) = jumpTargets a ++ jumpTargets b := by
  simp [jumpTargets, List.filter_append, List.filterMap_append]

theorem definedLabels_append (a b : List CodeLine) :
    definedLabels (a ++ b) = definedLabels a ++ definedLabels b := by
  simp [definedLabels, List.filter_append, List.filterMap_append]

theorem jumpTargets_comments {env : Env D} {cmts : List CodeLine} (h : Comments env cmts) :
    jumpTargets cmts = [] := by
  have hm : ∀ l ∈ cmts, l.mnemonic = "" := by
    intro l hl
    have := h.1 l hl
    unfold CodeLine.isComment at this
    split at this
    · rfl
    · rfl
    · exact Bool.noConfusion this
  unfold jumpTargets
  rw [List.filter_eq_nil_iff.mpr]
  · rfl
  · intro l hl
    rw [hm l hl]
    decide

theorem definedLabels_comments {env : Env D} {cmts : List CodeLine} (h : Comments env cmts) :
    definedLabels cmts = [] := by
  unfold definedLabels
  rw [List.filter_eq_nil_iff.mpr]
  · rfl
  · intro l hl
    rw [h.1 l hl]
    decide

/-- The lines that a call of `comment` appends at indentation `depth`. -/
theorem comments_commentLines (env : Env D) (depth : Nat) (s : String) (rest : Text)
    (hs : s.data.head? = some '#') :
    Comments env
      (if env.verbose = true then
        [CodeLine.short (.str (String.mk (List.replicate (2 * depth) ' ')) :: .str s :: rest) ""]
       else []) := by
  by_cases hv : env.verbose = true
  · rw [if_pos hv]
    refine ⟨fun l hl => ?_, fun h => ?_⟩
    · rw [List.mem_singleton.mp hl]
      simp [CodeLine.isComment, hs]
    · rw [h] at hv
      exact absurd hv (by decide)
  · rw [if_neg hv]
    exact comments_nil env

theorem emitProgramStart_eq (env : Env D) (cg : Codegen D) (progName : String) :
    ∃ cmts1 cmts2, Comments env cmts1 ∧ Comments env cmts2
      ∧ emitProgramStart env cg progName
        = withCode cg (programHeader env progName
            ++ [.short [.str ".CODE"] ""] ++ cmts1
            ++ [.line (.text []) "seq_bar" []
                  [.str "# synchronization, delay set externally through SET_SEQ_BAR_CNT"],
                .line (.text []) "seq_out" [.str "0x00000000,1"]
                  [.str "# allows monitoring actual start time using trace unit"]]
            ++ (if env.run_once = true then []
                else cmts2 ++ [.line (.text [.str "__mainLoop:"]) "" [] [.str "# "]])
            ++ [.line (.text []) "seq_state" [.str "0"]
                  [.str "# clear Programmable Logic state"]]) := by
  refine ⟨_, _,
    comments_commentLines env cg.depth "# synchronous start and latency compensation" []
      (by decide),
    comments_commentLines env cg.depth "# start of main loop that runs indefinitely" []
      (by decide), ?_⟩
  unfold emitProgramStart comment programHeader
  by_cases hv : env.verbose = true <;> by_cases hr : env.run_once = true <;>
    simp [hv, hr, withCode, emit2, emit4, List.append_assoc]

theorem emitProgramFinish_eq (env : Env D) (cg : Codegen D) :
    ∃ cmts, Comments env cmts
      ∧ emitProgramFinish env cg
        = withCode cg (cmts
            ++ (if env.run_once = true then [.short [] "stop"]
                else [.line (.text []) "seq_wait" [.str "1"] [],
                      .line (.text []) "jmp" [.str "@__mainLoop"]
                        [.str "# loop indefinitely"]])
            ++ [.short [.str ".END"] ""]) := by
  obtain ⟨cmts, hc, he⟩ := comment_withCode env cg "# finish program" [] (by decide)
  refine ⟨cmts, hc, ?_⟩
  unfold emitProgramFinish
  simp only
  rw [he]
  by_cases hr : env.run_once = true
  · simp only [hr, if_true, emit2_eq_withCode, withCode_withCode]
  · simp [hr, emit2_eq_withCode, emit4_eq_withCode, withCode_withCode, List.append_assoc]

/-! ### The codeword map -/

/-- C1: for every instrument, a successful `collectCodeGenInfo` (the collect phase of
`bundleFinish`) records a digital word equal to the bitwise OR of the words that
`calcGroupDigOut` returns for exactly the groups whose signalValue is not empty, and an
`instrMaxDurationInCycles` equal to the maximum `durationInCycles` over those same groups;
groups with an empty signalValue contribute to neither. -/
theorem collectCodeGenInfo_digOut_maxDuration (env : Env D) (cg : Codegen D)
    (startCycle durationInCycles : Nat) (codeGenMap : CodeGenMap)
    (h : (collectCodeGenInfo env cg startCycle durationInCycles).val? = some codeGenMap) :
    ∀ instrIdx ic, env.instruments.get? instrIdx = some ic →
      ∃ row info, cg.bundleInfo.get? instrIdx = some row
        ∧ codeGenMap.get? instrIdx = some info
        ∧ (∀ g, g ∈ populatedGroups row ↔ ∃ bi, row.get? g = some bi ∧ bi.signalValue ≠ "")
        ∧ (∀ g ∈ populatedGroups row,
            ∃ gdo, calcGroupDigOut env.OPT_VECTOR_MODE instrIdx g row.length ic
              (cellOf row g).staticCodewordOverride = .ok gdo)
        ∧ info.digOut =
            orAll ((populatedGroups row).map fun g =>
              groupDigOutOf (calcGroupDigOut env.OPT_VECTOR_MODE instrIdx g row.length ic
                (cellOf row g).staticCodewordOverride))
        ∧ info.instrMaxDurationInCycles =
            maxAll ((populatedGroups row).map fun g => (cellOf row g).durationInCycles) := by
  intro instrIdx ic hic
  obtain ⟨_, _, hmap⟩ := collectCodeGenInfo_ok (Res.eq_ok_of_val?_some h)
  obtain ⟨row, info, hrow, hinfo, _, _, hcalc, hdig, hmax, _⟩ := hmap instrIdx ic hic
  exact ⟨row, info, hrow, hinfo, mem_populatedGroups row, hcalc, hdig, hmax⟩

/-- C1, witness: an instrument with two groups of four control bits; group 0 carries
signal "a" for 2 cycles with codeword 5, group 1 is unused (its stale duration 9 and
codeword 3 are ignored): the digital word is 0x50 and the duration 2. -/
theorem collectCodeGenInfo_digOut_maxDuration_witness :
    ∃ row info,
      (demoCodegen 0
          [[{ signalValue := "a", durationInCycles := 2, staticCodewordOverride := 5 },
            { signalValue := "", durationInCycles := 9, staticCodewordOverride := 3 }]]
        ).bundleInfo.get? 0 = some row
      ∧ [({ instrHasOutput := true, digOut := 0x50, instrMaxDurationInCycles := 2,
            instrumentName := "X", slot := 0 } : CodeGenInfo)].get? 0 = some info
      ∧ populatedGroups row = [0]
      ∧ info.digOut =
          orAll ((populatedGroups row).map fun g =>
            groupDigOutOf (calcGroupDigOut false 0 g row.length
              (demoInstrument [[7, 6, 5, 4], [3, 2, 1, 0]] [])
              (cellOf row g).staticCodewordOverride))
      ∧ info.instrMaxDurationInCycles =
          maxAll ((populatedGroups row).map fun g => (cellOf row g).durationInCycles) := by
  obtain ⟨row, info, hrow, hinfo, _, _, hdig, hmax⟩ :=
    collectCodeGenInfo_digOut_maxDuration
      (demoEnv false [demoInstrument [[7, 6, 5, 4], [3, 2, 1, 0]] []] 5)
      (demoCodegen 0
        [[{ signalValue := "a", durationInCycles := 2, staticCodewordOverride := 5 },
          { signalValue := "", durationInCycles := 9, staticCodewordOverride := 3 }]])
      0 2
      [{ instrHasOutput := true, digOut := 0x50, instrMaxDurationInCycles := 2,
         instrumentName := "X", slot := 0 }]
      (by decide) 0 (demoInstrument [[7, 6, 5, 4], [3, 2, 1, 0]] []) rfl
  refine ⟨row, info, hrow, hinfo, ?_, hdig, hmax⟩
  have e : row = [{ signalValue := "a", durationInCycles := 2, staticCodewordOverride := 5 },
      { signalValue := "", durationInCycles := 9, staticCodewordOverride := 3 }] := by
    have h0 : (demoCodegen 0
        [[{ signalValue := "a", durationInCycles := 2, staticCodewordOverride := 5 },
          { signalValue := "", durationInCycles := 9, staticCodewordOverride := 3 }]]
        ).bundleInfo.get? 0
        = some [{ signalValue := "a", durationInCycles := 2, staticCodewordOverride := 5 },
          { signalValue := "", durationInCycles := 9, staticCodewordOverride := 3 }] := rfl
    rw [h0] at hrow
    injection hrow with e
    exact e.symm
  subst e
  decide

/-- C2: a successful `bundleFinish` emits, between comments, one segment of lines per
instrument, in instrument order. The segment of an instrument holds at most one output
instruction, on the slot of the instrument: none when no group of the instrument has a
non-empty signalValue; `seq_out_sm` when at least one populated group has a condition
other than ALWAYS and the instrument does not force conditional gates on; and `seq_out`
in every other case. -/
theorem bundleFinish_output_instruction (env : Env D) (cg : Codegen D)
    (startCycle durationInCycles : Nat) (isLastBundle : Bool)
    (h : (bundleFinish env cg startCycle durationInCycles isLastBundle).err? = none) :
    ∃ (pre : List CodeLine) (segs : List (List CodeLine)) (post : List CodeLine),
      (bundleFinish env cg startCycle durationInCycles isLastBundle).st.codeSection
        = cg.codeSection ++ pre ++ segs.flatten ++ post
      ∧ outputMnemonics pre = [] ∧ outputMnemonics post = []
      ∧ segs.length = env.instruments.length
      ∧ ∀ instrIdx ic seg, env.instruments.get? instrIdx = some ic →
          segs.get? instrIdx = some seg →
          ∃ row, cg.bundleInfo.get? instrIdx = some row
            ∧ (∀ l ∈ seg, l.isOutput = true → l.slot? = some ic.ii.slot)
            ∧ outputMnemonics seg =
                if populatedGroups row = [] then []
                else if ic.ii.forceCondGatesOn = false
                    ∧ ∃ g ∈ populatedGroups row, (cellOf row g).condition ≠ .ALWAYS then
                  ["seq_out_sm"]
                else ["seq_out"] := by
  obtain ⟨pre, segs, post, hcode, hpre, hpost, _, hall⟩ :=
    bundleFinish_segments (Res.eq_ok_of_err?_none h)
  obtain ⟨hlen, hget⟩ := forall₂_range_get? hall
  have hnone : ∀ ls : List CodeLine, (∀ l ∈ ls, ∃ t, l = CodeLine.short t "") →
      outputMnemonics ls = [] := by
    intro ls hls
    unfold outputMnemonics
    rw [List.map_eq_nil_iff, List.filter_eq_nil_iff]
    intro l hl
    obtain ⟨t, e⟩ := hls l hl
    rw [e]
    simp [CodeLine.isOutput, CodeLine.mnemonic]
  refine ⟨pre, segs, post, hcode, hnone pre hpre, hnone post hpost, hlen, ?_⟩
  intro instrIdx ic seg hic hseg
  obtain ⟨_, ic1, row, info, hic1, hrow, hci, _, hslot, hout⟩ := hget instrIdx seg hseg
  rw [hic] at hic1
  injection hic1 with e
  subst e
  obtain ⟨_, _, _, _, _, hhas, hcgm, _⟩ := hci
  refine ⟨row, hrow, ?_, ?_⟩
  · intro l hl hlo
    rcases hslot l hl with h1 | ⟨t, e⟩
    · exact h1
    · rw [e] at hlo
      simp [CodeLine.isOutput, CodeLine.mnemonic] at hlo
  · rw [hout, hhas]
    by_cases hp : populatedGroups row = []
    · rw [if_pos hp, hp]
      rfl
    · rw [if_neg hp]
      have hne : (!(populatedGroups row).isEmpty) = true := by
        cases hpg : populatedGroups row with
        | nil => exact absurd hpg hp
        | cons a l => rfl
      rw [if_pos hne, hcgm]
      by_cases hc : ic.ii.forceCondGatesOn = false
          ∧ ∃ g ∈ populatedGroups row, (cellOf row g).condition ≠ .ALWAYS
      · rw [if_pos hc]
        obtain ⟨hf, g, hg, hcond⟩ := hc
        have : ((populatedGroups row).all fun g =>
            decide ((cellOf row g).condition = .ALWAYS ∨ ic.ii.forceCondGatesOn = true))
            = false := by
          rw [List.all_eq_false]
          refine ⟨g, hg, ?_⟩
          rw [hf]
          simp [hcond]
        rw [this]
        rfl
      · rw [if_neg hc]
        have : ((populatedGroups row).all fun g =>
            decide ((cellOf row g).condition = .ALWAYS ∨ ic.ii.forceCondGatesOn = true))
            = true := by
          rw [List.all_eq_true]
          intro g hg
          rw [decide_eq_true_eq]
          by_contra hno
          rw [not_or] at hno
          apply hc
          refine ⟨?_, g, hg, hno.1⟩
          cases hf : ic.ii.forceCondGatesOn
          · rfl
          · exact absurd hf hno.2
        rw [this]
        rfl

/-- C2, witness: two groups of one instrument, group 0 populated and conditional (UNARY on
bit 3), group 1 unused: the bundle emits one `seq_out_sm` for the instrument; with the
gate unconditional it emits one `seq_out`; with no gate it emits no output instruction. -/
theorem bundleFinish_output_instruction_witness :
    outputMnemonics
        (bundleFinish (demoEnv false [demoInstrument [[5], [4]] []] 0)
          (demoCodegen 0
            [[{ signalValue := "a", durationInCycles := 2, condition := .UNARY,
                cond_operands := [3] }, {}]]) 0 2 false).st.codeSection
      = ["seq_out_sm"]
    ∧ outputMnemonics
        (bundleFinish (demoEnv false [demoInstrument [[5], [4]] []] 0)
          (demoCodegen 0 [[{ signalValue := "a", durationInCycles := 2 }, {}]]) 0 2 false
        ).st.codeSection
      = ["seq_out"]
    ∧ outputMnemonics
        (bundleFinish (demoEnv false [demoInstrument [[5], [4]] []] 0)
          (demoCodegen 0 [[{}, {}]]) 0 2 false).st.codeSection
      = []
    ∧ ∃ (pre : List CodeLine) (segs : List (List CodeLine)) (post : List CodeLine),
        (bundleFinish (demoEnv false [demoInstrument [[5], [4]] []] 0)
          (demoCodegen 0
            [[{ signalValue := "a", durationInCycles := 2, condition := .UNARY,
                cond_operands := [3] }, {}]]) 0 2 false).st.codeSection
          = [] ++ pre ++ segs.flatten ++ post
        ∧ outputMnemonics pre = [] ∧ outputMnemonics post = [] ∧ segs.length = 1 := by
  refine ⟨by decide, by decide, by decide, ?_⟩
  obtain ⟨pre, segs, post, h1, h2, h3, h4, _⟩ :=
    bundleFinish_output_instruction (demoEnv false [demoInstrument [[5], [4]] []] 0)
      (demoCodegen 0
        [[{ signalValue := "a", durationInCycles := 2, condition := .UNARY,
            cond_operands := [3] }, {}]]) 0 2 false (by decide)
  exact ⟨pre, segs, post, h1, h2, h3, h4⟩

/-- C3 (amended): cursor conservation on cycle counts of 64 bits. For every successful call
of `emitPadToCycle`, `emitOutput` and `emitFeedback` the cursor `lastEndCycle[instrIdx]`
after the call is, modulo `2^64`, its value before the call plus the total duration of the
timed instructions that the call has emitted (`seq_wait n` counts `n`, `seq_out` and
`seq_out_sm` with duration `d` count `d`, `seq_in_sm` and `seq_inv_sm` count 1), all of
them on the slot of the instrument, and no other cursor moves. A successful `bundleFinish`
emits, between comments, one segment of lines per instrument, in instrument order; each
segment is on the slot of its instrument and the cursor of the instrument advances by the
total duration of its segment, modulo `2^64`. Whenever the sum of the cursor and the
durations does not reach `2^64`, the cursor after the call is exactly that sum, so it has
not decreased. -/
theorem cursor_conservation (env : Env D) (cg : Codegen D)
    (hr : ∀ j, cg.lastEndCycle j < 2 ^ 64) :
    (∀ instrIdx startCycle slot instrumentName, startCycle < 2 ^ 64 →
      (emitPadToCycle cg instrIdx startCycle slot instrumentName).err? = none →
      CursorConserved cg (emitPadToCycle cg instrIdx startCycle slot instrumentName).st
        instrIdx slot)
    ∧ (∀ condGateMap digOut instrMaxDurationInCycles instrIdx startCycle slot instrumentName,
      (emitOutput env cg condGateMap digOut instrMaxDurationInCycles instrIdx startCycle slot
        instrumentName).err? = none →
      CursorConserved cg
        (emitOutput env cg condGateMap digOut instrMaxDurationInCycles instrIdx startCycle slot
          instrumentName).st instrIdx slot)
    ∧ (∀ feedbackMap instrIdx startCycle slot instrumentName,
      (emitFeedback env cg feedbackMap instrIdx startCycle slot instrumentName).err? = none →
      CursorConserved cg
        (emitFeedback env cg feedbackMap instrIdx startCycle slot instrumentName).st
        instrIdx slot)
    ∧ (∀ startCycle durationInCycles isLastBundle,
      (bundleFinish env cg startCycle durationInCycles isLastBundle).err? = none →
      ∃ (pre : List CodeLine) (segs : List (List CodeLine)) (post : List CodeLine),
        (bundleFinish env cg startCycle durationInCycles isLastBundle).st.codeSection
          = cg.codeSection ++ pre ++ segs.flatten ++ post
        ∧ totalDuration pre = 0 ∧ totalDuration post = 0
        ∧ segs.length = env.instruments.length
        ∧ (∀ instrIdx ic seg, env.instruments.get? instrIdx = some ic →
            segs.get? instrIdx = some seg →
            (bundleFinish env cg startCycle durationInCycles isLastBundle).st.lastEndCycle
                  instrIdx % 2 ^ 64
              = (cg.lastEndCycle instrIdx + totalDuration seg) % 2 ^ 64
            ∧ (cg.lastEndCycle instrIdx + totalDuration seg < 2 ^ 64 →
                (bundleFinish env cg startCycle durationInCycles isLastBundle).st.lastEndCycle
                    instrIdx
                  = cg.lastEndCycle instrIdx + totalDuration seg)
            ∧ ∀ l ∈ seg, l.duration = 0 ∨ l.slot? = some ic.ii.slot)
        ∧ (∀ j, env.instruments.length ≤ j →
            (bundleFinish env cg startCycle durationInCycles isLastBundle).st.lastEndCycle j
              = cg.lastEndCycle j)) := by
  refine ⟨?_, ?_, ?_, ?_⟩
  · intro instrIdx startCycle slot instrumentName hs h
    obtain ⟨seg, hseg, _, hcur, _⟩ := emitPadToCycle_shape (Res.eq_ok_of_err?_none h)
    exact hseg.conserved (by rw [hcur]; exact hs)
  · intro condGateMap digOut instrMaxDurationInCycles instrIdx startCycle slot
      instrumentName h
    obtain ⟨seg, hseg, _, hcur, _⟩ := emitOutput_shape (Res.eq_ok_of_err?_none h)
    exact hseg.conserved (by rw [hcur]; exact uintAdd_lt _ _)
  · intro feedbackMap instrIdx startCycle slot instrumentName h
    obtain ⟨seg, hseg, _, hcur⟩ := emitFeedback_shape (Res.eq_ok_of_err?_none h)
    exact hseg.conserved (by rw [hcur]; exact uintAdd_lt _ _)
  · intro startCycle durationInCycles isLastBundle h
    have hlt := bundleFinish_cursor_lt (Res.eq_ok_of_err?_none h) hr
    obtain ⟨pre, segs, post, hcode, hpre, hpost, hother, hall⟩ :=
      bundleFinish_segments (Res.eq_ok_of_err?_none h)
    obtain ⟨hlen, hget⟩ := forall₂_range_get? hall
    refine ⟨pre, segs, post, hcode, totalDuration_comments hpre, totalDuration_comments hpost,
      hlen, ?_, hother⟩
    intro instrIdx ic seg hic hseg
    obtain ⟨_, ic1, row, info, hic1, _, _, hlast, hslot, _⟩ := hget instrIdx seg hseg
    rw [hic] at hic1
    injection hic1 with e
    subst e
    refine ⟨hlast, fun hsum => ?_, fun l hl => ?_⟩
    · have := hlt instrIdx
      omega
    · rcases hslot l hl with h1 | ⟨t, e⟩
      · exact Or.inr h1
      · left; rw [e]; rfl

/-- C3, witness: a bundle with one gate of 2 cycles at cycle 10, finished as last bundle of
duration 3 while the cursor is at 4, emits `seq_wait 6`, `seq_out 0x00000060,2` and
`seq_wait 1` (total 9 cycles) and moves the cursor from 4 to 13. -/
theorem cursor_conservation_witness :
    (bundleFinish (demoEnv false [demoInstrument [[5]] [6]] 0)
        (demoCodegen 4 [[{ signalValue := "a", durationInCycles := 2 }]]) 10 3 true).err? = none
    ∧ instructionsOf
        (bundleFinish (demoEnv false [demoInstrument [[5]] [6]] 0)
          (demoCodegen 4 [[{ signalValue := "a", durationInCycles := 2 }]]) 10 3 true
        ).st.codeSection
      = [("seq_wait", "6"), ("seq_out", "0x00000060,2"), ("seq_wait", "1")]
    ∧ (bundleFinish (demoEnv false [demoInstrument [[5]] [6]] 0)
        (demoCodegen 4 [[{ signalValue := "a", durationInCycles := 2 }]]) 10 3 true
        ).st.lastEndCycle 0 = 13
    ∧ ∃ (pre : List CodeLine) (segs : List (List CodeLine)) (post : List CodeLine),
        (bundleFinish (demoEnv false [demoInstrument [[5]] [6]] 0)
          (demoCodegen 4 [[{ signalValue := "a", durationInCycles := 2 }]]) 10 3 true
        ).st.codeSection = [] ++ pre ++ segs.flatten ++ post
        ∧ totalDuration pre = 0 ∧ totalDuration post = 0 ∧ segs.length = 1 := by
  refine ⟨by decide, by decide, by decide, ?_⟩
  obtain ⟨pre, segs, post, h1, h2, h3, h4, _⟩ :=
    (cursor_conservation (demoEnv false [demoInstrument [[5]] [6]] 0)
      (demoCodegen 4 [[{ signalValue := "a", durationInCycles := 2 }]])
      (fun _ => (by decide : 4 < 2 ^ 64))).2.2.2 10 3 true (by decide)
  exact ⟨pre, segs, post, h1, h2, h3, h4⟩

/-- C3, counterexample: with the cursor at `2^63 + 5`, `emitPadToCycle` to cycle 0 returns
after `seq_wait 9223372036854775803`, a duration of `2^63 - 5` cycles, and the cursor is 0:
it has decreased, and the cursor after the call minus the cursor before it is not the
duration emitted. -/
theorem cursor_conservation_counterexample :
    (emitPadToCycle (demoCodegen (2 ^ 63 + 5) []) 0 0 0 "X").err? = none
    ∧ totalDuration (emitPadToCycle (demoCodegen (2 ^ 63 + 5) []) 0 0 0 "X").st.codeSection
        = 2 ^ 63 - 5
    ∧ (emitPadToCycle (demoCodegen (2 ^ 63 + 5) []) 0 0 0 "X").st.lastEndCycle 0
        < (demoCodegen (2 ^ 63 + 5) []).lastEndCycle 0
    ∧ ((emitPadToCycle (demoCodegen (2 ^ 63 + 5) []) 0 0 0 "X").st.lastEndCycle 0 : Int)
          - ((demoCodegen (2 ^ 63 + 5) []).lastEndCycle 0 : Int)
        ≠ (totalDuration
            (emitPadToCycle (demoCodegen (2 ^ 63 + 5) []) 0 0 0 "X").st.codeSection : Int) := by
  decide

/-- C4 (amended): `emitPadToCycle(instrIdx, startCycle, slot, name)` on cycle counts of 64
bits. The difference `startCycle - lastEndCycle[instrIdx]` is taken modulo `2^64` and
read as a signed number. If `startCycle` lies before `lastEndCycle[instrIdx]`, by at most
`2^63` cycles, the call fails with the time travel error and the state is the one it was
called in: nothing is emitted and no cursor moves. If `startCycle` is at or after the
cursor, by less than `2^63` cycles, the call returns; it has appended exactly one line
`seq_wait <startCycle - lastEndCycle[instrIdx]>` on the slot when that difference is
positive and nothing when it is zero, the cursor of `instrIdx` is `startCycle`, and the
cursors of all other instruments are unchanged. Beyond these distances the outcomes swap:
a `startCycle` that is `2^63` cycles or more after the cursor fails with the time travel
error, and one that is more than `2^63` cycles before the cursor returns after one line
`seq_wait <2^64 - (lastEndCycle[instrIdx] - startCycle)>`, the cursor set to
`startCycle`. -/
theorem emitPadToCycle_contract (cg : Codegen D) (instrIdx startCycle : Nat) (slot : Int)
    (instrumentName : String) (hs : startCycle < 2 ^ 64)
    (hc : cg.lastEndCycle instrIdx < 2 ^ 64) :
    (startCycle < cg.lastEndCycle instrIdx →
      cg.lastEndCycle instrIdx - startCycle ≤ 2 ^ 63 →
      emitPadToCycle cg instrIdx startCycle slot instrumentName = .fail .timeTravel cg)
    ∧ (cg.lastEndCycle instrIdx ≤ startCycle →
      startCycle - cg.lastEndCycle instrIdx < 2 ^ 63 →
      (emitPadToCycle cg instrIdx startCycle slot instrumentName).err? = none
      ∧ (cg.lastEndCycle instrIdx < startCycle →
          ∃ cmt, (emitPadToCycle cg instrIdx startCycle slot instrumentName).st.codeSection
            = cg.codeSection ++
              [.line (.slot slot) "seq_wait"
                [.int ((startCycle - cg.lastEndCycle instrIdx : Nat) : Int)] cmt])
      ∧ (cg.lastEndCycle instrIdx = startCycle →
          (emitPadToCycle cg instrIdx startCycle slot instrumentName).st.codeSection
            = cg.codeSection)
      ∧ (emitPadToCycle cg instrIdx startCycle slot instrumentName).st.lastEndCycle instrIdx
          = startCycle
      ∧ (∀ j, j ≠ instrIdx →
          (emitPadToCycle cg instrIdx startCycle slot instrumentName).st.lastEndCycle j
            = cg.lastEndCycle j))
    ∧ (2 ^ 63 ≤ startCycle - cg.lastEndCycle instrIdx →
      emitPadToCycle cg instrIdx startCycle slot instrumentName = .fail .timeTravel cg)
    ∧ (2 ^ 63 < cg.lastEndCycle instrIdx - startCycle →
      (emitPadToCycle cg instrIdx startCycle slot instrumentName).err? = none
      ∧ (∃ cmt, (emitPadToCycle cg instrIdx startCycle slot instrumentName).st.codeSection
            = cg.codeSection ++
              [.line (.slot slot) "seq_wait"
                [.int ((2 ^ 64 - (cg.lastEndCycle instrIdx - startCycle) : Nat) : Int)] cmt])
      ∧ (emitPadToCycle cg instrIdx startCycle slot instrumentName).st.lastEndCycle instrIdx
          = startCycle
      ∧ (∀ j, j ≠ instrIdx →
          (emitPadToCycle cg instrIdx startCycle slot instrumentName).st.lastEndCycle j
            = cg.lastEndCycle j)) := by
  rw [emitPadToCycle_eq]
  refine ⟨?_, ?_, ?_, ?_⟩
  · intro h hd
    rw [uintSub_of_lt h hc, if_pos (by omega)]
  · intro h hd
    rw [uintSub_of_le h hs, if_neg (by omega)]
    by_cases h2 : cg.lastEndCycle instrIdx < startCycle
    · rw [if_pos (by omega)]
      refine ⟨rfl, fun _ => ⟨_, rfl⟩, fun e => absurd e (Nat.ne_of_lt h2), ?_, ?_⟩
      · show Function.update cg.lastEndCycle instrIdx startCycle instrIdx = startCycle
        rw [Function.update_same]
      · intro j hj
        show Function.update cg.lastEndCycle instrIdx startCycle j = cg.lastEndCycle j
        rw [Function.update_noteq hj]
    · rw [if_neg (by omega)]
      refine ⟨rfl, fun h3 => absurd h3 h2, fun _ => rfl, ?_, ?_⟩
      · show Function.update cg.lastEndCycle instrIdx startCycle instrIdx = startCycle
        rw [Function.update_same]
      · intro j hj
        show Function.update cg.lastEndCycle instrIdx startCycle j = cg.lastEndCycle j
        rw [Function.update_noteq hj]
  · intro hd
    rw [uintSub_of_le (by omega) hs, if_pos hd]
  · intro hd
    rw [uintSub_of_lt (by omega) hc, if_neg (by omega), if_pos (by omega)]
    refine ⟨rfl, ⟨_, rfl⟩, ?_, ?_⟩
    · show Function.update cg.lastEndCycle instrIdx startCycle instrIdx = startCycle
      rw [Function.update_same]
    · intro j hj
      show Function.update cg.lastEndCycle instrIdx startCycle j = cg.lastEndCycle j
      rw [Function.update_noteq hj]

/-- C4, witness: with the cursor at 4, padding to cycle 10 emits `seq_wait 6` on the slot
and moves the cursor to 10; padding to cycle 3 fails with the time travel error. -/
theorem emitPadToCycle_contract_witness :
    instructionsOf (emitPadToCycle (demoCodegen 4 []) 0 10 0 "X").st.codeSection
      = [("seq_wait", "6")]
    ∧ (emitPadToCycle (demoCodegen 4 []) 0 10 0 "X").st.lastEndCycle 0 = 10
    ∧ (emitPadToCycle (demoCodegen 4 []) 0 3 0 "X").err? = some .timeTravel := by
  have h1 := (emitPadToCycle_contract (demoCodegen 4 []) 0 10 0 "X" (by decide)
    (by decide)).2.1 (by decide) (by decide)
  have h2 := (emitPadToCycle_contract (demoCodegen 4 []) 0 3 0 "X" (by decide)
    (by decide)).1 (by decide) (by decide)
  refine ⟨by decide, h1.2.2.2.1, ?_⟩
  rw [h2]
  rfl

/-- C4, counterexample: with the cursor at 0, padding to cycle `2^63` fails with the time
travel error although `startCycle` is not before the cursor; with the cursor at `2^63 + 5`,
padding to cycle 0 returns, although `startCycle` is before the cursor: it emits
`seq_wait 9223372036854775803` (`2^63 - 5`) and sets the cursor back to 0. -/
theorem emitPadToCycle_contract_counterexample :
    ((demoCodegen 0 []).lastEndCycle 0 ≤ 2 ^ 63
      ∧ (emitPadToCycle (demoCodegen 0 []) 0 (2 ^ 63) 0 "X").err? = some .timeTravel)
    ∧ (0 < (demoCodegen (2 ^ 63 + 5) []).lastEndCycle 0
      ∧ (emitPadToCycle (demoCodegen (2 ^ 63 + 5) []) 0 0 0 "X").err? = none
      ∧ instructionsOf (emitPadToCycle (demoCodegen (2 ^ 63 + 5) []) 0 0 0 "X").st.codeSection
          = [("seq_wait", "9223372036854775803")]
      ∧ (emitPadToCycle (demoCodegen (2 ^ 63 + 5) []) 0 0 0 "X").st.lastEndCycle 0 = 0) := by
  decide

/-- C5 (amended): for every instrument with `lastEndCycle ≤ startCycle`, the two less than
`2^63` cycles apart, and an empty `condGateMap`, `emitOutput` returns; on the slot of the
instrument it has emitted (after a comment, if `verbose` is set) first the padding
`seq_wait <startCycle - lastEndCycle>`, only if that is positive, and then
`seq_out 0x<digOut>,<instrMaxDurationInCycles>`, where a 32 bit `digOut` is printed as 8
zero padded hexadecimal digits in lower case, and it leaves
`lastEndCycle = startCycle + instrMaxDurationInCycles`, the sum of two 64 bit numbers
being taken modulo `2^64`. -/
theorem emitOutput_unconditional (env : Env D) (cg : Codegen D)
    (digOut instrMaxDurationInCycles instrIdx startCycle : Nat) (slot : Int)
    (instrumentName : String) (hs : startCycle < 2 ^ 64)
    (hle : cg.lastEndCycle instrIdx ≤ startCycle)
    (hfar : startCycle - cg.lastEndCycle instrIdx < 2 ^ 63) :
    (emitOutput env cg [] digOut instrMaxDurationInCycles instrIdx startCycle slot
        instrumentName).err? = none
    ∧ (∃ cmts pad cmt,
        (emitOutput env cg [] digOut instrMaxDurationInCycles instrIdx startCycle slot
            instrumentName).st.codeSection
          = cg.codeSection ++ cmts ++ pad ++
              [.line (.slot slot) "seq_out"
                [.str "0x", .hex8 digOut, .str ",", .nat instrMaxDurationInCycles] cmt]
        ∧ (∀ l ∈ cmts, ∃ t, l = CodeLine.short t "")
        ∧ (env.verbose = false → cmts = [])
        ∧ (cg.lastEndCycle instrIdx < startCycle →
            ∃ cmt0, pad = [.line (.slot slot) "seq_wait"
              [.int ((startCycle - cg.lastEndCycle instrIdx : Nat) : Int)] cmt0])
        ∧ (cg.lastEndCycle instrIdx = startCycle → pad = []))
    ∧ (emitOutput env cg [] digOut instrMaxDurationInCycles instrIdx startCycle slot
        instrumentName).st.lastEndCycle instrIdx
        = (startCycle + instrMaxDurationInCycles) % 2 ^ 64
    ∧ (startCycle + instrMaxDurationInCycles < 2 ^ 64 →
        (emitOutput env cg [] digOut instrMaxDurationInCycles instrIdx startCycle slot
          instrumentName).st.lastEndCycle instrIdx = startCycle + instrMaxDurationInCycles)
    ∧ (digOut < 2 ^ DIGITAL_BITS →
        Piece.render (.hex8 digOut) =
          String.mk [hexDigit (digOut / 16 ^ 7 % 16), hexDigit (digOut / 16 ^ 6 % 16),
            hexDigit (digOut / 16 ^ 5 % 16), hexDigit (digOut / 16 ^ 4 % 16),
            hexDigit (digOut / 16 ^ 3 % 16), hexDigit (digOut / 16 ^ 2 % 16),
            hexDigit (digOut / 16 % 16), hexDigit (digOut % 16)]) := by
  obtain ⟨cmts, hc, hshort, hverb⟩ := comment_codeSection env cg
    [.str "  # slot=", .int slot, .str ", instrument='", .str instrumentName, .str "'",
     .str ": lastEndCycle=", .nat (cg.lastEndCycle instrIdx),
     .str ", startCycle=", .nat startCycle,
     .str ", instrMaxDurationInCycles=", .nat instrMaxDurationInCycles]
  have hl := comment_lastEndCycle env cg
    [.str "  # slot=", .int slot, .str ", instrument='", .str instrumentName, .str "'",
     .str ": lastEndCycle=", .nat (cg.lastEndCycle instrIdx),
     .str ", startCycle=", .nat startCycle,
     .str ", instrMaxDurationInCycles=", .nat instrMaxDurationInCycles]
  unfold emitOutput
  simp only
  rw [emitPadToCycle_eq, hl, uintSub_of_le hle hs, if_neg (by omega)]
  by_cases h2 : cg.lastEndCycle instrIdx < startCycle
  · rw [if_pos (by omega)]
    simp only [Res.andThen, List.isEmpty_nil, if_true, Res.err?, Res.st, emitSlot]
    refine ⟨trivial, ⟨cmts,
      [.line (.slot slot) "seq_wait"
        [.int ((startCycle - cg.lastEndCycle instrIdx : Nat) : Int)]
        [.str "# cycle ", .nat (cg.lastEndCycle instrIdx), .str "-", .nat startCycle,
         .str ": padding on '", .str instrumentName, .str "'"]],
      [.str "# cycle ", .nat startCycle, .str "-",
         .nat (uintAdd startCycle instrMaxDurationInCycles),
         .str ": code word/mask on '", .str instrumentName, .str "'"],
      ?_, hshort, hverb, fun _ => ⟨_, rfl⟩,
      fun e => absurd e (Nat.ne_of_lt h2)⟩, ?_, ?_, hex8_render digOut⟩
    · rw [hc]
    · rw [Function.update_same]
      rfl
    · intro hsum
      rw [Function.update_same]
      exact uintAdd_of_lt hsum
  · rw [if_neg (by omega)]
    simp only [Res.andThen, List.isEmpty_nil, if_true, Res.err?, Res.st, emitSlot]
    refine ⟨trivial, ⟨cmts, [],
      [.str "# cycle ", .nat startCycle, .str "-",
         .nat (uintAdd startCycle instrMaxDurationInCycles),
         .str ": code word/mask on '", .str instrumentName, .str "'"],
      ?_, hshort, hverb, fun h3 => absurd h3 h2, fun _ => rfl⟩, ?_, ?_,
      hex8_render digOut⟩
    · rw [hc, List.append_nil]
    · rw [Function.update_same]
      rfl
    · intro hsum
      rw [Function.update_same]
      exact uintAdd_of_lt hsum

/-- C5, witness: lastEndCycle = 4, startCycle = 10, duration 3 and digOut = 0xAA give
`seq_wait 6`, then `seq_out 0x000000aa,3`, then lastEndCycle = 13. -/
theorem emitOutput_unconditional_witness :
    instructionsOf
        (emitOutput (demoEnv false [] 0) (demoCodegen 4 []) [] 0xAA 3 0 10 0 "X").st.codeSection
      = [("seq_wait", "6"), ("seq_out", "0x000000aa,3")]
    ∧ (emitOutput (demoEnv false [] 0) (demoCodegen 4 []) [] 0xAA 3 0 10 0 "X"
        ).st.lastEndCycle 0 = 13 :=
  ⟨by decide,
    (emitOutput_unconditional (demoEnv false [] 0) (demoCodegen 4 []) 0xAA 3 0 10 0 "X"
      (by decide) (by decide) (by decide)).2.2.2.1 (by decide)⟩

/-- C5, counterexample: in the scenario of the claim the code prints the digital word in
lower case, `seq_out 0x000000aa,3`, and not `seq_out 0x000000AA,3`. With the cursor at 0
and `startCycle = 2^63`, `emitOutput` does not return although `lastEndCycle ≤ startCycle`:
it fails with the time travel error, having emitted no instruction. With the cursor at
`startCycle = 2^64 - 1` and a duration of 3 cycles it leaves the cursor at 2, which is not
`startCycle + 3`. -/
theorem emitOutput_unconditional_counterexample :
    instructionsOf
        (emitOutput (demoEnv false [] 0) (demoCodegen 4 []) [] 0xAA 3 0 10 0 "X").st.codeSection
      ≠ [("seq_wait", "6"), ("seq_out", "0x000000AA,3")]
    ∧ ((demoCodegen 0 []).lastEndCycle 0 ≤ 2 ^ 63
      ∧ (emitOutput (demoEnv false [] 0) (demoCodegen 0 []) [] 0xAA 3 0 (2 ^ 63) 0 "X").err?
          = some .timeTravel
      ∧ instructionsOf
          (emitOutput (demoEnv false [] 0) (demoCodegen 0 []) [] 0xAA 3 0 (2 ^ 63) 0 "X"
            ).st.codeSection = [])
    ∧ ((emitOutput (demoEnv false [] 0) (demoCodegen (2 ^ 64 - 1) []) [] 0xAA 3 0 (2 ^ 64 - 1)
          0 "X").err? = none
      ∧ (emitOutput (demoEnv false [] 0) (demoCodegen (2 ^ 64 - 1) []) [] 0xAA 3 0 (2 ^ 64 - 1)
          0 "X").st.lastEndCycle 0 = 2) := by
  decide

/-- C6 (amended): control-bit packing in `calcGroupDigOut`. Whenever the call returns, its
digital word is the control fragment of the selected group with the trigger bits added,
and: if the group has `n > 1` control bits at pairwise distinct positions of the 32 bit
word, then for every index `idx < n` the fragment has bit `control_bits[idx]` set exactly
when bit `n - 1 - idx` of the codeword is set (MSB first); if the group has exactly one
control bit `b`, a position of the 32 bit word, the fragment is `1 << b` whatever the
codeword. -/
theorem calcGroupDigOut_control_packing (ov : Bool) (i group nrGroups : Nat)
    (ic : InstrumentControl) (c : Int) (r : CalcGroupDigOut)
    (h : calcGroupDigOut ov i group nrGroups ic c = .ok r) :
    ∃ cmg frag, selectControlModeGroup ov group ic = .ok cmg
      ∧ controlFragment group ic c (ic.controlMode.control_bits.getD cmg []) = .ok frag
      ∧ addTrigger group nrGroups ic.controlMode.trigger_bits frag.groupDigOut
          = .ok r.groupDigOut
      ∧ (1 < (ic.controlMode.control_bits.getD cmg []).length →
          (ic.controlMode.control_bits.getD cmg []).Nodup →
          (∀ b ∈ ic.controlMode.control_bits.getD cmg [], b < DIGITAL_BITS) →
          ∀ idx b, (ic.controlMode.control_bits.getD cmg []).get? idx = some b →
            frag.groupDigOut.testBit b
              = c.testBit ((ic.controlMode.control_bits.getD cmg []).length - 1 - idx))
      ∧ (∀ b, ic.controlMode.control_bits.getD cmg [] = [b] → b < DIGITAL_BITS →
          frag.groupDigOut = 1 <<< b) := by
  obtain ⟨cmg, frag, hsel, hfrag, htrig, _⟩ := calcGroupDigOut_ok h
  refine ⟨cmg, frag, hsel, hfrag, htrig, ?_, ?_⟩
  · intro hlen hnd hlt idx b hb
    obtain ⟨cmt, e⟩ := controlFragment_multi group ic c _ hlen
    rw [e] at hfrag
    injection hfrag with hfrag
    rw [← hfrag]
    exact packing_of_nodup c _ hnd hlt idx b hb
  · intro b hb hlt
    rw [hb, controlFragment_single] at hfrag
    injection hfrag with hfrag
    rw [← hfrag]
    show orDigital 0 (shl1ul b) = 1 <<< b
    have h32 : b < 32 := hlt
    have h1 : (2 : Nat) ^ b < 2 ^ 32 := Nat.pow_lt_pow_right (by norm_num) h32
    unfold orDigital shl1ul DIGITAL_BITS
    rw [Nat.one_shiftLeft, Nat.zero_or, Nat.mod_mod_of_dvd _ (by norm_num),
      Nat.mod_eq_of_lt h1]

/-- C6, witness: control_bits [7,6,5,4] (pairwise distinct, below 32), codeword 0x5 and
no trigger bits give the digital word 0x50. -/
theorem calcGroupDigOut_control_packing_witness :
    groupDigOutOf (calcGroupDigOut false 0 0 1 (demoInstrument [[7, 6, 5, 4]] []) 5) = 0x50
    ∧ ∃ cmg frag, selectControlModeGroup false 0 (demoInstrument [[7, 6, 5, 4]] []) = .ok cmg
      ∧ controlFragment 0 (demoInstrument [[7, 6, 5, 4]] []) 5 [7, 6, 5, 4] = .ok frag
      ∧ frag.groupDigOut.testBit 6 = (5 : Int).testBit 2
      ∧ frag.groupDigOut.testBit 5 = (5 : Int).testBit 1 := by
  refine ⟨by decide, ?_⟩
  obtain ⟨cmg, frag, hsel, hfrag, _, hpack, _⟩ :=
    calcGroupDigOut_control_packing false 0 0 1 (demoInstrument [[7, 6, 5, 4]] []) 5
      { groupDigOut := 0x50
        comment := [.str "  # slot=", .int 0, .str ", instrument='", .str "X", .str "'",
                    .str ", group=", .nat 0, .str ": codeword=", .int 5,
                    .str " (static override)", .str ": groupDigOut=0x", .hex8 0x50] }
      (by decide)
  have hcmg : cmg = 0 := by
    have : selectControlModeGroup false 0 (demoInstrument [[7, 6, 5, 4]] []) = .ok 0 := by
      decide
    rw [this] at hsel
    injection hsel with e
    exact e.symm
  subst hcmg
  exact ⟨0, frag, hsel, hfrag,
    hpack (by decide) (by decide) (by decide) 1 6 (by decide),
    hpack (by decide) (by decide) (by decide) 2 5 (by decide)⟩

/-- C6, counterexample: with control_bits [3,3] and codeword 2 (binary 10) the fragment
has bit 3 set, which is `control_bits[1]`, although bit 0 of the codeword, the one that
belongs to index 1, is clear. -/
theorem calcGroupDigOut_control_packing_counterexample :
    ¬ (∀ idx b, [3, 3].get? idx = some b →
        (groupDigOutOf
            (calcGroupDigOut false 0 0 1 (demoInstrument [[3, 3]] []) 2)).testBit b
          = (2 : Int).testBit (2 - 1 - idx)) := by
  intro h
  have h1 := h 1 3 rfl
  revert h1
  decide

/-- C8: no stray bits. For every successful call of `calcGroupDigOut`, every bit set in
`groupDigOut` is at a position listed in the control bits of the selected group or in
`trigger_bits` of the control mode; hence every bit set in the digital word that
`collectCodeGenInfo` records for an instrument is a trigger bit or a control bit of the
group selected for one of its populated groups. -/
theorem no_stray_bits (env : Env D) :
    (∀ instrIdx group nrGroups ic staticCodewordOverride gdo,
      calcGroupDigOut env.OPT_VECTOR_MODE instrIdx group nrGroups ic staticCodewordOverride
        = .ok gdo →
      ∃ cmg, selectControlModeGroup env.OPT_VECTOR_MODE group ic = .ok cmg ∧
        ∀ k, gdo.groupDigOut.testBit k = true →
          k ∈ ic.controlMode.control_bits.getD cmg [] ∨ k ∈ ic.controlMode.trigger_bits)
    ∧ (∀ (cg : Codegen D) startCycle durationInCycles codeGenMap,
      (collectCodeGenInfo env cg startCycle durationInCycles).val? = some codeGenMap →
      ∀ instrIdx ic info, env.instruments.get? instrIdx = some ic →
        codeGenMap.get? instrIdx = some info →
        ∀ k, info.digOut.testBit k = true →
          k ∈ ic.controlMode.trigger_bits
          ∨ ∃ row g cmg, cg.bundleInfo.get? instrIdx = some row ∧ g ∈ populatedGroups row
              ∧ selectControlModeGroup env.OPT_VECTOR_MODE g ic = .ok cmg
              ∧ k ∈ ic.controlMode.control_bits.getD cmg []) := by
  constructor
  · intro instrIdx group nrGroups ic c gdo h
    exact calcGroupDigOut_testBit_mem h
  · intro cg startCycle durationInCycles codeGenMap h instrIdx ic info hic hinfo k hk
    obtain ⟨_, _, hmap⟩ := collectCodeGenInfo_ok (Res.eq_ok_of_val?_some h)
    obtain ⟨row, info1, hrow, hinfo1, _, _, hcalc, hdig, _⟩ := hmap instrIdx ic hic
    rw [hinfo] at hinfo1
    injection hinfo1 with e
    subst e
    rw [hdig] at hk
    obtain ⟨w, hw, hwk⟩ := testBit_orAll hk
    obtain ⟨g, hg, e⟩ := List.mem_map.mp hw
    obtain ⟨gdo, hgdo⟩ := hcalc g hg
    rw [hgdo] at e
    obtain ⟨cmg, hsel, hbits⟩ := calcGroupDigOut_testBit_mem hgdo
    have hk2 : gdo.groupDigOut.testBit k = true := by
      rw [← hwk, ← e]
      rfl
    rcases hbits k hk2 with h1 | h1
    · exact Or.inr ⟨row, g, cmg, hrow, hg, hsel, h1⟩
    · exact Or.inl h1

/-- C8, witness: control bits [7,6,5,4], trigger bit 31 and codeword 5 give the word
0x80000050; its bits 4, 6 and 31 are control bits or the trigger bit. -/
theorem no_stray_bits_witness :
    groupDigOutOf (calcGroupDigOut false 0 0 1 (demoInstrument [[7, 6, 5, 4]] [31]) 5)
      = 0x80000050
    ∧ ∃ cmg, selectControlModeGroup false 0 (demoInstrument [[7, 6, 5, 4]] [31]) = .ok cmg ∧
        ∀ k, Nat.testBit 0x80000050 k = true →
          k ∈ (demoInstrument [[7, 6, 5, 4]] [31]).controlMode.control_bits.getD cmg []
          ∨ k ∈ (demoInstrument [[7, 6, 5, 4]] [31]).controlMode.trigger_bits :=
  ⟨by decide,
    (no_stray_bits (demoEnv false [] 5)).1 0 0 1 (demoInstrument [[7, 6, 5, 4]] [31]) 5
      { groupDigOut := 0x80000050
        comment := [.str "  # slot=", .int 0, .str ", instrument='", .str "X", .str "'",
                    .str ", group=", .nat 0, .str ": codeword=", .int 5,
                    .str " (static override)", .str ": groupDigOut=0x", .hex8 0x50] }
      (by decide)⟩

/-- C9: signal conflicts in `custom_instruction`. Take a signal `s` of a custom
instruction, processed in the state `cg`, whose expanded signal value `v` is not empty and
resolves to the cell `bi = bundleInfo[instrIdx][group]`. Processing the signal fails with
the signal conflict error if and only if `bi.signalValue` is not empty and differs from
`v`, and then the cell is left as it was. If `bi.signalValue` is empty the cell adopts `v`
and the static codeword override found for the instruction (when there is none to be
found, that error passes through). If `bi.signalValue` equals `v`, the signalValue and the
override of the cell stay as they were. And `custom_instruction` as a whole fails with the
signal conflict error if and only if one of its signals does, after all signals before it
were processed. -/
theorem custom_instruction_signal_conflict (env : Env D) (cg : Codegen D)
    (custom : CustomInstruction) (instrCond : tInstructionCondition) (ops : Operands)
    (isReadout : Bool) (sd : SignalDef) (s : Nat) (csv : CalcSignalValue) (bi : BundleInfo)
    (hcsv : (calcSignalValue env cg sd s ops.qubits custom.instruction_type.name).val?
      = some csv)
    (hne : csv.signalValueString ≠ "")
    (hcell : cellAt cg.bundleInfo csv.si.instrIdx csv.si.group = some bi) :
    ((signalStep env custom instrCond ops isReadout sd cg s).err? = some .signalConflict ↔
        bi.signalValue ≠ "" ∧ bi.signalValue ≠ csv.signalValueString)
    ∧ (bi.signalValue ≠ "" → bi.signalValue ≠ csv.signalValueString →
        cellAt (signalStep env custom instrCond ops isReadout sd cg s).st.bundleInfo
          csv.si.instrIdx csv.si.group = some bi)
    ∧ (bi.signalValue = "" →
        ∃ bi1, cellAt (signalStep env custom instrCond ops isReadout sd cg s).st.bundleInfo
            csv.si.instrIdx csv.si.group = some bi1
          ∧ bi1.signalValue = csv.signalValueString
          ∧ (∀ o, env.findStaticCodewordOverride custom.instruction_type csv.operandIdx
                = .ok o → bi1.staticCodewordOverride = o)
          ∧ (∀ x, env.findStaticCodewordOverride custom.instruction_type csv.operandIdx
                = .error x →
              (signalStep env custom instrCond ops isReadout sd cg s).err?
                = some (.external x)))
    ∧ (bi.signalValue = csv.signalValueString →
        ∃ bi1, cellAt (signalStep env custom instrCond ops isReadout sd cg s).st.bundleInfo
            csv.si.instrIdx csv.si.group = some bi1
          ∧ bi1.signalValue = bi.signalValue
          ∧ bi1.staticCodewordOverride = bi.staticCodewordOverride)
    ∧ ((custom_instruction env cg custom).err? = some .signalConflict ↔
        ∃ instrCond1 ops1 sd1 s1 cg1,
          decode_condition env custom.condition = .ok instrCond1
          ∧ custom.instruction_type.template_operands = []
          ∧ appendAll env {} custom.operands = .ok ops1
          ∧ env.findSignalDefinition custom.instruction_type = .ok sd1
          ∧ s1 < sd1.signal.length
          ∧ forEach
              (signalStep env custom instrCond1 ops1 (env.isReadout custom.instruction_type)
                sd1)
              (List.range s1) (instructionComment env cg custom) = .ok () cg1
          ∧ (signalStep env custom instrCond1 ops1 (env.isReadout custom.instruction_type) sd1
              cg1 s1).err? = some .signalConflict) :=
  ⟨(signalStep_cell env cg custom instrCond ops isReadout sd s csv bi hcsv hne hcell).1,
    (signalStep_cell env cg custom instrCond ops isReadout sd s csv bi hcsv hne hcell).2.1,
    (signalStep_cell env cg custom instrCond ops isReadout sd s csv bi hcsv hne hcell).2.2.1,
    (signalStep_cell env cg custom instrCond ops isReadout sd s csv bi hcsv hne hcell).2.2.2,
    custom_instruction_conflict_iff env cg custom⟩

/-- C9, witness: after "wave_A" was stored in cell (0, 0), the signal "wave_B" of a second
instruction resolves to the same cell and fails with the signal conflict error, leaving
the cell as it was. -/
theorem custom_instruction_signal_conflict_witness :
    (calcSignalValue (demoEnv false [demoInstrument [[5]] [6]] 7)
        (demoCodegen 0 [[{ signalValue := "wave_A", durationInCycles := 2,
                           staticCodewordOverride := 7 }]])
        (demoSignalDef "wave_B") 0 [0] "wave_B").val?
      = some { signalValueString := "wave_B", operandIdx := 0
               si := { ic := demoInstrument [[5]] [6], instrIdx := 0, group := 0 } }
    ∧ (signalStep (demoEnv false [demoInstrument [[5]] [6]] 7) (demoGate "wave_B" 0 2)
        { cond_type := .ALWAYS, cond_operands := [] } { qubits := [0] } false
        (demoSignalDef "wave_B")
        (demoCodegen 0 [[{ signalValue := "wave_A", durationInCycles := 2,
                           staticCodewordOverride := 7 }]]) 0).err? = some .signalConflict
    ∧ cellAt
        (signalStep (demoEnv false [demoInstrument [[5]] [6]] 7) (demoGate "wave_B" 0 2)
          { cond_type := .ALWAYS, cond_operands := [] } { qubits := [0] } false
          (demoSignalDef "wave_B")
          (demoCodegen 0 [[{ signalValue := "wave_A", durationInCycles := 2,
                             staticCodewordOverride := 7 }]]) 0).st.bundleInfo 0 0
      = some { signalValue := "wave_A", durationInCycles := 2, staticCodewordOverride := 7 }
    ∧ (custom_instruction (demoEnv false [demoInstrument [[5]] [6]] 7)
        (demoCodegen 0 [[{ signalValue := "wave_A", durationInCycles := 2,
                           staticCodewordOverride := 7 }]])
        (demoGate "wave_B" 0 2)).err? = some .signalConflict := by
  have h := custom_instruction_signal_conflict (demoEnv false [demoInstrument [[5]] [6]] 7)
    (demoCodegen 0 [[{ signalValue := "wave_A", durationInCycles := 2,
                       staticCodewordOverride := 7 }]])
    (demoGate "wave_B" 0 2) { cond_type := .ALWAYS, cond_operands := [] } { qubits := [0] }
    false (demoSignalDef "wave_B") 0
    { signalValueString := "wave_B", operandIdx := 0
      si := { ic := demoInstrument [[5]] [6], instrIdx := 0, group := 0 } }
    { signalValue := "wave_A", durationInCycles := 2, staticCodewordOverride := 7 }
    (by decide) (by decide) (by decide)
  exact ⟨by decide, h.1.mpr ⟨by decide, by decide⟩, h.2.1 (by decide) (by decide), by decide⟩

/-- C10 (amended): let signal `s` of a custom instruction, reached after its earlier
signals were processed, have a non-empty expanded value that resolves to a cell of
`bundleInfo` which already holds a different non-empty signal value (two instructions of
one bundle that resolve to the same instrument and group with different signal values).
Then the `custom_instruction` call fails with the signal conflict error and has added no
instruction to the code section: the code section at the point of failure is the code
section as it was before the call, followed only by comment lines, and it is exactly the
code section from before the call when `verbose` is not set. -/
theorem custom_instruction_conflict_code (env : Env D) (cg : Codegen D)
    (custom : CustomInstruction) (instrCond : tInstructionCondition) (ops : Operands)
    (sd : SignalDef) (s : Nat) (csv : CalcSignalValue) (bi : BundleInfo)
    (hdec : decode_condition env custom.condition = .ok instrCond)
    (htpl : custom.instruction_type.template_operands = [])
    (hops : appendAll env {} custom.operands = .ok ops)
    (hsd : env.findSignalDefinition custom.instruction_type = .ok sd)
    (hs : s < sd.signal.length)
    (hpre : (forEach
        (signalStep env custom instrCond ops (env.isReadout custom.instruction_type) sd)
        (List.range s) (instructionComment env cg custom)).err? = none)
    (hcsv : (calcSignalValue env
        (forEach
          (signalStep env custom instrCond ops (env.isReadout custom.instruction_type) sd)
          (List.range s) (instructionComment env cg custom)).st
        sd s ops.qubits custom.instruction_type.name).val? = some csv)
    (hne : csv.signalValueString ≠ "")
    (hcell : cellAt
        (forEach
          (signalStep env custom instrCond ops (env.isReadout custom.instruction_type) sd)
          (List.range s) (instructionComment env cg custom)).st.bundleInfo
        csv.si.instrIdx csv.si.group = some bi)
    (h1 : bi.signalValue ≠ "") (h2 : bi.signalValue ≠ csv.signalValueString) :
    (custom_instruction env cg custom).err? = some .signalConflict
    ∧ (∃ cmts, (custom_instruction env cg custom).st.codeSection = cg.codeSection ++ cmts
        ∧ ∀ l ∈ cmts, ∃ t, l = CodeLine.short t "")
    ∧ (env.verbose = false →
        (custom_instruction env cg custom).st.codeSection = cg.codeSection) := by
  obtain ⟨cmts, hc, hcm, hv⟩ := custom_instruction_comments env cg custom
  refine ⟨?_, ⟨cmts, hc, hcm⟩, fun hf => by rw [hc, hv hf, List.append_nil]⟩
  rw [custom_instruction_conflict_iff]
  refine ⟨instrCond, ops, sd, s, _, hdec, htpl, hops, hsd, hs, Res.eq_ok_of_err?_none hpre, ?_⟩
  exact (signalStep_cell env _ custom instrCond ops _ sd s csv bi hcsv hne hcell).1.mpr ⟨h1, h2⟩

/-- C10, witness: "wave_A" then "wave_B" on instrument 0, group 0, with `verbose` off: the
second call fails with the signal conflict and the code section is unchanged. -/
theorem custom_instruction_conflict_code_witness :
    (custom_instruction (demoEnv false [demoInstrument [[5]] [6]] 7)
        (custom_instruction (demoEnv false [demoInstrument [[5]] [6]] 7)
          (bundleStart (demoEnv false [demoInstrument [[5]] [6]] 7) (demoCodegen 0 []) [])
          (demoGate "wave_A" 0 2)).st
        (demoGate "wave_B" 0 2)).err? = some .signalConflict
    ∧ (custom_instruction (demoEnv false [demoInstrument [[5]] [6]] 7)
        (custom_instruction (demoEnv false [demoInstrument [[5]] [6]] 7)
          (bundleStart (demoEnv false [demoInstrument [[5]] [6]] 7) (demoCodegen 0 []) [])
          (demoGate "wave_A" 0 2)).st
        (demoGate "wave_B" 0 2)).st.codeSection
      = (custom_instruction (demoEnv false [demoInstrument [[5]] [6]] 7)
          (bundleStart (demoEnv false [demoInstrument [[5]] [6]] 7) (demoCodegen 0 []) [])
          (demoGate "wave_A" 0 2)).st.codeSection := by
  have h := custom_instruction_conflict_code (demoEnv false [demoInstrument [[5]] [6]] 7)
    (custom_instruction (demoEnv false [demoInstrument [[5]] [6]] 7)
      (bundleStart (demoEnv false [demoInstrument [[5]] [6]] 7) (demoCodegen 0 []) [])
      (demoGate "wave_A" 0 2)).st
    (demoGate "wave_B" 0 2) { cond_type := .ALWAYS, cond_operands := [] } { qubits := [0] }
    (demoSignalDef "wave_B") 0
    { signalValueString := "wave_B", operandIdx := 0
      si := { ic := demoInstrument [[5]] [6], instrIdx := 0, group := 0 } }
    { signalValue := "wave_A", durationInCycles := 2, staticCodewordOverride := 7 }
    (by decide) rfl (by decide) (by decide) (by decide) (by decide) (by decide)
    (by decide) (by decide) (by decide) (by decide)
  exact ⟨h.1, h.2.2 rfl⟩

/-- C10, counterexample: with `verbose` set, "wave_A" then "wave_B" on instrument 0,
group 0: the second call fails with the signal conflict, but before failing it has
appended its two comment lines to the code section. -/
theorem custom_instruction_conflict_code_counterexample :
    (custom_instruction (demoEnv true [demoInstrument [[5]] [6]] 7)
        (custom_instruction (demoEnv true [demoInstrument [[5]] [6]] 7)
          (bundleStart (demoEnv true [demoInstrument [[5]] [6]] 7) (demoCodegen 0 []) [])
          (demoGate "wave_A" 0 2)).st
        (demoGate "wave_B" 0 2)).err? = some .signalConflict
    ∧ (custom_instruction (demoEnv true [demoInstrument [[5]] [6]] 7)
        (custom_instruction (demoEnv true [demoInstrument [[5]] [6]] 7)
          (bundleStart (demoEnv true [demoInstrument [[5]] [6]] 7) (demoCodegen 0 []) [])
          (demoGate "wave_A" 0 2)).st
        (demoGate "wave_B" 0 2)).st.codeSection
      ≠ (custom_instruction (demoEnv true [demoInstrument [[5]] [6]] 7)
          (bundleStart (demoEnv true [demoInstrument [[5]] [6]] 7) (demoCodegen 0 []) [])
          (demoGate "wave_A" 0 2)).st.codeSection
    ∧ ((custom_instruction (demoEnv true [demoInstrument [[5]] [6]] 7)
        (custom_instruction (demoEnv true [demoInstrument [[5]] [6]] 7)
          (bundleStart (demoEnv true [demoInstrument [[5]] [6]] 7) (demoCodegen 0 []) [])
          (demoGate "wave_A" 0 2)).st
        (demoGate "wave_B" 0 2)).st.codeSection.drop 3).map CodeLine.render
      = [" # gate 'wave_B'\n", "  # slot=0, instrument='X', group=0': signalValue='wave_B'\n"] := by
  decide

/-- C11 (amended): the invariant of `BundleInfo`. In every `bundleInfo` state reached by
`bundleStart` followed by a sequence of successful `custom_instruction` calls for
instructions of a positive duration, every cell whose signalValue is non-empty has
`durationInCycles > 0`. -/
theorem bundleInfo_signal_duration (env : Env D) (cg : Codegen D) (cmnt : Text)
    (customs : List CustomInstruction)
    (hdur : ∀ custom ∈ customs, 0 < custom.instruction_type.duration)
    (h : (customInstructions env customs (bundleStart env cg cmnt)).err? = none) :
    SignalHasDuration (customInstructions env customs (bundleStart env cg cmnt)).st.bundleInfo := by
  have key : ∀ (cs : List CustomInstruction) (c c1 : Codegen D),
      (∀ custom ∈ cs, 0 < custom.instruction_type.duration) →
      customInstructions env cs c = .ok () c1 →
      SignalHasDuration c.bundleInfo → SignalHasDuration c1.bundleInfo := by
    intro cs
    induction cs with
    | nil =>
      intro c c1 _ hc hinv
      injection hc with _ e
      subst e
      exact hinv
    | cons custom rest ih =>
      intro c c1 hd hc hinv
      unfold customInstructions at hc
      obtain ⟨_, c2, hstep, hrest⟩ := Res.andThen_eq_ok hc
      exact ih c2 c1 (fun x hx => hd x (List.mem_cons_of_mem _ hx)) hrest
        (custom_instruction_signalHasDuration (hd custom (List.mem_cons_self _ _)) hstep hinv)
  refine key customs _ _ hdur (Res.eq_ok_of_err?_none h) ?_
  intro i g bi hbi hne
  rw [bundleStart_cell hbi] at hne
  exact absurd rfl hne

/-- C11, witness: two gates of duration 2 on groups 0 and 1 of one instrument; both cells
then hold a signal value and the duration 2. -/
theorem bundleInfo_signal_duration_witness :
    SignalHasDuration
        (customInstructions (demoEnv false [demoInstrument [[5], [7]] []] 1)
          [demoGate "x" 0 2, demoGate "y" 1 2]
          (bundleStart (demoEnv false [demoInstrument [[5], [7]] []] 1)
            (demoCodegen 0 []) [])).st.bundleInfo
    ∧ (customInstructions (demoEnv false [demoInstrument [[5], [7]] []] 1)
          [demoGate "x" 0 2, demoGate "y" 1 2]
          (bundleStart (demoEnv false [demoInstrument [[5], [7]] []] 1)
            (demoCodegen 0 []) [])).st.bundleInfo
        = [[{ signalValue := "x", durationInCycles := 2, staticCodewordOverride := 1 },
            { signalValue := "y", durationInCycles := 2, staticCodewordOverride := 1 }]] :=
  ⟨bundleInfo_signal_duration (demoEnv false [demoInstrument [[5], [7]] []] 1)
      (demoCodegen 0 []) [] [demoGate "x" 0 2, demoGate "y" 1 2] (by decide) (by decide),
    by decide⟩

/-- C11, counterexample: after `bundleStart`, a successful `custom_instruction` for a gate
"x" of duration 0 leaves the cell of instrument 0, group 0 with the signal value "x" and
`durationInCycles = 0`. -/
theorem bundleInfo_signal_duration_counterexample :
    (customInstructions (demoEnv false [demoInstrument [[5]] []] 1) [demoGate "x" 0 0]
        (bundleStart (demoEnv false [demoInstrument [[5]] []] 1) (demoCodegen 0 []) [])).err?
      = none
    ∧ ¬ SignalHasDuration
        (customInstructions (demoEnv false [demoInstrument [[5]] []] 1) [demoGate "x" 0 0]
          (bundleStart (demoEnv false [demoInstrument [[5]] []] 1)
            (demoCodegen 0 []) [])).st.bundleInfo := by
  refine ⟨by decide, fun h => ?_⟩
  have := h 0 0 { signalValue := "x", durationInCycles := 0, staticCodewordOverride := 1 }
    (by decide) (by decide)
  exact absurd this (by decide)

/-- C12: `bundleStart` discards whatever the previous bundle left behind. Whatever the
state before the call, after it `bundleInfo` has exactly one row per instrument, row `i`
has exactly `controlModeGroupCnt` cells of instrument `i`, and every cell holds the
default `BundleInfo`: empty signalValue, duration 0, static override -1, condition ALWAYS,
no operands, isMeasFeedback false. A `bundleFinish` that follows with no
`custom_instruction` in between appends, whether it returns or throws, no line with the
mnemonic `seq_out`, `seq_out_sm`, `seq_in_sm` or `seq_inv_sm`. -/
theorem bundleStart_fresh (env : Env D) (cg : Codegen D) (cmnt : Text) :
    (bundleStart env cg cmnt).bundleInfo.length = env.instruments.length
    ∧ (∀ instrIdx ic, env.instruments.get? instrIdx = some ic →
        ∃ row, (bundleStart env cg cmnt).bundleInfo.get? instrIdx = some row
          ∧ row.length = ic.controlModeGroupCnt
          ∧ ∀ bi ∈ row, bi.signalValue = "" ∧ bi.durationInCycles = 0
              ∧ bi.staticCodewordOverride = -1 ∧ bi.condition = .ALWAYS
              ∧ bi.cond_operands = [] ∧ bi.operands = [] ∧ bi.breg_operands = []
              ∧ bi.isMeasFeedback = false)
    ∧ (∀ startCycle durationInCycles isLastBundle,
        ∃ added,
          (bundleFinish env (bundleStart env cg cmnt) startCycle durationInCycles
              isLastBundle).st.codeSection
            = (bundleStart env cg cmnt).codeSection ++ added
          ∧ ∀ l ∈ added, l.mnemonic ≠ "seq_out" ∧ l.mnemonic ≠ "seq_out_sm"
              ∧ l.mnemonic ≠ "seq_in_sm" ∧ l.mnemonic ≠ "seq_inv_sm") := by
  refine ⟨?_, ?_, ?_⟩
  · rw [bundleStart_bundleInfo, List.length_map]
  · intro instrIdx ic hic
    refine ⟨List.replicate ic.controlModeGroupCnt {}, ?_, List.length_replicate _ _, ?_⟩
    · rw [bundleStart_bundleInfo, List.get?_eq_getElem?, List.getElem?_map,
        ← List.get?_eq_getElem?, hic]
      rfl
    · intro bi hbi
      rw [List.eq_of_mem_replicate hbi]
      exact ⟨rfl, rfl, rfl, rfl, rfl, rfl, rfl, rfl⟩
  · intro startCycle durationInCycles isLastBundle
    exact bundleFinish_after_bundleStart env cg cmnt startCycle durationInCycles isLastBundle
      (fun t => by simp [CodeLine.mnemonic])
      (fun slot ops cmt => by simp [CodeLine.mnemonic])

/-- C12, witness: on `demoInstruments`, after a bundle that left a signal behind,
`bundleStart` gives "Y" a row of two default cells, and the `bundleFinish` of the last
bundle that follows at cycle 5 only pads both instruments. -/
theorem bundleStart_fresh_witness :
    (∃ row, (bundleStart (demoEnv false demoInstruments 0)
          (demoCodegen 0 demoFeedbackBundle) []).bundleInfo.get? 1 = some row
        ∧ row.length = 2
        ∧ ∀ bi ∈ row, bi.signalValue = "" ∧ bi.durationInCycles = 0
            ∧ bi.staticCodewordOverride = -1 ∧ bi.condition = .ALWAYS
            ∧ bi.cond_operands = [] ∧ bi.operands = [] ∧ bi.breg_operands = []
            ∧ bi.isMeasFeedback = false)
    ∧ instructionsOf
        (bundleFinish (demoEnv false demoInstruments 0)
          (bundleStart (demoEnv false demoInstruments 0)
            (demoCodegen 0 demoFeedbackBundle) []) 5 2 true).st.codeSection
      = [("seq_wait", "7"), ("seq_wait", "7")] :=
  ⟨(bundleStart_fresh (demoEnv false demoInstruments 0)
      (demoCodegen 0 demoFeedbackBundle) []).2.1 1 (demoInstrumentOn "Y" 3 [[1], [2]] [])
      (by decide),
    by decide⟩

/-- C13 (amended): feedback-cycle instructions. A successful `bundleFinish` appends, between
comments, one segment of lines per instrument, in instrument order. In a bundle where at
least one instrument has a feedback-active group (which is when `bundleHasFeedback` is
set), the segment of every instrument holds exactly one feedback-cycle instruction, on the
slot of the instrument: `seq_in_sm` if the feedbackMap of the instrument is non-empty
(which is when its row has a feedback-active group) and `seq_inv_sm` if it is empty; in a
bundle without feedback no segment holds either instruction. Every successful
`emitFeedback` leaves the cursor of its instrument 1 cycle after the point where the
instruction starts, the later of `startCycle` and the cursor on entry, modulo `2^64`: a
cursor at `2^64 - 1` wraps to 0. -/
theorem bundleFinish_feedback_instruction (env : Env D) (cg : Codegen D)
    (startCycle durationInCycles : Nat) (isLastBundle : Bool)
    (h : (bundleFinish env cg startCycle durationInCycles isLastBundle).err? = none) :
    (∃ (codeGenMap : CodeGenMap) (pre : List CodeLine) (segs : List (List CodeLine))
        (post : List CodeLine),
      (collectCodeGenInfo env cg startCycle durationInCycles).val? = some codeGenMap
      ∧ bundleHasFeedback codeGenMap = bundleFeedback env cg
      ∧ (bundleFinish env cg startCycle durationInCycles isLastBundle).st.codeSection
          = cg.codeSection ++ pre ++ segs.flatten ++ post
      ∧ feedbackMnemonics pre = [] ∧ feedbackMnemonics post = []
      ∧ segs.length = env.instruments.length
      ∧ ∀ instrIdx ic seg, env.instruments.get? instrIdx = some ic →
          segs.get? instrIdx = some seg →
          ∃ row info, cg.bundleInfo.get? instrIdx = some row
            ∧ codeGenMap.get? instrIdx = some info
            ∧ info.feedbackMap.isEmpty = !rowHasFeedback row
            ∧ (∀ l ∈ seg, l.isFeedback = true → l.slot? = some ic.ii.slot)
            ∧ feedbackMnemonics seg =
                if bundleFeedback env cg = true then
                  [if info.feedbackMap.isEmpty then "seq_inv_sm" else "seq_in_sm"]
                else [])
    ∧ (∀ (c : Codegen D) (feedbackMap : FeedbackMap) (instrIdx cycle : Nat) (slot : Int)
        (instrumentName : String),
        (emitFeedback env c feedbackMap instrIdx cycle slot instrumentName).err? = none →
        (emitFeedback env c feedbackMap instrIdx cycle slot instrumentName).st.lastEndCycle
            instrIdx
          = (max (c.lastEndCycle instrIdx) cycle + 1) % 2 ^ 64) := by
  constructor
  · obtain ⟨codeGenMap, pre, segs, post, hmap, hfb, hcode, hpre, hpost, hall⟩ :=
      bundleFinish_shape (Res.eq_ok_of_err?_none h)
    obtain ⟨hlen, hget⟩ := forall₂_range_get? hall
    have hnone : ∀ ls : List CodeLine, (∀ l ∈ ls, ∃ t, l = CodeLine.short t "") →
        feedbackMnemonics ls = [] := by
      intro ls hls
      rw [feedbackMnemonics_eq_filter, instructionMnemonics_comments hls]
      rfl
    refine ⟨codeGenMap, pre, segs, post, hmap, hfb, hcode, hnone pre hpre, hnone post hpost,
      hlen, ?_⟩
    intro instrIdx ic seg hic hseg
    obtain ⟨_, ic1, row, info, hic1, hrow, hinfo, hci, hslot, hmn, _, _⟩ :=
      hget instrIdx seg hseg
    rw [hic] at hic1
    injection hic1 with e
    subst e
    refine ⟨row, info, hrow, hinfo, collected_feedbackMap hci, ?_, ?_⟩
    · intro l hl hlf
      rcases hslot l hl with h1 | ⟨t, e⟩
      · exact h1
      · rw [e] at hlf
        simp [CodeLine.isFeedback, CodeLine.mnemonic] at hlf
    · rw [feedbackMnemonics_eq_filter, hmn]
      by_cases ho : info.instrHasOutput = true <;> by_cases hf : bundleFeedback env cg = true
        <;> by_cases hc : info.condGateMap.isEmpty = true
        <;> by_cases hm : info.feedbackMap.isEmpty = true
        <;> simp [ho, hf, hc, hm, List.filter]
  · intro c feedbackMap instrIdx cycle slot instrumentName hok
    obtain ⟨_, _, _, hcur⟩ := emitFeedback_shape (Res.eq_ok_of_err?_none hok)
    exact hcur

/-- C13, witness: the bundle `demoFeedbackBundle` at cycle 3 on "X" (slot 0) and "Y"
(slot 3): "X", which measures, gets `seq_in_sm` and "Y" gets `seq_inv_sm`, one each. -/
theorem bundleFinish_feedback_instruction_witness :
    instructionsOf
        (bundleFinish (demoEnv false demoInstruments 0) (demoCodegen 0 demoFeedbackBundle)
          3 5 false).st.codeSection
      = [("seq_wait", "3"), ("seq_out", "0x00000060,4"), ("seq_in_sm", "S0,0,1"),
         ("seq_wait", "3"), ("seq_out_sm", "S0,0,2"), ("seq_inv_sm", "S0,1")]
    ∧ ∃ codeGenMap,
        (collectCodeGenInfo (demoEnv false demoInstruments 0)
          (demoCodegen 0 demoFeedbackBundle) 3 5).val? = some codeGenMap
        ∧ bundleHasFeedback codeGenMap
            = bundleFeedback (demoEnv false demoInstruments 0)
                (demoCodegen 0 demoFeedbackBundle) := by
  refine ⟨by decide, ?_⟩
  obtain ⟨⟨codeGenMap, _, _, _, h1, h2, _⟩, _⟩ :=
    bundleFinish_feedback_instruction (demoEnv false demoInstruments 0)
      (demoCodegen 0 demoFeedbackBundle) 3 5 false (by decide)
  exact ⟨codeGenMap, h1, h2⟩

/-- C13, counterexample: with the cursor at `2^64 - 1`, a feedback-cycle instruction
(`seq_inv_sm`) leaves the cursor at 0, which is not the cursor on entry plus 1. -/
theorem bundleFinish_feedback_instruction_counterexample :
    (emitFeedback (demoEnv false [] 0) (demoCodegen (2 ^ 64 - 1) []) [] 0 0 0 "X").err? = none
    ∧ instructionsOf
        (emitFeedback (demoEnv false [] 0) (demoCodegen (2 ^ 64 - 1) []) [] 0 0 0 "X"
          ).st.codeSection = [("seq_inv_sm", "S0,1")]
    ∧ (emitFeedback (demoEnv false [] 0) (demoCodegen (2 ^ 64 - 1) []) [] 0 0 0 "X"
        ).st.lastEndCycle 0 = 0
    ∧ (emitFeedback (demoEnv false [] 0) (demoCodegen (2 ^ 64 - 1) []) [] 0 0 0 "X"
        ).st.lastEndCycle 0 ≠ (demoCodegen (2 ^ 64 - 1) []).lastEndCycle 0 + 1 := by
  decide

/-- C14 (amended): cursors after a bundle with feedback, on cycle counts of 64 bits. For
every bundle with any feedback, a successful `bundleFinish` leaves the cursor of every
instrument at `startCycle + durationInCycles` if this is the last bundle, and otherwise one
cycle, that of the feedback-cycle instruction, after `startCycle + instrMaxDurationInCycles`
if the instrument has output, and after the later of `startCycle` and its cursor on entry
if it has none; this holds as long as these sums stay below `2^64`, and in general with
every sum taken modulo `2^64`. Hence two instruments advance by the same amount whenever
they enter with the same cursor and either both have no output or both have output of the
same duration. -/
theorem bundleFinish_feedback_cursors (env : Env D) (cg : Codegen D)
    (startCycle durationInCycles : Nat) (isLastBundle : Bool) (codeGenMap : CodeGenMap)
    (hmap : (collectCodeGenInfo env cg startCycle durationInCycles).val? = some codeGenMap)
    (hfb : bundleFeedback env cg = true)
    (h : (bundleFinish env cg startCycle durationInCycles isLastBundle).err? = none) :
    (∀ i info, codeGenMap.get? i = some info →
      (bundleFinish env cg startCycle durationInCycles isLastBundle).st.lastEndCycle i
        = if isLastBundle = true then (startCycle + durationInCycles) % 2 ^ 64
          else if info.instrHasOutput = true then
            (max ((startCycle + info.instrMaxDurationInCycles) % 2 ^ 64) startCycle + 1)
              % 2 ^ 64
          else (max (cg.lastEndCycle i) startCycle + 1) % 2 ^ 64)
    ∧ (∀ i info, codeGenMap.get? i = some info →
        startCycle + durationInCycles < 2 ^ 64 →
        startCycle + info.instrMaxDurationInCycles + 1 < 2 ^ 64 →
        cg.lastEndCycle i + 1 < 2 ^ 64 →
        (bundleFinish env cg startCycle durationInCycles isLastBundle).st.lastEndCycle i
          = if isLastBundle = true then startCycle + durationInCycles
            else if info.instrHasOutput = true then
              startCycle + info.instrMaxDurationInCycles + 1
            else max (cg.lastEndCycle i) startCycle + 1)
    ∧ (∀ i j infoI infoJ, codeGenMap.get? i = some infoI → codeGenMap.get? j = some infoJ →
        cg.lastEndCycle i = cg.lastEndCycle j →
        infoI.instrHasOutput = infoJ.instrHasOutput →
        infoI.instrMaxDurationInCycles = infoJ.instrMaxDurationInCycles →
        (bundleFinish env cg startCycle durationInCycles isLastBundle).st.lastEndCycle i
            - cg.lastEndCycle i
          = (bundleFinish env cg startCycle durationInCycles isLastBundle).st.lastEndCycle j
            - cg.lastEndCycle j) := by
  obtain ⟨codeGenMap1, pre, segs, post, hmap1, _, _, _, _, hall⟩ :=
    bundleFinish_shape (Res.eq_ok_of_err?_none h)
  rw [hmap] at hmap1
  injection hmap1 with e
  subst e
  obtain ⟨hlen, hget⟩ := forall₂_range_get? hall
  have hlenmap : codeGenMap.length = env.instruments.length :=
    (collectCodeGenInfo_ok (Res.eq_ok_of_val?_some hmap)).2.1
  have key : ∀ i info, codeGenMap.get? i = some info →
      (bundleFinish env cg startCycle durationInCycles isLastBundle).st.lastEndCycle i
        = cursorAfter startCycle durationInCycles isLastBundle true info
            (cg.lastEndCycle i) := by
    intro i info hinfo
    have hi : i < segs.length := by
      rw [hlen, ← hlenmap]
      exact (List.get?_eq_some.mp hinfo).1
    obtain ⟨_, ic, row, info1, _, _, hinfo1, _, _, _, hcur, _⟩ :=
      hget i _ (List.get?_eq_get hi)
    rw [hinfo] at hinfo1
    injection hinfo1 with e
    subst e
    rw [hcur, hfb]
  refine ⟨?_, ?_, ?_⟩
  · intro i info hinfo
    rw [key i info hinfo]
    unfold cursorAfter uintAdd
    simp only [if_true]
    split_ifs <;> rfl
  · intro i info hinfo h1 h2 h3
    rw [key i info hinfo]
    unfold cursorAfter uintAdd
    simp only [if_true]
    split_ifs <;> omega
  · intro i j infoI infoJ hi hj hc ho hd
    rw [key i infoI hi, key j infoJ hj]
    unfold cursorAfter
    rw [hc, ho, hd]

/-- C14, witness: two instruments that enter at cycle 0 without output in a bundle with
feedback at cycle 3 both end at cycle 4. -/
theorem bundleFinish_feedback_cursors_witness :
    (bundleFinish (demoEnv false demoInstruments 0)
        (demoCodegen 0 [[{ isMeasFeedback := true, operands := [7] }], [{}, {}]])
        3 5 false).st.lastEndCycle 0 = 4
    ∧ (bundleFinish (demoEnv false demoInstruments 0)
        (demoCodegen 0 [[{ isMeasFeedback := true, operands := [7] }], [{}, {}]])
        3 5 false).st.lastEndCycle 1 = 4 := by
  have h := (bundleFinish_feedback_cursors (demoEnv false demoInstruments 0)
    (demoCodegen 0 [[{ isMeasFeedback := true, operands := [7] }], [{}, {}]]) 3 5 false
    [{ feedbackMap := [(0, { smBit := 7, resultBit := 0
                             bi := { isMeasFeedback := true, operands := [7] } })]
       instrumentName := "X", slot := 0 },
     { instrumentName := "Y", slot := 3 }]
    (by decide) (by decide) (by decide)).2.1
  exact ⟨h 0 _ rfl (by decide) (by decide) (by decide),
    h 1 _ rfl (by decide) (by decide) (by decide)⟩

/-- C14, counterexample: the bundle `demoFeedbackBundle` at cycle 3, both cursors at 0 on
entry. `bundleFinish` returns; "X", with an output of 4 cycles and the feedback, advances
by 8 cycles, and "Y", with an output of 2 cycles, advances by 6. With both cursors at
`2^64 - 1` and no output, the feedback-cycle instruction of a bundle at cycle 0 leaves the
cursors at 0. -/
theorem bundleFinish_feedback_cursors_counterexample :
    (bundleFinish (demoEnv false demoInstruments 0) (demoCodegen 0 demoFeedbackBundle)
        3 5 false).err? = none
    ∧ bundleFeedback (demoEnv false demoInstruments 0) (demoCodegen 0 demoFeedbackBundle)
        = true
    ∧ (bundleFinish (demoEnv false demoInstruments 0) (demoCodegen 0 demoFeedbackBundle)
          3 5 false).st.lastEndCycle 0
        - (demoCodegen 0 demoFeedbackBundle).lastEndCycle 0 = 8
    ∧ (bundleFinish (demoEnv false demoInstruments 0) (demoCodegen 0 demoFeedbackBundle)
          3 5 false).st.lastEndCycle 1
        - (demoCodegen 0 demoFeedbackBundle).lastEndCycle 1 = 6
    ∧ (bundleFinish (demoEnv false demoInstruments 0)
        (demoCodegen (2 ^ 64 - 1) [[{ isMeasFeedback := true, operands := [7] }], [{}, {}]])
        0 5 false).err? = none
    ∧ (bundleFinish (demoEnv false demoInstruments 0)
        (demoCodegen (2 ^ 64 - 1) [[{ isMeasFeedback := true, operands := [7] }], [{}, {}]])
        0 5 false).st.lastEndCycle 0 = 0
    ∧ (bundleFinish (demoEnv false demoInstruments 0)
        (demoCodegen (2 ^ 64 - 1) [[{ isMeasFeedback := true, operands := [7] }], [{}, {}]])
        0 5 false).st.lastEndCycle 1 = 0 := by
  decide

/-- C15 (amended): time travel of an instrument with output is detected when the cursor is
at most `2^63` cycles ahead. For every `bundleFinish` at `startCycle`, if some instrument
for which the bundle has an output (a populated group) has `lastEndCycle > startCycle` on
entry, by at most `2^63` cycles, then `bundleFinish` does not return; and once the collect
phase and the instruments before it have gone through without error, it fails with the
time travel error, having appended nothing but comments for that instrument. -/
theorem bundleFinish_time_travel (env : Env D) (cg : Codegen D)
    (startCycle durationInCycles : Nat) (isLastBundle : Bool) (instrIdx : Nat)
    (ic : InstrumentControl) (row : List BundleInfo)
    (hic : env.instruments.get? instrIdx = some ic)
    (hrow : cg.bundleInfo.get? instrIdx = some row)
    (hout : populatedGroups row ≠ [])
    (hc : cg.lastEndCycle instrIdx < 2 ^ 64)
    (hlate : startCycle < cg.lastEndCycle instrIdx)
    (hnear : cg.lastEndCycle instrIdx - startCycle ≤ 2 ^ 63) :
    (bundleFinish env cg startCycle durationInCycles isLastBundle).err? ≠ none
    ∧ ∀ codeGenMap cgA cgB,
        collectCodeGenInfo env cg startCycle durationInCycles = .ok codeGenMap cgA →
        forEach (bundleFinishInstr env codeGenMap startCycle durationInCycles isLastBundle)
          (List.range instrIdx) cgA = .ok () cgB →
        (bundleFinish env cg startCycle durationInCycles isLastBundle).err?
          = some .timeTravel
        ∧ CommentsAppended env cgB
            (bundleFinish env cg startCycle durationInCycles isLastBundle).st := by
  have hwrap : 2 ^ 63 ≤ uintSub startCycle (cg.lastEndCycle instrIdx) := by
    rw [uintSub_of_lt hlate hc]
    omega
  constructor
  · intro hnone
    obtain ⟨codeGenMap, pre, segs, post, _, _, _, _, _, hall⟩ :=
      bundleFinish_shape (Res.eq_ok_of_err?_none hnone)
    obtain ⟨hlen, hget⟩ := forall₂_range_get? hall
    have hi : instrIdx < segs.length := by
      rw [hlen]
      exact (List.get?_eq_some.mp hic).1
    obtain ⟨_, ic1, row1, info, _, hrow1, _, hci, _, _, _, hle⟩ :=
      hget instrIdx _ (List.get?_eq_get hi)
    rw [hrow] at hrow1
    injection hrow1 with e
    subst e
    have hhas : info.instrHasOutput = true := by
      obtain ⟨_, _, _, _, _, ho, _⟩ := hci
      rw [ho]
      cases hp : populatedGroups row with
      | nil => exact absurd hp hout
      | cons a l => rfl
    exact absurd (hle hhas) (Nat.not_lt.mpr hwrap)
  · intro codeGenMap cgA cgB hcollect hpre
    obtain ⟨cg1, hfail, hcm⟩ :=
      @bundleFinish_timeTravel_at _ _ _ _ _ _ _ isLastBundle _ _ _ _ hic hrow hout hwrap
        hcollect hpre
    rw [hfail]
    exact ⟨rfl, hcm⟩

/-- C15, witness: "X" has an output and its cursor is at cycle 10 when the bundle starts
at cycle 3: `bundleFinish` fails with the time travel error and emits nothing. -/
theorem bundleFinish_time_travel_witness :
    (bundleFinish (demoEnv false demoInstruments 0) (demoCodegen 10 demoFeedbackBundle)
        3 5 false).err? ≠ none
    ∧ (bundleFinish (demoEnv false demoInstruments 0) (demoCodegen 10 demoFeedbackBundle)
        3 5 false).err? = some .timeTravel
    ∧ (bundleFinish (demoEnv false demoInstruments 0) (demoCodegen 10 demoFeedbackBundle)
        3 5 false).st.codeSection = [] := by
  have h := (bundleFinish_time_travel (demoEnv false demoInstruments 0)
    (demoCodegen 10 demoFeedbackBundle) 3 5 false 0 (demoInstrumentOn "X" 0 [[5]] [6])
    [{ signalValue := "m", durationInCycles := 4, isMeasFeedback := true, operands := [7] }]
    (by decide) (by decide) (by decide) (by decide) (by decide) (by decide)).1
  exact ⟨h, by decide, by decide⟩

/-- C15, counterexample: "X" has no output but a feedback-active group, and its cursor is
at cycle 10 when the bundle starts at cycle 3. `bundleFinish` returns and emits `seq_in_sm`
for "X", at cycle 10, and `seq_inv_sm` for "Y". And an instrument with an output of 2
cycles whose cursor is at `2^63 + 5` when the bundle starts at cycle 0: `bundleFinish`
returns and emits `seq_wait 9223372036854775803` and the output. -/
theorem bundleFinish_time_travel_counterexample :
    (demoCodegen 10 [[{ isMeasFeedback := true, operands := [7] }], [{}, {}]]).lastEndCycle 0
      > 3
    ∧ (bundleFinish (demoEnv false demoInstruments 0)
        (demoCodegen 10 [[{ isMeasFeedback := true, operands := [7] }], [{}, {}]])
        3 5 false).err? = none
    ∧ instructionsOf
        (bundleFinish (demoEnv false demoInstruments 0)
          (demoCodegen 10 [[{ isMeasFeedback := true, operands := [7] }], [{}, {}]])
          3 5 false).st.codeSection
      = [("seq_in_sm", "S0,0,1"), ("seq_inv_sm", "S0,1")]
    ∧ (bundleFinish (demoEnv false demoInstruments 0)
        (demoCodegen 10 [[{ isMeasFeedback := true, operands := [7] }], [{}, {}]])
        3 5 false).st.lastEndCycle 0 = 11
    ∧ (demoCodegen (2 ^ 63 + 5) [[{ signalValue := "a", durationInCycles := 2 }]]).lastEndCycle 0
        > 0
    ∧ (bundleFinish (demoEnv false [demoInstrument [[5]] [6]] 0)
        (demoCodegen (2 ^ 63 + 5) [[{ signalValue := "a", durationInCycles := 2 }]])
        0 5 false).err? = none
    ∧ instructionsOf
        (bundleFinish (demoEnv false [demoInstrument [[5]] [6]] 0)
          (demoCodegen (2 ^ 63 + 5) [[{ signalValue := "a", durationInCycles := 2 }]])
          0 5 false).st.codeSection
      = [("seq_wait", "9223372036854775803"), ("seq_out", "0x00000060,2")] := by
  decide

/-- C16: `decode_condition` maps a bit literal true to ALWAYS and false to NEVER, both
with no operands; a bare reference that the operand context converts to bit `b` to UNARY
with operands `[b]`; `operator!` or `operator~` of such a reference to NOT with operands
`[b]`; and a direct function of two operands that convert to the bits `ba` and `bb` to AND
for `operator&` and `operator&&`, OR for `operator|` and `operator||`, XOR for `operator^`,
`operator^^` and `operator!=`, NXOR for `operator==`, with operands `[ba, bb]` in source
order. -/
theorem decode_condition_mapping (env : Env D) :
    decode_condition env (.bit_literal true) = .ok { cond_type := .ALWAYS, cond_operands := [] }
    ∧ decode_condition env (.bit_literal false)
        = .ok { cond_type := .NEVER, cond_operands := [] }
    ∧ (∀ kind index b, env.convert_breg_reference (.reference kind index) = .ok b →
        decode_condition env (.reference kind index)
          = .ok { cond_type := .UNARY, cond_operands := [b] }
        ∧ decode_condition env (.function_call "operator!" [.reference kind index])
          = .ok { cond_type := .NOT, cond_operands := [b] }
        ∧ decode_condition env (.function_call "operator~" [.reference kind index])
          = .ok { cond_type := .NOT, cond_operands := [b] })
    ∧ (∀ name a b ba bb, env.convert_breg_reference a = .ok ba →
        env.convert_breg_reference b = .ok bb →
        (name = "operator&" ∨ name = "operator&&" →
          decode_condition env (.function_call name [a, b])
            = .ok { cond_type := .AND, cond_operands := [ba, bb] })
        ∧ (name = "operator|" ∨ name = "operator||" →
          decode_condition env (.function_call name [a, b])
            = .ok { cond_type := .OR, cond_operands := [ba, bb] })
        ∧ (name = "operator^" ∨ name = "operator^^" ∨ name = "operator!=" →
          decode_condition env (.function_call name [a, b])
            = .ok { cond_type := .XOR, cond_operands := [ba, bb] })
        ∧ (name = "operator==" →
          decode_condition env (.function_call name [a, b])
            = .ok { cond_type := .NXOR, cond_operands := [ba, bb] })) := by
  refine ⟨rfl, rfl, ?_, ?_⟩
  · intro kind index b hb
    refine ⟨?_, ?_, ?_⟩
    · unfold decode_condition
      simp only [convertBreg, hb]
    · unfold decode_condition
      simp only [true_or, if_true, convertBreg, hb]
    · unfold decode_condition
      simp only [or_true, if_true, convertBreg, hb]
  · intro name a b ba bb ha hb
    refine ⟨?_, ?_, ?_, ?_⟩
    · intro hn
      rw [decode_binary env name a b ba bb (by rcases hn with h | h <;> rw [h] <;> decide) ha hb,
        if_pos hn]
    · intro hn
      rw [decode_binary env name a b ba bb (by rcases hn with h | h <;> rw [h] <;> decide) ha hb,
        if_neg (by rcases hn with h | h <;> rw [h] <;> decide), if_pos hn]
    · intro hn
      rw [decode_binary env name a b ba bb
          (by rcases hn with h | h | h <;> rw [h] <;> decide) ha hb,
        if_neg (by rcases hn with h | h | h <;> rw [h] <;> decide),
        if_neg (by rcases hn with h | h | h <;> rw [h] <;> decide), if_pos hn]
    · intro hn
      rw [decode_binary env name a b ba bb (by rw [hn]; decide) ha hb,
        if_neg (by rw [hn]; decide), if_neg (by rw [hn]; decide),
        if_neg (by rw [hn]; decide), if_pos hn]

/-- C16, witness: with bit references that convert to their index, `b[3]` decodes to UNARY
on `[3]`, `!b[3]` to NOT on `[3]`, and `b[1] ^^ b[2]` to XOR on `[1, 2]`. -/
theorem decode_condition_mapping_witness :
    decode_condition (demoEnv false [] 0) (.reference .breg 3)
      = .ok { cond_type := .UNARY, cond_operands := [3] }
    ∧ decode_condition (demoEnv false [] 0) (.function_call "operator!" [.reference .breg 3])
      = .ok { cond_type := .NOT, cond_operands := [3] }
    ∧ decode_condition (demoEnv false [] 0)
        (.function_call "operator^^" [.reference .breg 1, .reference .breg 2])
      = .ok { cond_type := .XOR, cond_operands := [1, 2] } :=
  ⟨((decode_condition_mapping (demoEnv false [] 0)).2.2.1 .breg 3 3 rfl).1,
   ((decode_condition_mapping (demoEnv false [] 0)).2.2.1 .breg 3 3 rfl).2.1,
   ((decode_condition_mapping (demoEnv false [] 0)).2.2.2 "operator^^"
      (.reference .breg 1) (.reference .breg 2) 1 2 rfl rfl).2.2.1 (Or.inr (Or.inl rfl))⟩

/-- C17: negation in `decode_condition`. For every function `name(a, b)` of two operands
that `decode_condition` accepts, decoding `operator!` or `operator~` of it succeeds with
the same operand list, the bits of `a` and `b` in this order, and with the logically
negated condition type of decoding `name(a, b)` (AND to NAND, OR to NOR, XOR to NXOR, NXOR
to XOR); in particular negated `operator==` gives XOR and negated `operator!=` gives
NXOR. -/
theorem decode_condition_negation (env : Env D) (name : String) (a b : Expression)
    (c : tInstructionCondition)
    (h : decode_condition env (.function_call name [a, b]) = .ok c) :
    decode_condition env (.function_call "operator!" [.function_call name [a, b]])
      = .ok { cond_type := c.cond_type.negated, cond_operands := c.cond_operands }
    ∧ decode_condition env (.function_call "operator~" [.function_call name [a, b]])
      = .ok { cond_type := c.cond_type.negated, cond_operands := c.cond_operands }
    ∧ (∃ ba bb, env.convert_breg_reference a = .ok ba ∧ env.convert_breg_reference b = .ok bb
        ∧ c.cond_operands = [ba, bb])
    ∧ (c.cond_type = .AND ∨ c.cond_type = .OR ∨ c.cond_type = .XOR ∨ c.cond_type = .NXOR)
    ∧ (name = "operator==" → c.cond_type.negated = .XOR)
    ∧ (name = "operator!=" → c.cond_type.negated = .NXOR) := by
  have hneg : name ∉ negationNames := by
    intro hm
    rw [decode_negation_count hm (by simp)] at h
    exact Except.noConfusion h
  have h1 : ¬ (name = "operator!" ∨ name = "operator~") := by
    intro hh
    apply hneg
    unfold negationNames
    rcases hh with hh | hh <;> simp [hh]
  cases ha : env.convert_breg_reference a with
  | error x =>
    unfold decode_condition at h
    simp only [h1, if_false, convertBreg, ha] at h
    exact Except.noConfusion h
  | ok ba =>
    cases hb : env.convert_breg_reference b with
    | error x =>
      unfold decode_condition at h
      simp only [h1, if_false, convertBreg, ha, hb] at h
      exact Except.noConfusion h
    | ok bb =>
      rw [decode_binary env name a b ba bb hneg ha hb] at h
      rw [decode_negated_binary env "operator!" name a b ba bb (by decide) ha hb,
        decode_negated_binary env "operator~" name a b ba bb (by decide) ha hb]
      by_cases c1 : name = "operator&" ∨ name = "operator&&"
      · rw [if_pos c1] at h
        injection h with h
        subst h
        simp only [if_pos c1]
        refine ⟨rfl, rfl, ⟨ba, bb, rfl, rfl, rfl⟩, (by simp), ?_, ?_⟩
        · intro e
          rw [e] at c1
          exact absurd c1 (by decide)
        · intro e
          rw [e] at c1
          exact absurd c1 (by decide)
      · rw [if_neg c1] at h
        simp only [if_neg c1]
        by_cases c2 : name = "operator|" ∨ name = "operator||"
        · rw [if_pos c2] at h
          injection h with h
          subst h
          simp only [if_pos c2]
          refine ⟨rfl, rfl, ⟨ba, bb, rfl, rfl, rfl⟩, (by simp), ?_, ?_⟩
          · intro e
            rw [e] at c2
            exact absurd c2 (by decide)
          · intro e
            rw [e] at c2
            exact absurd c2 (by decide)
        · rw [if_neg c2] at h
          simp only [if_neg c2]
          by_cases c3 : name = "operator^" ∨ name = "operator^^" ∨ name = "operator!="
          · rw [if_pos c3] at h
            injection h with h
            subst h
            simp only [if_pos c3]
            refine ⟨rfl, rfl, ⟨ba, bb, rfl, rfl, rfl⟩, (by simp), ?_,
              fun _ => rfl⟩
            intro e
            rw [e] at c3
            exact absurd c3 (by decide)
          · rw [if_neg c3] at h
            simp only [if_neg c3]
            by_cases c4 : name = "operator=="
            · rw [if_pos c4] at h
              injection h with h
              subst h
              simp only [if_pos c4]
              refine ⟨rfl, rfl, ⟨ba, bb, rfl, rfl, rfl⟩, (by simp),
                fun _ => rfl, ?_⟩
              intro e
              rw [e] at c4
              exact absurd c4 (by decide)
            · rw [if_neg c4] at h
              exact Except.noConfusion h

/-- C17, witness: `b[1] == b[2]` decodes to NXOR on `[1, 2]`, and its negation to XOR on
the same operands. -/
theorem decode_condition_negation_witness :
    decode_condition (demoEnv false [] 0)
        (.function_call "operator!"
          [.function_call "operator==" [.reference .breg 1, .reference .breg 2]])
      = .ok { cond_type := .XOR, cond_operands := [1, 2] } :=
  (decode_condition_negation (demoEnv false [] 0) "operator=="
    (.reference .breg 1) (.reference .breg 2) { cond_type := .NXOR, cond_operands := [1, 2] }
    rfl).1

/-- C18: `decode_condition` fails with an error, returning no condition, for every
expression shape outside the supported ones: an expression that is neither a bit literal,
a reference nor a function call (an integer literal); a function of two operands whose
name is outside `operator&`, `operator&&`, `operator|`, `operator||`, `operator^`,
`operator^^`, `operator!=`, `operator==`; a function other than a negation whose operand
count is not 2; and `operator!` or `operator~` applied to anything other than a reference
or a supported function of two operands, such as the double negation. Whenever it
succeeds, the number of condition operands is 0 for ALWAYS and NEVER, 1 for UNARY and NOT
and 2 for every other type. -/
theorem decode_condition_rejects (env : Env D) :
    (∀ value, ∃ e, decode_condition env (.int_literal value) = .error e)
    ∧ (∀ name a b, name ∉ binaryConditionNames →
        ∃ e, decode_condition env (.function_call name [a, b]) = .error e)
    ∧ (∀ name operands, name ∉ negationNames → operands.length ≠ 2 →
        ∃ e, decode_condition env (.function_call name operands) = .error e)
    ∧ (∀ neg operands, neg ∈ negationNames →
        (¬ ∃ kind index, operands = [.reference kind index]) →
        (¬ ∃ name a b, name ∈ binaryConditionNames
          ∧ operands = [.function_call name [a, b]]) →
        ∃ e, decode_condition env (.function_call neg operands) = .error e)
    ∧ (∀ neg1 neg2 b, neg1 ∈ negationNames → neg2 ∈ negationNames →
        ∃ e, decode_condition env (.function_call neg1 [.function_call neg2 [b]])
          = .error e)
    ∧ (∀ condition c, decode_condition env condition = .ok c →
        c.cond_operands.length = c.cond_type.operandCount) := by
  refine ⟨fun _ => ⟨_, rfl⟩, fun name a b hn => decode_binary_error hn,
    fun name operands hn hl => ⟨_, decode_function_count hn hl⟩,
    fun neg operands hn href hfun => decode_negation_other hn href hfun, ?_,
    fun condition c h => decode_condition_operandCount h⟩
  intro neg1 neg2 b h1 h2
  refine decode_negation_other h1 ?_ ?_
  · rintro ⟨kind, index, e⟩
    injection e with e _
    exact Expression.noConfusion e
  · rintro ⟨name, x, y, _, e⟩
    injection e with e _
    injection e with _ e
    exact absurd (congrArg List.length e) (by simp)

/-- C18, witness: the double negation `!(!b[3])` and the function `b[1] + b[2]` are
rejected. -/
theorem decode_condition_rejects_witness :
    (∃ e, decode_condition (demoEnv false [] 0)
        (.function_call "operator!" [.function_call "operator!" [.reference .breg 3]])
        = .error e)
    ∧ (∃ e, decode_condition (demoEnv false [] 0)
        (.function_call "operator+" [.reference .breg 1, .reference .breg 2]) = .error e) :=
  ⟨(decode_condition_rejects (demoEnv false [] 0)).2.2.2.2.1 "operator!" "operator!"
      (.reference .breg 3) (by decide) (by decide),
   (decode_condition_rejects (demoEnv false [] 0)).2.1 "operator+"
      (.reference .breg 1) (.reference .breg 2) (by decide)⟩

/-- C19: `check_int_literal(lit, bottomRoom, headRoom)` accepts the literal if and only if
`bottomRoom ≤ lit.value` and `lit.value < 2^32 - 1 - headRoom`, in exact integer
arithmetic, and every other value raises an input error; `op_str_int` renders a literal
only after the check, and whether it returns or throws, `do_handle_expression` appends no
`move`, arithmetic or jump instruction with a literal operand (any streamed number that is
not the number of a register) that fails the check with the default rooms, the literals of
`operator>`, checked with a room of 1 and emitted plus or minus 1, included. But
`foreach_end` checks its bound `to` with the default rooms and emits `to + 1`: for
`to = 4294967294` (`2^32 - 2`) the check passes and the code emits
`jlt R0,4294967295,@L_start`, whose literal `4294967295` fails the check. -/
theorem foreach_end_literal_emitted (env : Env D) :
    (∀ value bottomRoom headRoom,
      check_int_literal value bottomRoom headRoom = .ok ()
        ↔ bottomRoom ≤ value ∧ value < 2 ^ 32 - 1 - headRoom)
    ∧ (∀ value bottomRoom headRoom,
        check_int_literal value bottomRoom headRoom = .ok ()
          ∨ ∃ e, check_int_literal value bottomRoom headRoom = .error e ∧ e.kind = .input)
    ∧ (∀ value s, op_str_int env (.int_literal value) = .ok s →
        check_int_literal value 0 0 = .ok () ∧ s = [.int value])
    ∧ (∀ (cg : Codegen D) expression lhs label_if_false descr,
        ∃ added,
          (do_handle_expression env cg expression lhs label_if_false descr).st.codeSection
            = cg.codeSection ++ added
          ∧ ∀ l ∈ added, takesLiteral l.mnemonic = true →
              ∀ v ∈ Text.literals l.ops, check_int_literal v 0 0 = .ok ())
    ∧ (foreach_end (demoEnv false [] 0) (demoCodegen 0 []) (.reference .creg 0) 0 4294967294
        "L").err? = none
    ∧ instructionsOf
        (foreach_end (demoEnv false [] 0) (demoCodegen 0 []) (.reference .creg 0) 0 4294967294
          "L").st.codeSection
      = [("add", "R0,1,R0"), ("nop", ""), ("jlt", "R0,4294967295,@L_start")]
    ∧ ((foreach_end (demoEnv false [] 0) (demoCodegen 0 []) (.reference .creg 0) 0 4294967294
          "L").st.codeSection.filter fun l => l.mnemonic == "jlt").map
        (fun l => Text.literals l.ops) = [[4294967295]]
    ∧ check_int_literal 4294967294 0 0 = .ok ()
    ∧ check_int_literal 4294967295 0 0 = .error .literalTooLarge
    ∧ Err.literalTooLarge.kind = .input := by
  refine ⟨check_int_literal_ok_iff, fun value bottomRoom headRoom => ?_, ?_,
    fun cg expression lhs label_if_false descr =>
      do_handle_expression_checked env cg expression lhs label_if_false descr,
    by decide, by decide, by decide, by decide, by decide, by decide⟩
  · by_cases h : bottomRoom ≤ value ∧ value < 2 ^ 32 - 1 - headRoom
    · exact Or.inl ((check_int_literal_ok_iff value bottomRoom headRoom).mpr h)
    · exact Or.inr (check_int_literal_error value bottomRoom headRoom h)
  · intro value s h
    rcases op_str_int_cases h with ⟨reg, e⟩ | ⟨v, e1, e2, hc⟩
    · unfold op_str_int at h
      simp only at h
      split at h
      · exact Except.noConfusion h
      · rename_i hc
        injection h with h
        exact ⟨hc, h.symm⟩
    · injection e1 with e1
      subst e1
      exact ⟨hc, e2⟩

/-- C20: the code emitted in predicate mode for the relations of group 2, evaluated with
`label_if_false = L_1`. `R0 < 5` lowers to `jlt R0,5,@L_1`, `R0 >= 5` to
`jge R0,5,@L_1`, `5 < R0` to `jge R0,5,@L_1`, `R0 > 5` to `jge R0,6,@L_1`, `R0 > R1` to
`add 1,R1,R63`, `nop`, `jge R0,R63,@L_1`, and `5 > R0` to `jlt R04,@L_1`, an operand
string without the comma: the jump of `R0 < 5`, `R0 >= 5`, `R0 > 5` and `R0 > R1` is taken
exactly when the relation holds, so control reaches `label_if_false` when the relation is
true, and the jump of `5 < R0` is taken when `R0 >= 5`. The relations of group 1 are
negated: `R0 == 5` lowers to
`xor R0,5,R63`, `nop`, `jge R63,1,@L_1` and `R0 != 5` to the same with `jlt`. -/
theorem relational_jump_emitted :
    listingOf (do_handle_expression (demoEnv false [] 0) (demoCodegen 0 [])
        (.function_call "operator<" [.reference .creg 0, .int_literal 5])
        none "L_1" "").st.codeSection
      = [("", "jlt", "R0,5,@L_1")]
    ∧ listingOf (do_handle_expression (demoEnv false [] 0) (demoCodegen 0 [])
        (.function_call "operator>=" [.reference .creg 0, .int_literal 5])
        none "L_1" "").st.codeSection
      = [("", "jge", "R0,5,@L_1")]
    ∧ listingOf (do_handle_expression (demoEnv false [] 0) (demoCodegen 0 [])
        (.function_call "operator<" [.int_literal 5, .reference .creg 0])
        none "L_1" "").st.codeSection
      = [("", "jge", "R0,5,@L_1")]
    ∧ listingOf (do_handle_expression (demoEnv false [] 0) (demoCodegen 0 [])
        (.function_call "operator>" [.reference .creg 0, .int_literal 5])
        none "L_1" "").st.codeSection
      = [("", "jge", "R0,6,@L_1")]
    ∧ listingOf (do_handle_expression (demoEnv false [] 0) (demoCodegen 0 [])
        (.function_call "operator>" [.reference .creg 0, .reference .creg 1])
        none "L_1" "").st.codeSection
      = [("", "add", "1,R1,R63"), ("", "nop", ""), ("", "jge", "R0,R63,@L_1")]
    ∧ listingOf (do_handle_expression (demoEnv false [] 0) (demoCodegen 0 [])
        (.function_call "operator>" [.int_literal 5, .reference .creg 0])
        none "L_1" "").st.codeSection
      = [("", "jlt", "R04,@L_1")]
    ∧ listingOf (do_handle_expression (demoEnv false [] 0) (demoCodegen 0 [])
        (.function_call "operator==" [.reference .creg 0, .int_literal 5])
        none "L_1" "").st.codeSection
      = [("", "xor", "R0,5,R63"), ("", "nop", ""), ("", "jge", "R63,1,@L_1")]
    ∧ listingOf (do_handle_expression (demoEnv false [] 0) (demoCodegen 0 [])
        (.function_call "operator!=" [.reference .creg 0, .int_literal 5])
        none "L_1" "").st.codeSection
      = [("", "xor", "R0,5,R63"), ("", "nop", ""), ("", "jlt", "R63,1,@L_1")] := by
  refine ⟨?_, ?_, ?_, ?_, ?_, ?_, ?_, ?_⟩ <;> decide

/-- C21: `if_elif(condition, base, k)` emits, for `k > 0`, `jmp @<base>_end` and then
places the label `<base>_<k>:` (the comment of the branch, if any, stands between the
two), and for `k = 0` neither; in both cases it then lowers the condition in predicate
mode (no left hand side) with `label_if_false = <base>_<k+1>`, and returns or throws as
that lowering does. `if_otherwise(base, n)` places the label `<base>_<n>:` and
`if_end(base)` places `<base>_end:`, each after its comment, if any. -/
theorem if_lowering (env : Env D) (cg : Codegen D) (base : String) :
    (∀ condition (k : Int), 0 < k → ∃ cmts, Comments env cmts
      ∧ if_elif env cg condition base k
        = do_handle_expression env
            (withCode cg
              ([CodeLine.line (.text []) "jmp" [.str ("@" ++ (base ++ "_end"))] []] ++ cmts
                ++ [CodeLine.short [.str (base ++ "_" ++ toString k ++ ":")] ""]))
            condition none (base ++ "_" ++ toString (k + 1)) "if.condition")
    ∧ (∀ condition, ∃ cmts, Comments env cmts
      ∧ if_elif env cg condition base 0
        = do_handle_expression env (withCode cg cmts) condition none (base ++ "_1")
            "if.condition")
    ∧ (∀ n : Int, ∃ cmts, Comments env cmts
      ∧ if_otherwise env cg base n
        = withCode cg (cmts ++ [CodeLine.short [.str (base ++ "_" ++ toString n ++ ":")] ""]))
    ∧ (∃ cmts, Comments env cmts
      ∧ if_end env cg base
        = withCode cg (cmts ++ [CodeLine.short [.str (base ++ "_end" ++ ":")] ""])) := by
  refine ⟨fun condition k hk => ?_, fun condition => ?_, fun n => ?_, ?_⟩
  · obtain ⟨cmts, hc, he⟩ := comment_withCode env
      (emit4 cg [] "jmp" [.str (as_target (to_end base))] []) "# IF_ELIF: "
      [.str "condition = '", .str (env.describe_expression condition), .str "'",
       .str ", label = '", .str base, .str "'"] (by decide)
    refine ⟨cmts, hc, ?_⟩
    unfold if_elif handle_expression
    simp only [gt_iff_lt, hk, if_true]
    rw [he, emit4_eq_withCode, emit2_eq_withCode, withCode_withCode, withCode_withCode]
    rfl
  · obtain ⟨cmts, hc, he⟩ := comment_withCode env cg "# IF_ELIF: "
      [.str "condition = '", .str (env.describe_expression condition), .str "'",
       .str ", label = '", .str base, .str "'"] (by decide)
    refine ⟨cmts, hc, ?_⟩
    unfold if_elif handle_expression
    simp only [gt_iff_lt, lt_self_iff_false, if_false]
    rw [he]
    have hl : to_ifbranch base (0 + 1) = base ++ "_1" := by
      show base ++ "_" ++ "1" = base ++ "_1"
      rw [String.append_assoc]
      rfl
    rw [hl]
  · obtain ⟨cmts, hc, he⟩ := comment_withCode env cg "# IF_OTHERWISE: "
      [.str ", label = '", .str base, .str "'"] (by decide)
    refine ⟨cmts, hc, ?_⟩
    unfold if_otherwise
    simp only
    rw [he, emit2_eq_withCode, withCode_withCode]
    rfl
  · obtain ⟨cmts, hc, he⟩ := comment_withCode env cg "# IF_END: "
      [.str ", label = '", .str base, .str "'"] (by decide)
    refine ⟨cmts, hc, ?_⟩
    unfold if_end
    simp only
    rw [he, emit2_eq_withCode, withCode_withCode]
    rfl

/-- C21, witness: branch 1 of an `if` with base `L` and condition `R0 == 7` emits
`jmp @L_end`, `L_1:`, and the condition with the target `L_2`; without the option
`verbose` there is no comment. -/
theorem if_lowering_witness :
    (∃ cmts, Comments (demoEnv false [] 0) cmts
      ∧ if_elif (demoEnv false [] 0) (demoCodegen 0 [])
          (.function_call "operator==" [.reference .creg 0, .int_literal 7]) "L" 1
        = do_handle_expression (demoEnv false [] 0)
            (withCode (demoCodegen 0 [])
              ([CodeLine.line (.text []) "jmp" [.str ("@" ++ ("L" ++ "_end"))] []] ++ cmts
                ++ [CodeLine.short [.str ("L" ++ "_" ++ toString (1 : Int) ++ ":")] ""]))
            (.function_call "operator==" [.reference .creg 0, .int_literal 7]) none
            ("L" ++ "_" ++ toString ((1 : Int) + 1)) "if.condition")
    ∧ listingOf (if_elif (demoEnv false [] 0) (demoCodegen 0 [])
          (.function_call "operator==" [.reference .creg 0, .int_literal 7]) "L" 1).st.codeSection
        = [("", "jmp", "@L_end"), ("L_1:", "", ""), ("", "xor", "R0,7,R63"), ("", "nop", ""),
           ("", "jge", "R63,1,@L_2")] :=
  ⟨(if_lowering (demoEnv false [] 0) (demoCodegen 0 []) "L").1
      (.function_call "operator==" [.reference .creg 0, .int_literal 7]) 1 (by decide),
    by decide⟩

/-- C22: the code emitted for `if (R0 < 5) A(); elif (R0 == 7) B(); else C();` with label
base `L` through `if_elif(0)`, `if_elif(1)`, `if_otherwise(2)`, `if_end`. All calls return
and the code is, comments aside: `jlt R0,5,@L_1`; body A; `jmp @L_end`; `L_1:`;
`xor R0,7,R63`; `nop`; `jge R63,1,@L_2`; body B; `L_2:`; body C; `L_end:`. The first
condition jumps with `jlt`, not `jge`, and no `jmp @L_end` stands between body B and
`L_2:`. -/
theorem if_elif_else_emitted :
    (demoIfElifElse (demoEnv false [] 0)).err? = none
    ∧ listingOf (demoIfElifElse (demoEnv false [] 0)).st.codeSection
      = [("", "jlt", "R0,5,@L_1"), ("", "A", ""), ("", "jmp", "@L_end"), ("L_1:", "", ""),
         ("", "xor", "R0,7,R63"), ("", "nop", ""), ("", "jge", "R63,1,@L_2"), ("", "B", ""),
         ("L_2:", "", ""), ("", "C", ""), ("L_end:", "", "")]
    ∧ listingOf (demoIfElifElse (demoEnv true [] 0)).st.codeSection
      = listingOf (demoIfElifElse (demoEnv false [] 0)).st.codeSection := by
  refine ⟨?_, ?_, ?_⟩ <;> decide

/-- C23: `do_handle_expression` rejects with an error, having emitted nothing but the
comment that names the left hand side, every function call that it cannot lower:
`operator<=` whatever its operands; a binary integer function (`+ - & | ^`) or a relational
function (`== != >= < >`) whose two operands are both integer literals, or of which an
operand is itself a function call; and a function whose name is outside the supported set
`int ~ ! + - & | ^ && || ^^ == != >= < > <=`. The same holds for such a function under the
cast `int(...)`. -/
theorem do_handle_expression_rejects (env : Env D) (cg : Codegen D) (lhs : Option Expression)
    (label_if_false descr : String) :
    (∀ operands, ∃ cmts, Comments env cmts
      ∧ do_handle_expression env cg (.function_call "operator<=" operands) lhs label_if_false
          descr = .fail .notImplemented (withCode cg cmts))
    ∧ (∀ name a b, name ∈ arithmeticNames ++ relationalNames → ∃ cmts, Comments env cmts
      ∧ do_handle_expression env cg (.function_call name [.int_literal a, .int_literal b]) lhs
          label_if_false descr = .fail .twoLiterals (withCode cg cmts))
    ∧ (∀ name x y, name ∈ arithmeticNames ++ relationalNames →
        x.isFunctionCall = true ∨ y.isFunctionCall = true → ∃ cmts, Comments env cmts
      ∧ do_handle_expression env cg (.function_call name [x, y]) lhs label_if_false descr
          = .fail .nestedFunctionCall (withCode cg cmts))
    ∧ (∀ name operands, name ∉ supportedNames → ∃ cmts, Comments env cmts
      ∧ do_handle_expression env cg (.function_call name operands) lhs label_if_false descr
          = .fail .functionNotSupported (withCode cg cmts))
    ∧ (∀ name operands e,
        (name = "operator<=" ∧ e = Err.notImplemented)
        ∨ (name ∈ arithmeticNames ++ relationalNames
            ∧ (∃ a b, operands = [.int_literal a, .int_literal b]) ∧ e = Err.twoLiterals)
        ∨ (name ∈ arithmeticNames ++ relationalNames
            ∧ (∃ x y, operands = [x, y]
                ∧ (x.isFunctionCall = true ∨ y.isFunctionCall = true))
            ∧ e = Err.nestedFunctionCall)
        ∨ (name ∉ supportedNames ∧ e = Err.functionNotSupported) →
        ∃ cmts, Comments env cmts
          ∧ do_handle_expression env cg
              (.function_call "int" [.function_call name operands]) lhs label_if_false descr
            = .fail e (withCode cg cmts)) := by
  refine ⟨fun operands => ?_, fun name a b hn => ?_, fun name x y hn hxy => ?_,
    fun name operands hn => ?_, fun name operands e h => ?_⟩
  · obtain ⟨cmts, hc, he⟩ := do_handle_expression_function env cg "operator<=" operands lhs
      label_if_false descr
    refine ⟨cmts, hc, ?_⟩
    rw [he, lowerFunctionCall_other _ _ _ _ _ _ (by decide) (by decide) (by decide),
      lowerFunction_not_implemented]
  · obtain ⟨cmts, hc, he⟩ := do_handle_expression_function env cg name
      [.int_literal a, .int_literal b] lhs label_if_false descr
    obtain ⟨h1, h2, h3⟩ := two_operand_name_ne hn
    refine ⟨cmts, hc, ?_⟩
    rw [he, lowerFunctionCall_other _ _ _ _ _ _ h1 h2 h3, lowerFunction_two_literals _ _ _ _ _ _ _ _ hn]
  · obtain ⟨cmts, hc, he⟩ := do_handle_expression_function env cg name [x, y] lhs
      label_if_false descr
    obtain ⟨h1, h2, h3⟩ := two_operand_name_ne hn
    refine ⟨cmts, hc, ?_⟩
    rw [he, lowerFunctionCall_other _ _ _ _ _ _ h1 h2 h3, lowerFunction_nested _ _ _ _ _ _ hn hxy]
  · obtain ⟨cmts, hc, he⟩ := do_handle_expression_function env cg name operands lhs
      label_if_false descr
    have h1 : name ≠ "int" := fun h => hn (by rw [h]; decide)
    have h2 : name ≠ "operator~" := fun h => hn (by rw [h]; decide)
    have h3 : name ≠ "operator!" := fun h => hn (by rw [h]; decide)
    refine ⟨cmts, hc, ?_⟩
    rw [he, lowerFunctionCall_other _ _ _ _ _ _ h1 h2 h3, lowerFunction_unsupported _ _ _ _ _ _ _ hn]
  · obtain ⟨cmts, hc, he⟩ := do_handle_expression_function env cg "int"
      [.function_call name operands] lhs label_if_false descr
    refine ⟨cmts, hc, ?_⟩
    rw [he, lowerFunctionCall_cast]
    rcases h with ⟨hn, rfl⟩ | ⟨hn, ⟨a, b, rfl⟩, rfl⟩ | ⟨hn, ⟨x, y, rfl, hxy⟩, rfl⟩ | ⟨hn, rfl⟩
    · rw [hn, lowerFunction_not_implemented]
    · rw [lowerFunction_two_literals _ _ _ _ _ _ _ _ hn]
    · rw [lowerFunction_nested _ _ _ _ _ _ hn hxy]
    · rw [lowerFunction_unsupported _ _ _ _ _ _ _ hn]

/-- C23, witness: `3 + 4` and `R1 < (R2 + 1)` are rejected with an input error, and
`R1 <= R2` and `foo(R1)` with an internal compiler error; no line is emitted. -/
theorem do_handle_expression_rejects_witness :
    (∃ cmts, Comments (demoEnv false [] 0) cmts
      ∧ do_handle_expression (demoEnv false [] 0) (demoCodegen 0 [])
          (.function_call "operator+" [.int_literal 3, .int_literal 4])
          (some (.reference .creg 0)) "" ""
        = .fail .twoLiterals (withCode (demoCodegen 0 []) cmts))
    ∧ (∃ cmts, Comments (demoEnv false [] 0) cmts
      ∧ do_handle_expression (demoEnv false [] 0) (demoCodegen 0 [])
          (.function_call "operator<" [.reference .creg 1,
            .function_call "operator+" [.reference .creg 2, .int_literal 1]])
          none "L_1" ""
        = .fail .nestedFunctionCall (withCode (demoCodegen 0 []) cmts))
    ∧ (∃ cmts, Comments (demoEnv false [] 0) cmts
      ∧ do_handle_expression (demoEnv false [] 0) (demoCodegen 0 [])
          (.function_call "foo" [.reference .creg 1]) none "L_1" ""
        = .fail .functionNotSupported (withCode (demoCodegen 0 []) cmts))
    ∧ (do_handle_expression (demoEnv false [] 0) (demoCodegen 0 [])
          (.function_call "operator<=" [.reference .creg 1, .reference .creg 2])
          none "L_1" "").st.codeSection = []
    ∧ Err.twoLiterals.kind = .input ∧ Err.nestedFunctionCall.kind = .input
    ∧ Err.notImplemented.kind = .ice ∧ Err.functionNotSupported.kind = .ice :=
  ⟨(do_handle_expression_rejects (demoEnv false [] 0) (demoCodegen 0 [])
      (some (.reference .creg 0)) "" "").2.1 "operator+" 3 4 (by decide),
   (do_handle_expression_rejects (demoEnv false [] 0) (demoCodegen 0 []) none "L_1" "").2.2.1
      "operator<" (.reference .creg 1)
      (.function_call "operator+" [.reference .creg 2, .int_literal 1]) (by decide)
      (Or.inr rfl),
   (do_handle_expression_rejects (demoEnv false [] 0) (demoCodegen 0 []) none "L_1" "").2.2.2.1
      "foo" [.reference .creg 1] (by decide),
   by decide, by decide, by decide, by decide, by decide⟩

/-- C24: the code emitted in assignment mode for the binary integer functions with a
literal as first operand. `R2 = 4 + R3` lowers to `add R3,4,R2`, and `R2 = 4 - R3` lowers
to `sub R3,4,R2`, the very instruction that `R2 = R3 - 4` lowers to: the operands of
`operator-` are swapped and nothing corrects the result, which is `R3 - 4` and not
`4 - R3`. -/
theorem binary_integer_emitted :
    listingOf (do_handle_expression (demoEnv false [] 0) (demoCodegen 0 [])
        (.function_call "operator-" [.int_literal 4, .reference .creg 3])
        (some (.reference .creg 2)) "" "").st.codeSection
      = [("", "sub", "R3,4,R2")]
    ∧ listingOf (do_handle_expression (demoEnv false [] 0) (demoCodegen 0 [])
        (.function_call "operator-" [.reference .creg 3, .int_literal 4])
        (some (.reference .creg 2)) "" "").st.codeSection
      = [("", "sub", "R3,4,R2")]
    ∧ listingOf (do_handle_expression (demoEnv false [] 0) (demoCodegen 0 [])
        (.function_call "operator+" [.int_literal 4, .reference .creg 3])
        (some (.reference .creg 2)) "" "").st.codeSection
      = [("", "add", "R3,4,R2")]
    ∧ listingOf (do_handle_expression (demoEnv false [] 0) (demoCodegen 0 [])
        (.function_call "operator-" [.reference .creg 3, .reference .creg 4])
        (some (.reference .creg 2)) "" "").st.codeSection
      = [("", "sub", "R3,R4,R2")] := by
  refine ⟨?_, ?_, ?_, ?_⟩ <;> decide

/-- C25: the code emitted in predicate mode for the bit register 33, a reference used as
a condition with `label_if_false = L_1`: the call returns and emits `seq_cl_sm S1`,
`seq_wait 3`, `move_sm R63`, `nop`, `and R63,2,R62`, `nop`, and no jump: no instruction
refers to `L_1`. The negation `!b[33]` emits the same lines followed by
`jlt R62,1,@L_1`. -/
theorem bit_reference_emitted :
    (do_handle_expression (demoEnv false [] 0) (demoCodegen 0 []) (.reference .breg 33)
        none "L_1" "").err? = none
    ∧ listingOf (do_handle_expression (demoEnv false [] 0) (demoCodegen 0 [])
        (.reference .breg 33) none "L_1" "").st.codeSection
      = [("", "seq_cl_sm", "S1"), ("", "seq_wait", "3"), ("", "move_sm", "R63"),
         ("", "nop", ""), ("", "and", "R63,2,R62"), ("", "nop", "")]
    ∧ jumpTargets (do_handle_expression (demoEnv false [] 0) (demoCodegen 0 [])
        (.reference .breg 33) none "L_1" "").st.codeSection = []
    ∧ listingOf (do_handle_expression (demoEnv false [] 0) (demoCodegen 0 [])
        (.function_call "operator!" [.reference .breg 33]) none "L_1" "").st.codeSection
      = [("", "seq_cl_sm", "S1"), ("", "seq_wait", "3"), ("", "move_sm", "R63"),
         ("", "nop", ""), ("", "and", "R63,2,R62"), ("", "nop", ""),
         ("", "jlt", "R62,1,@L_1")] := by
  refine ⟨?_, ?_, ?_, ?_⟩ <;> decide

/-- C26: the bit-cast protocol `emit_bin_cast(operands, expOpCnt)`. It fails, emitting
nothing, when the operand count differs from the expected count and when an operand is
not a reference. Given `N = expOpCnt ≥ 1` operands that are references to bit registers
with DSM bits `smBit_i`: unless all `smBit_i / 32` are equal it fails with a user error,
emitting nothing; otherwise it returns `mask`, the bitwise OR of `1 << (smBit_i mod 32)`
over all operands, so that `0 < mask < 2^32` and bit `k` of `mask` is set iff some operand
has `smBit mod 32 = k`, and it emits exactly `seq_cl_sm S<smBit_0 / 32>`, `seq_wait 3`,
`move_sm REG_TMP0`, `nop`. -/
theorem emit_bin_cast_protocol (env : Env D) (cg : Codegen D) (operands : List Expression)
    (expOpCnt : Nat) :
    (operands.length ≠ expOpCnt →
      emit_bin_cast env cg operands expOpCnt = .fail .bitOperandCount cg)
    ∧ ((∃ op ∈ operands, ∀ kind index, op ≠ Expression.reference kind index) →
      ∃ e, emit_bin_cast env cg operands expOpCnt = .fail e cg)
    ∧ (∀ smBits, operands.length = expOpCnt → 0 < expOpCnt →
        BitOperands env cg.dp operands smBits →
        ((¬ ∀ s ∈ smBits, s / 32 = smBits.headD 0 / 32) →
          emit_bin_cast env cg operands expOpCnt = .fail .dsmAddress cg
            ∧ Err.dsmAddress.kind = .user)
        ∧ ((∀ s ∈ smBits, s / 32 = smBits.headD 0 / 32) →
          ∃ mask,
            emit_bin_cast env cg operands expOpCnt
              = .ok mask (withCode cg
                  [.line (.text []) "seq_cl_sm" [.str "S", .nat (smBits.headD 0 / 32)] [],
                   .line (.text []) "seq_wait" [.str "3"] [],
                   .line (.text []) "move_sm" [.str env.REG_TMP0] [],
                   .short [] "nop"])
            ∧ mask = orAll (smBits.map fun s => 1 <<< (s % 32))
            ∧ 0 < mask ∧ mask < 2 ^ 32
            ∧ ∀ k, mask.testBit k = true ↔ ∃ s ∈ smBits, s % 32 = k)) := by
  refine ⟨fun hlen => ?_, fun hop => ?_, fun smBits hlen hpos hops => ?_⟩
  · unfold emit_bin_cast
    rw [if_pos hlen]
  · unfold emit_bin_cast
    split
    · exact ⟨_, rfl⟩
    · obtain ⟨e, he⟩ := binCastLoop_not_reference env cg.dp operands hop 0 0 0
      rw [he]
      exact ⟨_, rfl⟩
  · have hne : smBits ≠ [] := by
      intro e
      rw [e] at hops
      cases hops
      rw [← hlen] at hpos
      exact absurd hpos (by simp)
    obtain ⟨hok, herr⟩ := binCastLoop_first env cg.dp hops hne
    constructor
    · intro hnot
      refine ⟨?_, rfl⟩
      unfold emit_bin_cast
      rw [if_neg (fun h => h hlen), herr hnot]
    · intro hall
      refine ⟨_, ?_, mask_eq_orAll smBits, mask_pos hne, mask_lt smBits,
        fun k => mask_testBit smBits k⟩
      unfold emit_bin_cast
      rw [if_neg (fun h => h hlen), hok hall]
      simp only [emit4_eq_withCode, emit2_eq_withCode, withCode_withCode, List.cons_append,
        List.nil_append]

/-- C26, witness: the bits 33 and 36, both in word 1 of the DSM, give the mask
`2 | 16 = 18` after `seq_cl_sm S1`, `seq_wait 3`, `move_sm R63`, `nop`; the bits 3 and 36
lie in different words and are rejected. -/
theorem emit_bin_cast_protocol_witness :
    (∃ mask,
      emit_bin_cast (demoEnv false [] 0) (demoCodegen 0 [])
          [.reference .breg 33, .reference .breg 36] 2
        = .ok mask (withCode (demoCodegen 0 [])
            [.line (.text []) "seq_cl_sm" [.str "S", .nat (([33, 36] : List Nat).headD 0 / 32)] [],
             .line (.text []) "seq_wait" [.str "3"] [],
             .line (.text []) "move_sm" [.str (demoEnv false [] 0).REG_TMP0] [],
             .short [] "nop"])
      ∧ mask = orAll (([33, 36] : List Nat).map fun s => 1 <<< (s % 32))
      ∧ 0 < mask ∧ mask < 2 ^ 32
      ∧ ∀ k, mask.testBit k = true ↔ ∃ s ∈ ([33, 36] : List Nat), s % 32 = k)
    ∧ (emit_bin_cast (demoEnv false [] 0) (demoCodegen 0 [])
          [.reference .breg 3, .reference .breg 36] 2
        = .fail .dsmAddress (demoCodegen 0 []) ∧ Err.dsmAddress.kind = .user)
    ∧ (emit_bin_cast (demoEnv false [] 0) (demoCodegen 0 [])
          [.reference .breg 33, .reference .breg 36] 2).val? = some 18
    ∧ listingOf (emit_bin_cast (demoEnv false [] 0) (demoCodegen 0 [])
          [.reference .breg 33, .reference .breg 36] 2).st.codeSection
        = [("", "seq_cl_sm", "S1"), ("", "seq_wait", "3"), ("", "move_sm", "R63"),
           ("", "nop", "")] :=
  ⟨((emit_bin_cast_protocol (demoEnv false [] 0) (demoCodegen 0 [])
        [.reference .breg 33, .reference .breg 36] 2).2.2 [33, 36] rfl (by decide)
        (List.Forall₂.cons ⟨⟨_, _, rfl⟩, 33, rfl, rfl⟩
          (List.Forall₂.cons ⟨⟨_, _, rfl⟩, 36, rfl, rfl⟩ List.Forall₂.nil))).2 (by decide),
   ((emit_bin_cast_protocol (demoEnv false [] 0) (demoCodegen 0 [])
        [.reference .breg 3, .reference .breg 36] 2).2.2 [3, 36] rfl (by decide)
        (List.Forall₂.cons ⟨⟨_, _, rfl⟩, 3, rfl, rfl⟩
          (List.Forall₂.cons ⟨⟨_, _, rfl⟩, 36, rfl, rfl⟩ List.Forall₂.nil))).1 (by decide),
   by decide, by decide⟩

/-- C27: the cast `int(...)` evaluated on functions that are lowered without it.
`R2 = R4 + R3` emits `add R4,R3,R2`, but `R2 = int(R4 + R3)` throws the internal error
"Expected integer operand" and emits nothing; `R0 == 5` emits `xor R0,5,R63`, `nop`,
`jge R63,1,@L_1`, but `int(R0 == 5)` throws the same error and emits nothing. Only the
functions that do not go through `emit_mnem2args` pass the cast: `int(R4 > R3)` emits
what `R4 > R3` emits. A cast of a reference is rejected. -/
theorem cast_emitted :
    listingOf (do_handle_expression (demoEnv false [] 0) (demoCodegen 0 [])
        (.function_call "operator+" [.reference .creg 4, .reference .creg 3])
        (some (.reference .creg 2)) "" "").st.codeSection
      = [("", "add", "R4,R3,R2")]
    ∧ (do_handle_expression (demoEnv false [] 0) (demoCodegen 0 [])
        (.function_call "int"
          [.function_call "operator+" [.reference .creg 4, .reference .creg 3]])
        (some (.reference .creg 2)) "" "").err?
      = some .expectedIntegerOperand
    ∧ (do_handle_expression (demoEnv false [] 0) (demoCodegen 0 [])
        (.function_call "int"
          [.function_call "operator+" [.reference .creg 4, .reference .creg 3]])
        (some (.reference .creg 2)) "" "").st.codeSection
      = []
    ∧ listingOf (do_handle_expression (demoEnv false [] 0) (demoCodegen 0 [])
        (.function_call "operator==" [.reference .creg 0, .int_literal 5])
        none "L_1" "").st.codeSection
      = [("", "xor", "R0,5,R63"), ("", "nop", ""), ("", "jge", "R63,1,@L_1")]
    ∧ (do_handle_expression (demoEnv false [] 0) (demoCodegen 0 [])
        (.function_call "int"
          [.function_call "operator==" [.reference .creg 0, .int_literal 5]])
        none "L_1" "").err?
      = some .expectedIntegerOperand
    ∧ (do_handle_expression (demoEnv false [] 0) (demoCodegen 0 [])
        (.function_call "int"
          [.function_call "operator==" [.reference .creg 0, .int_literal 5]])
        none "L_1" "").st.codeSection
      = []
    ∧ listingOf (do_handle_expression (demoEnv false [] 0) (demoCodegen 0 [])
        (.function_call "int"
          [.function_call "operator>" [.reference .creg 4, .reference .creg 3]])
        none "L_1" "").st.codeSection
      = listingOf (do_handle_expression (demoEnv false [] 0) (demoCodegen 0 [])
          (.function_call "operator>" [.reference .creg 4, .reference .creg 3])
          none "L_1" "").st.codeSection
    ∧ (do_handle_expression (demoEnv false [] 0) (demoCodegen 0 [])
        (.function_call "int" [.reference .creg 4]) (some (.reference .creg 2)) "" "").err?
      = some .castTarget
    ∧ (do_handle_expression (demoEnv false [] 0) (demoCodegen 0 [])
        (.function_call "int" [.reference .creg 4]) (some (.reference .creg 2)) "" "").st.codeSection
      = [] := by
  refine ⟨?_, ?_, ?_, ?_, ?_, ?_, ?_, ?_, ?_⟩ <;> decide

/-- C28: foreach lowering, for a loop variable `lhs` that is register `reg`.
`foreach_start(lhs, from, base)` emits `move <from>,R<reg>` and then the label
`<base>_start:`. `foreach_end(lhs, from, to, base)` emits `add R<reg>,1,R<reg>`, `nop`,
`jlt R<reg>,<to+1>,@<base>_start` when `to ≥ from`, emits `loop R<reg>,@<base>_start` when
`to < from` and `to = 0`, and emits `sub R<reg>,1,R<reg>`, `nop`,
`jge R<reg>,<to>,@<base>_start` otherwise, always followed by the label `<base>_end:`. Both
reject their bound (`from` for the start, `to` for the end) with an input error, emitting
nothing, when it is outside `0 ≤ value < 2^32 - 1`. -/
theorem foreach_lowering (env : Env D) (cg : Codegen D) (lhs : Expression) (base : String)
    (reg : Nat) (hreg : creg2reg env lhs = .ok reg) :
    (∀ frm : Int, 0 ≤ frm → frm < 2 ^ 32 - 1 → ∃ cmts, Comments env cmts
      ∧ foreach_start env cg lhs frm base
        = .ok () (withCode cg (cmts ++
            [.line (.text []) "move" [.int frm, .str ",", .str "R", .int reg] [],
             .short [.str (base ++ "_start" ++ ":")] ""])))
    ∧ (∀ frm toValue : Int, 0 ≤ toValue → toValue < 2 ^ 32 - 1 → ∃ cmts, Comments env cmts
      ∧ foreach_end env cg lhs frm toValue base
        = .ok () (withCode cg (cmts ++
            (if toValue ≥ frm then
              [.line (.text []) "add" [.str "R", .int reg, .str ",1,", .str "R", .int reg] [],
               .short [] "nop",
               .line (.text []) "jlt"
                 [.str "R", .int reg, .str ",", .int (toValue + 1), .str ",",
                  .str ("@" ++ (base ++ "_start"))] [.str "# loop"]]
            else if toValue = 0 then
              [.line (.text []) "loop"
                 [.str "R", .int reg, .str ",", .str ("@" ++ (base ++ "_start"))]
                 [.str "# loop"]]
            else
              [.line (.text []) "sub" [.str "R", .int reg, .str ",1,", .str "R", .int reg] [],
               .short [] "nop",
               .line (.text []) "jge"
                 [.str "R", .int reg, .str ",", .int toValue, .str ",",
                  .str ("@" ++ (base ++ "_start"))] [.str "# loop"]])
            ++ [.short [.str (base ++ "_end" ++ ":")] ""])))
    ∧ (∀ frm : Int, ¬ (0 ≤ frm ∧ frm < 2 ^ 32 - 1) →
        ∃ e, foreach_start env cg lhs frm base = .fail e cg ∧ e.kind = .input)
    ∧ (∀ frm toValue : Int, ¬ (0 ≤ toValue ∧ toValue < 2 ^ 32 - 1) →
        ∃ e, foreach_end env cg lhs frm toValue base = .fail e cg ∧ e.kind = .input) := by
  have hroom : ∀ v : Int, (0 ≤ v ∧ v < 2 ^ 32 - 1) ↔ (0 ≤ v ∧ v < 2 ^ 32 - 1 - 0) := by
    intro v
    constructor <;> rintro ⟨h1, h2⟩ <;> exact ⟨h1, by omega⟩
  refine ⟨fun frm h0 h1 => ?_, fun frm toValue h0 h1 => ?_, fun frm hn => ?_,
    fun frm toValue hn => ?_⟩
  · have hc : check_int_literal frm 0 0 = .ok () :=
      (check_int_literal_ok_iff frm 0 0).mpr ((hroom frm).mp ⟨h0, h1⟩)
    obtain ⟨cmts, hcm, he⟩ := comment_withCode env cg "# FOREACH_START: "
      [.str "from = ", .str (env.describe_expression (.int_literal frm)), .str ", label = '",
       .str base, .str "'"] (by decide)
    refine ⟨cmts, hcm, ?_⟩
    unfold foreach_start
    simp only [hc, he, withCode, hreg, emit4, emit2, List.append_assoc, List.cons_append,
      List.nil_append]
    rfl
  · have hc : check_int_literal toValue 0 0 = .ok () :=
      (check_int_literal_ok_iff toValue 0 0).mpr ((hroom toValue).mp ⟨h0, h1⟩)
    obtain ⟨cmts, hcm, he⟩ := comment_withCode env cg "# FOREACH_END: "
      [.str "from = ", .str (env.describe_expression (.int_literal frm)), .str ", to = ",
       .str (env.describe_expression (.int_literal toValue)), .str ", label = '",
       .str base, .str "'"] (by decide)
    refine ⟨cmts, hcm, ?_⟩
    unfold foreach_end
    simp only [hc, he, hreg]
    by_cases hge : toValue ≥ frm
    · simp only [hge, if_true, withCode, emit4, emit2, List.append_assoc, List.cons_append,
        List.nil_append]
      rfl
    · by_cases hz : toValue = 0
      · subst hz
        simp only [hge, if_true, if_false, withCode, emit4, emit2, List.append_assoc,
          List.cons_append, List.nil_append]
        rfl
      · simp only [hge, hz, if_false, withCode, emit4, emit2, List.append_assoc,
          List.cons_append, List.nil_append]
        rfl
  · obtain ⟨e, he, hk⟩ := check_int_literal_error frm 0 0 (fun h => hn ((hroom frm).mpr h))
    refine ⟨e, ?_, hk⟩
    unfold foreach_start
    rw [he]
  · obtain ⟨e, he, hk⟩ := check_int_literal_error toValue 0 0
      (fun h => hn ((hroom toValue).mpr h))
    refine ⟨e, ?_, hk⟩
    unfold foreach_end
    rw [he]

/-- C28, witness: `for i in 0..3` on register 1 with base `L` gives `move 0,R1`,
`L_start:`, the body, `add R1,1,R1`, `nop`, `jlt R1,4,@L_start`, `L_end:`; counting down
from 3 to 0 ends in `loop R1,@L_start` and from 3 to 1 in `sub R1,1,R1`, `nop`,
`jge R1,1,@L_start`; the bound `2^32 - 1` is rejected. -/
theorem foreach_lowering_witness :
    (∃ cmts, Comments (demoEnv false [] 0) cmts
      ∧ foreach_start (demoEnv false [] 0) (demoCodegen 0 []) (.reference .creg 1) 0 "L"
        = .ok () (withCode (demoCodegen 0 []) (cmts ++
            [.line (.text []) "move" [.int 0, .str ",", .str "R", .int (1 : Nat)] [],
             .short [.str ("L" ++ "_start" ++ ":")] ""])))
    ∧ listingOf
        ((foreach_start (demoEnv false [] 0) (demoCodegen 0 []) (.reference .creg 1) 0
            "L").andThen fun _ cg1 =>
          foreach_end (demoEnv false [] 0) (emit2 cg1 [] "body") (.reference .creg 1) 0 3
            "L").st.codeSection
      = [("", "move", "0,R1"), ("L_start:", "", ""), ("", "body", ""), ("", "add", "R1,1,R1"),
         ("", "nop", ""), ("", "jlt", "R1,4,@L_start"), ("L_end:", "", "")]
    ∧ listingOf (foreach_end (demoEnv false [] 0) (demoCodegen 0 []) (.reference .creg 1) 3 0
          "L").st.codeSection
      = [("", "loop", "R1,@L_start"), ("L_end:", "", "")]
    ∧ listingOf (foreach_end (demoEnv false [] 0) (demoCodegen 0 []) (.reference .creg 1) 3 1
          "L").st.codeSection
      = [("", "sub", "R1,1,R1"), ("", "nop", ""), ("", "jge", "R1,1,@L_start"),
         ("L_end:", "", "")]
    ∧ (foreach_end (demoEnv false [] 0) (demoCodegen 0 []) (.reference .creg 1) 0 4294967295
          "L").err? = some .literalTooLarge :=
  ⟨(foreach_lowering (demoEnv false [] 0) (demoCodegen 0 []) (.reference .creg 1) "L" 1
      rfl).1 0 (by decide) (by decide),
   by decide, by decide, by decide, by decide⟩

/-- C29, amended: for/while lowering. With an initializer, `for_start` emits in this order
the lowering of the initializer, a `nop`, the label `<base>_start:`, and the condition
lowered in predicate mode with `label_if_false = <base>_end`; without an initializer (a
`while` loop) it emits the label `<base>_start:` and the condition, and no `nop`.
`for_end` emits the lowering of the update (when present), `jmp @<base>_start`, and the
label `<base>_end:`. A lowering that throws ends the call. -/
theorem for_lowering (env : Env D) (cg : Codegen D) (condition : Expression) (base : String) :
    (∀ set : SetInstruction, ∃ cmts, Comments env cmts
      ∧ for_start env cg (some set) condition base
        = (do_handle_expression env (withCode cg cmts) set.rhs (some set.lhs) ""
            "for.initialize").andThen fun _ cg2 =>
          do_handle_expression env
            (withCode cg2 [.short [] "nop", .short [.str (base ++ "_start" ++ ":")] ""])
            condition none (base ++ "_end") "for/while.condition")
    ∧ (∃ cmts, Comments env cmts
      ∧ for_start env cg none condition base
        = do_handle_expression env
            (withCode cg (cmts ++ [.short [.str (base ++ "_start" ++ ":")] ""]))
            condition none (base ++ "_end") "for/while.condition")
    ∧ (∀ set : SetInstruction, ∃ cmts, Comments env cmts
      ∧ for_end env cg (some set) base
        = (do_handle_expression env (withCode cg cmts) set.rhs (some set.lhs) ""
            "for.update").andThen fun _ cg2 =>
          .ok () (withCode cg2
            [.line (.text []) "jmp" [.str ("@" ++ (base ++ "_start"))] [.str "# loop"],
             .short [.str (base ++ "_end" ++ ":")] ""]))
    ∧ (∃ cmts, Comments env cmts
      ∧ for_end env cg none base
        = .ok () (withCode cg (cmts ++
            [.line (.text []) "jmp" [.str ("@" ++ (base ++ "_start"))] [.str "# loop"],
             .short [.str (base ++ "_end" ++ ":")] ""]))) := by
  refine ⟨fun set => ?_, ?_, fun set => ?_, ?_⟩
  · obtain ⟨cmts, hc, he⟩ := comment_withCode env cg "# LOOP_START: "
      ([.str "initialize = '", .str (env.describe_set_instruction set), .str "', "]
        ++ [.str "condition = '", .str (env.describe_expression condition), .str "'"])
      (by decide)
    refine ⟨cmts, hc, ?_⟩
    unfold for_start handle_set_instruction handle_expression
    simp only [List.cons_append, List.nil_append] at he ⊢
    rw [he]
    cases do_handle_expression env (withCode cg cmts) set.rhs (some set.lhs) ""
      "for.initialize" with
    | fail e st => rfl
    | ok v st =>
      simp only [Res.andThen, emit2_eq_withCode, withCode_withCode, List.cons_append,
        List.nil_append]
      rfl
  · obtain ⟨cmts, hc, he⟩ := comment_withCode env cg "# LOOP_START: "
      ([.str ""]
        ++ [.str "condition = '", .str (env.describe_expression condition), .str "'"])
      (by decide)
    refine ⟨cmts, hc, ?_⟩
    unfold for_start handle_expression
    simp only [List.cons_append, List.nil_append] at he ⊢
    rw [he]
    simp only [Res.andThen, emit2_eq_withCode, withCode_withCode]
    rfl
  · obtain ⟨cmts, hc, he⟩ := comment_withCode env cg "# LOOP_END: "
      [.str " update = '", .str (env.describe_set_instruction set), .str "'"] (by decide)
    refine ⟨cmts, hc, ?_⟩
    unfold for_end handle_set_instruction
    simp only [List.cons_append, List.nil_append] at he ⊢
    rw [he]
    cases do_handle_expression env (withCode cg cmts) set.rhs (some set.lhs) ""
      "for.update" with
    | fail e st => rfl
    | ok v st =>
      simp only [Res.andThen, emit2_eq_withCode, emit4_eq_withCode, withCode_withCode,
        List.cons_append, List.nil_append]
      rfl
  · obtain ⟨cmts, hc, he⟩ := comment_withCode env cg "# LOOP_END: " [.str ""] (by decide)
    refine ⟨cmts, hc, ?_⟩
    unfold for_end
    simp only [List.cons_append, List.nil_append] at he ⊢
    rw [he]
    simp only [Res.andThen, emit2_eq_withCode, emit4_eq_withCode, withCode_withCode,
      List.cons_append, List.nil_append, List.append_assoc]
    rfl

/-- C29, witness: `for (R1 = 0; R1 != 5; R1 = R1 + 1)` with base `L` gives `move 0,R1`,
`nop`, `L_start:`, `xor R1,5,R63`, `nop`, `jlt R63,1,@L_end`, the body, `add R1,1,R1`,
`jmp @L_start`, `L_end:`. -/
theorem for_lowering_witness :
    (∃ cmts, Comments (demoEnv false [] 0) cmts
      ∧ for_end (demoEnv false [] 0) (demoCodegen 0 []) none "L"
        = .ok () (withCode (demoCodegen 0 []) (cmts ++
            [.line (.text []) "jmp" [.str ("@" ++ ("L" ++ "_start"))] [.str "# loop"],
             .short [.str ("L" ++ "_end" ++ ":")] ""])))
    ∧ listingOf
        ((for_start (demoEnv false [] 0) (demoCodegen 0 [])
            (some ⟨.reference .creg 1, .int_literal 0⟩)
            (.function_call "operator!=" [.reference .creg 1, .int_literal 5])
            "L").andThen fun _ cg1 =>
          for_end (demoEnv false [] 0) (emit2 cg1 [] "body")
            (some ⟨.reference .creg 1,
              .function_call "operator+" [.reference .creg 1, .int_literal 1]⟩)
            "L").st.codeSection
      = [("", "move", "0,R1"), ("", "nop", ""), ("L_start:", "", ""), ("", "xor", "R1,5,R63"),
         ("", "nop", ""), ("", "jlt", "R63,1,@L_end"), ("", "body", ""),
         ("", "add", "R1,1,R1"), ("", "jmp", "@L_start"), ("L_end:", "", "")] :=
  ⟨(for_lowering (demoEnv false [] 0) (demoCodegen 0 []) (.bit_literal true) "L").2.2.2,
   by decide⟩

/-- C29, counterexample: without an initializer, `while (R1 != 5)` with base `L`, the
call `for_start` returns and emits `L_start:`, `xor R1,5,R63`, `nop`, `jlt R63,1,@L_end`:
no `nop` stands before the label. -/
theorem for_lowering_counterexample :
    (for_start (demoEnv false [] 0) (demoCodegen 0 []) none
        (.function_call "operator!=" [.reference .creg 1, .int_literal 5]) "L").err? = none
    ∧ listingOf (for_start (demoEnv false [] 0) (demoCodegen 0 []) none
        (.function_call "operator!=" [.reference .creg 1, .int_literal 5])
        "L").st.codeSection
      = [("L_start:", "", ""), ("", "xor", "R1,5,R63"), ("", "nop", ""),
         ("", "jlt", "R63,1,@L_end")] := by
  constructor <;> decide

/-- C30: the labels of `if (R0 == 7) A();`, an `if` with one branch and no otherwise part,
lowered with label base `L` through `if_elif(0)` and `if_end`. Both calls return and the
code is `xor R0,7,R63`; `nop`; `jge R63,1,@L_1`; body A; `L_end:`. The condition refers to
`L_1`, and the only label that is defined is `L_end`: `L_1` is defined nowhere. With an
otherwise part (`if (R0 < 5) A(); elif (R0 == 7) B(); else C();`) the labels referenced
are `L_1`, `L_end`, `L_2` and each is defined once. -/
theorem if_labels_emitted :
    (demoIf (demoEnv false [] 0)).err? = none
    ∧ listingOf (demoIf (demoEnv false [] 0)).st.codeSection
      = [("", "xor", "R0,7,R63"), ("", "nop", ""), ("", "jge", "R63,1,@L_1"), ("", "A", ""),
         ("L_end:", "", "")]
    ∧ jumpTargets (demoIf (demoEnv false [] 0)).st.codeSection = ["L_1"]
    ∧ definedLabels (demoIf (demoEnv false [] 0)).st.codeSection = ["L_end"]
    ∧ jumpTargets (demoIfElifElse (demoEnv false [] 0)).st.codeSection
      = ["L_1", "L_end", "L_2"]
    ∧ definedLabels (demoIfElifElse (demoEnv false [] 0)).st.codeSection
      = ["L_1", "L_2", "L_end"] := by
  refine ⟨?_, ?_, ?_, ?_, ?_, ?_⟩ <;> decide

/-- C31: the write hazards of a foreach loop with an empty body. For `for R1 in 0..3`
with base `L`, `foreach_start` directly followed by `foreach_end` emits `move 0,R1`,
`L_start:`, `add R1,1,R1`, `nop`, `jlt R1,4,@L_start`, `L_end:`: the `add` reads `R1`
right after the `move` has written it, with only the label between them. Counting down
from 3 to 0 the `loop R1,@L_start` reads `R1` right after `move 3,R1`. With a body of one
instruction between the two calls there is no hazard, and the expression lowering puts a
`nop` after each write that the next instruction reads. -/
theorem foreach_hazard_emitted :
    listingOf
        ((foreach_start (demoEnv false [] 0) (demoCodegen 0 []) (.reference .creg 1) 0
            "L").andThen fun _ cg1 =>
          foreach_end (demoEnv false [] 0) cg1 (.reference .creg 1) 0 3 "L").st.codeSection
      = [("", "move", "0,R1"), ("L_start:", "", ""), ("", "add", "R1,1,R1"), ("", "nop", ""),
         ("", "jlt", "R1,4,@L_start"), ("L_end:", "", "")]
    ∧ hazards
        ((foreach_start (demoEnv false [] 0) (demoCodegen 0 []) (.reference .creg 1) 0
            "L").andThen fun _ cg1 =>
          foreach_end (demoEnv false [] 0) cg1 (.reference .creg 1) 0 3 "L").st.codeSection
      = [(("move", "0,R1"), ("add", "R1,1,R1"))]
    ∧ hazards
        ((foreach_start (demoEnv false [] 0) (demoCodegen 0 []) (.reference .creg 1) 3
            "L").andThen fun _ cg1 =>
          foreach_end (demoEnv false [] 0) cg1 (.reference .creg 1) 3 0 "L").st.codeSection
      = [(("move", "3,R1"), ("loop", "R1,@L_start"))]
    ∧ hazards
        ((foreach_start (demoEnv false [] 0) (demoCodegen 0 []) (.reference .creg 1) 0
            "L").andThen fun _ cg1 =>
          foreach_end (demoEnv false [] 0) (emit2 cg1 [] "body") (.reference .creg 1) 0 3
            "L").st.codeSection
      = []
    ∧ hazards (do_handle_expression (demoEnv false [] 0) (demoCodegen 0 [])
        (.function_call "operator==" [.reference .creg 0, .int_literal 5])
        none "L_1" "").st.codeSection
      = []
    ∧ hazards (do_handle_expression (demoEnv false [] 0) (demoCodegen 0 [])
        (.function_call "operator!" [.reference .breg 33]) none "L_1" "").st.codeSection
      = [] := by
  refine ⟨?_, ?_, ?_, ?_, ?_, ?_⟩ <;> decide

/-- C32, amended: program framing. `emitProgramStart` emits, in this order, the five
header comments, `.CODE`, `seq_bar`, the dummy `seq_out 0x00000000,1`, the label
`__mainLoop:` if and only if `run_once` is not set, and `seq_state 0`;
`emitProgramFinish` emits `stop` when `run_once` is set and otherwise `seq_wait 1`
followed by `jmp @__mainLoop`, and in both cases ends with `.END`; comments stand between
these lines only with the option `verbose`. Hence, for a program with the lines `body`
between the two calls, the framing refers to `__mainLoop` once and defines it once when
`run_once` is not set, and neither refers to it nor defines it when `run_once` is set. -/
theorem program_framing (env : Env D) (cg : Codegen D) (progName : String) :
    (∃ cmts1 cmts2, Comments env cmts1 ∧ Comments env cmts2
      ∧ emitProgramStart env cg progName
        = withCode cg (programHeader env progName
            ++ [.short [.str ".CODE"] ""] ++ cmts1
            ++ [.line (.text []) "seq_bar" []
                  [.str "# synchronization, delay set externally through SET_SEQ_BAR_CNT"],
                .line (.text []) "seq_out" [.str "0x00000000,1"]
                  [.str "# allows monitoring actual start time using trace unit"]]
            ++ (if env.run_once = true then []
                else cmts2 ++ [.line (.text [.str "__mainLoop:"]) "" [] [.str "# "]])
            ++ [.line (.text []) "seq_state" [.str "0"]
                  [.str "# clear Programmable Logic state"]]))
    ∧ (∃ cmts, Comments env cmts
      ∧ emitProgramFinish env cg
        = withCode cg (cmts
            ++ (if env.run_once = true then [.short [] "stop"]
                else [.line (.text []) "seq_wait" [.str "1"] [],
                      .line (.text []) "jmp" [.str "@__mainLoop"]
                        [.str "# loop indefinitely"]])
            ++ [.short [.str ".END"] ""]))
    ∧ (∀ l ∈ programHeader env progName, l.isComment = true)
    ∧ (∀ body : List CodeLine,
        jumpTargets
            (emitProgramFinish env
              (withCode (emitProgramStart env cg progName) body)).codeSection
          = jumpTargets cg.codeSection ++ jumpTargets body
              ++ (if env.run_once = true then [] else ["__mainLoop"])
        ∧ definedLabels
            (emitProgramFinish env
              (withCode (emitProgramStart env cg progName) body)).codeSection
          = definedLabels cg.codeSection
              ++ (if env.run_once = true then [] else ["__mainLoop"])
              ++ definedLabels body) := by
  have hhead : ∀ l ∈ programHeader env progName, l.isComment = true := by
    intro l hl
    simp only [programHeader, List.mem_cons, List.mem_singleton, List.not_mem_nil,
      or_false] at hl
    rcases hl with e | e | e | e | e <;> rw [e] <;> rfl
  refine ⟨emitProgramStart_eq env cg progName, emitProgramFinish_eq env cg, hhead,
    fun body => ?_⟩
  obtain ⟨c1, c2, hc1, hc2, hs⟩ := emitProgramStart_eq env cg progName
  obtain ⟨c3, hc3, hf⟩ :=
    emitProgramFinish_eq env (withCode (emitProgramStart env cg progName) body)
  have hjH : jumpTargets (programHeader env progName) = [] := by
    simp [programHeader, jumpTargets, CodeLine.mnemonic, jumpMnemonics]
  have hdH : definedLabels (programHeader env progName) = [] := by
    simp [programHeader, definedLabels, CodeLine.isComment]
  have j1 : jumpTargets [CodeLine.short [.str ".CODE"] ""] = [] := by decide
  have j2 : jumpTargets
      [CodeLine.line (.text []) "seq_bar" []
          [.str "# synchronization, delay set externally through SET_SEQ_BAR_CNT"],
        CodeLine.line (.text []) "seq_out" [.str "0x00000000,1"]
          [.str "# allows monitoring actual start time using trace unit"]] = [] := by decide
  have j3 : jumpTargets
      [CodeLine.line (.text []) "seq_state" [.str "0"]
        [.str "# clear Programmable Logic state"]] = [] := by decide
  have j4 : jumpTargets [CodeLine.short [] "stop"] = [] := by decide
  have j5 : jumpTargets [CodeLine.short [.str ".END"] ""] = [] := by decide
  have j6 : jumpTargets [CodeLine.line (.text [.str "__mainLoop:"]) "" [] [.str "# "]] = [] := by
    decide
  have j7 : jumpTargets
      [CodeLine.line (.text []) "seq_wait" [.str "1"] [],
        CodeLine.line (.text []) "jmp" [.str "@__mainLoop"] [.str "# loop indefinitely"]]
      = ["__mainLoop"] := by decide
  have j8 : jumpTargets ([] : List CodeLine) = [] := rfl
  have d1 : definedLabels [CodeLine.short [.str ".CODE"] ""] = [] := by decide
  have d2 : definedLabels
      [CodeLine.line (.text []) "seq_bar" []
          [.str "# synchronization, delay set externally through SET_SEQ_BAR_CNT"],
        CodeLine.line (.text []) "seq_out" [.str "0x00000000,1"]
          [.str "# allows monitoring actual start time using trace unit"]] = [] := by decide
  have d3 : definedLabels
      [CodeLine.line (.text []) "seq_state" [.str "0"]
        [.str "# clear Programmable Logic state"]] = [] := by decide
  have d4 : definedLabels [CodeLine.short [] "stop"] = [] := by decide
  have d5 : definedLabels [CodeLine.short [.str ".END"] ""] = [] := by decide
  have d6 : definedLabels [CodeLine.line (.text [.str "__mainLoop:"]) "" [] [.str "# "]]
      = ["__mainLoop"] := by decide
  have d7 : definedLabels
      [CodeLine.line (.text []) "seq_wait" [.str "1"] [],
        CodeLine.line (.text []) "jmp" [.str "@__mainLoop"] [.str "# loop indefinitely"]]
      = [] := by decide
  have d8 : definedLabels ([] : List CodeLine) = [] := rfl
  rw [hf, hs]
  simp only [withCode, List.append_assoc]
  constructor
  · simp only [jumpTargets_append, jumpTargets_comments hc1, jumpTargets_comments hc2,
      jumpTargets_comments hc3, hjH, List.nil_append, List.append_nil]
    by_cases hr : env.run_once = true
    · simp only [hr, if_true, j1, j2, j3, j4, j5, j8, List.nil_append, List.append_nil]
    · simp only [hr, Bool.false_eq_true, if_false, jumpTargets_append,
        jumpTargets_comments hc2, j1, j2, j3, j5, j6, j7, List.nil_append, List.append_nil]
  · simp only [definedLabels_append, definedLabels_comments hc1, definedLabels_comments hc2,
      definedLabels_comments hc3, hdH, List.nil_append, List.append_nil]
    by_cases hr : env.run_once = true
    · simp only [hr, if_true, d1, d2, d3, d4, d5, d8, List.nil_append, List.append_nil]
    · simp only [hr, Bool.false_eq_true, if_false, definedLabels_append,
        definedLabels_comments hc2, d1, d2, d3, d5, d6, d7, List.nil_append, List.append_nil,
        List.append_assoc]

/-- C32, witness: a program "p" with one body line, in the continuous mode and with
`run_once`. -/
theorem program_framing_witness :
    (∃ cmts, Comments (demoEnv false [] 0) cmts
      ∧ emitProgramFinish (demoEnv false [] 0) (demoCodegen 0 [])
        = withCode (demoCodegen 0 []) (cmts
            ++ (if (demoEnv false [] 0).run_once = true then [.short [] "stop"]
                else [.line (.text []) "seq_wait" [.str "1"] [],
                      .line (.text []) "jmp" [.str "@__mainLoop"]
                        [.str "# loop indefinitely"]])
            ++ [.short [.str ".END"] ""]))
    ∧ listingOf
        (emitProgramFinish (demoEnv false [] 0)
          (emit2 (emitProgramStart (demoEnv false [] 0) (demoCodegen 0 []) "p") []
            "body")).codeSection
      = [(".CODE", "", ""), ("", "seq_bar", ""), ("", "seq_out", "0x00000000,1"),
         ("__mainLoop:", "", ""), ("", "seq_state", "0"), ("", "body", ""),
         ("", "seq_wait", "1"), ("", "jmp", "@__mainLoop"), (".END", "", "")]
    ∧ listingOf
        (emitProgramFinish { demoEnv false [] 0 with run_once := true }
          (emit2 (emitProgramStart { demoEnv false [] 0 with run_once := true }
            (demoCodegen 0 []) "p") [] "body")).codeSection
      = [(".CODE", "", ""), ("", "seq_bar", ""), ("", "seq_out", "0x00000000,1"),
         ("", "seq_state", "0"), ("", "body", ""), ("", "stop", ""), (".END", "", "")]
    ∧ ((emitProgramStart (demoEnv true [] 0) (demoCodegen 0 []) "p").codeSection.map
        CodeLine.render).take 7
      = ["# Program: 'p'\n", "# CC_BACKEND_VERSION \n", "# OPENQL_VERSION \n",
         "# Note:    generated by OpenQL Central Controller backend\n", "#\n",
         ".CODE                           \n",
         "# synchronous start and latency compensation\n"] :=
  ⟨(program_framing (demoEnv false [] 0) (demoCodegen 0 []) "p").2.1,
   by decide, by decide, by decide⟩

/-- C32, counterexample: the dummy output that `emitProgramStart` emits is
`seq_out 0x00000000,1`, the digital word written with 8 digits; no line of the program
start is `seq_out 0x0,1`. -/
theorem program_framing_counterexample :
    ("", "seq_out", "0x0,1")
        ∉ listingOf (emitProgramStart (demoEnv false [] 0) (demoCodegen 0 []) "p").codeSection
    ∧ ("", "seq_out", "0x00000000,1")
        ∈ listingOf (emitProgramStart (demoEnv false [] 0) (demoCodegen 0 []) "p").codeSection := by
  constructor <;> decide

/-- C35: what `run_on_block` leaves of literal conditions. On the block
`if (true) { } if (false) { a; }` it removes the first `if_else` and steps over the
second, which keeps its branch with the condition `false`. On
`if (b0) { } elif (true) { } elif (b1) { a; } elif (false) { b; } else { c; }` it removes
the otherwise block and, of the two branches behind the branch with the condition `true`,
only the first: the branch with the condition `false` stays, behind the one with the
condition `true`. A block that starts with such an `if_else` is cleaned:
`if (false) { a; } elif (b0) { b; } else { c; }` becomes `if (b0) { b; } else { c; }`. -/
theorem run_on_block_literals_emitted :
    describeBlock
        (run_on_block
          [.if_else [(.bit_literal true, [])] none,
           .if_else [(.bit_literal false, [.other "a"])] none])
      = " if (false) \x7b a; \x7d"
    ∧ describeBlock
        [.if_else
          [(.reference .breg 0, []), (.bit_literal true, []),
           (.reference .breg 1, [.other "a"]), (.bit_literal false, [.other "b"])]
          (some [.other "c"])]
      = " if (b0) \x7b \x7d elif (true) \x7b \x7d elif (b1) \x7b a; \x7d elif (false) \x7b b; \x7d else \x7b c; \x7d"
    ∧ describeBlock
        (run_on_block
          [.if_else
            [(.reference .breg 0, []), (.bit_literal true, []),
             (.reference .breg 1, [.other "a"]), (.bit_literal false, [.other "b"])]
            (some [.other "c"])])
      = " if (b0) \x7b \x7d elif (true) \x7b \x7d elif (false) \x7b b; \x7d"
    ∧ describeBlock
        (run_on_block
          [.if_else [(.bit_literal false, [.other "a"]), (.reference .breg 0, [.other "b"])]
            (some [.other "c"])])
      = " if (b0) \x7b b; \x7d else \x7b c; \x7d" := by
  refine ⟨?_, ?_, ?_, ?_⟩ <;> decide

/-- C36: what `if_otherwise` emits. For every state, base and branch count the call adds
no instruction to the code section, only its comment and the label: no `jmp @<base>_end`
closes the last conditional branch. After body B of the chain
`if (R0 < 5) A(); elif (R0 == 7) B(); else C();` the call emits `L_2:` alone, so body B
is directly followed by `L_2:` and body C. -/
theorem if_otherwise_emitted :
    (∀ (env : Env Unit) (cg : Codegen Unit) (base : String) (n : Int),
      instructionsOf (if_otherwise env cg base n).codeSection = instructionsOf cg.codeSection)
    ∧ listingOf (if_otherwise (demoEnv false [] 0) (emit2 (demoCodegen 0 []) [] "B") "L"
        2).codeSection
      = [("", "B", ""), ("L_2:", "", "")]
    ∧ (listingOf (demoIfElifElse (demoEnv false [] 0)).st.codeSection).drop 7
      = [("", "B", ""), ("L_2:", "", ""), ("", "C", ""), ("L_end:", "", "")] := by
  refine ⟨fun env cg base n => ?_, by decide, by decide⟩
  unfold if_otherwise comment
  by_cases hv : env.verbose = true
  · simp [hv, emit2, instructionsOf, List.filter_append, CodeLine.mnemonic]
  · simp [hv, emit2, instructionsOf, List.filter_append, CodeLine.mnemonic]

/-- C37: the control mode group of `calcGroupDigOut` is always in range. `bundleStart`
gives every instrument a row of `controlModeGroupCnt` cells, and `custom_instruction`
keeps the rows as long as they are, whether it returns or throws. On such a matrix every
group `group < nrGroups` that `collectCodeGenInfo` visits has
`1 ≤ controlModeGroupCnt` and `group < controlModeGroupCnt`, the control mode group that
is selected lies below `controlModeGroupCnt`, and `calcGroupDigOut` raises neither
"'control_bits' not defined or empty" nor "uses N groups, but control mode only defines M
groups"; `bundleFinish` as a whole ends in neither of these two exceptions. -/
theorem calcGroupDigOut_group_in_range (env : Env D) :
    (∀ (cg : Codegen D) cmnt, BundleShape env (bundleStart env cg cmnt).bundleInfo)
    ∧ (∀ (cg : Codegen D) custom, BundleShape env cg.bundleInfo →
        BundleShape env (custom_instruction env cg custom).st.bundleInfo)
    ∧ (∀ (cg : Codegen D) instrIdx ic row group, BundleShape env cg.bundleInfo →
        env.instruments.get? instrIdx = some ic → cg.bundleInfo.get? instrIdx = some row →
        group < row.length →
        1 ≤ ic.controlModeGroupCnt ∧ group < ic.controlModeGroupCnt
        ∧ (∃ controlModeGroup,
            selectControlModeGroup env.OPT_VECTOR_MODE group ic = .ok controlModeGroup
            ∧ controlModeGroup < ic.controlModeGroupCnt)
        ∧ ∀ staticCodewordOverride e,
            calcGroupDigOut env.OPT_VECTOR_MODE instrIdx group row.length ic
              staticCodewordOverride = .error e →
            NoGroupError e)
    ∧ (∀ (cg : Codegen D) startCycle durationInCycles isLastBundle,
        BundleShape env cg.bundleInfo →
        FailsOnlyWith NoGroupError
          (bundleFinish env cg startCycle durationInCycles isLastBundle)) := by
  refine ⟨fun cg cmnt => bundleShape_bundleStart env cg cmnt,
    fun cg custom h => bundleShape_custom_instruction env cg custom h,
    fun cg instrIdx ic row group h hic hrow hg => ?_,
    fun cg startCycle dur isLast h => failsOnlyWith_bundleFinish cg startCycle dur isLast h⟩
  have hlt : group < ic.controlModeGroupCnt := by
    rw [← h instrIdx ic row hic hrow]
    exact hg
  exact ⟨by omega, hlt, selectControlModeGroup_in_range _ hlt,
    fun override e he => calcGroupDigOut_noGroupError _ _ _ override hlt he⟩

/-- C37, witness: the bundle of the gate "w" on qubit 0, built by `bundleStart` and
`custom_instruction` for the instruments "X" and "Y", is finished without either
exception. On a matrix that gives "X", whose control mode has one group, two cells,
`bundleFinish` ends in "uses N groups, but control mode only defines M groups". -/
theorem calcGroupDigOut_group_in_range_witness :
    FailsOnlyWith NoGroupError
      (bundleFinish (demoEnv false demoInstruments 0)
        (custom_instruction (demoEnv false demoInstruments 0)
          (bundleStart (demoEnv false demoInstruments 0) (demoCodegen 0 []) [])
          (demoGate "w" 0 2)).st
        0 2 false)
    ∧ (bundleFinish (demoEnv false demoInstruments 0)
        (custom_instruction (demoEnv false demoInstruments 0)
          (bundleStart (demoEnv false demoInstruments 0) (demoCodegen 0 []) [])
          (demoGate "w" 0 2)).st
        0 2 false).err? = none
    ∧ (bundleFinish (demoEnv false demoInstruments 0)
        (demoCodegen 0 [[{}, { signalValue := "w", durationInCycles := 2 }], [{}, {}]])
        0 2 false).err? = some .groupNotInControlMode :=
  ⟨(calcGroupDigOut_group_in_range (demoEnv false demoInstruments 0)).2.2.2 _ 0 2 false
      ((calcGroupDigOut_group_in_range (demoEnv false demoInstruments 0)).2.1 _ _
        ((calcGroupDigOut_group_in_range (demoEnv false demoInstruments 0)).1 _ _)),
   by decide, by decide⟩

/-- C38: the operand strings of the conditional jumps emitted in predicate mode, split at
the commas. `5 > R0`, the relation `operator>` with a literal as left operand, lowers to
`jlt R04,@L_1`: two fields, `R04` and `@L_1`, the register and the literal minus 1 being
streamed without a comma between them. The other relations and profiles give three
fields: `R0 > 5` gives `R0`, `6`, `@L_1`; `R0 > R1` gives `R0`, `R63`, `@L_1`; `5 < R0`
gives `R0`, `5`, `@L_1`; `R0 == 5` gives `R63`, `1`, `@L_1`. -/
theorem conditional_jump_fields :
    jumpFields (do_handle_expression (demoEnv false [] 0) (demoCodegen 0 [])
        (.function_call "operator>" [.int_literal 5, .reference .creg 0])
        none "L_1" "").st.codeSection
      = [["R04", "@L_1"]]
    ∧ (do_handle_expression (demoEnv false [] 0) (demoCodegen 0 [])
        (.function_call "operator>" [.int_literal 5, .reference .creg 0])
        none "L_1" "").err? = none
    ∧ jumpFields (do_handle_expression (demoEnv false [] 0) (demoCodegen 0 [])
        (.function_call "operator>" [.reference .creg 0, .int_literal 5])
        none "L_1" "").st.codeSection
      = [["R0", "6", "@L_1"]]
    ∧ jumpFields (do_handle_expression (demoEnv false [] 0) (demoCodegen 0 [])
        (.function_call "operator>" [.reference .creg 0, .reference .creg 1])
        none "L_1" "").st.codeSection
      = [["R0", "R63", "@L_1"]]
    ∧ jumpFields (do_handle_expression (demoEnv false [] 0) (demoCodegen 0 [])
        (.function_call "operator<" [.int_literal 5, .reference .creg 0])
        none "L_1" "").st.codeSection
      = [["R0", "5", "@L_1"]]
    ∧ jumpFields (do_handle_expression (demoEnv false [] 0) (demoCodegen 0 [])
        (.function_call "operator==" [.reference .creg 0, .int_literal 5])
        none "L_1" "").st.codeSection
      = [["R63", "1", "@L_1"]] := by
  refine ⟨?_, ?_, ?_, ?_, ?_, ?_⟩ <;> decide

/-- C39 (amended): a last bundle with feedback cannot be finished when an output lasts as
long as the bundle, as long as no cycle count wraps. Let `collectCodeGenInfo` return
`codeGenMap` for a bundle with feedback, and let some instrument have an output with
`instrMaxDurationInCycles ≥ durationInCycles`, the two less than `2^63` cycles apart, and
`startCycle + instrMaxDurationInCycles + 1` below `2^64`. Then `bundleFinish` with
`isLastBundle` set does not return; and once the instruments before that one have gone
through, it throws in the iteration of that instrument: the time travel error of the
final `emitPadToCycle`, the cursor standing at `startCycle + instrMaxDurationInCycles + 1`
after the feedback instruction, unless a call of the Datapath throws before. -/
theorem last_bundle_feedback_overrun (env : Env D) (cg cgA : Codegen D)
    (startCycle durationInCycles : Nat) (codeGenMap : CodeGenMap) (instrIdx : Nat)
    (info : CodeGenInfo)
    (hcollect : collectCodeGenInfo env cg startCycle durationInCycles = .ok codeGenMap cgA)
    (hfb : bundleHasFeedback codeGenMap = true)
    (hinfo : codeGenMap.get? instrIdx = some info)
    (hout : info.instrHasOutput = true)
    (hdur : durationInCycles ≤ info.instrMaxDurationInCycles)
    (hend : startCycle + info.instrMaxDurationInCycles + 1 < 2 ^ 64)
    (hfar : info.instrMaxDurationInCycles - durationInCycles < 2 ^ 63) :
    (bundleFinish env cg startCycle durationInCycles true).err? ≠ none
    ∧ (∀ cgB,
        forEach (bundleFinishInstr env codeGenMap startCycle durationInCycles true)
          (List.range instrIdx) cgA = .ok () cgB →
        ∃ e, (bundleFinish env cg startCycle durationInCycles true).err? = some e
          ∧ (e = .timeTravel ∨ ∃ x, e = .external x))
    ∧ (∀ cgC cgD,
        emitOutput env cgC info.condGateMap info.digOut info.instrMaxDurationInCycles instrIdx
          startCycle info.slot info.instrumentName = .ok () cgD →
        ∀ cgE,
        emitFeedback env cgD info.feedbackMap instrIdx startCycle info.slot
          info.instrumentName = .ok () cgE →
        cgE.lastEndCycle instrIdx = startCycle + info.instrMaxDurationInCycles + 1
        ∧ emitPadToCycle cgE instrIdx (uintAdd startCycle durationInCycles) info.slot
            info.instrumentName = .fail .timeTravel cgE) := by
  have hi : instrIdx < env.instruments.length := by
    rw [← (collectCodeGenInfo_ok hcollect).2.1]
    exact (List.get?_eq_some.mp hinfo).1
  refine ⟨fun hnone => ?_, fun cgB hpre => ?_, fun cgC cgD hO cgE hF => ?_⟩
  · have hok := Res.eq_ok_of_err?_none hnone
    unfold bundleFinish at hok
    rw [hcollect] at hok
    simp only [Res.andThen] at hok
    cases hloop : forEach (bundleFinishInstr env codeGenMap startCycle durationInCycles true)
        (List.range env.instruments.length) cgA with
    | fail e s =>
      rw [hloop] at hok
      exact Res.noConfusion hok
    | ok u cgZ =>
      obtain ⟨st0, st2, _, hb⟩ := forEach_range_ok_at _ _ _ _ hloop instrIdx hi
      obtain ⟨e, cg1, hfail, _⟩ :=
        @bundleFinishInstr_overrun _ env codeGenMap startCycle durationInCycles st0 instrIdx
          info hinfo hout hfb hdur hend hfar
      rw [hfail] at hb
      exact Res.noConfusion hb
  · obtain ⟨e, cg1, hfail, hclass⟩ :=
      @bundleFinishInstr_overrun _ env codeGenMap startCycle durationInCycles cgB instrIdx
        info hinfo hout hfb hdur hend hfar
    have hloop := (forEach_range_fail
      (bundleFinishInstr env codeGenMap startCycle durationInCycles true)
      env.instruments.length cgA e cg1).mpr ⟨instrIdx, cgB, hi, hpre, hfail⟩
    refine ⟨e, ?_, hclass⟩
    unfold bundleFinish
    rw [hcollect]
    simp only [Res.andThen]
    rw [hloop]
    rfl
  · obtain ⟨_, _, _, hcurA, _⟩ := emitOutput_shape hO
    obtain ⟨_, _, _, hcurB⟩ := emitFeedback_shape hF
    have hcur : cgE.lastEndCycle instrIdx = startCycle + info.instrMaxDurationInCycles + 1 := by
      rw [hcurB, hcurA]
      unfold uintAdd
      omega
    refine ⟨hcur, ?_⟩
    rw [emitPadToCycle_eq, if_pos (by rw [hcur]; unfold uintSub uintAdd; omega)]

/-- C39, witness: "X" measures with feedback for 4 cycles. As the last bundle, of 4
cycles, starting at cycle 0, `bundleFinish` fails with the time travel error; with a
bundle duration of 5 cycles it returns. -/
theorem last_bundle_feedback_overrun_witness :
    (bundleFinish (demoEnv false demoInstruments 0) (demoCodegen 0 demoFeedbackBundle)
        0 4 true).err? ≠ none
    ∧ (bundleFinish (demoEnv false demoInstruments 0) (demoCodegen 0 demoFeedbackBundle)
        0 4 true).err? = some .timeTravel
    ∧ (bundleFinish (demoEnv false demoInstruments 0) (demoCodegen 0 demoFeedbackBundle)
        0 5 true).err? = none
    ∧ ((collectCodeGenInfo (demoEnv false demoInstruments 0)
        (demoCodegen 0 demoFeedbackBundle) 0 4).val?.map fun m =>
          m.map fun i => (i.instrHasOutput, i.instrMaxDurationInCycles, i.feedbackMap.isEmpty))
      = some [(true, 4, false), (true, 2, true)] := by
  have hc : ∃ m s, collectCodeGenInfo (demoEnv false demoInstruments 0)
      (demoCodegen 0 demoFeedbackBundle) 0 4 = .ok m s
      ∧ bundleHasFeedback m = true
      ∧ ∃ info, m.get? 0 = some info ∧ info.instrHasOutput = true
        ∧ info.instrMaxDurationInCycles = 4 := by
    cases h : collectCodeGenInfo (demoEnv false demoInstruments 0)
        (demoCodegen 0 demoFeedbackBundle) 0 4 with
    | fail e s =>
      have : (collectCodeGenInfo (demoEnv false demoInstruments 0)
        (demoCodegen 0 demoFeedbackBundle) 0 4).err? = none := by decide
      rw [h] at this
      exact Option.noConfusion this
    | ok m s =>
      have hfb : (collectCodeGenInfo (demoEnv false demoInstruments 0)
          (demoCodegen 0 demoFeedbackBundle) 0 4).val?.map bundleHasFeedback
          = some true := by decide
      have hm : ((collectCodeGenInfo (demoEnv false demoInstruments 0)
          (demoCodegen 0 demoFeedbackBundle) 0 4).val?.bind fun m => m.get? 0).map
            (fun i => (i.instrHasOutput, i.instrMaxDurationInCycles))
          = some (true, 4) := by decide
      rw [h] at hfb hm
      simp only [Res.val?, Option.map_some', Option.some.injEq, Option.some_bind] at hfb hm
      refine ⟨m, s, rfl, hfb, ?_⟩
      cases hg : m.get? 0 with
      | none =>
        rw [hg] at hm
        exact Option.noConfusion hm
      | some info =>
        rw [hg] at hm
        simp only [Option.map_some', Option.some.injEq, Prod.mk.injEq] at hm
        exact ⟨info, rfl, hm.1, hm.2⟩
  obtain ⟨m, s, hcol, hfb, info, hinfo, hout, hdur⟩ := hc
  exact ⟨(last_bundle_feedback_overrun (demoEnv false demoInstruments 0)
      (demoCodegen 0 demoFeedbackBundle) s 0 4 m 0 info hcol hfb hinfo hout
      (by rw [hdur]) (by rw [hdur]; decide) (by rw [hdur]; decide)).1,
    by decide, by decide, by decide⟩

/-- C39, counterexample: one instrument whose output, a measurement with feedback, lasts
`2^63 + 1` cycles, in a last bundle of 1 cycle at cycle 0. After the feedback-cycle
instruction the cursor is at `2^63 + 2`; the final `emitPadToCycle` to cycle 1 reads the
difference modulo `2^64` as `2^63 - 1`, emits `seq_wait 9223372036854775807`, and
`bundleFinish` returns. -/
theorem last_bundle_feedback_overrun_counterexample :
    (bundleFinish (demoEnv false [demoInstrument [[5]] [6]] 0)
        (demoCodegen 0 [[{ signalValue := "m", durationInCycles := 2 ^ 63 + 1,
                           isMeasFeedback := true, operands := [7] }]]) 0 1 true).err? = none
    ∧ instructionsOf
        (bundleFinish (demoEnv false [demoInstrument [[5]] [6]] 0)
          (demoCodegen 0 [[{ signalValue := "m", durationInCycles := 2 ^ 63 + 1,
                             isMeasFeedback := true, operands := [7] }]]) 0 1 true
        ).st.codeSection
      = [("seq_out", "0x00000060,9223372036854775809"), ("seq_in_sm", "S0,0,1"),
         ("seq_wait", "9223372036854775807")]
    ∧ ((collectCodeGenInfo (demoEnv false [demoInstrument [[5]] [6]] 0)
        (demoCodegen 0 [[{ signalValue := "m", durationInCycles := 2 ^ 63 + 1,
                           isMeasFeedback := true, operands := [7] }]]) 0 1).val?.map fun m =>
          m.map fun i => (i.instrHasOutput, i.instrMaxDurationInCycles, i.feedbackMap.isEmpty))
      = some [(true, 2 ^ 63 + 1, false)] := by
  decide

/-- C40: where `run_on_block` inlines. An `if_else` at the start of a block whose first
branch has the condition `true` is replaced by the processed statements of the body of
that branch, and one that has only a branch with the condition `false` by the processed
statements of its otherwise block, or by nothing; the statement behind it is kept as it
is, not processed, and the loop goes on behind that one. So on
`if (true) { a; } if (true) { b; }` the first `if_else` is replaced by `a;` and the
second one stays: it is not replaced by `b;`. No statement is lost or repeated:
`x; if (false) { a; } elif (true) { b; } else { e; } y; z;` becomes `x; b; y; z;`. -/
theorem run_on_block_inline_emitted :
    (∀ (body : List Statement) (more : List (Expression × List Statement))
        (otherwise : Option (List Statement)) (next : Statement) (rest : List Statement),
      run_on_block (.if_else ((.bit_literal true, body) :: more) otherwise :: next :: rest)
        = run_on_block body ++ next :: run_on_block rest)
    ∧ (∀ (body block : List Statement) (next : Statement) (rest : List Statement),
      run_on_block (.if_else [(.bit_literal false, body)] (some block) :: next :: rest)
        = run_on_block block ++ next :: run_on_block rest)
    ∧ (∀ (body : List Statement) (next : Statement) (rest : List Statement),
      run_on_block (.if_else [(.bit_literal false, body)] none :: next :: rest)
        = next :: run_on_block rest)
    ∧ describeBlock
        (run_on_block
          [.if_else [(.bit_literal true, [.other "a"])] none,
           .if_else [(.bit_literal true, [.other "b"])] none])
      = " a; if (true) \x7b b; \x7d"
    ∧ describeBlock
        (run_on_block
          [.other "x",
           .if_else [(.bit_literal false, [.other "a"]), (.bit_literal true, [.other "b"])]
             (some [.other "e"]),
           .other "y", .other "z"])
      = " x; b; y; z;" := by
  exact ⟨fun _ _ _ _ _ => rfl, fun _ _ _ _ => rfl, fun _ _ _ => rfl, by decide, by decide⟩

end CC
